import Mathlib

/-!
# Configuration reader and start-up code of nginx 1.9.6

A shallow embedding of `src/core/ngx_conf_file.c` (tokenizer `ngx_conf_read_token`,
directive loop `ngx_conf_parse`, `ngx_conf_include`) and of `src/core/nginx.c` (the
`-T` dump loop and the exit code of `main`, `ngx_get_options`,
`ngx_add_inherited_sockets`, `ngx_set_environment`, `ngx_exec_new_binary`,
`ngx_core_module_init_conf`, `ngx_set_env`, `ngx_set_cpu_affinity`,
`ngx_get_cpu_affinity`, `ngx_process_options`, `ngx_set_priority`), of
`ngx_conf_handler` and the slot setters of `ngx_conf_file.c`, of the failure types of
`src/http/ngx_http_upstream.h`, and of the header and index functions of
`src/http/ngx_http_variables.c`, followed by theorems about them.

Bytes (`u_char`) are natural numbers below 256; pointers into the configuration
buffer are offsets from `b->start`.
-/

namespace Nginx

/-! ## Constants -/

/-- The size of the configuration file buffer, `#define NGX_CONF_BUFFER 4096`. -/
abbrev NGX_CONF_BUFFER : Nat := 4096

/-- Return code `NGX_OK`. -/
abbrev NGX_OK : Int := 0
/-- Return code `NGX_ERROR`. -/
abbrev NGX_ERROR : Int := -1
/-- Return code `NGX_CONF_BLOCK_START`: the token terminated by an opening brace was found. -/
abbrev NGX_CONF_BLOCK_START : Int := 1
/-- Return code `NGX_CONF_BLOCK_DONE`: the closing brace was found. -/
abbrev NGX_CONF_BLOCK_DONE : Int := 2
/-- Return code `NGX_CONF_FILE_DONE`: the configuration file is done. -/
abbrev NGX_CONF_FILE_DONE : Int := 3

/-- The byte `LF`. -/
abbrev LF : Nat := 10
/-- The byte `CR`. -/
abbrev CR : Nat := 13
/-- The byte TAB. -/
abbrev TAB : Nat := 9
/-- The byte space. -/
abbrev SP : Nat := 32
/-- The byte of the double quote. -/
abbrev DQUOTE : Nat := 34
/-- The byte `#`. -/
abbrev SHARP : Nat := 35
/-- The byte `$`. -/
abbrev DOLLAR : Nat := 36
/-- The byte of the single quote. -/
abbrev SQUOTE : Nat := 39
/-- The byte `)`. -/
abbrev RPAREN : Nat := 41
/-- The byte `;`. -/
abbrev SEMI : Nat := 59
/-- The byte of the backslash. -/
abbrev BSLASH : Nat := 92
/-- The byte of the opening brace. -/
abbrev LBRACE : Nat := 123
/-- The byte of the closing brace. -/
abbrev RBRACE : Nat := 125

/-- The bytes of a string literal (used to write concrete inputs). -/
def bytes (s : String) : List Nat := s.toList.map Char.toNat

/-- The C string at a pointer to the bytes `s`, which a NUL byte follows: the bytes in
front of the first NUL byte. -/
def c_str (s : List Nat) : List Nat := s.takeWhile (fun c => c != 0)

/-! ## Data model -/

/-- The messages that the configuration reader passes to `ngx_conf_log_error`; the last
six are those of `ngx_conf_handler`, with the name of the directive. -/
inductive conf_msg where
  | unexpected_end_of_parameter
  | unexpected_end_of_file
  | too_long_parameter_started
  | too_long_parameter_missing (ch : Nat)
  | read_file_short
  | unexpected_char (ch : Nat)
  | unexpected_close
  | unexpected_eof_in_block
  | block_in_param
  | unexpected_open
  | open_failed
  | handler_message
  | not_terminated (name : List Nat)
  | no_opening (name : List Nat)
  | invalid_arguments (name : List Nat)
  | directive_message (name : List Nat)
  | not_allowed (name : List Nat)
  | unknown_directive (name : List Nat)
  deriving DecidableEq, Repr

/-- One line written by `ngx_conf_log_error`: the message and, when a file is being
parsed, the line number printed after the file name (`none`: "in command line" or no
file at all). -/
structure log_entry where
  msg : conf_msg
  line : Option Nat
  deriving DecidableEq, Repr

/-- The part of `ngx_buf_t` the reader uses: `data` holds the bytes of
`[b->start, b->last)`, `pos` is `b->pos - b->start` and `cap` is `b->end - b->start`. -/
structure ngx_buf_t where
  data : List Nat
  pos : Nat
  cap : Nat
  deriving DecidableEq, Repr

/-- The part of `ngx_conf_file_t` the reader uses. `content` is the content of the open
file (its length is `ngx_file_size(&file.info)`), `fd_valid` says
`file.fd != NGX_INVALID_FILE`, `offset` is `file.offset`, `name` is `file.name`. -/
structure ngx_conf_file_t where
  name : List Nat
  content : List Nat
  fd_valid : Bool
  offset : Nat
  buffer : ngx_buf_t
  dump : Option (List Nat)
  line : Nat
  deriving DecidableEq, Repr

/-- One element of `cycle->config_dump` (`ngx_conf_dump_t`): the file name and the
bytes between `buffer->pos` and `buffer->last`. -/
structure ngx_conf_dump_t where
  name : List Nat
  buffer : List Nat
  deriving DecidableEq, Repr

/-- The part of `ngx_conf_t` that `ngx_conf_read_token` uses, together with the lines
written by `ngx_conf_log_error`. -/
structure ngx_conf_t where
  args : List (List Nat)
  conf_file : ngx_conf_file_t
  log : List log_entry
  deriving DecidableEq, Repr

/-- The model of `ngx_conf_log_error` for a non-NULL `cf->conf_file`: "in command line"
for a parameter string, "in NAME:LINE" for a file. -/
def ngx_conf_log_error (cf : ngx_conf_t) (m : conf_msg) : ngx_conf_t :=
  if cf.conf_file.fd_valid = false then
    { cf with log := cf.log ++ [⟨m, none⟩] }
  else
    { cf with log := cf.log ++ [⟨m, some cf.conf_file.line⟩] }

/-- The local variables of `ngx_conf_read_token` that live across loop iterations
(`found` is set and cleared inside one iteration). `start` is `start - b->start`. -/
structure token_locals where
  need_space : Bool
  last_space : Bool
  sharp_comment : Bool
  variable_ : Bool
  quoted : Bool
  s_quoted : Bool
  d_quoted : Bool
  start : Nat
  start_line : Nat
  deriving DecidableEq, Repr

/-- What one loop iteration of `ngx_conf_read_token` does: go on with the loop, or
return. -/
inductive token_step where
  | next (l : token_locals) (cf : ngx_conf_t)
  | ret (rc : Int) (cf : ngx_conf_t)
  deriving DecidableEq, Repr

/-! ## `ngx_conf_read_token` -/

/-- The copy loop of `ngx_conf_read_token`
(`for (dst = word->data, src = start, len = 0; src < b->pos - 1; len++)`): the bytes
written through `dst`, for the source index `src` and the bound `stop = b->pos - 1`.
Every iteration advances `src`, so `stop - src` iterations are enough. -/
def copy_loop (data : List Nat) (stop : Nat) : Nat → Nat → List Nat
  | 0, _ => []
  | fuel + 1, src =>
    if src < stop then
      if data.getD src 0 = BSLASH then
        let c := data.getD (src + 1) 0
        if c = DQUOTE ∨ c = SQUOTE ∨ c = BSLASH then
          -- src++; then *dst++ = *src++
          data.getD (src + 1) 0 :: copy_loop data stop fuel (src + 2)
        else if c = 116 then
          TAB :: copy_loop data stop fuel (src + 2)
        else if c = 114 then
          CR :: copy_loop data stop fuel (src + 2)
        else if c = 110 then
          LF :: copy_loop data stop fuel (src + 2)
        else
          data.getD src 0 :: copy_loop data stop fuel (src + 1)
      else
        data.getD src 0 :: copy_loop data stop fuel (src + 1)
    else []

/-- The argument stored for the token `[start, b->pos - 1)`: `word->data` with
`word->len = len` bytes. -/
def copy_token (data : List Nat) (start pos : Nat) : List Nat :=
  copy_loop data (pos - 1) (pos - 1 - start) start

/-- The test `ch == ' ' || ch == '\t' || ch == CR || ch == LF`. -/
def is_space (ch : Nat) : Bool :=
  ch == SP || ch == TAB || ch == CR || ch == LF

/-- The end of a loop iteration once `found` has been decided: when set, the token is
pushed to `cf->args` and the terminator decides between returning and going on. -/
def token_found (found : Bool) (ch : Nat) (l : token_locals) (cf : ngx_conf_t) :
    token_step :=
  if found then
    let b := cf.conf_file.buffer
    let cf1 := { cf with args := cf.args ++ [copy_token b.data l.start b.pos] }
    if ch = SEMI then .ret NGX_OK cf1
    else if ch = LBRACE then .ret NGX_CONF_BLOCK_START cf1
    else .next l cf1
  else .next l cf

/-- The loop body of `ngx_conf_read_token` from `if (last_space)` to its end. -/
def token_char_tail (l : token_locals) (cf : ngx_conf_t) (ch : Nat) : token_step :=
  let b := cf.conf_file.buffer
  if l.last_space then
    if is_space ch then .next l cf
    else
      let l := { l with start := b.pos - 1, start_line := cf.conf_file.line }
      if ch = SEMI ∨ ch = LBRACE then
        if cf.args.length = 0 then
          .ret NGX_ERROR (ngx_conf_log_error cf (.unexpected_char ch))
        else if ch = LBRACE then .ret NGX_CONF_BLOCK_START cf
        else .ret NGX_OK cf
      else if ch = RBRACE then
        if cf.args.length ≠ 0 then
          .ret NGX_ERROR (ngx_conf_log_error cf .unexpected_close)
        else .ret NGX_CONF_BLOCK_DONE cf
      else if ch = SHARP then .next { l with sharp_comment := true } cf
      else if ch = BSLASH then .next { l with quoted := true, last_space := false } cf
      else if ch = DQUOTE then
        .next { l with start := l.start + 1, d_quoted := true, last_space := false } cf
      else if ch = SQUOTE then
        .next { l with start := l.start + 1, s_quoted := true, last_space := false } cf
      else .next { l with last_space := false } cf
  else
    if ch = LBRACE ∧ l.variable_ = true then .next l cf
    else
      let l := { l with variable_ := false }
      if ch = BSLASH then .next { l with quoted := true } cf
      else if ch = DOLLAR then .next { l with variable_ := true } cf
      else if l.d_quoted then
        if ch = DQUOTE then
          token_found true ch { l with d_quoted := false, need_space := true } cf
        else token_found false ch l cf
      else if l.s_quoted then
        if ch = SQUOTE then
          token_found true ch { l with s_quoted := false, need_space := true } cf
        else token_found false ch l cf
      else if is_space ch ∨ ch = SEMI ∨ ch = LBRACE then
        token_found true ch { l with last_space := true } cf
      else token_found false ch l cf

/-- The loop body of `ngx_conf_read_token` from `ch = *b->pos++` on; `cf` is the state
after the increment of `b->pos`. (`ngx_array_push` and `ngx_pnalloc` do not fail.) -/
def token_char (l : token_locals) (cf : ngx_conf_t) (ch : Nat) : token_step :=
  -- if (ch == LF) { line++; if (sharp_comment) sharp_comment = 0; }
  let cf := if ch = LF then
      { cf with conf_file := { cf.conf_file with line := cf.conf_file.line + 1 } } else cf
  let l := if ch = LF then { l with sharp_comment := false } else l
  if l.sharp_comment then .next l cf
  else if l.quoted then .next { l with quoted := false } cf
  else if l.need_space then
    if is_space ch then .next { l with last_space := true, need_space := false } cf
    else if ch = SEMI then .ret NGX_OK cf
    else if ch = LBRACE then .ret NGX_CONF_BLOCK_START cf
    else if ch = RPAREN then
      token_char_tail { l with last_space := true, need_space := false } cf ch
    else .ret NGX_ERROR (ngx_conf_log_error cf (.unexpected_char ch))
  else token_char_tail l cf ch

/-- The model of `ngx_read_file(&cf->conf_file->file, buf, size, offset)`: the bytes
read (at most `size`, from `offset`); the caller advances `file.offset` by their
number. -/
def ngx_read_file (f : ngx_conf_file_t) (size : Nat) : List Nat :=
  (f.content.drop f.offset).take size

/-- One iteration of the `for ( ;; )` loop of `ngx_conf_read_token`: the buffer is
refilled when it is used up, then one byte is taken. -/
def token_iter (l : token_locals) (cf : ngx_conf_t) : token_step :=
  let f := cf.conf_file
  let b := f.buffer
  let file_size := f.content.length
  if b.pos ≥ b.data.length then
    if f.offset ≥ file_size then
      if cf.args.length > 0 ∨ l.last_space = false then
        if f.fd_valid = false then
          .ret NGX_ERROR (ngx_conf_log_error cf .unexpected_end_of_parameter)
        else
          .ret NGX_ERROR (ngx_conf_log_error cf .unexpected_end_of_file)
      else .ret NGX_CONF_FILE_DONE cf
    else
      let len := b.pos - l.start
      if len = NGX_CONF_BUFFER then
        let cf1 := { cf with conf_file := { f with line := l.start_line } }
        if l.d_quoted then
          .ret NGX_ERROR (ngx_conf_log_error cf1 (.too_long_parameter_missing DQUOTE))
        else if l.s_quoted then
          .ret NGX_ERROR (ngx_conf_log_error cf1 (.too_long_parameter_missing SQUOTE))
        else
          .ret NGX_ERROR (ngx_conf_log_error cf1 .too_long_parameter_started)
      else
        -- ngx_memmove(b->start, start, len)
        let moved := (b.data.drop l.start).take len
        let size0 := file_size - f.offset
        let size := if size0 > b.cap - len then b.cap - len else size0
        let rd := ngx_read_file f size
        let n := rd.length
        if n ≠ size then
          .ret NGX_ERROR (ngx_conf_log_error cf .read_file_short)
        else
          let b1 : ngx_buf_t := { b with data := moved ++ rd, pos := len }
          let f1 : ngx_conf_file_t :=
            { f with offset := f.offset + n, buffer := b1,
                     dump := f.dump.map (fun d => d ++ rd) }
          let l1 := { l with start := 0 }
          let ch := b1.data.getD b1.pos 0
          let f2 := { f1 with buffer := { b1 with pos := b1.pos + 1 } }
          token_char l1 { cf with conf_file := f2 } ch
  else
    let ch := b.data.getD b.pos 0
    let f2 := { f with buffer := { b with pos := b.pos + 1 } }
    token_char l { cf with conf_file := f2 } ch

/-- The `for ( ;; )` loop of `ngx_conf_read_token`, run for at most `fuel` iterations;
`none` when they do not suffice. -/
def token_loop : Nat → token_locals → ngx_conf_t → Option (Int × ngx_conf_t)
  | 0, _, _ => none
  | fuel + 1, l, cf =>
    match token_iter l cf with
    | .ret rc cf1 => some (rc, cf1)
    | .next l1 cf1 => token_loop fuel l1 cf1

/-- The values of the local variables at the entry of `ngx_conf_read_token`. -/
def token_init (cf : ngx_conf_t) : token_locals :=
  { need_space := false, last_space := true, sharp_comment := false, variable_ := false,
    quoted := false, s_quoted := false, d_quoted := false,
    start := cf.conf_file.buffer.pos, start_line := cf.conf_file.line }

/-- The number of bytes not yet taken from the buffer and the file. Every loop
iteration that does not return takes one of them. -/
def bytes_left (cf : ngx_conf_t) : Nat :=
  (cf.conf_file.buffer.data.length - cf.conf_file.buffer.pos)
    + (cf.conf_file.content.length - cf.conf_file.offset)

/-- The function `ngx_conf_read_token`: the return code and the state of `cf` on return
(`none` only if the loop ran out of iterations, which `token_loop_total` excludes). -/
def ngx_conf_read_token (cf : ngx_conf_t) : Option (Int × ngx_conf_t) :=
  let cf0 := { cf with args := [] }
  token_loop (bytes_left cf0 + 1) (token_init cf0) cf0

/-- The state in which `ngx_conf_parse` starts to read the file `content`: an empty
buffer of `NGX_CONF_BUFFER` bytes, offset 0, line 1. -/
def file_conf (name content : List Nat) (dump : Bool) : ngx_conf_t :=
  { args := [], log := [],
    conf_file := { name := name, content := content, fd_valid := true, offset := 0,
                   buffer := { data := [], pos := 0, cap := NGX_CONF_BUFFER },
                   dump := if dump then some [] else none, line := 1 } }

/-- The state in which `ngx_conf_param` starts to read the `-g` string `param`: the
buffer is the string itself, there is no file (size 0, invalid descriptor), line 0. -/
def param_conf (param : List Nat) : ngx_conf_t :=
  { args := [], log := [],
    conf_file := { name := [], content := [], fd_valid := false, offset := 0,
                   buffer := { data := param, pos := 0, cap := param.length },
                   dump := none, line := 0 } }

/-! ## The reader as a function of the byte stream

`char_act` is `token_char` without the buffer: it says how the flags change and what
happens to the token mark `start`. `scan` runs it over the bytes still to come, keeping
the bytes since the mark in a list instead of in the buffer. `token_char_act` and
`token_loop_scan` connect both to the code above. -/

/-- What a loop iteration does to `start`: nothing, `start = b->pos - 1`, or that
followed by `start++`. -/
inductive mark where
  | keep
  | at_ch
  | after_ch
  deriving DecidableEq, Repr

/-- The effect of one byte: go on (with a new mark), store a word, return a code, or
log an error and return `NGX_ERROR`. -/
inductive act where
  | go (l : token_locals) (m : mark)
  | word (l : token_locals)
  | stop (rc : Int)
  | fail (m : conf_msg)
  deriving DecidableEq, Repr

/-- The decisions of `token_char_tail` for the byte `ch`, given whether `cf->args` is
empty and the line number after `ch`; the field `start` is left as it is. -/
def char_act_tail (l : token_locals) (noargs : Bool) (line : Nat) (ch : Nat) : act :=
  if l.last_space then
    if is_space ch then .go l .keep
    else
      let l := { l with start_line := line }
      if ch = SEMI ∨ ch = LBRACE then
        if noargs then .fail (.unexpected_char ch)
        else if ch = LBRACE then .stop NGX_CONF_BLOCK_START
        else .stop NGX_OK
      else if ch = RBRACE then
        if noargs then .stop NGX_CONF_BLOCK_DONE else .fail .unexpected_close
      else if ch = SHARP then .go { l with sharp_comment := true } .at_ch
      else if ch = BSLASH then .go { l with quoted := true, last_space := false } .at_ch
      else if ch = DQUOTE then .go { l with d_quoted := true, last_space := false } .after_ch
      else if ch = SQUOTE then .go { l with s_quoted := true, last_space := false } .after_ch
      else .go { l with last_space := false } .at_ch
  else
    if ch = LBRACE ∧ l.variable_ = true then .go l .keep
    else
      let l := { l with variable_ := false }
      if ch = BSLASH then .go { l with quoted := true } .keep
      else if ch = DOLLAR then .go { l with variable_ := true } .keep
      else if l.d_quoted then
        if ch = DQUOTE then .word { l with d_quoted := false, need_space := true }
        else .go l .keep
      else if l.s_quoted then
        if ch = SQUOTE then .word { l with s_quoted := false, need_space := true }
        else .go l .keep
      else if is_space ch ∨ ch = SEMI ∨ ch = LBRACE then .word { l with last_space := true }
      else .go l .keep

/-- The decisions of `token_char` for the byte `ch`, given whether `cf->args` is empty
and the line number after `ch`; the field `start` is left as it is. -/
def char_act (l : token_locals) (noargs : Bool) (line : Nat) (ch : Nat) : act :=
  let l := if ch = LF then { l with sharp_comment := false } else l
  if l.sharp_comment then .go l .keep
  else if l.quoted then .go { l with quoted := false } .keep
  else if l.need_space then
    if is_space ch then .go { l with last_space := true, need_space := false } .keep
    else if ch = SEMI then .stop NGX_OK
    else if ch = LBRACE then .stop NGX_CONF_BLOCK_START
    else if ch = RPAREN then
      char_act_tail { l with last_space := true, need_space := false } noargs line ch
    else .fail (.unexpected_char ch)
  else char_act_tail l noargs line ch

/-- The new value of `start` for a mark, from the old one and `b->pos` after the
increment. -/
def mark_start (m : mark) (start pos : Nat) : Nat :=
  match m with
  | .keep => start
  | .at_ch => pos - 1
  | .after_ch => pos - 1 + 1

/-- The state of `cf` after the line counting at the top of the loop body. -/
def count_line (cf : ngx_conf_t) (ch : Nat) : ngx_conf_t :=
  if ch = LF then
    { cf with conf_file := { cf.conf_file with line := cf.conf_file.line + 1 } }
  else cf

/-- How the loop carries out an `act` in the state `cf` (after the line counting). -/
def run_act (a : act) (start : Nat) (cf : ngx_conf_t) (ch : Nat) : token_step :=
  match a with
  | .go l1 m => .next { l1 with start := mark_start m start cf.conf_file.buffer.pos } cf
  | .word l1 => token_found true ch { l1 with start := start } cf
  | .stop rc => .ret rc cf
  | .fail m => .ret NGX_ERROR (ngx_conf_log_error cf m)

/-- The bytes since the mark after one more byte `ch`. -/
def apply_mark (m : mark) (tok : List Nat) (ch : Nat) : List Nat :=
  match m with
  | .keep => tok ++ [ch]
  | .at_ch => [ch]
  | .after_ch => []

/-- The message of the "too long parameter" error, chosen by the quote flags. -/
def too_long_msg (l : token_locals) : conf_msg :=
  if l.d_quoted then .too_long_parameter_missing DQUOTE
  else if l.s_quoted then .too_long_parameter_missing SQUOTE
  else .too_long_parameter_started

/-- The outcome of reading one directive from a byte stream: the return code, the
arguments, the line counter, the message logged (if any) and the bytes not consumed. -/
structure scan_result where
  rc : Int
  args : List (List Nat)
  line : Nat
  err : Option conf_msg
  rest : List Nat
  deriving DecidableEq, Repr

/-- The reader over the stream of bytes still to come. `tok` holds the bytes since the
mark, `g` says that the buffer is the 4096-byte buffer of a file (so that a refill with
4096 pending bytes fails), `fdv` is `fd != NGX_INVALID_FILE`. -/
def scan (g fdv : Bool) :
    List Nat → token_locals → List Nat → Nat → List (List Nat) → scan_result
  | [], l, _, line, args =>
    if args.length > 0 ∨ l.last_space = false then
      if fdv = false then ⟨NGX_ERROR, args, line, some .unexpected_end_of_parameter, []⟩
      else ⟨NGX_ERROR, args, line, some .unexpected_end_of_file, []⟩
    else ⟨NGX_CONF_FILE_DONE, args, line, none, []⟩
  | ch :: rest, l, tok, line, args =>
    if g = true ∧ tok.length = NGX_CONF_BUFFER then
      ⟨NGX_ERROR, args, l.start_line, some (too_long_msg l), ch :: rest⟩
    else
      let line1 := if ch = LF then line + 1 else line
      match char_act l (decide (args.length = 0)) line1 ch with
      | .go l1 m => scan g fdv rest l1 (apply_mark m tok ch) line1 args
      | .word l1 =>
        let args1 := args ++ [copy_token (tok ++ [ch]) 0 (tok.length + 1)]
        if ch = SEMI then ⟨NGX_OK, args1, line1, none, rest⟩
        else if ch = LBRACE then ⟨NGX_CONF_BLOCK_START, args1, line1, none, rest⟩
        else scan g fdv rest l1 (tok ++ [ch]) line1 args1
      | .stop rc => ⟨rc, args, line1, none, rest⟩
      | .fail m => ⟨NGX_ERROR, args, line1, some m, rest⟩

/-- The bytes between `start` and `b->pos`. -/
def pending (l : token_locals) (cf : ngx_conf_t) : List Nat :=
  (cf.conf_file.buffer.data.drop l.start).take (cf.conf_file.buffer.pos - l.start)

/-- The bytes still to come: the rest of the buffer, then the rest of the file. -/
def upcoming (cf : ngx_conf_t) : List Nat :=
  cf.conf_file.buffer.data.drop cf.conf_file.buffer.pos
    ++ cf.conf_file.content.drop cf.conf_file.offset

/-- The states of the reader that occur: `start ≤ pos ≤ last`, and either the buffer is
the 4096-byte buffer of a file (`g`) or nothing is left to read from the file (the `-g`
string, whose file size is 0). -/
def wf (g : Bool) (l : token_locals) (cf : ngx_conf_t) : Prop :=
  l.start ≤ cf.conf_file.buffer.pos ∧
  cf.conf_file.buffer.pos ≤ cf.conf_file.buffer.data.length ∧
  (if g = true then
     cf.conf_file.buffer.cap = NGX_CONF_BUFFER ∧
       cf.conf_file.buffer.data.length ≤ cf.conf_file.buffer.cap
   else cf.conf_file.content.length ≤ cf.conf_file.offset)

/-- The log entry of a message: with the line for a file, without for a `-g` string. -/
def entry_of (fdv : Bool) (line : Nat) (m : conf_msg) : log_entry :=
  if fdv = false then ⟨m, none⟩ else ⟨m, some line⟩

/-- Replacing `start` in an `act`. -/
def act_set_start (s : Nat) : act → act
  | .go l m => .go { l with start := s } m
  | .word l => .word { l with start := s }
  | a => a

/-- The file being read is the same in both states: descriptor, content, name and the
size of the buffer. -/
def same_file (cf cf2 : ngx_conf_t) : Prop :=
  cf2.conf_file.fd_valid = cf.conf_file.fd_valid ∧
  cf2.conf_file.content = cf.conf_file.content ∧
  cf2.conf_file.name = cf.conf_file.name ∧
  cf2.conf_file.buffer.cap = cf.conf_file.buffer.cap

/-- The state `cf1` in which a call of the reader returns agrees with the outcome `r`
of the stream reader started in the state `cf`. -/
def agrees (g : Bool) (cf cf1 : ngx_conf_t) (r : scan_result) : Prop :=
  cf1.args = r.args ∧ cf1.conf_file.line = r.line ∧
  cf1.log = cf.log ++ (r.err.map (entry_of cf.conf_file.fd_valid r.line)).toList ∧
  upcoming cf1 = r.rest ∧ same_file cf cf1 ∧ wf g (token_init cf1) cf1

/-- The states in which `ngx_conf_read_token` is called: `pos ≤ last`, and either the
4096-byte buffer of a file (`g`) or a `-g` string with nothing to read from a file. -/
def conf_ok (g : Bool) (cf : ngx_conf_t) : Prop := wf g (token_init cf) cf

/-- The "too long parameter" messages. -/
def is_too_long : Option conf_msg → Bool
  | some .too_long_parameter_started => true
  | some (.too_long_parameter_missing _) => true
  | _ => false

/-- The state of the reader after the bytes `pre`, when it has not returned before:
the local variables, the bytes since the mark, the line and the arguments. With `g`,
the refill check of a file buffer is made before every byte. -/
def reach (g : Bool) :
    List Nat → token_locals → List Nat → Nat → List (List Nat) →
      Option (token_locals × List Nat × Nat × List (List Nat))
  | [], l, tok, line, args => some (l, tok, line, args)
  | ch :: rest, l, tok, line, args =>
    if g = true ∧ tok.length = NGX_CONF_BUFFER then none
    else
      let line1 := if ch = LF then line + 1 else line
      match char_act l (decide (args.length = 0)) line1 ch with
      | .go l1 m => reach g rest l1 (apply_mark m tok ch) line1 args
      | .word l1 =>
        if ch = SEMI ∨ ch = LBRACE then none
        else reach g rest l1 (tok ++ [ch]) line1
          (args ++ [copy_token (tok ++ [ch]) 0 (tok.length + 1)])
      | .stop _ => none
      | .fail _ => none

/-- The reader is where a token may start: all flags are as at the beginning of a call
(the last byte was white space, no comment, escape, variable or quote is open). -/
def token_position (l : token_locals) : Prop :=
  l.need_space = false ∧ l.last_space = true ∧ l.sharp_comment = false ∧
  l.variable_ = false ∧ l.quoted = false ∧ l.s_quoted = false ∧ l.d_quoted = false

/-- The local variables with no comment and no escape pending, from the other flags. -/
def mk_l (need_space last_space variable_ s_quoted d_quoted : Bool) (start start_line : Nat) :
    token_locals :=
  { need_space := need_space, last_space := last_space, sharp_comment := false,
    variable_ := variable_, quoted := false, s_quoted := s_quoted, d_quoted := d_quoted,
    start := start, start_line := start_line }

/-- A byte of an unquoted token as the specification describes it: not white space and
none of `;`, the braces, `#`, the quotes, the backslash and `$`. -/
def is_plain (c : Nat) : Bool :=
  !(is_space c || c == SEMI || c == LBRACE || c == RBRACE || c == SHARP || c == DQUOTE
    || c == SQUOTE || c == BSLASH || c == DOLLAR)

/-- A token of a directive as it is written: unquoted, or between two quotes `q`. -/
inductive piece where
  | plain (t : List Nat)
  | quoted (q : Nat) (content : List Nat)
  deriving DecidableEq, Repr

/-- The bytes of a token in the input. -/
def piece.render : piece → List Nat
  | .plain t => t
  | .quoted q c => q :: c ++ [q]

/-- The argument a token stands for. -/
def piece.value : piece → List Nat
  | .plain t => t
  | .quoted _ c => c

/-- The number of bytes between the mark a token sets and its end. -/
def piece.span : piece → Nat
  | .plain t => t.length
  | .quoted _ c => c.length + 1

/-- A well-formed token without escape sequences: a non-empty run of plain bytes, or a
quoted string whose content holds neither its quote nor a backslash. -/
def piece.ok : piece → Bool
  | .plain t => !t.isEmpty && t.all is_plain
  | .quoted q c => (q == DQUOTE || q == SQUOTE) && c.all (fun x => x != q && x != BSLASH)

/-- The bytes of a directive body: every token followed by its run of white space. -/
def render_pairs : List (piece × List Nat) → List Nat
  | [] => []
  | (p, ws) :: rest => p.render ++ ws ++ render_pairs rest

/-- The tokens are well formed and separated: every run is white space, and the run
after every token but the last is not empty. -/
def pairs_ok : List (piece × List Nat) → Bool
  | [] => true
  | [(p, ws)] => p.ok && ws.all is_space
  | (p, ws) :: q :: rest => p.ok && ws.all is_space && !ws.isEmpty && pairs_ok (q :: rest)

/-- Every token, with the white space after it, is shorter than the buffer. -/
def pairs_short : List (piece × List Nat) → Bool
  | [] => true
  | (p, ws) :: rest => decide (p.span + ws.length < NGX_CONF_BUFFER) && pairs_short rest

/-- Every backslash of the token is followed by another byte of the token (the reader
always takes a backslash together with the byte after it). -/
def escapes_closed : List Nat → Bool
  | [] => true
  | [c] => c != BSLASH
  | c :: d :: r => if c = BSLASH then escapes_closed r else escapes_closed (d :: r)

/-- The argument the specification describes for the bytes of a token: the pairs
backslash-quote and backslash-backslash give their second byte, `\t`, `\r`, `\n` give
TAB, CR, LF, and every other byte is kept. -/
def unescape_spec : List Nat → List Nat
  | [] => []
  | [c] => [c]
  | c :: d :: r =>
    if c = BSLASH then
      if d = DQUOTE ∨ d = SQUOTE ∨ d = BSLASH then d :: unescape_spec r
      else if d = 116 then TAB :: unescape_spec r
      else if d = 114 then CR :: unescape_spec r
      else if d = 110 then LF :: unescape_spec r
      else c :: unescape_spec (d :: r)
    else c :: unescape_spec (d :: r)

/-- The directive body made of unquoted tokens, each with the white space after it. -/
def plain_pairs (toks : List (List Nat × List Nat)) : List (piece × List Nat) :=
  toks.map (fun p => (piece.plain p.1, p.2))

/-- The return code for the terminator of a directive: `NGX_OK` for `;`, otherwise
(for the opening brace) `NGX_CONF_BLOCK_START`. -/
def term_rc (term : Nat) : Int :=
  if term = SEMI then NGX_OK else NGX_CONF_BLOCK_START

/-- The bytes hold no closing quote `q`: every `q` in them follows a backslash that
escapes it (`esc` says that the byte before the first one was such a backslash). -/
def no_unescaped (q : Nat) : Bool → List Nat → Bool
  | _, [] => true
  | true, _ :: r => no_unescaped q false r
  | false, c :: r =>
    if c = BSLASH then no_unescaped q true r else (c != q && no_unescaped q false r)

/-- The local variables inside a string opened by the quote `q`; `quoted` says that the
last byte was an escaping backslash. -/
def mk_q (q : Nat) (variable_ quoted : Bool) (start start_line : Nat) : token_locals :=
  { need_space := false, last_space := false, sharp_comment := false,
    variable_ := variable_, quoted := quoted, s_quoted := decide (q = SQUOTE),
    d_quoted := decide (q = DQUOTE), start := start, start_line := start_line }

/-- The call that led from `cf` to `cf1` logged a "too long parameter" error. -/
def too_long_logged (cf cf1 : ngx_conf_t) : Prop :=
  ∃ e, cf1.log = cf.log ++ [e] ∧ is_too_long (some e.msg) = true

/-- The last line of the log is a "too long parameter" error. -/
def ends_too_long (cf1 : ngx_conf_t) : Prop :=
  ∃ e, cf1.log.getLast? = some e ∧ is_too_long (some e.msg) = true

/-- The successive calls of `ngx_conf_read_token` on one file, as `ngx_conf_parse` and
the block handlers make them: call number `n + 1` (counted from 1) is made when the
calls before it returned `NGX_OK`, `NGX_CONF_BLOCK_START` or `NGX_CONF_BLOCK_DONE`. The
value is what that call returns. -/
def read_calls : Nat → ngx_conf_t → Option (Int × ngx_conf_t)
  | 0, cf => ngx_conf_read_token cf
  | n + 1, cf =>
    match ngx_conf_read_token cf with
    | some (rc, cf1) =>
      if rc = NGX_OK ∨ rc = NGX_CONF_BLOCK_START ∨ rc = NGX_CONF_BLOCK_DONE then
        read_calls n cf1
      else none
    | none => none

/-- The local variables inside a comment that began at a token position. -/
def mk_c (start start_line : Nat) : token_locals :=
  { need_space := false, last_space := true, sharp_comment := true, variable_ := false,
    quoted := false, s_quoted := false, d_quoted := false, start := start,
    start_line := start_line }

/-- How `start_line` follows the mark: kept with the mark, and set to the current line
when the mark is set (never by a line feed). -/
def start_line_ok (sl0 line ch : Nat) : act → Prop
  | .go l1 .keep => l1.start_line = sl0
  | .go l1 _ => l1.start_line = line ∧ ch ≠ LF
  | .word l1 => l1.start_line = sl0
  | _ => True

/-! ## `ngx_conf_parse`, `ngx_conf_include` and the `-T` dump -/

/-- The value of type `char *` that the directive handlers and `ngx_conf_parse`
return: `NGX_CONF_OK` (NULL), `NGX_CONF_ERROR` or an error message. -/
inductive conf_rv where
  | NGX_CONF_OK
  | NGX_CONF_ERROR
  | message
  deriving DecidableEq, Repr

/-- The local `enum` of `ngx_conf_parse`. -/
inductive parse_type where
  | parse_file
  | parse_block
  | parse_param
  deriving DecidableEq, Repr

/-- The state `ngx_conf_parse` works on: `cf` (with `cf->conf_file` and the log),
whether `cf->conf_file` is NULL, which custom handler `cf->handler` is installed
(`none`: NULL), the array `cycle->config_dump`, and the configuration `ctx` that the
directive handlers fill. The dump buffer of the file being read is `cf->conf_file->dump`;
the element of `config_dump` that points to the same buffer is brought up to date when
`ngx_conf_parse` leaves the file. -/
structure parse_t (σ : Type) where
  cf : ngx_conf_t
  conf_file_null : Bool
  handler : Option Nat
  config_dump : List ngx_conf_dump_t
  ctx : σ

/-- What the parser takes from outside: the files that `ngx_open_file` can open with
their content, the flag `ngx_dump_config`, the names that `ngx_open_glob` and
`ngx_read_glob` yield for a pattern (`none`: `ngx_open_glob` fails), and
`ngx_conf_full_name` (`none`: it fails). -/
structure conf_env where
  files : List Nat → Option (List Nat)
  dump_config : Bool
  glob : List Nat → Option (List (List Nat))
  full_name : List Nat → Option (List Nat)

/-- The type of `ngx_conf_parse` once the outside and the iteration bound are fixed:
state and file name (`none`: NULL) to return value and state; `none` when the bound was
reached. -/
abbrev parse_fn (σ : Type) := parse_t σ → Option (List Nat) → Option (conf_rv × parse_t σ)

/-- The type of `ngx_conf_handler(cf, last)`; the directive handlers it calls may call
`ngx_conf_parse`, given as first argument. -/
abbrev dispatch_fn (σ : Type) := parse_fn σ → parse_t σ → Int → Option (Int × parse_t σ)

/-- The type of the custom handlers `(*cf->handler)(cf, NULL, cf->handler_conf)`, by
number. -/
abbrev custom_fn (σ : Type) := Nat → parse_fn σ → parse_t σ → Option (conf_rv × parse_t σ)

/-- The model of `ngx_conf_log_error` with the test for a NULL `cf->conf_file`. -/
def conf_log {σ : Type} (st : parse_t σ) (m : conf_msg) : parse_t σ :=
  if st.conf_file_null then
    { st with cf := { st.cf with log := st.cf.log ++ [⟨m, none⟩] } }
  else { st with cf := ngx_conf_log_error st.cf m }

/-- The `for ( ;; )` loop of `ngx_conf_parse` up to the labels `failed` and `done`: the
value of `rc` at `done` and the state, for at most `fuel` iterations. -/
def parse_loop {σ : Type} (dispatch : dispatch_fn σ) (custom : custom_fn σ)
    (parse : parse_fn σ) (type : parse_type) : Nat → parse_t σ → Option (Int × parse_t σ)
  | 0, _ => none
  | fuel + 1, st =>
    match ngx_conf_read_token st.cf with
    | none => none
    | some (rc, cf1) =>
      let st1 := { st with cf := cf1 }
      if rc = NGX_ERROR then some (rc, st1)
      else if rc = NGX_CONF_BLOCK_DONE then
        if type ≠ .parse_block then some (NGX_ERROR, conf_log st1 .unexpected_close)
        else some (rc, st1)
      else if rc = NGX_CONF_FILE_DONE then
        if type = .parse_block then some (NGX_ERROR, conf_log st1 .unexpected_eof_in_block)
        else some (rc, st1)
      else if rc = NGX_CONF_BLOCK_START ∧ type = .parse_param then
        some (NGX_ERROR, conf_log st1 .block_in_param)
      else
        -- rc == NGX_OK || rc == NGX_CONF_BLOCK_START
        match st1.handler with
        | some h =>
          if rc = NGX_CONF_BLOCK_START then some (NGX_ERROR, conf_log st1 .unexpected_open)
          else
            match custom h parse st1 with
            | none => none
            | some (rv, st2) =>
              if rv = .NGX_CONF_OK then parse_loop dispatch custom parse type fuel st2
              else if rv = .NGX_CONF_ERROR then some (NGX_ERROR, st2)
              else some (NGX_ERROR, conf_log st2 .handler_message)
        | none =>
          match dispatch parse st1 rc with
          | none => none
          | some (rc2, st2) =>
            if rc2 = NGX_ERROR then some (NGX_ERROR, st2)
            else parse_loop dispatch custom parse type fuel st2

/-- The end of `ngx_conf_parse`: `NGX_CONF_ERROR` for `rc == NGX_ERROR`, otherwise
`NGX_CONF_OK`. -/
def parse_rv (rc : Int) : conf_rv :=
  if rc = NGX_ERROR then .NGX_CONF_ERROR else .NGX_CONF_OK

/-- An iteration of the loop of `ngx_conf_parse` after which the loop goes on: the reader
has returned `NGX_OK`, or `NGX_CONF_BLOCK_START` outside a `-g` string, and the custom
handler has returned `NGX_CONF_OK`, or `ngx_conf_handler` something other than
`NGX_ERROR`. The result is the state at the top of the next iteration; `none` when the
iteration leaves the loop (or a callee does not return). -/
def parse_step {σ : Type} (dispatch : dispatch_fn σ) (custom : custom_fn σ)
    (parse : parse_fn σ) (type : parse_type) (st : parse_t σ) : Option (parse_t σ) :=
  match ngx_conf_read_token st.cf with
  | none => none
  | some (rc, cf1) =>
    let st1 := { st with cf := cf1 }
    if rc = NGX_OK ∨ (rc = NGX_CONF_BLOCK_START ∧ type ≠ .parse_param) then
      match st1.handler with
      | some h =>
        if rc = NGX_CONF_BLOCK_START then none
        else
          match custom h parse st1 with
          | none => none
          | some (rv, st2) => if rv = .NGX_CONF_OK then some st2 else none
      | none =>
        match dispatch parse st1 rc with
        | none => none
        | some (rc2, st2) => if rc2 = NGX_ERROR then none else some st2
    else none

/-- The state at the top of the loop of `ngx_conf_parse` after `n` iterations that went
on with the loop, from the state `st`. -/
def parse_steps {σ : Type} (dispatch : dispatch_fn σ) (custom : custom_fn σ)
    (parse : parse_fn σ) (type : parse_type) : Nat → parse_t σ → Option (parse_t σ)
  | 0, st => some st
  | n + 1, st =>
    match parse_step dispatch custom parse type st with
    | none => none
    | some st2 => parse_steps dispatch custom parse type n st2

/-- The element `i` of `config_dump` gets the content of the dump buffer. -/
def sync_dump (cd : List ngx_conf_dump_t) (i : Nat) (dump : Option (List Nat)) :
    List ngx_conf_dump_t :=
  match dump with
  | none => cd
  | some b => cd.modify (fun e => { e with buffer := b }) i

/-- The function `ngx_conf_parse(cf, filename)`. With a file name the file is opened, a
buffer of `NGX_CONF_BUFFER` bytes and (when dumping) a dump buffer are set up, and at
the end `cf->conf_file` gets its previous value; `ngx_alloc`, `ngx_fd_info` and
`ngx_close_file` do not fail. The recursion depth and the iterations of the loop are
bounded by `fuel`. -/
def ngx_conf_parse {σ : Type} (env : conf_env) (dispatch : dispatch_fn σ) (custom : custom_fn σ) :
    Nat → parse_t σ → Option (List Nat) → Option (conf_rv × parse_t σ)
  | 0, _, _ => none
  | fuel + 1, st, filename =>
    match filename with
    | some name =>
      match env.files name with
      | none => some (.NGX_CONF_ERROR, conf_log st .open_failed)
      | some content =>
        let prev := st.cf.conf_file
        let prev_null := st.conf_file_null
        let conf_file : ngx_conf_file_t :=
          { name := name, content := content, fd_valid := true, offset := 0,
            buffer := { data := [], pos := 0, cap := NGX_CONF_BUFFER },
            dump := if env.dump_config then some [] else none, line := 1 }
        let i := st.config_dump.length
        let cd := if env.dump_config then st.config_dump ++ [⟨name, []⟩] else st.config_dump
        let st0 : parse_t σ :=
          { st with cf := { st.cf with conf_file := conf_file }, conf_file_null := false,
                    config_dump := cd }
        match parse_loop dispatch custom (fun s f => ngx_conf_parse env dispatch custom fuel s f)
            .parse_file (fuel + 1) st0 with
        | none => none
        | some (rc, st1) =>
          some (parse_rv rc,
            { st1 with cf := { st1.cf with conf_file := prev }, conf_file_null := prev_null,
                       config_dump := sync_dump st1.config_dump i st1.cf.conf_file.dump })
    | none =>
      let type : parse_type :=
        if st.cf.conf_file.fd_valid then .parse_block else .parse_param
      match parse_loop dispatch custom (fun s f => ngx_conf_parse env dispatch custom fuel s f)
          type (fuel + 1) st with
      | none => none
      | some (rc, st1) => some (parse_rv rc, st1)

/-- The function `ngx_conf_param`: the `-g` string is parsed from a buffer that is the
string itself; an empty string is `NGX_CONF_OK` at once. -/
def ngx_conf_param {σ : Type} (env : conf_env) (dispatch : dispatch_fn σ) (custom : custom_fn σ)
    (fuel : Nat) (st : parse_t σ) (param : List Nat) : Option (conf_rv × parse_t σ) :=
  if param.length = 0 then some (.NGX_CONF_OK, st)
  else
    let st0 : parse_t σ :=
      { st with cf := { st.cf with conf_file := (param_conf param).conf_file },
                conf_file_null := false }
    match ngx_conf_parse env dispatch custom fuel st0 none with
    | none => none
    | some (rv, st1) => some (rv, { st1 with conf_file_null := true })

/-- The loop of `ngx_conf_include` over the names that `ngx_read_glob` yields: every
file is parsed, the first result other than `NGX_CONF_OK` ends the loop. -/
def include_loop {σ : Type} (parse : parse_fn σ) :
    List (List Nat) → parse_t σ → Option (conf_rv × parse_t σ)
  | [], st => some (.NGX_CONF_OK, st)
  | name :: rest, st =>
    match parse st (some name) with
    | none => none
    | some (rv, st1) =>
      if rv ≠ .NGX_CONF_OK then some (rv, st1) else include_loop parse rest st1

/-- The test `strpbrk(file.data, "*?[") == NULL`. -/
def no_glob_char (file : List Nat) : Bool :=
  file.all (fun c => c != 42 && c != 63 && c != 91)

/-- The function `ngx_conf_include`, the handler of the `include` directive: the
argument `value[1]` is made a full name and parsed, or, when it holds one of `*?[`, the
files matching it are parsed one after the other. (`ngx_pstrdup` does not fail.) -/
def ngx_conf_include {σ : Type} (env : conf_env) (parse : parse_fn σ) (st : parse_t σ) :
    Option (conf_rv × parse_t σ) :=
  let file := st.cf.args.getD 1 []
  match env.full_name file with
  | none => some (.NGX_CONF_ERROR, st)
  | some file =>
    if no_glob_char file then parse st (some file)
    else
      match env.glob file with
      | none => some (.NGX_CONF_ERROR, conf_log st .open_failed)
      | some names => include_loop parse names st

/-- The directives that were handled, in order: the arguments and how the directive
ended (`NGX_OK` for `;`, `NGX_CONF_BLOCK_START` for an opening brace). The end of a
block is recorded by the handler of the block as a directive without arguments. -/
abbrev directive_trace := List (List (List Nat) × Int)

/-- A stand-in for `ngx_conf_handler` with the module table `ngx_modules`, which is not
part of the sources at hand: every directive is accepted and recorded; `include` with
one argument is handled by `ngx_conf_include`; a directive that opens a block parses the
block by `ngx_conf_parse(cf, NULL)`, as the block handlers of the modules do, and records
its end. The return value of the handler is mapped as in `ngx_conf_handler`:
`NGX_CONF_OK` to `NGX_OK`, everything else to `NGX_ERROR`. -/
def record_dispatch (env : conf_env) : dispatch_fn directive_trace :=
  fun parse st last =>
    let st1 := { st with ctx := st.ctx ++ [(st.cf.args, last)] }
    if st.cf.args.head? = some (bytes "include") ∧ st.cf.args.length = 2 ∧ last = NGX_OK then
      match ngx_conf_include env parse st1 with
      | none => none
      | some (rv, st2) =>
        if rv = .NGX_CONF_OK then some (NGX_OK, st2)
        else if rv = .NGX_CONF_ERROR then some (NGX_ERROR, st2)
        else some (NGX_ERROR, conf_log st2 .handler_message)
    else if last = NGX_CONF_BLOCK_START then
      match parse st1 none with
      | none => none
      | some (rv, st2) =>
        if rv = .NGX_CONF_OK then
          some (NGX_OK, { st2 with ctx := st2.ctx ++ [([], NGX_CONF_BLOCK_DONE)] })
        else some (NGX_ERROR, st2)
    else some (NGX_OK, st1)

/-- No custom handler is installed by the stand-in. -/
def no_custom {σ : Type} : custom_fn σ := fun _ _ st => some (.NGX_CONF_ERROR, st)

/-- The state in which `ngx_init_cycle` calls `ngx_conf_parse` for the configuration
file: `cf->conf_file` is NULL, nothing is logged, dumped or configured. -/
def init_state : parse_t directive_trace :=
  { cf := { args := [], log := [], conf_file := (param_conf []).conf_file },
    conf_file_null := true, handler := none, config_dump := [], ctx := [] }

/-- The bytes that `main` writes for `-T`: for every element of `cycle->config_dump`
the line `# configuration file NAME:`, the dump buffer and a line feed. -/
def dump_output : List ngx_conf_dump_t → List Nat
  | [] => []
  | e :: rest =>
    bytes "# configuration file " ++ e.name ++ bytes ":" ++ [LF] ++ e.buffer ++ [LF]
      ++ dump_output rest

/-- The parse of the configuration file `name` by the stand-in handlers. -/
def parse_config (env : conf_env) (fuel : Nat) (name : List Nat) :
    Option (conf_rv × parse_t directive_trace) :=
  ngx_conf_parse env (record_dispatch env) no_custom fuel init_state (some name)

/-- An outside without files, used for `-g` strings. -/
def empty_env : conf_env :=
  { files := fun _ => none, dump_config := false, glob := fun _ => none,
    full_name := fun n => some n }

/-- A parse function keeps the directives handled so far in front of the ones it adds
and, called with a file name, leaves `cf->conf_file` as it was. -/
def parse_good (parse : parse_fn directive_trace) : Prop :=
  ∀ (st : parse_t directive_trace) (fn : Option (List Nat)) (rv : conf_rv)
    (st1 : parse_t directive_trace), parse st fn = some (rv, st1) →
    st.ctx <+: st1.ctx ∧
    (fn ≠ none → st1.cf.conf_file = st.cf.conf_file ∧ st1.conf_file_null = st.conf_file_null)

/-- An outside with the file `m`, which includes the file `b`, and the dump enabled. -/
def include_env : conf_env :=
  { files := fun n =>
      if n = bytes "m" then some (bytes "include b;\nz;")
      else if n = bytes "b" then some (bytes "x;")
      else none,
    dump_config := true, glob := fun _ => none, full_name := fun n => some n }

/-- The local variables without the mark: `start` and `start_line` are cleared. -/
def forget (l : token_locals) : token_locals := { l with start := 0, start_line := 0 }

/-- An `act` without the mark. -/
def act_forget : act → act
  | .go l m => .go (forget l) m
  | .word l => .word (forget l)
  | a => a

/-- The bytes in front of a dump buffer in the output of `-T`: nothing, or one comment
line. -/
def is_header (x : List Nat) : Prop :=
  x = [] ∨ ∃ com, x = SHARP :: (com ++ [LF]) ∧ ∀ c ∈ com, c ≠ LF

/-- The dump buffer holds what has been read from the file so far. -/
def dump_inv (cf : ngx_conf_t) : Prop :=
  cf.conf_file.dump = some (cf.conf_file.content.take cf.conf_file.offset)

/-- The state of `cf` in the result of a loop iteration. -/
def step_conf : token_step → ngx_conf_t
  | .next _ cf => cf
  | .ret _ cf => cf

/-- No directive of the trace made the stand-in handler call `ngx_conf_include`. -/
def no_include (t : directive_trace) : Prop :=
  ∀ d ∈ t, ¬ (d.1.head? = some (bytes "include") ∧ d.1.length = 2 ∧ d.2 = NGX_OK)

/-- The state of a parse that reads the file `content` without a handler being installed:
the reader is in an admissible state, the dump buffer holds what has been read, and
`config_dump` is `cd`. -/
def file_state (content : List Nat) (cd : List ngx_conf_dump_t)
    (st : parse_t directive_trace) : Prop :=
  st.handler = none ∧ conf_ok true st.cf ∧ st.cf.conf_file.fd_valid = true ∧
  dump_inv st.cf ∧ st.config_dump = cd ∧ st.cf.conf_file.content = content

/-- The state `st2` of the parse of the dump stands for the state `st` of the parse of
the file: the same directives have been handled, and the bytes to come are the bytes `x`,
those of the file and the line feed that `-T` writes after the buffer. -/
def dump_state (x : List Nat) (st st2 : parse_t directive_trace) : Prop :=
  st2.handler = none ∧ conf_ok true st2.cf ∧ st2.cf.conf_file.fd_valid = true ∧
  st2.ctx = st.ctx ∧ upcoming st2.cf = x ++ upcoming st.cf ++ [LF]

/-- The parse of the dump stopped with the "too long parameter" error, after directives
that are the first ones of the parse of the file. -/
def dump_too_long (st1 st3 : parse_t directive_trace) : Prop :=
  ends_too_long st3.cf ∧ st3.ctx <+: st1.ctx

/-- The parse of a block by `parse` and by `parse2` from states that stand for each
other. -/
def parse_dump_sim (parse parse2 : parse_fn directive_trace) : Prop :=
  ∀ (content : List Nat) (cd : List ngx_conf_dump_t) (st st1 : parse_t directive_trace),
    parse st none = some (.NGX_CONF_OK, st1) → no_include st1.ctx → file_state content cd st →
    file_state content cd st1 ∧
    ∀ st2, dump_state [] st st2 →
      ∃ rv3 st3, parse2 st2 none = some (rv3, st3) ∧
        ((rv3 = .NGX_CONF_ERROR ∧ dump_too_long st1 st3) ∨
         (rv3 = .NGX_CONF_OK ∧ dump_state [] st1 st3))

/-- The outside `env` after the bytes `content` have been written to the file `name`. -/
def with_file (env : conf_env) (name content : List Nat) : conf_env :=
  { env with files := fun n => if n = name then some content else env.files n }

/-- An outside with the file `m`, which has a block and no `include`, and the dump
enabled. -/
def plain_env : conf_env :=
  { files := fun n => if n = bytes "m" then some (bytes "a 1;\nev \x7b w 2; \x7d\n") else none,
    dump_config := true, glob := fun _ => none, full_name := fun n => some n }

/-! ## `nginx.c`: the command line -/

/-- Modelled from the spec: the value `NGX_PROCESS_SINGLE` of `ngx_process`
(`ngx_process_cycle.h` is not among the sources); only that it differs from
`NGX_PROCESS_SIGNALLER` matters. -/
abbrev NGX_PROCESS_SINGLE : Nat := 0

/-- Modelled from the spec: the value of `ngx_process` with which `nginx -s` sends a
signal to a running master (`ngx_process_cycle.h` is not among the sources). -/
abbrev NGX_PROCESS_SIGNALLER : Nat := 2

/-- The lines that `ngx_get_options` writes with `ngx_log_stderr`. -/
inductive option_msg where
  | invalid_option (arg : List Nat)
  | requires_directory_name
  | requires_file_name
  | requires_parameter (opt : Nat)
  | invalid_signal (value : List Nat)
  | invalid_option_char (ch : Nat)
  deriving DecidableEq, Repr

/-- The global variables that `ngx_get_options` sets, and what it wrote to stderr. The
strings are the bytes before the terminating NUL; `none` is a NULL pointer. -/
structure options_t where
  ngx_show_help : Bool
  ngx_show_version : Bool
  ngx_show_configure : Bool
  ngx_test_config : Bool
  ngx_dump_config : Bool
  ngx_quiet_mode : Bool
  ngx_prefix : Option (List Nat)
  ngx_conf_file : Option (List Nat)
  ngx_conf_params : Option (List Nat)
  ngx_signal : Option (List Nat)
  ngx_process : Nat
  stderr : List option_msg
  deriving DecidableEq, Repr

/-- The globals before `main` runs: all zero. -/
def options_init : options_t :=
  { ngx_show_help := false, ngx_show_version := false, ngx_show_configure := false,
    ngx_test_config := false, ngx_dump_config := false, ngx_quiet_mode := false,
    ngx_prefix := none, ngx_conf_file := none, ngx_conf_params := none, ngx_signal := none,
    ngx_process := NGX_PROCESS_SINGLE, stderr := [] }

/-- How the `switch` over the bytes of one argument ends: `goto next` (with `skip` when
`argv[++i]` was taken as a value, so that the loop goes on behind it), or
`return NGX_ERROR`. -/
inductive option_step where
  | next (o : options_t) (skip : Bool)
  | error (o : options_t)
  deriving DecidableEq, Repr

/-- The value of an option: `p` when `*p` is not NUL, otherwise `argv[++i]` when it is
not NULL; the flag says that `i` was advanced. -/
def option_value (p : List Nat) (rest : List (List Nat)) : Option (List Nat × Bool) :=
  if p ≠ [] then some (p, false)
  else
    match rest with
    | v :: _ => some (v, true)
    | [] => none

/-- The test on the value of `-s`. -/
def is_signal_name (v : List Nat) : Bool :=
  v == bytes "stop" || v == bytes "quit" || v == bytes "reopen" || v == bytes "reload"

/-- The loop `while (*p) switch (*p++)` of `ngx_get_options` over the bytes `p` of the
argument after its `-`; `rest` are the arguments after this one. -/
def option_chars : List Nat → List (List Nat) → options_t → option_step
  | [], _, o => .next o false
  | c :: p, rest, o =>
    if c = 63 ∨ c = 104 then
      option_chars p rest { o with ngx_show_version := true, ngx_show_help := true }
    else if c = 118 then
      option_chars p rest { o with ngx_show_version := true }
    else if c = 86 then
      option_chars p rest { o with ngx_show_version := true, ngx_show_configure := true }
    else if c = 116 then
      option_chars p rest { o with ngx_test_config := true }
    else if c = 84 then
      option_chars p rest { o with ngx_test_config := true, ngx_dump_config := true }
    else if c = 113 then
      option_chars p rest { o with ngx_quiet_mode := true }
    else if c = 112 then
      match option_value p rest with
      | some (v, skip) => .next { o with ngx_prefix := some v } skip
      | none => .error { o with stderr := o.stderr ++ [.requires_directory_name] }
    else if c = 99 then
      match option_value p rest with
      | some (v, skip) => .next { o with ngx_conf_file := some v } skip
      | none => .error { o with stderr := o.stderr ++ [.requires_file_name] }
    else if c = 103 then
      match option_value p rest with
      | some (v, skip) => .next { o with ngx_conf_params := some v } skip
      | none => .error { o with stderr := o.stderr ++ [.requires_parameter 103] }
    else if c = 115 then
      match option_value p rest with
      | some (v, skip) =>
        let o := { o with ngx_signal := some v }
        if is_signal_name v then .next { o with ngx_process := NGX_PROCESS_SIGNALLER } skip
        else .error { o with stderr := o.stderr ++ [.invalid_signal v] }
      | none => .error { o with stderr := o.stderr ++ [.requires_parameter 115] }
    else .error { o with stderr := o.stderr ++ [.invalid_option_char c] }

/-- The loop `for (i = 1; i < argc; i++)` of `ngx_get_options` over the arguments from
`argv[i]` on. -/
def options_loop : List (List Nat) → options_t → Int × options_t
  | [], o => (NGX_OK, o)
  | arg :: rest, o =>
    match arg with
    | 45 :: p =>
      match option_chars p rest o with
      | .next o1 false => options_loop rest o1
      | .next o1 true =>
        match rest with
        | _ :: rest1 => options_loop rest1 o1
        | [] => (NGX_OK, o1)
      | .error o1 => (NGX_ERROR, o1)
    | _ => (NGX_ERROR, { o with stderr := o.stderr ++ [.invalid_option arg] })

/-- The function `ngx_get_options(argc, argv)`: `argv[0]` is not looked at. -/
def ngx_get_options (argv : List (List Nat)) (o : options_t) : Int × options_t :=
  options_loop (argv.drop 1) o

/-- The option letters that take no value: `?`, `h`, `v`, `V`, `t`, `T`, `q`. -/
def is_flag (c : Nat) : Bool :=
  c == 63 || c == 104 || c == 118 || c == 86 || c == 116 || c == 84 || c == 113

/-- The globals `o` after the flags `fl`, as the usage text documents them: `?` and `h`
set `ngx_show_version` and `ngx_show_help`, `v` sets `ngx_show_version`, `V` sets
`ngx_show_version` and `ngx_show_configure`, `t` sets `ngx_test_config`, `T` sets
`ngx_test_config` and `ngx_dump_config`, `q` sets `ngx_quiet_mode`. -/
def with_flags (o : options_t) (fl : List Nat) : options_t :=
  { o with
    ngx_show_help := o.ngx_show_help || fl.any (fun c => c == 63 || c == 104),
    ngx_show_version :=
      o.ngx_show_version || fl.any (fun c => c == 63 || c == 104 || c == 118 || c == 86),
    ngx_show_configure := o.ngx_show_configure || fl.any (fun c => c == 86),
    ngx_test_config := o.ngx_test_config || fl.any (fun c => c == 116 || c == 84),
    ngx_dump_config := o.ngx_dump_config || fl.any (fun c => c == 84),
    ngx_quiet_mode := o.ngx_quiet_mode || fl.any (fun c => c == 113) }

/-- What `main` gets from the functions it calls that are not part of `nginx.c`, and from
the allocations: the return value of each call (`Bool`: the pointer returned is not
NULL), the value of `ngx_inherited` after `ngx_add_inherited_sockets`, and `ccf->daemon`
of the cycle that `ngx_init_cycle` returns. -/
structure main_env where
  strerror_init : Int
  log_init : Bool
  create_pool : Bool
  save_argv : Int
  process_options : Int
  os_init : Int
  crc32_table_init : Int
  add_inherited_sockets : Int
  init_cycle : Bool
  signal_process : Int
  init_signals : Int
  inherited : Bool
  daemon_conf : Bool
  daemon : Int
  create_pidfile : Int
  log_redirect_stderr : Int

/-- The function `main` after the call of `ngx_get_options`, which returned `r.1` and
left the globals `r.2`: the exit code. The process cycles at its end return. -/
def main_rest (e : main_env) (r : Int × options_t) : Int :=
  let o := r.2
  if r.1 ≠ NGX_OK then 1
  else if o.ngx_show_version = true ∧ o.ngx_test_config = false then 0
  else if e.log_init = false then 1
  else if e.create_pool = false then 1
  else if e.save_argv ≠ NGX_OK then 1
  else if e.process_options ≠ NGX_OK then 1
  else if e.os_init ≠ NGX_OK then 1
  else if e.crc32_table_init ≠ NGX_OK then 1
  else if e.add_inherited_sockets ≠ NGX_OK then 1
  else if e.init_cycle = false then 1
  else if o.ngx_test_config = true then 0
  else if o.ngx_signal.isSome then e.signal_process
  else if e.init_signals ≠ NGX_OK then 1
  else if e.inherited = false ∧ e.daemon_conf = true ∧ e.daemon ≠ NGX_OK then 1
  else if e.create_pidfile ≠ NGX_OK then 1
  else if e.log_redirect_stderr ≠ NGX_OK then 1
  else 0

/-- The exit code of `main(argc, argv)`. -/
def main (e : main_env) (argv : List (List Nat)) : Int :=
  if e.strerror_init ≠ NGX_OK then 1
  else main_rest e (ngx_get_options argv options_init)

/-- The calls of `main` before `ngx_init_cycle` succeed. -/
def startup_ok (e : main_env) : Prop :=
  e.strerror_init = NGX_OK ∧ e.log_init = true ∧ e.create_pool = true ∧
  e.save_argv = NGX_OK ∧ e.process_options = NGX_OK ∧ e.os_init = NGX_OK ∧
  e.crc32_table_init = NGX_OK ∧ e.add_inherited_sockets = NGX_OK

/-- An outside in which every call succeeds. -/
def good_env : main_env :=
  { strerror_init := NGX_OK, log_init := true, create_pool := true, save_argv := NGX_OK,
    process_options := NGX_OK, os_init := NGX_OK, crc32_table_init := NGX_OK,
    add_inherited_sockets := NGX_OK, init_cycle := true, signal_process := 0,
    init_signals := NGX_OK, inherited := false, daemon_conf := true, daemon := NGX_OK,
    create_pidfile := NGX_OK, log_redirect_stderr := NGX_OK }

/-! ## `nginx.c`: inherited sockets -/

/-- Modelled from the spec: the macro `NGINX_VAR` (`nginx.h` is not among the sources),
the name of the environment variable that carries the inherited listening sockets. -/
def NGINX_VAR : List Nat := bytes "NGINX"

/-- The digits of `n`, most significant first, in front of `acc`; `fuel` bounds their
number. -/
def digits_loop : Nat → Nat → List Nat → List Nat
  | 0, _, acc => acc
  | fuel + 1, n, acc =>
    if n / 10 = 0 then (48 + n % 10) :: acc
    else digits_loop fuel (n / 10) ((48 + n % 10) :: acc)

/-- Modelled from the spec: the conversion `%ud` of `ngx_sprintf` (`ngx_string.c` is not
among the sources): the argument, taken as an unsigned 32-bit integer, as a decimal
number (at most 10 digits). -/
def sprintf_ud (fd : Int) : List Nat :=
  digits_loop 10 (fd % 2 ^ 32).toNat []

/-- The loop of `ngx_atoi` over the bytes of the number, from the value so far. -/
def atoi_loop (max_int : Nat) : List Nat → Nat → Int
  | [], value => value
  | c :: rest, value =>
    if c < 48 ∨ c > 57 then NGX_ERROR
    else if value ≥ max_int / 10 ∧ (value > max_int / 10 ∨ c - 48 > max_int % 10) then
      NGX_ERROR
    else atoi_loop max_int rest (value * 10 + (c - 48))

/-- Modelled from the spec: the function `ngx_atoi(line, n)` (`ngx_string.c` is not among
the sources): the value of the decimal number in the `n` bytes at `line`; `NGX_ERROR`
when there is no byte, when a byte is not a digit, and when the value would exceed
`max_int`, the largest `ngx_int_t`. -/
def ngx_atoi (max_int : Nat) (line : List Nat) : Int :=
  if line = [] then NGX_ERROR else atoi_loop max_int line 0

/-- The conversion `(ngx_socket_t) s` of an `ngx_int_t` to `int`. -/
def to_socket (s : Int) : Int := (s + 2 ^ 31) % 2 ^ 32 - 2 ^ 31

/-- The loop `for (p = inherited, v = p; *p; p++)` of `ngx_add_inherited_sockets`:
`p` are the bytes from `p` on, `v` those between `v` and `p`, `ls` the descriptors in
`cycle->listening`. (`ngx_array_push` does not fail.) -/
def inherited_loop (max_int : Nat) : List Nat → List Nat → List Int → List Int
  | [], _, ls => ls
  | c :: p, v, ls =>
    if c = 58 ∨ c = 59 then
      let s := ngx_atoi max_int v
      if s = NGX_ERROR then ls
      else inherited_loop max_int p [] (ls ++ [to_socket s])
    else inherited_loop max_int p (v ++ [c]) ls

/-- The result of `ngx_add_inherited_sockets`: the return value, the descriptors of
`cycle->listening` and `ngx_inherited`. -/
structure inherited_result where
  rc : Int
  listening : List Int
  ngx_inherited : Bool
  deriving DecidableEq, Repr

/-- The function `ngx_add_inherited_sockets`: `inherited` is what `getenv(NGINX_VAR)`
returns (`none`: NULL), `listening` and `ngx_inherited` are the values before the call,
`set_rc` is what `ngx_set_inherited_sockets` returns. (`ngx_array_init` does not
fail.) -/
def ngx_add_inherited_sockets (max_int : Nat) (inherited : Option (List Nat))
    (listening : List Int) (ngx_inherited : Bool) (set_rc : Int) : inherited_result :=
  match inherited with
  | none => ⟨NGX_OK, listening, ngx_inherited⟩
  | some value => ⟨set_rc, inherited_loop max_int value [] [], true⟩

/-- The string that `ngx_exec_new_binary` builds in `var`: `NGINX_VAR`, `=`, and every
descriptor of `cycle->listening` in the format `%ud;`. -/
def inherited_var (listening : List Int) : List Nat :=
  NGINX_VAR ++ [61] ++ (listening.map (fun fd => sprintf_ud fd ++ [59])).flatten

/-- The value that `getenv(name)` finds in the entry `entry` of the environment. -/
def getenv_entry (name entry : List Nat) : Option (List Nat) :=
  if (name ++ [61]).isPrefixOf entry then some (entry.drop (name.length + 1)) else none

/-! ## `nginx.c`: the environment -/

/-- The type `ngx_str_t` for a string that is followed by a NUL: `data` are the bytes
before the NUL, of which the string holds the first `len`. -/
structure ngx_str_t where
  len : Nat
  data : List Nat
  deriving DecidableEq, Repr

/-- The fields of `ngx_core_conf_t` that `ngx_set_env` and `ngx_set_environment` use:
the array `env` and the pointer `environment` (`none`: NULL). -/
structure env_conf_t where
  env : List ngx_str_t
  environment : Option (List (List Nat))
  deriving DecidableEq, Repr

/-- The index of the first `=` in `value`, found by the loop of `ngx_set_env`; the length
of `value` when there is none. -/
def env_name_len : List Nat → Nat
  | [] => 0
  | c :: rest => if c = 61 then 0 else env_name_len rest + 1

/-- The function `ngx_set_env` for the argument `value[1]`: the element pushed to
`ccf->env` is the argument with `len` cut at the first `=`. (`ngx_array_push` does not
fail.) -/
def ngx_set_env (ccf : env_conf_t) (value : List Nat) : env_conf_t :=
  { ccf with env := ccf.env ++ [⟨env_name_len value, value⟩] }

/-- The test of the first loop of `ngx_set_environment`:
`ngx_strcmp(var[i].data, "TZ") == 0 || ngx_strncmp(var[i].data, "TZ=", 3) == 0`.
`ngx_strcmp` is `strcmp`: it compares the string at the pointer `var[i].data` up to its
first NUL byte; `ngx_strncmp` compares the first three bytes, none of which is NUL in
`TZ=`. -/
def is_tz (v : ngx_str_t) : Bool :=
  c_str v.data == bytes "TZ" || v.data.take 3 == bytes "TZ="

/-- The test `ngx_strncmp(*p, var[i].data, var[i].len) == 0 && (*p)[var[i].len] == '='`
for the entry `p` of the environment. -/
def env_match (v : ngx_str_t) (p : List Nat) : Bool :=
  p.take v.len == v.data.take v.len && p.getD v.len 0 == 61

/-- The second loop of `ngx_set_environment`, which counts the entries. -/
def env_count (os_environ : List (List Nat)) : List ngx_str_t → Nat → Nat
  | [], n => n
  | v :: rest, n =>
    if v.data.getD v.len 0 = 61 then env_count os_environ rest (n + 1)
    else
      match os_environ.find? (env_match v) with
      | some _ => env_count os_environ rest (n + 1)
      | none => env_count os_environ rest n

/-- The third loop of `ngx_set_environment`, which fills the array `env`. -/
def env_fill (os_environ : List (List Nat)) : List ngx_str_t → List (List Nat) → List (List Nat)
  | [], env => env
  | v :: rest, env =>
    if v.data.getD v.len 0 = 61 then env_fill os_environ rest (env ++ [v.data])
    else
      match os_environ.find? (env_match v) with
      | some p => env_fill os_environ rest (env ++ [p])
      | none => env_fill os_environ rest env

/-- The result of `ngx_set_environment(cycle, last)`: the array returned (the entries
before the terminating NULL), the value of `*last` afterwards, and the configuration. -/
structure set_env_result where
  env : List (List Nat)
  last : Option Nat
  ccf : env_conf_t
  deriving DecidableEq, Repr

/-- The function `ngx_set_environment(cycle, last)`; `os_environ` is `ngx_os_environ`,
`last` is `none` for a NULL pointer and `*last` otherwise. (`ngx_array_push`,
`ngx_alloc` and `ngx_palloc` do not fail.) -/
def ngx_set_environment (os_environ : List (List Nat)) (ccf : env_conf_t)
    (last : Option Nat) : set_env_result :=
  match last, ccf.environment with
  | none, some e => ⟨e, none, ccf⟩
  | _, _ =>
    let var := if ccf.env.any is_tz then ccf.env else ccf.env ++ [⟨2, bytes "TZ"⟩]
    let n := env_count os_environ var 0
    let env := env_fill os_environ var []
    match last with
    | some _ => ⟨env, some n, { ccf with env := var }⟩
    | none => ⟨env, none, { env := var, environment := some env }⟩

/-- The elements of `ccf->env` are as `ngx_set_env` and `ngx_set_environment` make
them: `len` is the index of the first `=` of `data`, or its length. -/
def env_ok (ccf : env_conf_t) : Prop :=
  ∀ v ∈ ccf.env, v.len = env_name_len v.data

/-- The entry of the array for the element `v` of the env list, as the specification
describes the allow-list: a configured `VAR=VALUE` verbatim, and for a bare `VAR` the
first entry `VAR=...` of the original environment, if there is one. -/
def spec_env_entry (os_environ : List (List Nat)) (v : ngx_str_t) : Option (List Nat) :=
  if 61 ∈ v.data then some v.data
  else os_environ.find? (fun p => (v.data ++ [61]).isPrefixOf p)

/-- The configuration after the calls of `ngx_set_environment` with the given
environments and arguments `last`. -/
def set_environment_calls (calls : List (List (List Nat) × Option Nat))
    (ccf : env_conf_t) : env_conf_t :=
  calls.foldl (fun c call => (ngx_set_environment call.1 c call.2).ccf) ccf

/-! ## `nginx.c`: the pid file and the new binary -/

/-- Modelled from the spec: the macro `NGX_OLDPID_EXT` (`nginx.h` is not among the
sources), the suffix `.oldbin` of the old pid file; `sizeof(NGX_OLDPID_EXT)` is its
length plus one for the NUL. -/
def NGX_OLDPID_EXT : List Nat := bytes ".oldbin"

/-- Modelled from the spec: the constant `NGX_INVALID_PID` (`ngx_process.h` is not among
the sources), returned in place of a process id when no process was started. -/
abbrev NGX_INVALID_PID : Int := -1

/-- The fields `pid` and `oldpid` of `ngx_core_conf_t`; `data` are the bytes at the
pointer, as far as they are known (for `oldpid` the `len` bytes that
`ngx_core_module_init_conf` writes, the NUL included). -/
structure pid_conf_t where
  pid : ngx_str_t
  oldpid : ngx_str_t
  deriving DecidableEq, Repr

/-- The function `ngx_core_module_init_conf`, as far as it concerns `pid` and `oldpid`.
`pid_path` is the macro `NGX_PID_PATH`, `full_name` is `ngx_conf_full_name` applied to
`ccf->pid` (`none`: it fails), `alloc_ok` says that `ngx_pnalloc` succeeds, and `rest`
is what the function returns after this part when it gets that far. -/
def ngx_core_module_init_conf (pid_path : List Nat) (full_name : ngx_str_t → Option ngx_str_t)
    (alloc_ok : Bool) (rest : conf_rv) (ccf : pid_conf_t) : conf_rv × pid_conf_t :=
  let ccf := if ccf.pid.len = 0 then { ccf with pid := ⟨pid_path.length, pid_path⟩ } else ccf
  match full_name ccf.pid with
  | none => (.NGX_CONF_ERROR, ccf)
  | some pid =>
    let ccf := { ccf with pid := pid }
    let len := ccf.pid.len + (NGX_OLDPID_EXT.length + 1)
    if alloc_ok = false then (.NGX_CONF_ERROR, { ccf with oldpid := ⟨len, []⟩ })
    else
      -- ngx_memcpy(ngx_cpymem(oldpid.data, pid.data, pid.len), NGX_OLDPID_EXT, sizeof(NGX_OLDPID_EXT))
      let data := ccf.pid.data.take ccf.pid.len ++ (NGX_OLDPID_EXT ++ [0])
      (rest, { ccf with oldpid := ⟨len, data⟩ })

/-- What `ngx_exec_new_binary` gets from outside: whether `ngx_alloc` for `var`
succeeds, whether the two calls of `ngx_rename_file` succeed, and what `ngx_execute`
returns. -/
structure exec_env where
  alloc_var : Bool
  rename_old : Bool
  execute : Int
  rename_back : Bool
  deriving DecidableEq, Repr

/-- The calls that `ngx_exec_new_binary` makes to the outside, and the alerts it
logs. -/
inductive exec_action where
  | rename_file (src dst : List Nat) (ok : Bool)
  | execute (path : List Nat) (envp : List (List Nat)) (pid : Int)
  | alert_rename_failed
  | alert_rename_back_failed
  deriving DecidableEq, Repr

/-- The function `ngx_exec_new_binary(cycle, argv)`: the process id returned and the
calls made, in order. `pid` and `oldpid` are the strings `ccf->pid.data` and
`ccf->oldpid.data`, `spare` says that `NGX_SETPROCTITLE_USES_ENV` is set (the entry
`SPARE=XXX...` is then added). (`ngx_set_environment` does not return NULL, as its
allocations do not fail.) -/
def ngx_exec_new_binary (e : exec_env) (os_environ : List (List Nat)) (ccf : env_conf_t)
    (listening : List Int) (pid oldpid : List Nat) (argv : List (List Nat)) (spare : Bool) :
    Int × List exec_action :=
  let env := (ngx_set_environment os_environ ccf (some 2)).env
  if e.alloc_var = false then (NGX_INVALID_PID, [])
  else
    let var := inherited_var listening
    let envp := env ++ [var]
      ++ (if spare then [bytes "SPARE=" ++ List.replicate 294 88] else [])
    if e.rename_old = false then
      (NGX_INVALID_PID, [.rename_file pid oldpid false, .alert_rename_failed])
    else
      let p := e.execute
      let acts := [exec_action.rename_file pid oldpid true, .execute (argv.headD []) envp p]
      if p = NGX_INVALID_PID then
        if e.rename_back = false then
          (p, acts ++ [.rename_file oldpid pid false, .alert_rename_back_failed])
        else (p, acts ++ [.rename_file oldpid pid true])
      else (p, acts)

/-- The action is a call of `ngx_execute`. -/
def is_execute : exec_action → Bool
  | .execute _ _ _ => true
  | _ => false

/-! ## `nginx.c`: `worker_cpu_affinity` -/

/-- The fields `cpu_affinity_n` and `cpu_affinity` of `ngx_core_conf_t` (`none`: NULL).
Of the array `cpu_affinity`, which has `cpu_affinity_n` elements, the list holds the
elements written so far; the others are not initialised. -/
structure affinity_conf_t where
  cpu_affinity_n : Nat
  cpu_affinity : Option (List Nat)
  deriving DecidableEq, Repr

/-- The errors that `ngx_set_cpu_affinity` logs. -/
inductive affinity_msg where
  | up_to_64_cpus
  | invalid_character (ch : Nat)
  | not_supported
  deriving DecidableEq, Repr

/-- The inner loop of `ngx_set_cpu_affinity` over the bytes of one argument, from the
value `mask` of `mask[n - 1]`: the value afterwards, and the byte that ended the loop
with an error, if any. The shift is that of a `uint64_t`. -/
def mask_loop : List Nat → Nat → Nat × Option Nat
  | [], mask => (mask, none)
  | ch :: rest, mask =>
    if ch = 32 then mask_loop rest mask
    else
      let mask := (mask <<< 1) % 2 ^ 64
      if ch = 48 then mask_loop rest mask
      else if ch = 49 then mask_loop rest (mask ||| 1)
      else (mask, some ch)

/-- The loop `for (n = 1; n < cf->args->nelts; n++)` of `ngx_set_cpu_affinity` over
the arguments from `value[n]` on; `masks` are the elements written so far. -/
def masks_loop : List (List Nat) → List Nat → conf_rv × List Nat × List affinity_msg
  | [], masks => (.NGX_CONF_OK, masks, [])
  | v :: rest, masks =>
    if v.length > 64 then (.NGX_CONF_ERROR, masks, [.up_to_64_cpus])
    else
      match mask_loop v 0 with
      | (m, none) => masks_loop rest (masks ++ [m])
      | (m, some ch) => (.NGX_CONF_ERROR, masks ++ [m], [.invalid_character ch])

/-- The function `ngx_set_cpu_affinity`; `args` is `cf->args` (the name of the directive
and its arguments), `have_affinity` says that `NGX_HAVE_CPU_AFFINITY` is set. The result
is the value returned (`message` for `"is duplicate"`), the configuration and what was
logged. (`ngx_palloc` does not fail.) -/
def ngx_set_cpu_affinity (have_affinity : Bool) (ccf : affinity_conf_t)
    (args : List (List Nat)) : conf_rv × affinity_conf_t × List affinity_msg :=
  if have_affinity then
    if ccf.cpu_affinity.isSome then (.message, ccf, [])
    else
      let r := masks_loop (args.drop 1) []
      (r.1, { cpu_affinity_n := args.length - 1, cpu_affinity := some r.2.1 }, r.2.2)
  else (.NGX_CONF_OK, ccf, [.not_supported])

/-- The argument is accepted: at most 64 bytes, each `0`, `1` or a space. -/
def mask_ok (v : List Nat) : Bool :=
  decide (v.length ≤ 64) && v.all (fun ch => ch == 48 || ch == 49 || ch == 32)

/-- The value of a string of the digits `0` and `1` as a binary number, the most
significant bit first. -/
def bit_string_value (v : List Nat) : Nat :=
  Nat.ofDigits 2 (v.map (fun ch => ch - 48)).reverse

/-- The bytes of an argument without the spaces, which the loop skips. -/
def mask_bits (v : List Nat) : List Nat := v.filter (fun ch => ch != 32)

/-! ## `ngx_http_upstream.h`: the failure types of `next_upstream` -/

/-- The macro `NGX_HTTP_UPSTREAM_FT_ERROR`. -/
abbrev NGX_HTTP_UPSTREAM_FT_ERROR : Nat := 0x00000002
/-- The macro `NGX_HTTP_UPSTREAM_FT_TIMEOUT`. -/
abbrev NGX_HTTP_UPSTREAM_FT_TIMEOUT : Nat := 0x00000004
/-- The macro `NGX_HTTP_UPSTREAM_FT_INVALID_HEADER`. -/
abbrev NGX_HTTP_UPSTREAM_FT_INVALID_HEADER : Nat := 0x00000008
/-- The macro `NGX_HTTP_UPSTREAM_FT_HTTP_500`. -/
abbrev NGX_HTTP_UPSTREAM_FT_HTTP_500 : Nat := 0x00000010
/-- The macro `NGX_HTTP_UPSTREAM_FT_HTTP_502`. -/
abbrev NGX_HTTP_UPSTREAM_FT_HTTP_502 : Nat := 0x00000020
/-- The macro `NGX_HTTP_UPSTREAM_FT_HTTP_503`. -/
abbrev NGX_HTTP_UPSTREAM_FT_HTTP_503 : Nat := 0x00000040
/-- The macro `NGX_HTTP_UPSTREAM_FT_HTTP_504`. -/
abbrev NGX_HTTP_UPSTREAM_FT_HTTP_504 : Nat := 0x00000080
/-- The macro `NGX_HTTP_UPSTREAM_FT_HTTP_403`. -/
abbrev NGX_HTTP_UPSTREAM_FT_HTTP_403 : Nat := 0x00000100
/-- The macro `NGX_HTTP_UPSTREAM_FT_HTTP_404`. -/
abbrev NGX_HTTP_UPSTREAM_FT_HTTP_404 : Nat := 0x00000200
/-- The macro `NGX_HTTP_UPSTREAM_FT_UPDATING`. -/
abbrev NGX_HTTP_UPSTREAM_FT_UPDATING : Nat := 0x00000400
/-- The macro `NGX_HTTP_UPSTREAM_FT_BUSY_LOCK`. -/
abbrev NGX_HTTP_UPSTREAM_FT_BUSY_LOCK : Nat := 0x00000800
/-- The macro `NGX_HTTP_UPSTREAM_FT_MAX_WAITING`. -/
abbrev NGX_HTTP_UPSTREAM_FT_MAX_WAITING : Nat := 0x00001000
/-- The macro `NGX_HTTP_UPSTREAM_FT_NOLIVE`. -/
abbrev NGX_HTTP_UPSTREAM_FT_NOLIVE : Nat := 0x40000000
/-- The macro `NGX_HTTP_UPSTREAM_FT_OFF`. -/
abbrev NGX_HTTP_UPSTREAM_FT_OFF : Nat := 0x80000000

/-- The macro `NGX_HTTP_UPSTREAM_FT_STATUS`. -/
abbrev NGX_HTTP_UPSTREAM_FT_STATUS : Nat :=
  NGX_HTTP_UPSTREAM_FT_HTTP_500 ||| NGX_HTTP_UPSTREAM_FT_HTTP_502
    ||| NGX_HTTP_UPSTREAM_FT_HTTP_503 ||| NGX_HTTP_UPSTREAM_FT_HTTP_504
    ||| NGX_HTTP_UPSTREAM_FT_HTTP_403 ||| NGX_HTTP_UPSTREAM_FT_HTTP_404

/-- The failure types that `ngx_http_upstream.h` defines by a single value: every macro
`NGX_HTTP_UPSTREAM_FT_...` of the header but `NGX_HTTP_UPSTREAM_FT_STATUS`, with the name
after `NGX_HTTP_UPSTREAM_FT_`, in the order of the header. -/
def upstream_ft_flags : List (String × Nat) :=
  [("ERROR", NGX_HTTP_UPSTREAM_FT_ERROR),
   ("TIMEOUT", NGX_HTTP_UPSTREAM_FT_TIMEOUT),
   ("INVALID_HEADER", NGX_HTTP_UPSTREAM_FT_INVALID_HEADER),
   ("HTTP_500", NGX_HTTP_UPSTREAM_FT_HTTP_500),
   ("HTTP_502", NGX_HTTP_UPSTREAM_FT_HTTP_502),
   ("HTTP_503", NGX_HTTP_UPSTREAM_FT_HTTP_503),
   ("HTTP_504", NGX_HTTP_UPSTREAM_FT_HTTP_504),
   ("HTTP_403", NGX_HTTP_UPSTREAM_FT_HTTP_403),
   ("HTTP_404", NGX_HTTP_UPSTREAM_FT_HTTP_404),
   ("UPDATING", NGX_HTTP_UPSTREAM_FT_UPDATING),
   ("BUSY_LOCK", NGX_HTTP_UPSTREAM_FT_BUSY_LOCK),
   ("MAX_WAITING", NGX_HTTP_UPSTREAM_FT_MAX_WAITING),
   ("NOLIVE", NGX_HTTP_UPSTREAM_FT_NOLIVE),
   ("OFF", NGX_HTTP_UPSTREAM_FT_OFF)]

/-- The flag of the failure type `name`, when the header defines one. -/
def upstream_ft (name : String) : Option Nat := upstream_ft_flags.lookup name

/-- The value is a single bit of a 32-bit word. -/
def single_bit (v : Nat) : Bool := (List.range 32).any (fun k => v == 2 ^ k)

/-- The failure kinds of the `next_upstream` policy that the header has a flag for. -/
def next_upstream_kinds : List String :=
  ["ERROR", "TIMEOUT", "INVALID_HEADER", "HTTP_500", "HTTP_502", "HTTP_503", "HTTP_504",
   "HTTP_403", "HTTP_404"]

/-- The six failure kinds that stand for a status of the response. -/
def http_status_kinds : List String :=
  ["HTTP_500", "HTTP_502", "HTTP_503", "HTTP_504", "HTTP_403", "HTTP_404"]

/-- The byte ends a segment of the variable: `:` or `;`. -/
def is_separator (c : Nat) : Bool := c == 58 || c == 59

/-- The bytes of the segments, each followed by its terminator. -/
def join_segments : List (List Nat × Nat) → List Nat
  | [] => []
  | s :: rest => s.1 ++ s.2 :: join_segments rest

/-- A segment that `ngx_atoi` accepts, with its terminator. -/
def segment_ok (max_int : Nat) (s : List Nat × Nat) : Bool :=
  s.1.all (fun c => !is_separator c) && is_separator s.2 && ngx_atoi max_int s.1 != NGX_ERROR

/-- The bytes are not a non-negative decimal integer: there is none, or one of them is
not a digit. -/
def not_decimal (seg : List Nat) : Bool :=
  seg.isEmpty || seg.any (fun c => decide (c < 48) || decide (c > 57))

/-- The function `ngx_get_cpu_affinity`: `ccf` is the core configuration of `ngx_cycle`.
The array element is read with a bounds check: `none` stands for a read outside the
elements of `cpu_affinity` that were written. The index `cpu_affinity_n - 1` is computed
in `ngx_uint_t` (64 bits). -/
def ngx_get_cpu_affinity (ccf : affinity_conf_t) (n : Nat) : Option Nat :=
  match ccf.cpu_affinity with
  | none => some 0
  | some masks =>
    if ccf.cpu_affinity_n > n then masks[n]?
    else masks[(ccf.cpu_affinity_n + (2 ^ 64 - 1)) % 2 ^ 64]?

/-- The state of the two fields as the configuration leaves them: `cpu_affinity` is NULL,
or it has `cpu_affinity_n` elements, all written, and there is at least one. -/
def affinity_ok (ccf : affinity_conf_t) : Prop :=
  ∀ masks, ccf.cpu_affinity = some masks →
    masks.length = ccf.cpu_affinity_n ∧ 0 < ccf.cpu_affinity_n ∧ ccf.cpu_affinity_n < 2 ^ 64

/-! ## `nginx.c`: `ngx_process_options` -/

/-- The fields of `ngx_cycle_t` that `ngx_process_options` writes; `prefix_` is the field
`prefix`, `log_level` is `cycle->log->log_level`. -/
structure ngx_cycle_t where
  conf_prefix : List Nat
  prefix_ : List Nat
  conf_file : List Nat
  conf_param : List Nat
  log_level : Nat
  deriving DecidableEq, Repr

/-- What `ngx_process_options` takes from outside `nginx.c`: the macro
`ngx_path_separator`, the macros `NGX_PREFIX` and `NGX_CONF_PREFIX` (`none`: not
defined), `NGX_CONF_PATH` and `NGX_LOG_INFO`, the working directory that `ngx_getcwd`
finds (`none`: it returns 0), whether `ngx_pnalloc` succeeds, and the function
`ngx_get_full_name` of `ngx_file.c`, which is given the prefix and the name and returns
the new name (`none`: it does not return `NGX_OK`). -/
structure process_env where
  path_separator : Nat → Bool
  NGX_PREFIX : Option (List Nat)
  NGX_CONF_PREFIX : Option (List Nat)
  NGX_CONF_PATH : List Nat
  NGX_LOG_INFO : Nat
  getcwd : Option (List Nat)
  alloc_ok : Bool
  get_full_name : List Nat → List Nat → Option (List Nat)

/-- The function `ngx_conf_full_name`: `ngx_get_full_name` with `cycle->conf_prefix` or
`cycle->prefix` as the prefix. -/
def ngx_conf_full_name (e : process_env) (cycle : ngx_cycle_t) (name : List Nat)
    ( conf_prefix : Bool) : Option (List Nat) :=
  e.get_full_name (if conf_prefix then cycle.conf_prefix else cycle.prefix_) name

/-- The loop `for (p = data + len - 1; p > data; p--)` of `ngx_process_options`; the
argument is `p - data`. The result is the new `conf_prefix.len` when the loop finds a
path separator. -/
def conf_prefix_loop (sep : Nat → Bool) (data : List Nat) : Nat → Option Nat
  | 0 => none
  | i + 1 => if sep (data.getD (i + 1) 0) then some (i + 2) else conf_prefix_loop sep data i

/-- The first part of `ngx_process_options`, which sets `conf_prefix` and `prefix`;
`none` stands for `return NGX_ERROR`. -/
def process_prefix (e : process_env) (o : options_t) (cycle : ngx_cycle_t) :
    Option ngx_cycle_t :=
  match o.ngx_prefix with
  | some p =>
    if p.length ≠ 0 ∧ e.path_separator (p.getD (p.length - 1) 0) = false then
      if e.alloc_ok then
        some { cycle with conf_prefix := p ++ [47], prefix_ := p ++ [47] }
      else none
    else some { cycle with conf_prefix := p, prefix_ := p }
  | none =>
    match e.NGX_PREFIX with
    | none =>
      if e.alloc_ok then
        match e.getcwd with
        | none => none
        | some d => some { cycle with conf_prefix := d ++ [47], prefix_ := d ++ [47] }
      else none
    | some pre =>
      some { cycle with
        conf_prefix := match e.NGX_CONF_PREFIX with
          | some cp => cp
          | none => pre,
        prefix_ := pre }

/-- The second part of `ngx_process_options`, from the call of `ngx_conf_full_name` on;
`c2` is the cycle with the file name as given. -/
def process_conf_file (e : process_env) (o : options_t) (c2 : ngx_cycle_t) :
    Int × ngx_cycle_t :=
  match ngx_conf_full_name e c2 c2.conf_file false with
  | none => (NGX_ERROR, c2)
  | some name =>
    let c3 := { c2 with conf_file := name }
    let c4 := match conf_prefix_loop e.path_separator name (name.length - 1) with
      | some len => { c3 with conf_prefix := name.take len }
      | none => c3
    let c5 := match o.ngx_conf_params with
      | some g => { c4 with conf_param := g }
      | none => c4
    (NGX_OK, if o.ngx_test_config then { c5 with log_level := e.NGX_LOG_INFO } else c5)

/-- The function `ngx_process_options`; `o` holds the globals that `ngx_get_options`
set. The result is the return value and the cycle. (The line that is written when
`ngx_getcwd` fails is left out.) -/
def ngx_process_options (e : process_env) (o : options_t) (cycle : ngx_cycle_t) :
    Int × ngx_cycle_t :=
  match process_prefix e o cycle with
  | none => (NGX_ERROR, cycle)
  | some c1 =>
    process_conf_file e o { c1 with conf_file := match o.ngx_conf_file with
      | some f => f
      | none => e.NGX_CONF_PATH }

/-- An environment of a Unix build with `NGX_PREFIX`: the path separator is `/`, and the
stand-in for `ngx_get_full_name` leaves a name that begins with `/` as it is and puts
the prefix in front of every other name. -/
def unix_env : process_env :=
  { path_separator := fun c => c == 47,
    NGX_PREFIX := some (bytes "/usr/local/nginx/"),
    NGX_CONF_PREFIX := none,
    NGX_CONF_PATH := bytes "conf/nginx.conf",
    NGX_LOG_INFO := 7,
    getcwd := some (bytes "/root"),
    alloc_ok := true,
    get_full_name := fun pre name => if name.head? = some 47 then some name else some (pre ++ name) }

/-- The cycle before `ngx_process_options`: all fields empty. -/
def cycle_init : ngx_cycle_t :=
  { conf_prefix := [], prefix_ := [], conf_file := [], conf_param := [], log_level := 0 }

/-- The invariant of the configuration buffer, `start ≤ pos ≤ last ≤ end`: `start` is
the index 0, `last` the length of `data` and `end` the index `cap`. -/
def buf_inv (cf : ngx_conf_t) : Prop :=
  0 ≤ cf.conf_file.buffer.pos ∧
  cf.conf_file.buffer.pos ≤ cf.conf_file.buffer.data.length ∧
  cf.conf_file.buffer.data.length ≤ cf.conf_file.buffer.cap

/-- What holds of the flags of `ngx_conf_read_token` in every state of a call: after a
closing quote (`need_space`) no comment is open, no escape is pending and the last byte
was not white space; and where a token may start (`last_space`) no escape is pending. -/
def flags_ok (l : token_locals) : Prop :=
  (l.need_space = true →
    l.sharp_comment = false ∧ l.quoted = false ∧ l.last_space = false) ∧
  (l.last_space = true → l.quoted = false)

/-- The bytes that may follow the closing quote of a quoted string. -/
def after_quote_ok (ch : Nat) : Bool :=
  is_space ch || ch == SEMI || ch == LBRACE || ch == RPAREN

/-- The byte `ch` closes the quoted string that is open in the state `l`. -/
def closes_quote (l : token_locals) (ch : Nat) : Prop :=
  (ch = DQUOTE ∧ l.d_quoted = true) ∨ (ch = SQUOTE ∧ l.s_quoted = true)

/-- The property of the flags after one byte: they are as `flags_ok` says, and
`need_space` is set only by a byte that closes a quoted string. -/
def act_flags (l : token_locals) (ch : Nat) : act → Prop
  | .go l1 _ => flags_ok l1 ∧ l1.need_space = false
  | .word l1 => flags_ok l1 ∧ (l1.need_space = true → closes_quote l ch)
  | _ => True

/-- What `ngx_conf_log_error` puts behind its message: nothing when `cf->conf_file` is
NULL, `in command line` when the descriptor is invalid, otherwise `in NAME:LINE` with
`cf->conf_file->file.name` and `cf->conf_file->line`. -/
inductive log_place where
  | nowhere
  | command_line
  | file (name : List Nat) (line : Nat)
  deriving DecidableEq, Repr

/-- The place that `ngx_conf_log_error` names in the state `st`. -/
def conf_log_place {σ : Type} (st : parse_t σ) : log_place :=
  if st.conf_file_null then .nowhere
  else if st.cf.conf_file.fd_valid = false then .command_line
  else .file st.cf.conf_file.name st.cf.conf_file.line

/-- The state in which `ngx_conf_parse(cf, filename)` enters its loop after it has
opened the file `name` with the bytes `content`. -/
def file_start {σ : Type} (env : conf_env) (st : parse_t σ) (name content : List Nat) :
    parse_t σ :=
  { st with
    cf := { st.cf with conf_file :=
      { name := name, content := content, fd_valid := true, offset := 0,
        buffer := { data := [], pos := 0, cap := NGX_CONF_BUFFER },
        dump := if env.dump_config then some [] else none, line := 1 } },
    conf_file_null := false,
    config_dump := if env.dump_config then st.config_dump ++ [⟨name, []⟩] else st.config_dump }

/-- What `ngx_conf_parse(cf, filename)` does at the label `done` with the result of its
loop: `cf->conf_file` gets the value it had in `st`. -/
def file_finish {σ : Type} (st : parse_t σ) (r : Int × parse_t σ) : conf_rv × parse_t σ :=
  (parse_rv r.1,
    { r.2 with cf := { r.2.cf with conf_file := st.cf.conf_file },
               conf_file_null := st.conf_file_null,
               config_dump := sync_dump r.2.config_dump st.config_dump.length
                 r.2.cf.conf_file.dump })

/-- The states in which `ngx_conf_log_error` names the same file, or in both of which it
names none. -/
def same_place {σ : Type} (st st1 : parse_t σ) : Prop :=
  st1.cf.conf_file.name = st.cf.conf_file.name ∧
  st1.cf.conf_file.fd_valid = st.cf.conf_file.fd_valid ∧
  st1.conf_file_null = st.conf_file_null

/-! ## `ngx_conf_handler` -/

/-- The macros of `ngx_conf_file.h` that `ngx_conf_handler` uses; the header is not among
the sources, so their values are parameters. -/
structure conf_flags where
  NGX_CONF_NOARGS : Nat
  NGX_CONF_TAKE1 : Nat
  NGX_CONF_TAKE2 : Nat
  NGX_CONF_TAKE3 : Nat
  NGX_CONF_TAKE4 : Nat
  NGX_CONF_TAKE5 : Nat
  NGX_CONF_TAKE6 : Nat
  NGX_CONF_TAKE7 : Nat
  NGX_CONF_MAX_ARGS : Nat
  NGX_CONF_BLOCK : Nat
  NGX_CONF_FLAG : Nat
  NGX_CONF_ANY : Nat
  NGX_CONF_1MORE : Nat
  NGX_CONF_2MORE : Nat
  NGX_DIRECT_CONF : Nat
  NGX_MAIN_CONF : Nat
  NGX_CONF_MODULE : Nat
  deriving DecidableEq, Repr

/-- Modelled from the spec: the values that `ngx_conf_file.h` of nginx 1.9.6 gives to the
macros. -/
def nginx_flags : conf_flags :=
  { NGX_CONF_NOARGS := 0x00000001, NGX_CONF_TAKE1 := 0x00000002, NGX_CONF_TAKE2 := 0x00000004,
    NGX_CONF_TAKE3 := 0x00000008, NGX_CONF_TAKE4 := 0x00000010, NGX_CONF_TAKE5 := 0x00000020,
    NGX_CONF_TAKE6 := 0x00000040, NGX_CONF_TAKE7 := 0x00000080, NGX_CONF_MAX_ARGS := 8,
    NGX_CONF_BLOCK := 0x00000100, NGX_CONF_FLAG := 0x00000200, NGX_CONF_ANY := 0x00000400,
    NGX_CONF_1MORE := 0x00000800, NGX_CONF_2MORE := 0x00001000,
    NGX_DIRECT_CONF := 0x00010000, NGX_MAIN_CONF := 0x01000000,
    NGX_CONF_MODULE := 0x464E4F43 }

/-- The table `argument_number`. -/
def argument_number (fl : conf_flags) : List Nat :=
  [fl.NGX_CONF_NOARGS, fl.NGX_CONF_TAKE1, fl.NGX_CONF_TAKE2, fl.NGX_CONF_TAKE3,
   fl.NGX_CONF_TAKE4, fl.NGX_CONF_TAKE5, fl.NGX_CONF_TAKE6, fl.NGX_CONF_TAKE7]

/-- The configuration that `ngx_conf_handler` passes to the setter: the element `index`
of `cf->ctx` (`NGX_DIRECT_CONF`), its address (`NGX_MAIN_CONF`), or what the context at
the offset `cmd->conf` holds for the module's `ctx_index` (NULL when `cf->ctx` or that
context is NULL). -/
inductive conf_ref where
  | direct (index : Nat)
  | main (index : Nat)
  | context (conf ctx_index : Nat)
  deriving DecidableEq, Repr

/-- The fields of `ngx_command_t` that `ngx_conf_handler` uses. The setter `set` gets the
configuration, `ngx_conf_parse` (which block directives call) and the state. -/
structure ngx_command_t (σ : Type) where
  name : List Nat
  type : Nat
  conf : Nat
  set : conf_ref → parse_fn σ → parse_t σ → Option (conf_rv × parse_t σ)

/-- The fields of `ngx_module_t` that `ngx_conf_handler` uses; `commands` holds the
elements of the array (`none`: NULL), which ends at the first one with an empty name. -/
structure ngx_module_t (σ : Type) where
  index : Nat
  ctx_index : Nat
  type : Nat
  commands : Option (List (ngx_command_t σ))

/-- The outcome of the check of the argument count; `out_of_table` stands for a read
outside the table `argument_number`. -/
inductive arg_check where
  | ok
  | invalid
  | out_of_table
  deriving DecidableEq, Repr

/-- The check of the argument count in `ngx_conf_handler` for `cmd->type` and
`cf->args->nelts`; the index `nelts - 1` is computed in `ngx_uint_t` (64 bits). -/
def check_args (fl : conf_flags) (type nelts : Nat) : arg_check :=
  if type &&& fl.NGX_CONF_ANY ≠ 0 then .ok
  else if type &&& fl.NGX_CONF_FLAG ≠ 0 then
    if nelts ≠ 2 then .invalid else .ok
  else if type &&& fl.NGX_CONF_1MORE ≠ 0 then
    if nelts < 2 then .invalid else .ok
  else if type &&& fl.NGX_CONF_2MORE ≠ 0 then
    if nelts < 3 then .invalid else .ok
  else if nelts > fl.NGX_CONF_MAX_ARGS then .invalid
  else
    match (argument_number fl)[(nelts + (2 ^ 64 - 1)) % 2 ^ 64]? with
    | none => .out_of_table
    | some a => if type &&& a = 0 then .invalid else .ok

/-- What `ngx_conf_handler` does with one command: go on with the next one (`found` as
it is now), or return. -/
inductive cmd_result (σ : Type) where
  | next (found : Bool)
  | ret (r : Option (Int × parse_t σ))

/-- The part of the loop body of `ngx_conf_handler` from the check of the terminator on,
for a command that was found and whose module type and context are right. -/
def run_command {σ : Type} (fl : conf_flags) (m : ngx_module_t σ) (cmd : ngx_command_t σ)
    (parse : parse_fn σ) (st : parse_t σ) (last : Int) : Option (Int × parse_t σ) :=
  let name := st.cf.args.getD 0 []
  if cmd.type &&& fl.NGX_CONF_BLOCK = 0 ∧ last ≠ NGX_OK then
    some (NGX_ERROR, conf_log st (.not_terminated name))
  else if cmd.type &&& fl.NGX_CONF_BLOCK ≠ 0 ∧ last ≠ NGX_CONF_BLOCK_START then
    some (NGX_ERROR, conf_log st (.no_opening name))
  else
    match check_args fl cmd.type st.cf.args.length with
    | .out_of_table => none
    | .invalid => some (NGX_ERROR, conf_log st (.invalid_arguments name))
    | .ok =>
      let conf :=
        if cmd.type &&& fl.NGX_DIRECT_CONF ≠ 0 then conf_ref.direct m.index
        else if cmd.type &&& fl.NGX_MAIN_CONF ≠ 0 then conf_ref.main m.index
        else conf_ref.context cmd.conf m.ctx_index
      match cmd.set conf parse st with
      | none => none
      | some (rv, st1) =>
        if rv = .NGX_CONF_OK then some (NGX_OK, st1)
        else if rv = .NGX_CONF_ERROR then some (NGX_ERROR, st1)
        else some (NGX_ERROR, conf_log st1 (.directive_message name))

/-- The body of the inner loop of `ngx_conf_handler` for the command `cmd` of the module
`m`; `module_type` and `cmd_type` are `cf->module_type` and `cf->cmd_type`. The names are
compared as byte strings (no command name holds a NUL). -/
def command_step {σ : Type} (fl : conf_flags) (module_type cmd_type : Nat)
    (m : ngx_module_t σ) (cmd : ngx_command_t σ) (parse : parse_fn σ) (st : parse_t σ)
    (last : Int) (found : Bool) : cmd_result σ :=
  let name := st.cf.args.getD 0 []
  if name.length ≠ cmd.name.length then .next found
  else if name ≠ cmd.name then .next found
  else if m.type ≠ fl.NGX_CONF_MODULE ∧ m.type ≠ module_type then .next true
  else if cmd.type &&& cmd_type = 0 then .next true
  else .ret (run_command fl m cmd parse st last)

/-- The inner loop `for ( ; cmd->name.len; cmd++)` of `ngx_conf_handler`. -/
def commands_loop {σ : Type} (fl : conf_flags) (module_type cmd_type : Nat)
    (m : ngx_module_t σ) (parse : parse_fn σ) (st : parse_t σ) (last : Int) :
    List (ngx_command_t σ) → Bool → cmd_result σ
  | [], found => .next found
  | cmd :: rest, found =>
    if cmd.name.length = 0 then .next found
    else
      match command_step fl module_type cmd_type m cmd parse st last found with
      | .next f => commands_loop fl module_type cmd_type m parse st last rest f
      | .ret r => .ret r

/-- The outer loop `for (i = 0; ngx_modules[i]; i++)` of `ngx_conf_handler` and what
follows it. -/
def modules_loop {σ : Type} (fl : conf_flags) (module_type cmd_type : Nat)
    (parse : parse_fn σ) (st : parse_t σ) (last : Int) :
    List (ngx_module_t σ) → Bool → Option (Int × parse_t σ)
  | [], found =>
    if found then some (NGX_ERROR, conf_log st (.not_allowed (st.cf.args.getD 0 [])))
    else some (NGX_ERROR, conf_log st (.unknown_directive (st.cf.args.getD 0 [])))
  | m :: rest, found =>
    match m.commands with
    | none => modules_loop fl module_type cmd_type parse st last rest found
    | some cmds =>
      match commands_loop fl module_type cmd_type m parse st last cmds found with
      | .next f => modules_loop fl module_type cmd_type parse st last rest f
      | .ret r => r

/-- The function `ngx_conf_handler(cf, last)` for the module table `modules`
(`ngx_modules`); `module_type` and `cmd_type` read `cf->module_type` and `cf->cmd_type`
from the state. `none` is returned when a setter does not return within its bound or an
element outside the table `argument_number` is read. -/
def ngx_conf_handler {σ : Type} (fl : conf_flags) (modules : List (ngx_module_t σ))
    (module_type cmd_type : parse_t σ → Nat) : dispatch_fn σ :=
  fun parse st last =>
    modules_loop fl (module_type st) (cmd_type st) parse st last modules false

/-- The commands of the module table in the order in which `ngx_conf_handler` looks at
them, each with its module: for every module with commands, those in front of the first
one with an empty name. -/
def all_commands {σ : Type} :
    List (ngx_module_t σ) → List (ngx_module_t σ × ngx_command_t σ)
  | [] => []
  | m :: rest =>
    (match m.commands with
      | none => []
      | some cmds => (cmds.takeWhile (fun c => c.name.length != 0)).map (fun c => (m, c)))
    ++ all_commands rest

/-- The command has the name of the directive. -/
def name_matches {σ : Type} (st : parse_t σ) (mc : ngx_module_t σ × ngx_command_t σ) : Bool :=
  mc.2.name == st.cf.args.getD 0 []

/-- The command has the name of the directive, its module is of the type `NGX_CONF_MODULE`
or `cf->module_type`, and its type has a bit of `cf->cmd_type`. -/
def cmd_matches {σ : Type} (fl : conf_flags) (module_type cmd_type : Nat) (st : parse_t σ)
    (mc : ngx_module_t σ × ngx_command_t σ) : Bool :=
  name_matches st mc &&
  (mc.1.type == fl.NGX_CONF_MODULE || mc.1.type == module_type) &&
  (mc.2.type &&& cmd_type != 0)

/-- The dispatch as the claim describes it: the first command of the table that matches
is run; when there is none, an error is logged and `NGX_ERROR` returned. -/
def dispatch_first {σ : Type} (fl : conf_flags) (modules : List (ngx_module_t σ))
    (module_type cmd_type : parse_t σ → Nat) : dispatch_fn σ :=
  fun parse st last =>
    match (all_commands modules).find? (cmd_matches fl (module_type st) (cmd_type st) st) with
    | some mc => run_command fl mc.1 mc.2 parse st last
    | none =>
      if (all_commands modules).any (name_matches st) then
        some (NGX_ERROR, conf_log st (.not_allowed (st.cf.args.getD 0 [])))
      else some (NGX_ERROR, conf_log st (.unknown_directive (st.cf.args.getD 0 [])))

/-- The argument count is right, in the words of the claim: for a type without
`NGX_CONF_ANY`, with `NGX_CONF_FLAG` there is exactly one argument, otherwise with
`NGX_CONF_1MORE` at least one, otherwise with `NGX_CONF_2MORE` at least two, otherwise
there are at most `NGX_CONF_MAX_ARGS` words and the type has the bit `NGX_CONF_TAKEk`
(`NGX_CONF_NOARGS` for `k = 0`) of the number `k` of arguments. -/
def args_ok (fl : conf_flags) (type k : Nat) : Prop :=
  type &&& fl.NGX_CONF_ANY ≠ 0 ∨
  (type &&& fl.NGX_CONF_ANY = 0 ∧
    if type &&& fl.NGX_CONF_FLAG ≠ 0 then k = 1
    else if type &&& fl.NGX_CONF_1MORE ≠ 0 then 1 ≤ k
    else if type &&& fl.NGX_CONF_2MORE ≠ 0 then 2 ≤ k
    else k + 1 ≤ fl.NGX_CONF_MAX_ARGS ∧
      ∃ a, [fl.NGX_CONF_NOARGS, fl.NGX_CONF_TAKE1, fl.NGX_CONF_TAKE2, fl.NGX_CONF_TAKE3,
        fl.NGX_CONF_TAKE4, fl.NGX_CONF_TAKE5, fl.NGX_CONF_TAKE6, fl.NGX_CONF_TAKE7][k]? = some a ∧
        type &&& a ≠ 0)

/-- A stand-in for the setter of a directive: it records the directive and returns
`NGX_CONF_OK`. -/
def record_set : conf_ref → parse_fn directive_trace → parse_t directive_trace →
    Option (conf_rv × parse_t directive_trace) :=
  fun _ _ st => some (.NGX_CONF_OK, { st with ctx := st.ctx ++ [(st.cf.args, NGX_OK)] })

/-- A small module table: `daemon` and `worker_cpu_affinity` with the types that
`ngx_core_commands` gives them and `events` as a block in a core module (type `CORE`),
and `include` of `ngx_conf_commands` in a module of the type `NGX_CONF_MODULE`; every
array ends with an element with an empty name. The setters are stand-ins. -/
def example_modules : List (ngx_module_t directive_trace) :=
  [{ index := 0, ctx_index := 0, type := 0x45524F43,
     commands := some [
       { name := bytes "daemon", type := 0x01000000 ||| 0x00010000 ||| 0x00000200, conf := 0,
         set := record_set },
       { name := bytes "worker_cpu_affinity",
         type := 0x01000000 ||| 0x00010000 ||| 0x00000800, conf := 0, set := record_set },
       { name := bytes "events", type := 0x01000000 ||| 0x00000100 ||| 0x00000001, conf := 0,
         set := record_set },
       { name := [], type := 0, conf := 0, set := record_set }] },
   { index := 1, ctx_index := 0, type := 0x464E4F43,
     commands := some [
       { name := bytes "include", type := 0x0F000000 ||| 0x00000002, conf := 0,
         set := record_set },
       { name := [], type := 0, conf := 0, set := record_set }] }]

/-- A state in which the directive `args` has just been read from a file, in the main
context. -/
def directive_state (args : List (List Nat)) : parse_t directive_trace :=
  { init_state with
    cf := { (file_conf (bytes "nginx.conf") [] false) with args := args },
    conf_file_null := false }

/-! ## `ngx_conf_file.c`: the slot setters -/

/-- The value of type `char *` that a slot setter returns: `NGX_CONF_OK` (NULL),
`NGX_CONF_ERROR`, or an error message such as `"is duplicate"`. -/
inductive slot_rv where
  | NGX_CONF_OK
  | NGX_CONF_ERROR
  | message (text : String)
  deriving DecidableEq, Repr

/-- What the slot setters write to the log through `ngx_conf_log_error`. -/
inductive slot_msg where
  /-- The text `invalid value "%s" in "%s" directive, it must be "on" or "off"`. -/
  | flag_invalid (value name : List Nat)
  /-- The text `duplicate value "%s"`. -/
  | duplicate_value (value : List Nat)
  /-- The text `invalid value "%s"`. -/
  | invalid_value (value : List Nat)
  /-- The text `value must be equal to or greater than %i`. -/
  | at_least (low : Int)
  /-- The text `value must be between %i and %i`. -/
  | between (low high : Int)
  deriving DecidableEq, Repr

/-- Modelled from the spec: the macro `NGX_CONF_UNSET` (`ngx_conf_file.h` is not among
the sources), the value of a field that no directive has set. -/
abbrev NGX_CONF_UNSET : Int := -1

/-- Modelled from the spec: the macro `ngx_tolower` (`ngx_string.h` is not among the
sources): an upper-case ASCII letter becomes the lower-case one, every other byte
stays. -/
def ngx_tolower (c : Nat) : Nat := if 65 ≤ c ∧ c ≤ 90 then c + 32 else c

/-- Modelled from the spec: the test `ngx_strcasecmp(s1, s2) == 0` (`ngx_string.c` is
not among the sources). The function is given two pointers and no length, so each string
ends at its first NUL byte: `s1` and `s2` are the bytes at the pointers, behind which
the reader or the compiler has put a NUL. The two strings are equal when the case of the
ASCII letters is not told apart. -/
def ngx_strcasecmp (s1 s2 : List Nat) : Bool :=
  (c_str s1).map ngx_tolower == (c_str s2).map ngx_tolower

/-- What a slot setter leaves behind: the returned value, the field of the configuration
that `cmd->offset` selects, and the messages written to the log. -/
structure slot_result (α : Type) where
  rv : slot_rv
  field : α
  log : List slot_msg

/-- The function `ngx_conf_set_flag_slot`: `fp` is the field `*fp` on entry, `name` is
`cmd->name`, `args` are the elements of `cf->args`, and `post` is the handler
`cmd->post->post_handler` (`none`: `cmd->post` is NULL, as in the entries `daemon` and
`master_process` of `ngx_core_commands`), which gets the field and gives the value to
return and the field it leaves. Of the argument only the pointer `value[1].data` is
handed to `ngx_strcasecmp`, not its length. -/
def ngx_conf_set_flag_slot (post : Option (Int → slot_rv × Int)) (name : List Nat)
    (fp : Int) (args : List (List Nat)) : slot_result Int :=
  if fp ≠ NGX_CONF_UNSET then ⟨slot_rv.message "is duplicate", fp, []⟩
  else
    let value1 := args.getD 1 []
    if ngx_strcasecmp value1 (bytes "on") then
      match post with
      | some post_handler => ⟨(post_handler 1).1, (post_handler 1).2, []⟩
      | none => ⟨slot_rv.NGX_CONF_OK, 1, []⟩
    else if ngx_strcasecmp value1 (bytes "off") then
      match post with
      | some post_handler => ⟨(post_handler 0).1, (post_handler 0).2, []⟩
      | none => ⟨slot_rv.NGX_CONF_OK, 0, []⟩
    else ⟨slot_rv.NGX_CONF_ERROR, fp, [slot_msg.flag_invalid value1 name]⟩

/-- The type `ngx_bufs_t`: `num` is an `ngx_int_t`, `size` a `size_t`. -/
structure ngx_bufs_t where
  num : Int
  size : Nat
  deriving DecidableEq, Repr

/-- The function `ngx_conf_set_bufs_slot`: `bufs` is the field on entry, `args` are the
elements of `cf->args`; `max_int` is the largest `ngx_int_t` and `ngx_parse_size` the
function of that name (`ngx_parse.c` is not among the sources), whose result is
converted to `size_t` (64 bits) by the assignment. -/
def ngx_conf_set_bufs_slot (max_int : Nat) (ngx_parse_size : List Nat → Int)
    (bufs : ngx_bufs_t) (args : List (List Nat)) : slot_result ngx_bufs_t :=
  if bufs.num ≠ 0 then ⟨slot_rv.message "is duplicate", bufs, []⟩
  else
    let num := ngx_atoi max_int (args.getD 1 [])
    if num = NGX_ERROR ∨ num = 0 then
      ⟨slot_rv.message "invalid value", { bufs with num := num }, []⟩
    else
      let size := (ngx_parse_size (args.getD 2 []) % 2 ^ 64).toNat
      if size = (NGX_ERROR % 2 ^ 64).toNat ∨ size = 0 then
        ⟨slot_rv.message "invalid value", { num := num, size := size }, []⟩
      else ⟨slot_rv.NGX_CONF_OK, { num := num, size := size }, []⟩

/-- The type `ngx_conf_bitmask_t`: an entry of the table `cmd->post` of
`ngx_conf_set_bitmask_slot`. The table ends with an entry whose name is empty. -/
structure ngx_conf_bitmask_t where
  name : List Nat
  mask : Nat
  deriving DecidableEq, Repr

/-- The loop `for (m = 0; mask[m].name.len != 0; m++)` of `ngx_conf_set_bitmask_slot`
for the argument `value`: the mask of the first entry that the loop does not skip, or
`none` when the loop comes to the entry with the empty name (which also stands behind
the entries of the list). -/
def bitmask_find : List ngx_conf_bitmask_t → List Nat → Option Nat
  | [], _ => none
  | e :: rest, value =>
    if e.name.length = 0 then none
    else if e.name.length ≠ value.length ∨ ¬ ngx_strcasecmp e.name value then
      bitmask_find rest value
    else some e.mask

/-- The loop `for (i = 1; i < cf->args->nelts; i++)` of `ngx_conf_set_bitmask_slot` over
the arguments that are left, `np` being the field `*np`. -/
def bitmask_loop (mask : List ngx_conf_bitmask_t) :
    List (List Nat) → Nat → List slot_msg → slot_result Nat
  | [], np, log => ⟨slot_rv.NGX_CONF_OK, np, log⟩
  | value :: rest, np, log =>
    match bitmask_find mask value with
    | none => ⟨slot_rv.NGX_CONF_ERROR, np, log ++ [slot_msg.invalid_value value]⟩
    | some m =>
      if np &&& m ≠ 0 then
        bitmask_loop mask rest np (log ++ [slot_msg.duplicate_value value])
      else bitmask_loop mask rest (np ||| m) log

/-- The function `ngx_conf_set_bitmask_slot`: `mask` is the table `cmd->post`, `np` the
field `*np` on entry, `args` are the elements of `cf->args`. -/
def ngx_conf_set_bitmask_slot (mask : List ngx_conf_bitmask_t) (np : Nat)
    (args : List (List Nat)) : slot_result Nat :=
  bitmask_loop mask (args.drop 1) np []

/-- What the claim takes the field to be after the arguments: the old value OR-ed with
the masks of all of them. -/
def or_masks (np : Nat) (masks : List Nat) : Nat := masks.foldl (fun f m => f ||| m) np

/-- What `ngx_conf_set_bitmask_slot` does with the mask of one argument: a mask that
shares a bit with the field counts as repeated and adds nothing. -/
def add_mask (np m : Nat) : Nat := if np &&& m ≠ 0 then np else np ||| m

/-- The type `ngx_conf_num_bounds_t` without the handler. -/
structure ngx_conf_num_bounds_t where
  low : Int
  high : Int
  deriving DecidableEq, Repr

/-- The function `ngx_conf_check_num_bounds`: `bounds` is `post`, `np` the value `*np`
that `data` points to. The function only reads `*np`; the result holds the value after
the call. -/
def ngx_conf_check_num_bounds (bounds : ngx_conf_num_bounds_t) (np : Int) :
    slot_result Int :=
  if bounds.high = -1 then
    if np ≥ bounds.low then ⟨slot_rv.NGX_CONF_OK, np, []⟩
    else ⟨slot_rv.NGX_CONF_ERROR, np, [slot_msg.at_least bounds.low]⟩
  else if np ≥ bounds.low ∧ np ≤ bounds.high then ⟨slot_rv.NGX_CONF_OK, np, []⟩
  else ⟨slot_rv.NGX_CONF_ERROR, np, [slot_msg.between bounds.low bounds.high]⟩

/-! ## `nginx.c`: `worker_priority` -/

/-- The conversion of an `ngx_int_t` to `int` (32 bits) by an assignment. -/
def to_int (v : Int) : Int := (v + 2 ^ 31) % 2 ^ 32 - 2 ^ 31

/-- The function `ngx_set_priority`: `priority` is `ccf->priority` (an `int`) on entry,
`args` are the elements of `cf->args`, `max_int` is the largest `ngx_int_t`. The byte
`value[1].data[0]` of an empty argument is the NUL that ends it. The result holds the
returned value and `ccf->priority` after the call. -/
def ngx_set_priority (max_int : Nat) (priority : Int) (args : List (List Nat)) :
    slot_result Int :=
  if priority ≠ 0 then ⟨slot_rv.message "is duplicate", priority, []⟩
  else
    let value1 := args.getD 1 []
    let n := if value1.getD 0 0 = 45 then 1 else if value1.getD 0 0 = 43 then 1 else 0
    let minus := if value1.getD 0 0 = 45 then 1 else 0
    let p := to_int (ngx_atoi max_int (value1.drop n))
    if p = NGX_ERROR then ⟨slot_rv.message "invalid number", p, []⟩
    else if minus ≠ 0 then ⟨slot_rv.NGX_CONF_OK, to_int (-p), []⟩
    else ⟨slot_rv.NGX_CONF_OK, p, []⟩

/-- The value of a decimal number given by its digits. -/
def decimal_value (ds : List Nat) : Nat := ds.foldl (fun v c => v * 10 + (c - 48)) 0

/-! ## `ngx_http_variables.c` -/

/-- Modelled from the spec: the type `ngx_http_variable_value_t` (`ngx_string.h` is not
among the sources): the `len` bytes at `data` and the flags `valid`, `no_cacheable` and
`not_found`. -/
structure ngx_http_variable_value_t where
  data : List Nat
  valid : Bool
  no_cacheable : Bool
  not_found : Bool
  deriving DecidableEq, Repr

/-- Modelled from the spec: the type `ngx_table_elt_t` (`ngx_hash.h` is not among the
sources): a header with its hash, its key and its value. -/
structure ngx_table_elt_t where
  hash : Nat
  key : List Nat
  value : List Nat
  deriving DecidableEq, Repr

/-- The byte of a header key that `ngx_http_variable_unknown_header` compares with the
variable name: `ch |= 0x20` for `A` to `Z`, `_` for `-`. -/
def header_ch (ch : Nat) : Nat :=
  if ch ≥ 65 ∧ ch ≤ 90 then ch ||| 0x20
  else if ch = 45 then 95
  else ch

/-- The loop `for (n = 0; n + prefix < var->len && n < header[i].key.len; n++)` of
`ngx_http_variable_unknown_header`: the value of `n` behind the loop. The loop ends
after at most `key.len` increments. -/
def header_key_loop (var key : List Nat) (prefix_ : Nat) : Nat → Nat → Nat
  | 0, n => n
  | fuel + 1, n =>
    if n + prefix_ < var.length ∧ n < key.length then
      if var.getD (n + prefix_) 0 ≠ header_ch (key.getD n 0) then n
      else header_key_loop var key prefix_ fuel (n + 1)
    else n

/-- The loop `for (i = 0; /* void */ ; i++)` of `ngx_http_variable_unknown_header` over
the parts of the list: `part` are the elements of the current part, `next` the parts
behind it. The result is the header found (`some none`: the loop ends at the last
part); `none` stands for a read of `header[i]` outside the elements of the part, and
for too few iterations. -/
def unknown_header_loop (var : List Nat) (prefix_ : Nat) :
    Nat → List ngx_table_elt_t → List (List ngx_table_elt_t) → Nat →
      Option (Option ngx_table_elt_t)
  | 0, _, _, _ => none
  | fuel + 1, part, next, i =>
    let st : Option (List ngx_table_elt_t × List (List ngx_table_elt_t) × Nat) :=
      if i ≥ part.length then
        match next with
        | [] => none
        | p :: rest => some (p, rest, 0)
      else some (part, next, i)
    match st with
    | none => some none
    | some (part, next, i) =>
      match part[i]? with
      | none => none
      | some h =>
        if h.hash = 0 then unknown_header_loop var prefix_ fuel part next (i + 1)
        else
          let n := header_key_loop var h.key prefix_ (h.key.length + 1) 0
          if n + prefix_ = var.length ∧ n = h.key.length then some (some h)
          else unknown_header_loop var prefix_ fuel part next (i + 1)

/-- The function `ngx_http_variable_unknown_header`: `v` is the value on entry, `var` the
name of the variable, `part` the first part of the list with the parts `next` behind it.
The result is the returned code with the value `*v`. -/
def ngx_http_variable_unknown_header (v : ngx_http_variable_value_t) (var : List Nat)
    (part : List ngx_table_elt_t) (next : List (List ngx_table_elt_t)) (prefix_ : Nat) :
    Option (Int × ngx_http_variable_value_t) :=
  match unknown_header_loop var prefix_ ((part ++ next.flatten).length + 1) part next 0 with
  | none => none
  | some (some h) =>
    some (NGX_OK, { data := h.value, valid := true, no_cacheable := false,
                    not_found := false })
  | some none => some (NGX_OK, { v with not_found := true })

/-- The header matches the variable as the claim words it: its hash is not zero and its
key, with `A` to `Z` in lower case and `-` as `_`, is the name of the variable without
its first `prefix` bytes. -/
def header_matches (var : List Nat) (prefix_ : Nat) (h : ngx_table_elt_t) : Bool :=
  h.hash != 0 && (h.key.map header_ch == var.drop prefix_)

/-- The first loop of `ngx_http_variable_headers_internal`: `len` behind it. -/
def headers_len (h : List ngx_table_elt_t) : Nat :=
  h.foldl (fun len e => if e.hash = 0 then len else len + (e.value.length + 2)) 0

/-- The second loop of `ngx_http_variable_headers_internal`,
`for (i = 0; /* void */ ; i++)`: `out` are the bytes written so far, between the
allocation and `p`; `len` is the size of the allocation, so that `p == end` is
`out.length = len`. The result is what was written, with the index at which the loop
stops; `none` stands for a read of `h[i]` outside the array, for a write behind `end`,
and for too few iterations. -/
def headers_copy (h : List ngx_table_elt_t) (sep len : Nat) :
    Nat → Nat → List Nat → Option (List Nat × Nat)
  | 0, _, _ => none
  | fuel + 1, i, out =>
    match h[i]? with
    | none => none
    | some e =>
      if e.hash = 0 then headers_copy h sep len fuel (i + 1) out
      else if out.length + e.value.length > len then none
      else if (out ++ e.value).length = len then some (out ++ e.value, i)
      else if (out ++ e.value).length + 2 > len then none
      else headers_copy h sep len fuel (i + 1) (out ++ e.value ++ [sep, 32])

/-- The function `ngx_http_variable_headers_internal`: `v` is the value on entry, `h` the
array of headers that `data` selects, `sep` the separator. The result is the returned
code with the value `*v`. (`ngx_pnalloc` does not fail; the sum of the lengths stays
below the range of `size_t`.) -/
def ngx_http_variable_headers_internal (v : ngx_http_variable_value_t)
    (h : List ngx_table_elt_t) (sep : Nat) : Option (Int × ngx_http_variable_value_t) :=
  if headers_len h = 0 then some (NGX_OK, { v with not_found := true })
  else
    let len := headers_len h - 2
    if h.length = 1 then
      match h[0]? with
      | none => none
      | some e =>
        some (NGX_OK, { data := e.value, valid := true, no_cacheable := false,
                        not_found := false })
    else
      match headers_copy h sep len (h.length + 1) 0 [] with
      | none => none
      | some (out, _) =>
        some (NGX_OK, { data := out, valid := true, no_cacheable := false,
                        not_found := false })

/-- The values of the headers whose hash is not zero, joined by the separator and a
space. -/
def joined_values (h : List ngx_table_elt_t) (sep : Nat) : List Nat :=
  List.intercalate [sep, 32] ((h.filter (fun e => e.hash != 0)).map (fun e => e.value))

/-- The type `ngx_http_variable_t`; the handlers are given by a number (`none`: NULL). -/
structure ngx_http_variable_t where
  name : List Nat
  set_handler : Option Nat
  get_handler : Option Nat
  data : Nat
  flags : Nat
  index : Nat
  deriving DecidableEq, Repr

/-- Modelled from the spec: the test `ngx_strncasecmp(s1, s2, n) == 0` (`ngx_string.c`
is not among the sources): the first `n` bytes of the two strings are equal when the
case of the ASCII letters is not told apart. -/
def ngx_strncasecmp (s1 s2 : List Nat) (n : Nat) : Bool :=
  (s1.take n).map ngx_tolower == (s2.take n).map ngx_tolower

/-- Modelled from the spec: the function `ngx_strlow(dst, src, n)` (`ngx_string.c` is not
among the sources): the `n` bytes written to `dst`, the first `n` bytes of `src` in
lower case. -/
def ngx_strlow (src : List Nat) (n : Nat) : List Nat := (src.take n).map ngx_tolower

/-- The loop `for (i = 0; i < cmcf->variables.nelts; i++)` of
`ngx_http_get_variable_index` over the elements from the index `i` on: the index it
returns, or `none` when it ends. -/
def variables_find (name : List Nat) : List ngx_http_variable_t → Nat → Option Nat
  | [], _ => none
  | e :: rest, i =>
    if name.length ≠ e.name.length ∨ ¬ ngx_strncasecmp name e.name name.length then
      variables_find name rest (i + 1)
    else some i

/-- The result of `ngx_http_get_variable_index`: the returned value, the array
`cmcf->variables` (`none`: `elts` is NULL) and whether the error was logged. -/
structure variable_index_result where
  rc : Int
  variables_ : Option (List ngx_http_variable_t)
  logged : Bool
  deriving DecidableEq, Repr

/-- The tail of `ngx_http_get_variable_index` from `ngx_array_push` on, for the elements
`v` of the array. -/
def variables_push (v : List ngx_http_variable_t) (name : List Nat) :
    variable_index_result :=
  let nelts := v.length + 1
  let e : ngx_http_variable_t :=
    { name := ngx_strlow name name.length, set_handler := none, get_handler := none,
      data := 0, flags := 0, index := nelts - 1 }
  { rc := (e.index : Int), variables_ := some (v ++ [e]), logged := false }

/-- The function `ngx_http_get_variable_index`: `variables` is `cmcf->variables` on entry
(`none`: `elts` is NULL). (`ngx_array_init`, `ngx_array_push` and `ngx_pnalloc` do not
fail.) -/
def ngx_http_get_variable_index (variables_ : Option (List ngx_http_variable_t))
    (name : List Nat) : variable_index_result :=
  if name.length = 0 then { rc := NGX_ERROR, variables_ := variables_, logged := true }
  else
    match variables_ with
    | none => variables_push [] name
    | some v =>
      match variables_find name v 0 with
      | some i => { rc := (i : Int), variables_ := variables_, logged := false }
      | none => variables_push v name

/-- The elements of `cmcf->variables`. -/
def variables_elts (variables_ : Option (List ngx_http_variable_t)) :
    List ngx_http_variable_t :=
  variables_.getD []

/-- The array after calls of `ngx_http_get_variable_index` with the names `names`, one
after the other. -/
def variables_after (variables_ : Option (List ngx_http_variable_t))
    (names : List (List Nat)) : Option (List ngx_http_variable_t) :=
  names.foldl (fun vs name => (ngx_http_get_variable_index vs name).variables_) variables_

/-- The names are equal up to the case of the ASCII letters. -/
def same_name (a b : List Nat) : Prop := a.map ngx_tolower = b.map ngx_tolower

/-- The part of a request and of the main configuration that the indexed variables
use: the array `r->variables`, the indexes with which a get handler was called, in the
order of the calls, and the number of alerts logged. -/
structure variables_request_t where
  variables_ : List ngx_http_variable_value_t
  calls : List Nat
  alerts : Nat
  deriving DecidableEq, Repr

/-- What the indexed variables take from outside: the number of elements of
`cmcf->variables`, the flags of each of them, the macro `NGX_HTTP_VAR_NOCACHEABLE`
(`ngx_http_variables.h` is not among the sources), and the get handlers: the handler
of the variable `index` is called with the request, of which it may change
`r->variables`, and gives the code it returns. -/
structure variables_conf_t where
  nelts : Nat
  flags : Nat → Nat
  NGX_HTTP_VAR_NOCACHEABLE : Nat
  get_handler : Nat → List ngx_http_variable_value_t → Int × List ngx_http_variable_value_t

/-- The result of `ngx_http_get_indexed_variable`: the element of `r->variables` that the
returned pointer points to (`none`: NULL) and the request. -/
structure indexed_result where
  ret : Option Nat
  r : variables_request_t
  deriving DecidableEq, Repr

/-- The element `index` of `r->variables` replaced by `slot`. -/
def set_slot (variables_ : List ngx_http_variable_value_t) (index : Nat)
    (slot : ngx_http_variable_value_t) : List ngx_http_variable_value_t :=
  variables_.set index slot

/-- The function `ngx_http_get_indexed_variable`; `none` stands for an access outside
`r->variables`. -/
def ngx_http_get_indexed_variable (c : variables_conf_t) (r : variables_request_t)
    (index : Nat) : Option indexed_result :=
  if c.nelts ≤ index then some ⟨none, { r with alerts := r.alerts + 1 }⟩
  else
    match r.variables_[index]? with
    | none => none
    | some slot =>
      if slot.not_found ∨ slot.valid then some ⟨some index, r⟩
      else
        let res := c.get_handler index r.variables_
        let calls := r.calls ++ [index]
        match res.2[index]? with
        | none => none
        | some slot1 =>
          if res.1 = NGX_OK then
            if c.flags index &&& c.NGX_HTTP_VAR_NOCACHEABLE ≠ 0 then
              let vs := set_slot res.2 index { slot1 with no_cacheable := true }
              some ⟨some index, { r with variables_ := vs, calls := calls }⟩
            else some ⟨some index, { r with variables_ := res.2, calls := calls }⟩
          else
            let vs := set_slot res.2 index { slot1 with valid := false, not_found := true }
            some ⟨none, { r with variables_ := vs, calls := calls }⟩

/-- The function `ngx_http_get_flushed_variable`; `none` stands for an access outside
`r->variables`. -/
def ngx_http_get_flushed_variable (c : variables_conf_t) (r : variables_request_t)
    (index : Nat) : Option indexed_result :=
  match r.variables_[index]? with
  | none => none
  | some v =>
    if v.valid ∨ v.not_found then
      if ¬ v.no_cacheable then some ⟨some index, r⟩
      else
        let vs := set_slot r.variables_ index { v with valid := false, not_found := false }
        ngx_http_get_indexed_variable c { r with variables_ := vs } index
    else ngx_http_get_indexed_variable c r index

/-! ## The copy loop of `ngx_conf_read_token` with its indexes -/

/-- The variables of the copy loop of `ngx_conf_read_token`: the bytes written through
`dst` so far, the source index `src` and the counter `len`. -/
structure copy_state where
  dst : List Nat
  src : Nat
  len : Nat
  deriving DecidableEq, Repr

/-- The copy loop of `ngx_conf_read_token`
(`for (dst = word->data, src = start, len = 0; src < b->pos - 1; len++)`) run for at
most `fuel` iterations from the state `s`, with the bound `stop = b->pos - 1`. -/
def copy_run (data : List Nat) (stop : Nat) : Nat → copy_state → copy_state
  | 0, s => s
  | fuel + 1, s =>
    if s.src < stop then
      if data.getD s.src 0 = BSLASH then
        let c := data.getD (s.src + 1) 0
        if c = DQUOTE ∨ c = SQUOTE ∨ c = BSLASH then
          -- src++; then *dst++ = *src++
          copy_run data stop fuel ⟨s.dst ++ [data.getD (s.src + 1) 0], s.src + 2, s.len + 1⟩
        else if c = 116 then
          copy_run data stop fuel ⟨s.dst ++ [TAB], s.src + 2, s.len + 1⟩
        else if c = 114 then
          copy_run data stop fuel ⟨s.dst ++ [CR], s.src + 2, s.len + 1⟩
        else if c = 110 then
          copy_run data stop fuel ⟨s.dst ++ [LF], s.src + 2, s.len + 1⟩
        else
          copy_run data stop fuel ⟨s.dst ++ [data.getD s.src 0], s.src + 1, s.len + 1⟩
      else
        copy_run data stop fuel ⟨s.dst ++ [data.getD s.src 0], s.src + 1, s.len + 1⟩
    else s

/-- The copy of the token `[start, b->pos - 1)`: the state behind the loop. Every
iteration advances `src`, so `b->pos - 1 - start` iterations are enough. -/
def copy_word (data : List Nat) (start pos : Nat) : copy_state :=
  copy_run data (pos - 1) (pos - 1 - start) ⟨[], start, 0⟩

/-- The copy of the token `[start, b->pos - 1)` is in bounds: the loop has ended, it
has written the bytes that `copy_token` gives, these and the NUL behind them fit the
`b->pos - 1 - start + 1` bytes allocated, `len` is their number, and `src` is at the end
of the token and was never behind it, after any number of iterations. -/
def copy_in_bounds (data : List Nat) (start pos : Nat) : Prop :=
  ¬ (copy_word data start pos).src < pos - 1 ∧
  (copy_word data start pos).dst = copy_token data start pos ∧
  (copy_word data start pos).dst.length + 1 ≤ pos - 1 - start + 1 ∧
  (copy_word data start pos).len = (copy_word data start pos).dst.length ∧
  (copy_word data start pos).src = pos - 1 ∧
  ∀ k, (copy_run data (pos - 1) k ⟨[], start, 0⟩).src ≤ pos - 1

/-- What holds of the bytes `tok` since the token mark in every state of a call of
`ngx_conf_read_token`: a comment is open only where a token may start, and inside a
token the flag `quoted` says that the last backslash still waits for its byte. -/
def esc_inv (l : token_locals) (tok : List Nat) : Prop :=
  (l.sharp_comment = true → l.last_space = true) ∧
  (l.last_space = false → escapes_closed tok = !l.quoted)

/-- The property of the bytes since the mark after one more byte: `esc_inv` holds
again, and a token is found only with every backslash followed by a byte of the
token. -/
def esc_act (tok : List Nat) (ch : Nat) : act → Prop
  | .go l1 m => esc_inv l1 (apply_mark m tok ch)
  | .word l1 => escapes_closed tok = true ∧ esc_inv l1 (tok ++ [ch])
  | _ => True

/-! ## Theorems -/

/-! ### The loop body and `char_act` -/

set_option maxHeartbeats 1000000 in
theorem token_char_tail_act (l : token_locals) (cf : ngx_conf_t) (ch : Nat) :
    token_char_tail l cf ch =
      run_act (char_act_tail l (decide (cf.args.length = 0)) cf.conf_file.line ch)
        l.start cf ch := by
  obtain ⟨ns, ls, sc, v, q, sq, dq, st, sl⟩ := l
  unfold token_char_tail char_act_tail
  cases ls
  · simp only [Bool.false_eq_true, if_false]
    split_ifs <;> simp_all [run_act, mark_start, token_found]
  · simp only [if_true]
    split_ifs <;> simp_all [run_act, mark_start, token_found]

set_option maxHeartbeats 1000000 in
theorem token_char_act (l : token_locals) (cf : ngx_conf_t) (ch : Nat) :
    token_char l cf ch =
      run_act (char_act l (decide (cf.args.length = 0)) (count_line cf ch).conf_file.line ch)
        l.start (count_line cf ch) ch := by
  obtain ⟨ns, ls, sc, v, q, sq, dq, st, sl⟩ := l
  unfold token_char char_act
  simp only [token_char_tail_act]
  unfold count_line
  split_ifs <;> simp_all [run_act, mark_start, token_found]

set_option maxHeartbeats 1000000 in
theorem char_act_tail_start (l : token_locals) (s : Nat) (n : Bool) (line ch : Nat) :
    char_act_tail { l with start := s } n line ch
      = act_set_start s (char_act_tail l n line ch) := by
  obtain ⟨ns, ls, sc, v, q, sq, dq, st, sl⟩ := l
  unfold char_act_tail
  cases ls
  · simp only [Bool.false_eq_true, if_false]
    split_ifs <;> simp_all [act_set_start]
  · simp only [if_true]
    split_ifs <;> simp_all [act_set_start]

set_option maxHeartbeats 1000000 in
theorem char_act_start (l : token_locals) (s : Nat) (n : Bool) (line ch : Nat) :
    char_act { l with start := s } n line ch = act_set_start s (char_act l n line ch) := by
  obtain ⟨ns, ls, sc, v, q, sq, dq, st, sl⟩ := l
  have h := fun ns ls sc v q sq dq =>
    char_act_tail_start ⟨ns, ls, sc, v, q, sq, dq, st, sl⟩ s n line ch
  simp only at h
  unfold char_act
  by_cases hlf : ch = LF
  · subst hlf
    cases q <;> cases ns <;> simp [act_set_start, is_space, h]
  · simp only [hlf, if_false]
    cases sc <;> cases q <;> cases ns <;> simp only [Bool.false_eq_true, if_true, if_false, act_set_start, h]
    split_ifs <;> simp only [act_set_start, h]

theorem too_long_msg_start (l : token_locals) (s : Nat) :
    too_long_msg { l with start := s } = too_long_msg l := rfl

theorem scan_start (g fdv : Bool) (rest : List Nat) :
    ∀ (l : token_locals) (s : Nat) (tok : List Nat) (line : Nat) (args : List (List Nat)),
      scan g fdv rest { l with start := s } tok line args = scan g fdv rest l tok line args := by
  induction rest with
  | nil => intro l s tok line args; simp [scan]
  | cons ch rest ih =>
    intro l s tok line args
    simp only [scan, char_act_start, too_long_msg_start]
    cases h : char_act l (decide (args.length = 0)) (if ch = LF then line + 1 else line) ch with
    | go l1 m => simp only [act_set_start, ih]
    | word l1 => simp only [act_set_start, ih]
    | stop rc => simp only [act_set_start]
    | fail m => simp only [act_set_start]

/-! ### The copy loop reads only the token and its terminator -/

theorem getD_drop (data : List Nat) (s i : Nat) :
    (data.drop s).getD i 0 = data.getD (s + i) 0 := by
  simp [List.getD_eq_getElem?_getD, List.getElem?_drop]

theorem getD_take (data : List Nat) (n i : Nat) (h : i < n) :
    (data.take n).getD i 0 = data.getD i 0 := by
  simp [List.getD_eq_getElem?_getD, List.getElem?_take, h]

theorem copy_loop_drop (data : List Nat) (s k : Nat) :
    ∀ (fuel i : Nat),
      copy_loop data (s + k) fuel (s + i) = copy_loop (data.drop s) k fuel i := by
  intro fuel
  induction fuel with
  | zero => intro i; rfl
  | succ fuel ih =>
    intro i
    have h1 := ih (i + 1)
    have h2 := ih (i + 2)
    simp only [← Nat.add_assoc] at h1 h2
    simp only [copy_loop, getD_drop, Nat.add_lt_add_iff_left, ← Nat.add_assoc, h1, h2]

theorem copy_loop_take (data : List Nat) (k n : Nat) (h : k < n) :
    ∀ (fuel i : Nat), copy_loop (data.take n) k fuel i = copy_loop data k fuel i := by
  intro fuel
  induction fuel with
  | zero => intro i; rfl
  | succ fuel ih =>
    intro i
    simp only [copy_loop]
    by_cases hi : i < k
    · have e1 : (data.take n).getD i 0 = data.getD i 0 := getD_take data n i (by omega)
      have e2 : (data.take n).getD (i + 1) 0 = data.getD (i + 1) 0 :=
        getD_take data n (i + 1) (by omega)
      simp only [e1, e2, ih]
    · simp only [hi, if_false]

theorem copy_token_window (data tok : List Nat) (ch s p : Nat) (hs : s + 1 ≤ p)
    (hp : p ≤ data.length) (hw : (data.drop s).take (p - s) = tok ++ [ch]) :
    copy_token data s p = copy_token (tok ++ [ch]) 0 (tok.length + 1) := by
  have hlen : tok.length + 1 = min (p - s) (data.length - s) := by
    have := congrArg List.length hw
    simpa [List.length_take, List.length_drop] using this.symm
  have hk : p - 1 - s < p - s := by omega
  have h1 := copy_loop_drop data s (p - 1 - s) (p - 1 - s) 0
  have h2 := copy_loop_take (data.drop s) (p - 1 - s) (p - s) hk (p - 1 - s) 0
  have e : s + (p - 1 - s) = p - 1 := by omega
  unfold copy_token
  rw [e, Nat.add_zero] at h1
  rw [h1, ← h2, hw]
  have e2 : p - 1 - s = tok.length := by omega
  simp [e2]

/-! ### One loop iteration in terms of the byte stream -/

theorem token_iter_eof (l : token_locals) (cf : ngx_conf_t)
    (hup : upcoming cf = []) :
    token_iter l cf =
      if cf.args.length > 0 ∨ l.last_space = false then
        if cf.conf_file.fd_valid = false then
          .ret NGX_ERROR (ngx_conf_log_error cf .unexpected_end_of_parameter)
        else .ret NGX_ERROR (ngx_conf_log_error cf .unexpected_end_of_file)
      else .ret NGX_CONF_FILE_DONE cf := by
  unfold upcoming at hup
  rw [List.append_eq_nil] at hup
  have h1 : cf.conf_file.buffer.data.length ≤ cf.conf_file.buffer.pos := by
    simpa using hup.1
  have h2 : cf.conf_file.content.length ≤ cf.conf_file.offset := by
    simpa using hup.2
  unfold token_iter
  simp only [ge_iff_le, h1, h2, if_true]

theorem pending_length (l : token_locals) (cf : ngx_conf_t)
    (h1 : l.start ≤ cf.conf_file.buffer.pos)
    (h2 : cf.conf_file.buffer.pos ≤ cf.conf_file.buffer.data.length) :
    (pending l cf).length = cf.conf_file.buffer.pos - l.start := by
  unfold pending
  simp only [List.length_take, List.length_drop]
  omega

theorem token_iter_guard (l : token_locals) (cf : ngx_conf_t) (ch : Nat) (rest : List Nat)
    (hwf : wf true l cf) (hup : upcoming cf = ch :: rest)
    (hg : (pending l cf).length = NGX_CONF_BUFFER) :
    token_iter l cf =
      .ret NGX_ERROR (ngx_conf_log_error
        { cf with conf_file := { cf.conf_file with line := l.start_line } } (too_long_msg l)) := by
  obtain ⟨h1, h2, h3⟩ := hwf
  simp only [if_true] at h3
  rw [pending_length l cf h1 h2] at hg
  have hpos : cf.conf_file.buffer.data.length ≤ cf.conf_file.buffer.pos := by omega
  have hd : cf.conf_file.buffer.data.drop cf.conf_file.buffer.pos = [] := by
    simpa using hpos
  have hoff : ¬ cf.conf_file.content.length ≤ cf.conf_file.offset := by
    intro hc
    have : cf.conf_file.content.drop cf.conf_file.offset = [] := by simpa using hc
    simp [upcoming, hd, this] at hup
  unfold token_iter too_long_msg
  simp only [ge_iff_le, hpos, hoff, hg, if_true, if_false]
  split_ifs <;> rfl

theorem token_iter_step (g : Bool) (l : token_locals) (cf : ngx_conf_t) (ch : Nat)
    (rest : List Nat) (hwf : wf g l cf) (hup : upcoming cf = ch :: rest)
    (hg : ¬(g = true ∧ (pending l cf).length = NGX_CONF_BUFFER)) :
    ∃ (s1 : Nat) (cf2 : ngx_conf_t),
      token_iter l cf = token_char { l with start := s1 } cf2 ch ∧
      s1 + 1 ≤ cf2.conf_file.buffer.pos ∧
      wf g { l with start := s1 } cf2 ∧
      (cf2.conf_file.buffer.data.drop s1).take (cf2.conf_file.buffer.pos - s1)
        = pending l cf ++ [ch] ∧
      upcoming cf2 = rest ∧ cf2.args = cf.args ∧ cf2.log = cf.log ∧
      cf2.conf_file.line = cf.conf_file.line ∧ same_file cf cf2 := by
  have hplen := pending_length l cf hwf.1 hwf.2.1
  obtain ⟨args, ⟨name, content, fdv, offset, ⟨data, pos, cap⟩, dump, line⟩, log⟩ := cf
  obtain ⟨h1, h2, h3⟩ := hwf
  simp only at h1 h2 h3 hplen
  simp only [upcoming] at hup
  by_cases hpos : data.length ≤ pos
  · -- the buffer is used up: it is refilled
    have hpe : pos = data.length := by omega
    have hd : data.drop pos = [] := by simpa using hpos
    rw [hd, List.nil_append] at hup
    have hoff : offset < content.length := by
      by_contra hc
      have : content.drop offset = [] := by simpa using (not_lt.mp hc)
      rw [this] at hup; cases hup
    have hgt : g = true := by
      cases g
      · simp at h3; omega
      · rfl
    subst hgt
    simp only [if_true] at h3
    have hlen : pos - l.start ≠ NGX_CONF_BUFFER := by
      intro hc; exact hg ⟨rfl, by rw [hplen]; exact hc⟩
    have hmoved : (data.drop l.start).take (pos - l.start) = pending l
        ⟨args, ⟨name, content, fdv, offset, ⟨data, pos, cap⟩, dump, line⟩, log⟩ := rfl
    obtain ⟨hcap, hdl⟩ := h3
    set size := if content.length - offset > cap - (pos - l.start)
      then cap - (pos - l.start) else content.length - offset with hsize
    have hsz1 : 1 ≤ size := by
      rw [hsize]; split_ifs <;> omega
    have hsz2 : size ≤ content.length - offset := by
      rw [hsize]; split_ifs <;> omega
    have hsz3 : pos - l.start + size ≤ cap := by
      rw [hsize]; split_ifs <;> omega
    have hrd : ((content.drop offset).take size).length = size := by
      simp only [List.length_take, List.length_drop]; omega
    have hrd2 : (content.drop offset).take size = ch :: rest.take (size - 1) := by
      rw [hup]
      obtain ⟨k, hk⟩ : ∃ k, size = k + 1 := ⟨size - 1, by omega⟩
      rw [hk]; simp
    have hdrop : content.drop (offset + size) = rest.drop (size - 1) := by
      rw [← List.drop_drop, hup]
      obtain ⟨k, hk⟩ : ∃ k, size = k + 1 := ⟨size - 1, by omega⟩
      rw [hk]; simp
    refine ⟨0, ⟨args, ⟨name, content, fdv, offset + size,
      ⟨pending l ⟨args, ⟨name, content, fdv, offset, ⟨data, pos, cap⟩, dump, line⟩, log⟩
        ++ (content.drop offset).take size, pos - l.start + 1, cap⟩,
      dump.map (fun d => d ++ (content.drop offset).take size), line⟩, log⟩, ?_, ?_, ?_, ?_, ?_,
      rfl, rfl, rfl, ⟨rfl, rfl, rfl, rfl⟩⟩
    · unfold token_iter
      simp only [ge_iff_le, hpos, if_true, not_le.mpr hoff, if_false, hlen, ngx_read_file,
        ← hsize, hrd, ne_eq, not_true_eq_false, hmoved]
      congr 1
      rw [hrd2, ← hplen, List.getD_append_right _ _ _ _ (le_refl _)]
      simp
    · simp
    · refine ⟨by simp, ?_, ?_⟩
      · simp only [List.length_append, hrd, hplen]; omega
      · simp only [if_true, List.length_append, hrd, hplen]
        exact ⟨hcap, by omega⟩
    · simp only [List.drop_zero, Nat.sub_zero, hrd2, ← hplen]
      rw [List.take_append_eq_append_take]
      simp
    · simp only [upcoming, hrd2, ← hplen, hdrop]
      rw [List.drop_append_eq_append_drop]
      simp
  · -- a byte is left in the buffer
    have hlt : pos < data.length := not_le.mp hpos
    obtain ⟨c, t, hct⟩ : ∃ c t, data.drop pos = c :: t := by
      cases hdp : data.drop pos with
      | nil => simp at hdp; omega
      | cons c t => exact ⟨c, t, rfl⟩
    rw [hct] at hup
    simp only [List.cons_append, List.cons.injEq] at hup
    obtain ⟨hc, hrest⟩ := hup
    subst hc
    have hget : data.getD pos 0 = c := by
      have := congrArg (fun x => x.getD 0 0) hct
      simpa [List.getD_eq_getElem?_getD, List.getElem?_drop] using this
    have hdrop1 : data.drop (pos + 1) = t := by
      have := congrArg (List.drop 1) hct
      simpa [List.drop_drop, Nat.add_comm] using this
    refine ⟨l.start, ⟨args, ⟨name, content, fdv, offset, ⟨data, pos + 1, cap⟩, dump, line⟩,
      log⟩, ?_, ?_, ?_, ?_, ?_, rfl, rfl, rfl, ⟨rfl, rfl, rfl, rfl⟩⟩
    · unfold token_iter
      simp only [ge_iff_le, hpos, if_false, hget]
    · simp only; omega
    · exact ⟨by simp only; omega, by simp only; omega, h3⟩
    · simp only [pending]
      have e : pos + 1 - l.start = (pos - l.start) + 1 := by omega
      rw [e, List.take_succ]
      congr 1
      rw [List.getElem?_drop]
      have e2 : l.start + (pos - l.start) = pos := by omega
      rw [e2, ← hget, List.getD_eq_getElem?_getD]
      cases hh : data[pos]? with
      | none => simp [List.getElem?_eq_none_iff] at hh; omega
      | some v => simp
    · simp only [upcoming, hdrop1, hrest]

/-! ### The loop computes what the stream reader computes -/

@[simp] theorem count_line_line (cf : ngx_conf_t) (ch : Nat) :
    (count_line cf ch).conf_file.line
      = if ch = LF then cf.conf_file.line + 1 else cf.conf_file.line := by
  unfold count_line; split_ifs <;> rfl

@[simp] theorem count_line_args (cf : ngx_conf_t) (ch : Nat) :
    (count_line cf ch).args = cf.args := by
  unfold count_line; split_ifs <;> rfl

@[simp] theorem count_line_log (cf : ngx_conf_t) (ch : Nat) :
    (count_line cf ch).log = cf.log := by
  unfold count_line; split_ifs <;> rfl

@[simp] theorem count_line_buffer (cf : ngx_conf_t) (ch : Nat) :
    (count_line cf ch).conf_file.buffer = cf.conf_file.buffer := by
  unfold count_line; split_ifs <;> rfl

@[simp] theorem count_line_content (cf : ngx_conf_t) (ch : Nat) :
    (count_line cf ch).conf_file.content = cf.conf_file.content := by
  unfold count_line; split_ifs <;> rfl

@[simp] theorem count_line_offset (cf : ngx_conf_t) (ch : Nat) :
    (count_line cf ch).conf_file.offset = cf.conf_file.offset := by
  unfold count_line; split_ifs <;> rfl

@[simp] theorem count_line_fd (cf : ngx_conf_t) (ch : Nat) :
    (count_line cf ch).conf_file.fd_valid = cf.conf_file.fd_valid := by
  unfold count_line; split_ifs <;> rfl

@[simp] theorem count_line_name (cf : ngx_conf_t) (ch : Nat) :
    (count_line cf ch).conf_file.name = cf.conf_file.name := by
  unfold count_line; split_ifs <;> rfl

theorem window_mark (data tok : List Nat) (ch s p : Nat) (m : mark) (hs : s + 1 ≤ p)
    (hp : p ≤ data.length) (hw : (data.drop s).take (p - s) = tok ++ [ch]) :
    (data.drop (mark_start m s p)).take (p - mark_start m s p) = apply_mark m tok ch := by
  have hlen : tok.length + 1 = p - s := by
    have := congrArg List.length hw
    simp only [List.length_take, List.length_drop, List.length_append, List.length_singleton]
      at this
    omega
  cases m with
  | keep => exact hw
  | at_ch =>
    simp only [mark_start, apply_mark]
    have e1 : p - 1 = s + tok.length := by omega
    have e2 : p - (s + tok.length) = 1 := by omega
    rw [e1, e2, ← List.drop_drop]
    have := congrArg (List.drop tok.length) hw
    rw [List.drop_take] at this
    have e3 : p - s - tok.length = 1 := by omega
    rw [e3] at this
    rw [this]; simp
  | after_ch =>
    simp only [mark_start, apply_mark]
    have e1 : p - 1 + 1 = p := by omega
    rw [e1]; simp

theorem agrees_frame (g : Bool) (cf cf3 cf1 : ngx_conf_t) (r : scan_result)
    (hlog : cf3.log = cf.log) (hsf : same_file cf cf3) (h : agrees g cf3 cf1 r) :
    agrees g cf cf1 r := by
  obtain ⟨a1, a2, a3, a4, a5, a6⟩ := h
  obtain ⟨s1, s2, s3, s4⟩ := hsf
  obtain ⟨t1, t2, t3, t4⟩ := a5
  refine ⟨a1, a2, ?_, a4, ⟨?_, ?_, ?_, ?_⟩, a6⟩
  · rw [a3, hlog, s1]
  · rw [t1, s1]
  · rw [t2, s2]
  · rw [t3, s3]
  · rw [t4, s4]

theorem wf_init (g : Bool) (l : token_locals) (cf : ngx_conf_t) (h : wf g l cf) :
    wf g (token_init cf) cf :=
  ⟨le_refl _, h.2.1, h.2.2⟩

theorem log_error_log (cf : ngx_conf_t) (m : conf_msg) :
    (ngx_conf_log_error cf m).log
      = cf.log ++ [entry_of cf.conf_file.fd_valid cf.conf_file.line m] := by
  unfold ngx_conf_log_error entry_of
  split_ifs <;> rfl

theorem log_error_conf_file (cf : ngx_conf_t) (m : conf_msg) :
    (ngx_conf_log_error cf m).conf_file = cf.conf_file := by
  unfold ngx_conf_log_error
  split_ifs <;> rfl

theorem log_error_args (cf : ngx_conf_t) (m : conf_msg) :
    (ngx_conf_log_error cf m).args = cf.args := by
  unfold ngx_conf_log_error
  split_ifs <;> rfl

theorem upcoming_count_line (cf : ngx_conf_t) (ch : Nat) :
    upcoming (count_line cf ch) = upcoming cf := by
  simp [upcoming]

theorem wf_count_line (g : Bool) (l : token_locals) (cf : ngx_conf_t) (ch : Nat)
    (h : wf g l cf) : wf g l (count_line cf ch) := by
  simpa [wf] using h

theorem same_file_count_line (cf cf2 : ngx_conf_t) (ch : Nat) (h : same_file cf cf2) :
    same_file cf (count_line cf2 ch) := by
  simpa [same_file] using h

theorem token_loop_scan (g : Bool) :
    ∀ (fuel : Nat) (l : token_locals) (cf : ngx_conf_t),
      wf g l cf → (upcoming cf).length < fuel →
      ∃ cf1,
        token_loop fuel l cf
          = some ((scan g cf.conf_file.fd_valid (upcoming cf) l (pending l cf)
                    cf.conf_file.line cf.args).rc, cf1) ∧
        agrees g cf cf1
          (scan g cf.conf_file.fd_valid (upcoming cf) l (pending l cf) cf.conf_file.line
            cf.args) := by
  intro fuel
  induction fuel with
  | zero => intro l cf _ h; omega
  | succ fuel ih =>
    intro l cf hwf hfuel
    cases hup : upcoming cf with
    | nil =>
      simp only [token_loop, token_iter_eof l cf hup, scan]
      by_cases hc : cf.args.length > 0 ∨ l.last_space = false
      · simp only [hc, if_true]
        by_cases hf : cf.conf_file.fd_valid = false
        · simp only [hf, if_true]
          refine ⟨_, rfl, ?_⟩
          refine ⟨log_error_args _ _, by rw [log_error_conf_file], ?_, ?_, ?_, ?_⟩
          · simp [log_error_log, hf]
          · simpa [upcoming, log_error_conf_file] using hup
          · simp [same_file, log_error_conf_file]
          · have := wf_init g l cf hwf
            simpa [wf, token_init, log_error_conf_file] using this
        · simp only [hf, if_false]
          refine ⟨_, rfl, ?_⟩
          refine ⟨log_error_args _ _, by simp [log_error_conf_file], ?_, ?_, ?_, ?_⟩
          · simp [log_error_log, hf]
          · simpa [upcoming, log_error_conf_file] using hup
          · simp [same_file, log_error_conf_file]
          · have := wf_init g l cf hwf
            simpa [wf, token_init, log_error_conf_file] using this
      · simp only [hc, if_false]
        exact ⟨_, rfl, rfl, rfl, by simp, hup, ⟨rfl, rfl, rfl, rfl⟩, wf_init g l cf hwf⟩
    | cons ch rest =>
      rw [hup] at hfuel
      simp only [List.length_cons] at hfuel
      by_cases hg : g = true ∧ (pending l cf).length = NGX_CONF_BUFFER
      · obtain ⟨hg1, hg2⟩ := hg
        subst hg1
        simp only [token_loop, token_iter_guard l cf ch rest hwf hup hg2, scan, hg2, and_self,
          if_true]
        refine ⟨_, rfl, ?_⟩
        refine ⟨log_error_args _ _, by rw [log_error_conf_file], ?_, ?_, ?_, ?_⟩
        · simp [log_error_log]
        · simpa [upcoming, log_error_conf_file] using hup
        · simp [same_file, log_error_conf_file]
        · have := wf_init true l cf hwf
          simpa [wf, token_init, log_error_conf_file] using this
      · obtain ⟨s1, cf2, hit, hs1, hwf2, hwin, hup2, hargs2, hlog2, hline2, hsf2⟩ :=
          token_iter_step g l cf ch rest hwf hup hg
        have hscan : scan g cf.conf_file.fd_valid (ch :: rest) l (pending l cf)
            cf.conf_file.line cf.args =
          (match char_act l (decide (cf.args.length = 0))
              (if ch = LF then cf.conf_file.line + 1 else cf.conf_file.line) ch with
            | .go l1 m => scan g cf.conf_file.fd_valid rest l1 (apply_mark m (pending l cf) ch)
                (if ch = LF then cf.conf_file.line + 1 else cf.conf_file.line) cf.args
            | .word l1 =>
              if ch = SEMI then ⟨NGX_OK,
                  cf.args ++ [copy_token (pending l cf ++ [ch]) 0 ((pending l cf).length + 1)],
                  (if ch = LF then cf.conf_file.line + 1 else cf.conf_file.line), none, rest⟩
              else if ch = LBRACE then ⟨NGX_CONF_BLOCK_START,
                  cf.args ++ [copy_token (pending l cf ++ [ch]) 0 ((pending l cf).length + 1)],
                  (if ch = LF then cf.conf_file.line + 1 else cf.conf_file.line), none, rest⟩
              else scan g cf.conf_file.fd_valid rest l1 (pending l cf ++ [ch])
                  (if ch = LF then cf.conf_file.line + 1 else cf.conf_file.line)
                  (cf.args ++ [copy_token (pending l cf ++ [ch]) 0 ((pending l cf).length + 1)])
            | .stop rc => ⟨rc, cf.args,
                (if ch = LF then cf.conf_file.line + 1 else cf.conf_file.line), none, rest⟩
            | .fail m => ⟨NGX_ERROR, cf.args,
                (if ch = LF then cf.conf_file.line + 1 else cf.conf_file.line), some m, rest⟩) := by
          simp only [scan, hg, if_false]
        rw [hscan]
        simp only [token_loop, hit, token_char_act, char_act_start, count_line_line,
          count_line_args, hargs2, hline2]
        have hwf3 : wf g { l with start := s1 } (count_line cf2 ch) :=
          wf_count_line g _ cf2 ch hwf2
        have hsf3 : same_file cf (count_line cf2 ch) := same_file_count_line cf cf2 ch hsf2
        have hlog3 : (count_line cf2 ch).log = cf.log := by simp [hlog2]
        have hfd : cf2.conf_file.fd_valid = cf.conf_file.fd_valid := hsf2.1
        cases hact : char_act l (decide (cf.args.length = 0))
            (if ch = LF then cf.conf_file.line + 1 else cf.conf_file.line) ch with
        | go l1 m =>
          simp only [act_set_start, run_act, count_line_buffer]
          have hwf4 : wf g { l1 with start := mark_start m s1 cf2.conf_file.buffer.pos }
              (count_line cf2 ch) := by
            refine ⟨?_, by simpa using hwf2.2.1, by simpa using hwf2.2.2⟩
            simp only [count_line_buffer]
            have := hwf2.1
            cases m <;> simp only [mark_start] <;> omega
          have hfu : (upcoming (count_line cf2 ch)).length < fuel := by
            rw [upcoming_count_line, hup2]; omega
          obtain ⟨cf1, h1, h2⟩ := ih _ _ hwf4 hfu
          have hpend : pending { l1 with start := mark_start m s1 cf2.conf_file.buffer.pos }
              (count_line cf2 ch) = apply_mark m (pending l cf) ch := by
            simp only [pending, count_line_buffer]
            exact window_mark _ _ ch s1 _ m hs1 hwf2.2.1 hwin
          rw [upcoming_count_line, hup2, hpend, count_line_fd, hfd, count_line_line, hline2,
            count_line_args, hargs2] at h1 h2
          have hss := scan_start g cf.conf_file.fd_valid rest l1
            (mark_start m s1 cf2.conf_file.buffer.pos) (apply_mark m (pending l cf) ch)
            (if ch = LF then cf.conf_file.line + 1 else cf.conf_file.line) cf.args
          simp only at hss
          rw [hss] at h1 h2
          exact ⟨cf1, h1, agrees_frame g cf _ cf1 _ hlog3 hsf3 h2⟩
        | word l1 =>
          simp only [act_set_start, run_act, token_found, if_true, count_line_buffer]
          have hcopy := copy_token_window cf2.conf_file.buffer.data (pending l cf) ch s1
            cf2.conf_file.buffer.pos hs1 hwf2.2.1 hwin
          rw [hcopy, count_line_args, hargs2]
          by_cases hsemi : ch = SEMI
          · simp only [hsemi, if_true]
            refine ⟨_, rfl, rfl, ?_, ?_, ?_, ?_, ?_⟩
            · simp [hline2]
            · simp [hlog2]
            · simpa [upcoming] using hup2
            · simpa [same_file] using hsf2
            · have := wf_init g _ _ hwf2
              simpa [wf, token_init] using this
          · simp only [hsemi, if_false]
            by_cases hbr : ch = LBRACE
            · simp only [hbr, if_true]
              refine ⟨_, rfl, rfl, ?_, ?_, ?_, ?_, ?_⟩
              · simp [hline2]
              · simp [hlog2]
              · simpa [upcoming] using hup2
              · simpa [same_file] using hsf2
              · have := wf_init g _ _ hwf2
                simpa [wf, token_init] using this
            · simp only [hbr, if_false]
              set cf4 : ngx_conf_t :=
                { count_line cf2 ch with
                  args := cf.args ++
                    [copy_token (pending l cf ++ [ch]) 0 ((pending l cf).length + 1)] }
                with hcf4
              have hwf4 : wf g { l1 with start := s1 } cf4 := by
                have := hwf3
                simpa [wf, hcf4] using this
              have hfu : (upcoming cf4).length < fuel := by
                have : upcoming cf4 = rest := by
                  rw [← hup2, ← upcoming_count_line cf2 ch]; rfl
                rw [this]; omega
              obtain ⟨cf1, h1, h2⟩ := ih _ _ hwf4 hfu
              have hpend : pending { l1 with start := s1 } cf4 = pending l cf ++ [ch] := by
                simp only [pending, hcf4, count_line_buffer]
                exact hwin
              have hup4 : upcoming cf4 = rest := by
                rw [← hup2, ← upcoming_count_line cf2 ch]; rfl
              have hfd4 : cf4.conf_file.fd_valid = cf.conf_file.fd_valid := by
                simp [hcf4, hfd]
              have hline4 : cf4.conf_file.line
                  = if ch = LF then cf.conf_file.line + 1 else cf.conf_file.line := by
                simp [hcf4, hline2]
              have hargs4 : cf4.args = cf.args ++
                  [copy_token (pending l cf ++ [ch]) 0 ((pending l cf).length + 1)] := rfl
              rw [hup4, hpend, hfd4, hline4, hargs4] at h1 h2
              have hss := scan_start g cf.conf_file.fd_valid rest l1 s1 (pending l cf ++ [ch])
                (if ch = LF then cf.conf_file.line + 1 else cf.conf_file.line)
                (cf.args ++ [copy_token (pending l cf ++ [ch]) 0 ((pending l cf).length + 1)])
              simp only at hss
              rw [hss] at h1 h2
              refine ⟨cf1, h1, agrees_frame g cf cf4 cf1 _ ?_ ?_ h2⟩
              · simp [hcf4, hlog2]
              · simpa [same_file, hcf4] using hsf2
        | stop rc =>
          simp only [act_set_start, run_act]
          refine ⟨_, rfl, by simp [hargs2], by simp [hline2], by simp [hlog2], ?_, hsf3, ?_⟩
          · rw [upcoming_count_line, hup2]
          · exact wf_init g _ _ hwf3
        | fail m =>
          simp only [act_set_start, run_act]
          refine ⟨_, rfl, ?_, ?_, ?_, ?_, ?_, ?_⟩
          · simp [log_error_args, hargs2]
          · simp [log_error_conf_file, hline2]
          · simp [log_error_log, hlog2, hfd, hline2]
          · have : upcoming (count_line cf2 ch) = rest := by rw [upcoming_count_line, hup2]
            simpa [upcoming, log_error_conf_file] using this
          · simpa [same_file, log_error_conf_file] using hsf2
          · have := wf_init g _ _ hwf3
            simpa [wf, token_init, log_error_conf_file] using this

/-! ### `ngx_conf_read_token` and the stream reader -/

theorem read_token_scan (g : Bool) (cf : ngx_conf_t) (hok : conf_ok g cf) :
    ∃ cf1,
      ngx_conf_read_token cf
        = some ((scan g cf.conf_file.fd_valid (upcoming cf) (token_init cf) []
                  cf.conf_file.line []).rc, cf1) ∧
      agrees g cf cf1
        (scan g cf.conf_file.fd_valid (upcoming cf) (token_init cf) [] cf.conf_file.line []) := by
  have hwf : wf g (token_init { cf with args := [] }) { cf with args := [] } := hok
  have hfu : (upcoming { cf with args := [] }).length < bytes_left { cf with args := [] } + 1 := by
    simp only [upcoming, bytes_left, List.length_append, List.length_drop]
    omega
  obtain ⟨cf1, h1, h2⟩ := token_loop_scan g _ _ _ hwf hfu
  have hp : pending (token_init { cf with args := [] }) { cf with args := [] } = [] := by
    simp [pending, token_init]
  rw [hp] at h1 h2
  exact ⟨cf1, h1, h2⟩

theorem conf_ok_file (name content : List Nat) (d : Bool) :
    conf_ok true (file_conf name content d) := by
  simp [conf_ok, wf, token_init, file_conf]

theorem conf_ok_param (p : List Nat) : conf_ok false (param_conf p) := by
  simp [conf_ok, wf, token_init, param_conf]

theorem upcoming_file (name content : List Nat) (d : Bool) :
    upcoming (file_conf name content d) = content := by
  simp [upcoming, file_conf]

theorem upcoming_param (p : List Nat) : upcoming (param_conf p) = p := by
  simp [upcoming, param_conf]

/-- The call made in a state in which `agrees` holds is again an admissible call. -/
theorem agrees_conf_ok (g : Bool) (cf cf1 : ngx_conf_t) (r : scan_result)
    (h : agrees g cf cf1 r) : conf_ok g cf1 := h.2.2.2.2.2

/-! ### Reaching a state and going on from it -/

theorem scan_reach (g fdv : Bool) (pre : List Nat) :
    ∀ (rest : List Nat) (l : token_locals) (tok : List Nat) (line : Nat)
      (args : List (List Nat)) (st : token_locals × List Nat × Nat × List (List Nat)),
      reach g pre l tok line args = some st →
      scan g fdv (pre ++ rest) l tok line args = scan g fdv rest st.1 st.2.1 st.2.2.1 st.2.2.2 := by
  induction pre with
  | nil =>
    intro rest l tok line args st h
    simp only [reach, Option.some.injEq] at h
    subst h; rfl
  | cons ch pre ih =>
    intro rest l tok line args st h
    simp only [reach] at h
    by_cases hg : g = true ∧ tok.length = NGX_CONF_BUFFER
    · simp [hg] at h
    · simp only [hg, if_false] at h
      simp only [List.cons_append, scan, hg, if_false]
      cases hact : char_act l (decide (args.length = 0)) (if ch = LF then line + 1 else line) ch with
      | go l1 m =>
        simp only [hact] at h
        exact ih rest _ _ _ _ st h
      | word l1 =>
        simp only [hact] at h
        by_cases hc : ch = SEMI ∨ ch = LBRACE
        · simp [hc] at h
        · simp only [hc, if_false] at h
          have h1 : ¬ ch = SEMI := fun e => hc (Or.inl e)
          have h2 : ¬ ch = LBRACE := fun e => hc (Or.inr e)
          simp only [h1, h2, if_false]
          exact ih rest _ _ _ _ st h
      | stop rc => rw [hact] at h; exact Option.noConfusion h
      | fail m => rw [hact] at h; exact Option.noConfusion h

/-- With the refill check, the bytes `pre` either end in the "too long parameter"
error or lead to the state that they lead to without the check. -/
theorem scan_reach_guard (fdv : Bool) (pre : List Nat) :
    ∀ (rest : List Nat) (l : token_locals) (tok : List Nat) (line : Nat)
      (args : List (List Nat)) (st : token_locals × List Nat × Nat × List (List Nat)),
      reach false pre l tok line args = some st →
      ((scan true fdv (pre ++ rest) l tok line args).rc = NGX_ERROR ∧
        is_too_long (scan true fdv (pre ++ rest) l tok line args).err = true) ∨
      scan true fdv (pre ++ rest) l tok line args
        = scan true fdv rest st.1 st.2.1 st.2.2.1 st.2.2.2 := by
  induction pre with
  | nil =>
    intro rest l tok line args st h
    simp only [reach, Option.some.injEq] at h
    subst h; right; rfl
  | cons ch pre ih =>
    intro rest l tok line args st h
    simp only [reach, Bool.false_eq_true, false_and, if_false] at h
    by_cases hg : tok.length = NGX_CONF_BUFFER
    · left
      simp only [List.cons_append, scan, hg, and_self, if_true, too_long_msg]
      refine ⟨trivial, ?_⟩
      split_ifs <;> rfl
    · simp only [List.cons_append, scan, hg, and_false, if_false]
      cases hact : char_act l (decide (args.length = 0)) (if ch = LF then line + 1 else line) ch with
      | go l1 m =>
        simp only [hact] at h
        exact ih rest _ _ _ _ st h
      | word l1 =>
        simp only [hact] at h
        by_cases hc : ch = SEMI ∨ ch = LBRACE
        · simp [hc] at h
        · simp only [hc, if_false] at h
          have h1 : ¬ ch = SEMI := fun e => hc (Or.inl e)
          have h2 : ¬ ch = LBRACE := fun e => hc (Or.inr e)
          simp only [h1, h2, if_false]
          exact ih rest _ _ _ _ st h
      | stop rc => rw [hact] at h; exact Option.noConfusion h
      | fail m => rw [hact] at h; exact Option.noConfusion h

/-! ### The decisions of the loop body in the states of a directive without escapes -/

theorem space_cases (c : Nat) (h : is_space c = true) : c = SP ∨ c = TAB ∨ c = CR ∨ c = LF := by
  simp only [is_space, Bool.or_eq_true, beq_iff_eq] at h
  tauto

theorem plain_ne (c : Nat) (h : is_plain c = true) :
    is_space c = false ∧ c ≠ SEMI ∧ c ≠ LBRACE ∧ c ≠ RBRACE ∧ c ≠ SHARP ∧ c ≠ DQUOTE ∧
      c ≠ SQUOTE ∧ c ≠ BSLASH ∧ c ≠ DOLLAR := by
  simp only [is_plain, Bool.not_eq_true', Bool.or_eq_false_iff, beq_eq_false_iff_ne] at h
  tauto

theorem act_space_ws (n : Bool) (line ch st sl : Nat) (h : is_space ch = true) :
    char_act (mk_l false true false false false st sl) n line ch
      = .go (mk_l false true false false false st sl) .keep := by
  rcases space_cases ch h with h | h | h | h <;> subst h <;>
    simp [char_act, char_act_tail, mk_l, is_space]

theorem act_space_plain (n : Bool) (line ch st sl : Nat) (h : is_plain ch = true) :
    char_act (mk_l false true false false false st sl) n line ch
      = .go (mk_l false false false false false st line) .at_ch := by
  obtain ⟨h1, h2, h3, h4, h5, h6, h7, h8, h9⟩ := plain_ne ch h
  have hlf : ch ≠ LF := by
    intro e; subst e; simp [is_space] at h1
  simp [char_act, char_act_tail, mk_l, h1, h2, h3, h4, h5, h6, h7, h8, hlf]

theorem act_space_dquote (n : Bool) (line st sl : Nat) :
    char_act (mk_l false true false false false st sl) n line DQUOTE
      = .go (mk_l false false false false true st line) .after_ch := by
  simp [char_act, char_act_tail, mk_l, is_space]

theorem act_space_squote (n : Bool) (line st sl : Nat) :
    char_act (mk_l false true false false false st sl) n line SQUOTE
      = .go (mk_l false false false true false st line) .after_ch := by
  simp [char_act, char_act_tail, mk_l, is_space]

theorem act_space_semi (line st sl : Nat) :
    char_act (mk_l false true false false false st sl) false line SEMI = .stop NGX_OK := by
  simp [char_act, char_act_tail, mk_l, is_space]

theorem act_space_lbrace (line st sl : Nat) :
    char_act (mk_l false true false false false st sl) false line LBRACE
      = .stop NGX_CONF_BLOCK_START := by
  simp [char_act, char_act_tail, mk_l, is_space]

theorem act_tok_plain (n : Bool) (line ch st sl : Nat) (h : is_plain ch = true) :
    char_act (mk_l false false false false false st sl) n line ch
      = .go (mk_l false false false false false st sl) .keep := by
  obtain ⟨h1, h2, h3, h4, h5, h6, h7, h8, h9⟩ := plain_ne ch h
  have hlf : ch ≠ LF := by
    intro e; subst e; simp [is_space] at h1
  simp [char_act, char_act_tail, mk_l, h1, h2, h3, h8, h9, hlf]

theorem act_tok_end (n : Bool) (line ch st sl : Nat)
    (h : is_space ch = true ∨ ch = SEMI ∨ ch = LBRACE) :
    char_act (mk_l false false false false false st sl) n line ch
      = .word (mk_l false true false false false st sl) := by
  rcases h with h | h | h
  · rcases space_cases ch h with h | h | h | h <;> subst h <;>
      simp [char_act, char_act_tail, mk_l, is_space]
  · subst h; simp [char_act, char_act_tail, mk_l, is_space]
  · subst h; simp [char_act, char_act_tail, mk_l, is_space]

theorem act_dq_content (n v : Bool) (line ch st sl : Nat) (h1 : ch ≠ DQUOTE) (h2 : ch ≠ BSLASH) :
    ∃ v1, char_act (mk_l false false v false true st sl) n line ch
      = .go (mk_l false false v1 false true st sl) .keep := by
  by_cases hlf : ch = LF
  · subst hlf; exact ⟨false, by simp [char_act, char_act_tail, mk_l]⟩
  · by_cases hb : ch = LBRACE ∧ v = true
    · exact ⟨v, by simp [char_act, char_act_tail, mk_l, hlf, hb]⟩
    · by_cases hd : ch = DOLLAR
      · subst hd; exact ⟨true, by simp [char_act, char_act_tail, mk_l]⟩
      · refine ⟨false, ?_⟩
        simp only [char_act, char_act_tail, mk_l, hlf, if_false, Bool.false_eq_true, hb, h2, hd,
          h1, if_true]

theorem act_dq_close (n v : Bool) (line st sl : Nat) :
    char_act (mk_l false false v false true st sl) n line DQUOTE
      = .word (mk_l true false false false false st sl) := by
  simp [char_act, char_act_tail, mk_l]

theorem act_sq_content (n v : Bool) (line ch st sl : Nat) (h1 : ch ≠ SQUOTE) (h2 : ch ≠ BSLASH) :
    ∃ v1, char_act (mk_l false false v true false st sl) n line ch
      = .go (mk_l false false v1 true false st sl) .keep := by
  by_cases hlf : ch = LF
  · subst hlf; exact ⟨false, by simp [char_act, char_act_tail, mk_l]⟩
  · by_cases hb : ch = LBRACE ∧ v = true
    · exact ⟨v, by simp [char_act, char_act_tail, mk_l, hlf, hb]⟩
    · by_cases hd : ch = DOLLAR
      · subst hd; exact ⟨true, by simp [char_act, char_act_tail, mk_l]⟩
      · refine ⟨false, ?_⟩
        simp only [char_act, char_act_tail, mk_l, hlf, if_false, Bool.false_eq_true, hb, h2, hd,
          h1, if_true]

theorem act_sq_close (n v : Bool) (line st sl : Nat) :
    char_act (mk_l false false v true false st sl) n line SQUOTE
      = .word (mk_l true false false false false st sl) := by
  simp [char_act, char_act_tail, mk_l]

theorem act_ns_ws (n : Bool) (line ch st sl : Nat) (h : is_space ch = true) :
    char_act (mk_l true false false false false st sl) n line ch
      = .go (mk_l false true false false false st sl) .keep := by
  rcases space_cases ch h with h | h | h | h <;> subst h <;>
    simp [char_act, char_act_tail, mk_l, is_space]

theorem act_ns_semi (n : Bool) (line st sl : Nat) :
    char_act (mk_l true false false false false st sl) n line SEMI = .stop NGX_OK := by
  simp [char_act, char_act_tail, mk_l, is_space]

theorem act_ns_lbrace (n : Bool) (line st sl : Nat) :
    char_act (mk_l true false false false false st sl) n line LBRACE
      = .stop NGX_CONF_BLOCK_START := by
  simp [char_act, char_act_tail, mk_l, is_space]

/-! ### The copy loop and the escape sequences -/

theorem copy_loop_zero (data : List Nat) (fuel : Nat) : copy_loop data 0 fuel 0 = [] := by
  cases fuel <;> simp [copy_loop]

theorem copy_loop_unescape :
    ∀ (n : Nat) (tok rest : List Nat) (fuel : Nat), tok.length = n →
      escapes_closed tok = true → tok.length ≤ fuel →
      copy_loop (tok ++ rest) tok.length fuel 0 = unescape_spec tok := by
  intro n
  induction n using Nat.strong_induction_on with
  | _ n ih =>
    intro tok rest fuel hn hcl hfu
    match tok, fuel with
    | [], fuel => simp [copy_loop_zero, unescape_spec]
    | [c], fuel + 1 =>
      have hc : c ≠ BSLASH := by simpa [escapes_closed] using hcl
      simp [copy_loop, unescape_spec, hc]
      cases fuel <;> simp [copy_loop]
    | c :: d :: r, fuel + 1 =>
      simp only [List.length_cons] at hfu hn
      have hd1 := copy_loop_drop (c :: d :: r ++ rest) 1 (r.length + 1) fuel 0
      have hd2 := copy_loop_drop (c :: d :: r ++ rest) 2 r.length fuel 0
      have e1 : 1 + (r.length + 1) = r.length + 1 + 1 := by omega
      have e2 : 2 + r.length = r.length + 1 + 1 := by omega
      simp only [e1, e2, Nat.add_zero, List.cons_append, List.drop_succ_cons, List.drop_zero]
        at hd1 hd2
      have ih1 : escapes_closed (d :: r) = true →
          copy_loop (d :: r ++ rest) (r.length + 1) fuel 0 = unescape_spec (d :: r) := by
        intro h
        exact ih (r.length + 1) (by omega) (d :: r) rest fuel rfl h (by simp; omega)
      have ih2 : escapes_closed r = true →
          copy_loop (r ++ rest) r.length fuel 0 = unescape_spec r := by
        intro h
        exact ih r.length (by omega) r rest fuel rfl h (by omega)
      simp only [List.cons_append] at ih1
      by_cases hc : c = BSLASH
      · subst hc
        have hclr : escapes_closed r = true := by simpa [escapes_closed] using hcl
        simp only [copy_loop, List.length_cons, List.cons_append, List.getD_cons_zero,
          List.getD_cons_succ, Nat.zero_add, unescape_spec, if_true]
        have hlt : 0 < r.length + 1 + 1 := by omega
        simp only [hlt, if_true, hd2, ih2 hclr]
        by_cases hq : d = DQUOTE ∨ d = SQUOTE ∨ d = BSLASH
        · simp only [hq, if_true]
        · simp only [hq, if_false]
          by_cases h116 : d = 116
          · simp only [h116, if_true]
          · simp only [h116, if_false]
            by_cases h114 : d = 114
            · simp only [h114, if_true]
            · simp only [h114, if_false]
              by_cases h110 : d = 110
              · simp only [h110, if_true]
              · simp only [h110, if_false, hd1]
                have hdb : d ≠ BSLASH := fun e => hq (Or.inr (Or.inr e))
                have hcld : escapes_closed (d :: r) = true := by
                  cases r with
                  | nil => simpa [escapes_closed] using hdb
                  | cons x r => simpa [escapes_closed, hdb] using hclr
                rw [ih1 hcld]
      · have hcld : escapes_closed (d :: r) = true := by
          simpa [escapes_closed, hc] using hcl
        simp only [copy_loop, List.length_cons, List.cons_append, List.getD_cons_zero,
          unescape_spec, hc, if_false]
        have hlt : 0 < r.length + 1 + 1 := by omega
        simp only [hlt, if_true, Nat.zero_add, hd1, ih1 hcld]

theorem unescape_plain (t : List Nat) (h : ∀ c ∈ t, c ≠ BSLASH) :
    escapes_closed t = true ∧ unescape_spec t = t := by
  induction t with
  | nil => simp [escapes_closed, unescape_spec]
  | cons c r ih =>
    have hc : c ≠ BSLASH := h c (List.mem_cons_self _ _)
    have hr := ih (fun x hx => h x (List.mem_cons_of_mem _ hx))
    cases r with
    | nil => simp [escapes_closed, unescape_spec, hc]
    | cons d r => simp [escapes_closed, unescape_spec, hc, hr.1, hr.2]

theorem copy_token_plain (t : List Nat) (ch : Nat) (h : ∀ c ∈ t, c ≠ BSLASH) :
    copy_token (t ++ [ch]) 0 (t.length + 1) = t := by
  have := copy_loop_unescape t.length t [ch] t.length rfl (unescape_plain t h).1 (le_refl _)
  simpa [copy_token, (unescape_plain t h).2] using this

/-! ### Reading the parts of a directive -/

theorem reach_append (g : Bool) (a : List Nat) :
    ∀ (b : List Nat) (l : token_locals) (tok : List Nat) (line : Nat) (args : List (List Nat))
      (st : token_locals × List Nat × Nat × List (List Nat)),
      reach g a l tok line args = some st →
      reach g (a ++ b) l tok line args = reach g b st.1 st.2.1 st.2.2.1 st.2.2.2 := by
  induction a with
  | nil =>
    intro b l tok line args st h
    simp only [reach, Option.some.injEq] at h
    subst h; rfl
  | cons ch a ih =>
    intro b l tok line args st h
    simp only [reach] at h
    by_cases hg : g = true ∧ tok.length = NGX_CONF_BUFFER
    · simp [hg] at h
    · simp only [hg, if_false] at h
      simp only [List.cons_append, reach, hg, if_false]
      cases hact : char_act l (decide (args.length = 0)) (if ch = LF then line + 1 else line) ch with
      | go l1 m =>
        simp only [hact] at h
        exact ih b _ _ _ _ st h
      | word l1 =>
        simp only [hact] at h
        by_cases hc : ch = SEMI ∨ ch = LBRACE
        · simp [hc] at h
        · simp only [hc, if_false] at h
          simp only [hc, if_false]
          exact ih b _ _ _ _ st h
      | stop rc => rw [hact] at h; exact Option.noConfusion h
      | fail m => rw [hact] at h; exact Option.noConfusion h

theorem count_lf_cons (ch : Nat) (ws : List Nat) (line : Nat) :
    (if ch = LF then line + 1 else line) + ws.count LF = line + (ch :: ws).count LF := by
  by_cases h : ch = LF
  · subst h; simp; omega
  · have : ¬ (LF = ch) := fun e => h e.symm
    simp [h, List.count_cons, this]

theorem reach_ws (g : Bool) (ws : List Nat) :
    ∀ (tok : List Nat) (line : Nat) (args : List (List Nat)) (st sl : Nat),
      (∀ c ∈ ws, is_space c = true) →
      (g = true → tok.length + ws.length ≤ NGX_CONF_BUFFER) →
      reach g ws (mk_l false true false false false st sl) tok line args
        = some (mk_l false true false false false st sl, tok ++ ws, line + ws.count LF, args) := by
  induction ws with
  | nil => intro tok line args st sl _ _; simp [reach]
  | cons ch ws ih =>
    intro tok line args st sl hs hg
    have hg1 : ¬(g = true ∧ tok.length = NGX_CONF_BUFFER) := by
      rintro ⟨h1, h2⟩
      have := hg h1
      simp only [List.length_cons] at this
      omega
    simp only [reach, hg1, if_false, act_space_ws _ _ ch st sl (hs ch (List.mem_cons_self _ _)),
      apply_mark]
    rw [ih (tok ++ [ch]) _ args st sl (fun c hc => hs c (List.mem_cons_of_mem _ hc))
      (by intro h; have := hg h; simp only [List.length_cons] at this
          simp only [List.length_append, List.length_singleton]; omega)]
    simp only [List.append_assoc, List.singleton_append, count_lf_cons]

theorem reach_plain (g : Bool) (t : List Nat) :
    ∀ (tok : List Nat) (line : Nat) (args : List (List Nat)) (st sl : Nat),
      (∀ c ∈ t, is_plain c = true) →
      (g = true → tok.length + t.length ≤ NGX_CONF_BUFFER) →
      reach g t (mk_l false false false false false st sl) tok line args
        = some (mk_l false false false false false st sl, tok ++ t, line, args) := by
  induction t with
  | nil => intro tok line args st sl _ _; simp [reach]
  | cons ch t ih =>
    intro tok line args st sl hs hg
    have hg1 : ¬(g = true ∧ tok.length = NGX_CONF_BUFFER) := by
      rintro ⟨h1, h2⟩
      have := hg h1
      simp only [List.length_cons] at this
      omega
    have hp := hs ch (List.mem_cons_self _ _)
    have hlf : ch ≠ LF := by
      intro e; subst e; simp [is_plain, is_space] at hp
    simp only [reach, hg1, if_false, act_tok_plain _ _ ch st sl hp, apply_mark, hlf]
    rw [ih (tok ++ [ch]) _ args st sl (fun c hc => hs c (List.mem_cons_of_mem _ hc))
      (by intro h; have := hg h; simp only [List.length_cons] at this
          simp only [List.length_append, List.length_singleton]; omega)]
    simp only [List.append_assoc, List.singleton_append]

theorem reach_dq (g : Bool) (c : List Nat) :
    ∀ (v : Bool) (tok : List Nat) (line : Nat) (args : List (List Nat)) (st sl : Nat),
      (∀ x ∈ c, x ≠ DQUOTE ∧ x ≠ BSLASH) →
      (g = true → tok.length + c.length ≤ NGX_CONF_BUFFER) →
      ∃ v1, reach g c (mk_l false false v false true st sl) tok line args
        = some (mk_l false false v1 false true st sl, tok ++ c, line + c.count LF, args) := by
  induction c with
  | nil => intro v tok line args st sl _ _; exact ⟨v, by simp [reach]⟩
  | cons ch c ih =>
    intro v tok line args st sl hs hg
    have hg1 : ¬(g = true ∧ tok.length = NGX_CONF_BUFFER) := by
      rintro ⟨h1, h2⟩
      have := hg h1
      simp only [List.length_cons] at this
      omega
    have hp := hs ch (List.mem_cons_self _ _)
    obtain ⟨v0, hv0⟩ := act_dq_content (decide (args.length = 0)) v
      (if ch = LF then line + 1 else line) ch st sl hp.1 hp.2
    obtain ⟨v1, hv1⟩ := ih v0 (tok ++ [ch]) (if ch = LF then line + 1 else line) args st sl
      (fun x hx => hs x (List.mem_cons_of_mem _ hx))
      (by intro h; have := hg h; simp only [List.length_cons] at this
          simp only [List.length_append, List.length_singleton]; omega)
    refine ⟨v1, ?_⟩
    simp only [reach, hg1, if_false, hv0, apply_mark, hv1]
    simp only [List.append_assoc, List.singleton_append, count_lf_cons]

theorem reach_sq (g : Bool) (c : List Nat) :
    ∀ (v : Bool) (tok : List Nat) (line : Nat) (args : List (List Nat)) (st sl : Nat),
      (∀ x ∈ c, x ≠ SQUOTE ∧ x ≠ BSLASH) →
      (g = true → tok.length + c.length ≤ NGX_CONF_BUFFER) →
      ∃ v1, reach g c (mk_l false false v true false st sl) tok line args
        = some (mk_l false false v1 true false st sl, tok ++ c, line + c.count LF, args) := by
  induction c with
  | nil => intro v tok line args st sl _ _; exact ⟨v, by simp [reach]⟩
  | cons ch c ih =>
    intro v tok line args st sl hs hg
    have hg1 : ¬(g = true ∧ tok.length = NGX_CONF_BUFFER) := by
      rintro ⟨h1, h2⟩
      have := hg h1
      simp only [List.length_cons] at this
      omega
    have hp := hs ch (List.mem_cons_self _ _)
    obtain ⟨v0, hv0⟩ := act_sq_content (decide (args.length = 0)) v
      (if ch = LF then line + 1 else line) ch st sl hp.1 hp.2
    obtain ⟨v1, hv1⟩ := ih v0 (tok ++ [ch]) (if ch = LF then line + 1 else line) args st sl
      (fun x hx => hs x (List.mem_cons_of_mem _ hx))
      (by intro h; have := hg h; simp only [List.length_cons] at this
          simp only [List.length_append, List.length_singleton]; omega)
    refine ⟨v1, ?_⟩
    simp only [reach, hg1, if_false, hv0, apply_mark, hv1]
    simp only [List.append_assoc, List.singleton_append, count_lf_cons]

theorem count_lf_plain (t : List Nat) (h : ∀ c ∈ t, is_plain c = true) : t.count LF = 0 := by
  rw [List.count_eq_zero]
  intro hm
  have := h LF hm
  simp [is_plain, is_space] at this

theorem plain_no_bslash (t : List Nat) (h : ∀ c ∈ t, is_plain c = true) :
    ∀ c ∈ t, c ≠ BSLASH := by
  intro c hc
  exact (plain_ne c (h c hc)).2.2.2.2.2.2.2.1

/-- An unquoted token read from a token position: the reader is inside the token. -/
theorem reach_piece_plain (g : Bool) (t tok : List Nat) (line : Nat) (args : List (List Nat))
    (st sl : Nat) (hne : t ≠ []) (hp : ∀ c ∈ t, is_plain c = true)
    (hg : g = true → tok.length ≠ NGX_CONF_BUFFER ∧ t.length ≤ NGX_CONF_BUFFER) :
    reach g t (mk_l false true false false false st sl) tok line args
      = some (mk_l false false false false false st line, t, line, args) := by
  cases t with
  | nil => exact absurd rfl hne
  | cons c t =>
    have hg1 : ¬(g = true ∧ tok.length = NGX_CONF_BUFFER) := by
      rintro ⟨h1, h2⟩; exact (hg h1).1 h2
    have hc := hp c (List.mem_cons_self _ _)
    have hlf : c ≠ LF := by
      intro e; subst e; simp [is_plain, is_space] at hc
    simp only [reach, hg1, if_false, act_space_plain _ _ c st sl hc, apply_mark, hlf]
    rw [reach_plain g t [c] line args st line (fun x hx => hp x (List.mem_cons_of_mem _ hx))
      (by intro h; have := (hg h).2; simp only [List.length_cons] at this
          simp only [List.length_singleton]; omega)]
    simp

/-- A quoted string read from a token position: its content has been stored and white
space or a terminator must follow. -/
theorem reach_piece_quoted (g : Bool) (q : Nat) (c tok : List Nat) (line : Nat)
    (args : List (List Nat)) (st sl : Nat) (hq : q = DQUOTE ∨ q = SQUOTE)
    (hc : ∀ x ∈ c, x ≠ q ∧ x ≠ BSLASH)
    (hg : g = true → tok.length ≠ NGX_CONF_BUFFER ∧ c.length < NGX_CONF_BUFFER) :
    reach g (q :: c ++ [q]) (mk_l false true false false false st sl) tok line args
      = some (mk_l true false false false false st line, c ++ [q], line + c.count LF,
          args ++ [c]) := by
  have hg1 : ¬(g = true ∧ tok.length = NGX_CONF_BUFFER) := by
    rintro ⟨h1, h2⟩; exact (hg h1).1 h2
  have hg2 : ¬(g = true ∧ ([] ++ c : List Nat).length = NGX_CONF_BUFFER) := by
    rintro ⟨h1, h2⟩; have := (hg h1).2; simp at h2; omega
  have hnb : ∀ x ∈ c, x ≠ BSLASH := fun x hx => (hc x hx).2
  rcases hq with hq | hq <;> subst hq
  · have hlf : ¬ (DQUOTE = LF) := by decide
    simp only [reach, hg1, if_false, act_space_dquote, apply_mark, hlf, List.append_eq]
    obtain ⟨v1, hv1⟩ := reach_dq g c false [] line args st line hc
      (by intro h; have := (hg h).2; simp; omega)
    rw [reach_append g c [DQUOTE] _ _ _ _ _ hv1]
    simp only [reach, hg2, if_false, act_dq_close, hlf]
    simp [copy_token_plain c DQUOTE hnb]
  · have hlf : ¬ (SQUOTE = LF) := by decide
    simp only [reach, hg1, if_false, act_space_squote, apply_mark, hlf, List.append_eq]
    obtain ⟨v1, hv1⟩ := reach_sq g c false [] line args st line hc
      (by intro h; have := (hg h).2; simp; omega)
    rw [reach_append g c [SQUOTE] _ _ _ _ _ hv1]
    simp only [reach, hg2, if_false, act_sq_close, hlf]
    simp [copy_token_plain c SQUOTE hnb]

theorem piece_ok_plain (t : List Nat) (h : (piece.plain t).ok = true) :
    t ≠ [] ∧ ∀ c ∈ t, is_plain c = true := by
  simp only [piece.ok, Bool.and_eq_true, Bool.not_eq_true', List.isEmpty_eq_false,
    List.all_eq_true] at h
  exact h

theorem piece_ok_quoted (q : Nat) (c : List Nat) (h : (piece.quoted q c).ok = true) :
    (q = DQUOTE ∨ q = SQUOTE) ∧ ∀ x ∈ c, x ≠ q ∧ x ≠ BSLASH := by
  simp only [piece.ok, Bool.and_eq_true, Bool.or_eq_true, beq_iff_eq, List.all_eq_true,
    bne_iff_ne] at h
  exact h

theorem count_lf_render (p : piece) (h : p.ok = true) :
    p.render.count LF = p.value.count LF := by
  cases p with
  | plain t => rfl
  | quoted q c =>
    obtain ⟨hq, _⟩ := piece_ok_quoted q c h
    have h1 : ¬ (q = LF) := by rcases hq with hq | hq <;> subst hq <;> decide
    have h2 : ¬ (LF = q) := fun e => h1 e.symm
    simp [piece.render, piece.value, List.count_cons, List.count_append, h1, h2]

/-- A token followed by a non-empty run of white space, read from a token position:
its value is stored and the reader is at a token position again. -/
theorem reach_pair (g : Bool) (p : piece) (w : Nat) (ws tok : List Nat) (line : Nat)
    (args : List (List Nat)) (st sl : Nat) (hok : p.ok = true)
    (hws : ∀ c ∈ w :: ws, is_space c = true)
    (hg : g = true → tok.length < NGX_CONF_BUFFER ∧ p.span + (w :: ws).length ≤ NGX_CONF_BUFFER) :
    ∃ tok1, reach g (p.render ++ w :: ws) (mk_l false true false false false st sl) tok line args
        = some (mk_l false true false false false st line, tok1,
            line + (p.render ++ w :: ws).count LF, args ++ [p.value]) ∧
      tok1.length = p.span + (w :: ws).length := by
  have hw := hws w (List.mem_cons_self _ _)
  have hws1 : ∀ c ∈ ws, is_space c = true := fun c hc => hws c (List.mem_cons_of_mem _ hc)
  have hwt : ¬ (w = SEMI ∨ w = LBRACE) := by
    rcases space_cases w hw with h | h | h | h <;> subst h <;> decide
  cases p with
  | plain t =>
    obtain ⟨hne, hp⟩ := piece_ok_plain t hok
    simp only [piece.span, List.length_cons] at hg
    have h1 := reach_piece_plain g t tok line args st sl hne hp
      (by intro h; have := hg h; exact ⟨by omega, by omega⟩)
    have hg1 : ¬(g = true ∧ t.length = NGX_CONF_BUFFER) := by
      rintro ⟨h1, h2⟩; have := (hg h1).2; omega
    refine ⟨t ++ w :: ws, ?_, by simp [piece.span]⟩
    simp only [piece.render, piece.value]
    rw [reach_append g t (w :: ws) _ _ _ _ _ h1]
    simp only [reach, hg1, if_false, act_tok_end _ _ w st line (Or.inl hw), hwt,
      copy_token_plain t w (plain_no_bslash t hp)]
    rw [reach_ws g ws (t ++ [w]) _ _ st line hws1
      (by intro h; have := (hg h).2; simp only [List.length_append, List.length_singleton]; omega)]
    simp only [List.count_append, count_lf_plain t hp, List.append_assoc, List.singleton_append,
      count_lf_cons, Nat.zero_add]
  | quoted q c =>
    obtain ⟨hq, hc⟩ := piece_ok_quoted q c hok
    simp only [piece.span, List.length_cons] at hg
    have h1 := reach_piece_quoted g q c tok line args st sl hq hc
      (by intro h; have := hg h; exact ⟨by omega, by omega⟩)
    have hg1 : ¬(g = true ∧ (c ++ [q]).length = NGX_CONF_BUFFER) := by
      rintro ⟨h1, h2⟩; have := (hg h1).2
      simp only [List.length_append, List.length_singleton] at h2; omega
    refine ⟨c ++ [q] ++ w :: ws, ?_, by simp [piece.span]; omega⟩
    simp only [piece.render, piece.value]
    rw [reach_append g (q :: c ++ [q]) (w :: ws) _ _ _ _ _ h1]
    simp only [reach, hg1, if_false, act_ns_ws _ _ w st line hw, apply_mark]
    rw [reach_ws g ws (c ++ [q] ++ [w]) _ _ st line hws1
      (by intro h; have := (hg h).2
          simp only [List.length_append, List.length_singleton]; omega)]
    have h1 : ¬ (q = LF) := by rcases hq with hq | hq <;> subst hq <;> decide
    have h2 : ¬ (LF = q) := fun e => h1 e.symm
    have hcnt : (q :: c ++ [q] ++ w :: ws).count LF = c.count LF + (w :: ws).count LF := by
      simp only [List.cons_append, List.count_cons, List.count_append, List.count_nil, beq_iff_eq,
        h1, if_false]
      omega
    rw [hcnt, ← Nat.add_assoc, ← count_lf_cons w ws (line + c.count LF)]
    simp only [List.append_assoc, List.singleton_append, List.cons_append, List.nil_append]

theorem term_rc_cases (term : Nat) (h : term = SEMI ∨ term = LBRACE) :
    term ≠ LF ∧ (term = SEMI → term_rc term = NGX_OK) ∧
      (term ≠ SEMI → term = LBRACE ∧ term_rc term = NGX_CONF_BLOCK_START) := by
  rcases h with h | h <;> subst h <;> simp [term_rc]

theorem scan_space_term (g fdv : Bool) (term : Nat) (more tok : List Nat) (line : Nat)
    (args : List (List Nat)) (st sl : Nat) (hterm : term = SEMI ∨ term = LBRACE)
    (hargs : args ≠ []) (hg : g = true → tok.length < NGX_CONF_BUFFER) :
    scan g fdv (term :: more) (mk_l false true false false false st sl) tok line args
      = ⟨term_rc term, args, line, none, more⟩ := by
  have hg1 : ¬(g = true ∧ tok.length = NGX_CONF_BUFFER) := by
    rintro ⟨h1, h2⟩; have := hg h1; omega
  have hn : decide (args.length = 0) = false := by
    simpa using hargs
  rcases hterm with h | h <;> subst h
  · simp only [scan, hg1, if_false, hn, act_space_semi]
    simp [term_rc]
  · simp only [scan, hg1, if_false, hn, act_space_lbrace]
    simp [term_rc]

theorem scan_ns_term (g fdv : Bool) (term : Nat) (more tok : List Nat) (line : Nat)
    (args : List (List Nat)) (st sl : Nat) (hterm : term = SEMI ∨ term = LBRACE)
    (hg : g = true → tok.length < NGX_CONF_BUFFER) :
    scan g fdv (term :: more) (mk_l true false false false false st sl) tok line args
      = ⟨term_rc term, args, line, none, more⟩ := by
  have hg1 : ¬(g = true ∧ tok.length = NGX_CONF_BUFFER) := by
    rintro ⟨h1, h2⟩; have := hg h1; omega
  rcases hterm with h | h <;> subst h
  · simp only [scan, hg1, if_false, act_ns_semi]
    simp [term_rc]
  · simp only [scan, hg1, if_false, act_ns_lbrace]
    simp [term_rc]

theorem scan_tok_term (g fdv : Bool) (term : Nat) (more t : List Nat) (line : Nat)
    (args : List (List Nat)) (st sl : Nat) (hterm : term = SEMI ∨ term = LBRACE)
    (ht : ∀ c ∈ t, c ≠ BSLASH) (hg : g = true → t.length < NGX_CONF_BUFFER) :
    scan g fdv (term :: more) (mk_l false false false false false st sl) t line args
      = ⟨term_rc term, args ++ [t], line, none, more⟩ := by
  have hg1 : ¬(g = true ∧ t.length = NGX_CONF_BUFFER) := by
    rintro ⟨h1, h2⟩; have := hg h1; omega
  have hact := fun ln => act_tok_end (decide (args.length = 0)) ln term st sl (Or.inr hterm)
  rcases hterm with h | h <;> subst h
  · simp only [scan, hg1, if_false, hact, copy_token_plain t _ ht]
    simp [term_rc]
  · simp only [scan, hg1, if_false, hact, copy_token_plain t _ ht]
    simp [term_rc]

/-- The last token of a directive, the white space after it and the terminator. -/
theorem scan_last (g fdv : Bool) (p : piece) (ws : List Nat) (term : Nat)
    (more tok : List Nat) (line : Nat) (args : List (List Nat)) (st sl : Nat)
    (hok : p.ok = true) (hws : ∀ c ∈ ws, is_space c = true)
    (hterm : term = SEMI ∨ term = LBRACE)
    (hg : g = true → tok.length < NGX_CONF_BUFFER ∧ p.span + ws.length < NGX_CONF_BUFFER) :
    scan g fdv (p.render ++ ws ++ term :: more) (mk_l false true false false false st sl) tok
        line args
      = ⟨term_rc term, args ++ [p.value], line + (p.render ++ ws).count LF, none, more⟩ := by
  cases ws with
  | cons w ws =>
    obtain ⟨tok1, h1, h2⟩ := reach_pair g p w ws tok line args st sl hok hws
      (by intro h; have := hg h; exact ⟨this.1, by omega⟩)
    rw [scan_reach g fdv _ _ _ _ _ _ _ h1]
    exact scan_space_term g fdv term more tok1 _ _ st line hterm (by simp)
      (by intro h; have := (hg h).2; omega)
  | nil =>
    simp only [List.append_nil]
    cases p with
    | plain t =>
      obtain ⟨hne, hp⟩ := piece_ok_plain t hok
      simp only [piece.span, List.length_nil, Nat.add_zero] at hg
      have h1 := reach_piece_plain g t tok line args st sl hne hp
        (by intro h; have := hg h; exact ⟨by omega, by omega⟩)
      simp only [piece.render, piece.value]
      rw [scan_reach g fdv _ _ _ _ _ _ _ h1]
      simp only [count_lf_plain t hp, Nat.add_zero]
      exact scan_tok_term g fdv term more t line args st line hterm (plain_no_bslash t hp)
        (fun h => (hg h).2)
    | quoted q c =>
      obtain ⟨hq, hc⟩ := piece_ok_quoted q c hok
      simp only [piece.span, List.length_nil, Nat.add_zero] at hg
      have h1 := reach_piece_quoted g q c tok line args st sl hq hc
        (by intro h; have := hg h; exact ⟨by omega, by omega⟩)
      rw [count_lf_render _ hok]
      simp only [piece.render, piece.value]
      rw [scan_reach g fdv _ _ _ _ _ _ _ h1]
      exact scan_ns_term g fdv term more _ _ _ st line hterm
        (by intro h; have := (hg h).2
            simp only [List.length_append, List.length_singleton]; omega)

/-- A whole directive body and its terminator, read from a token position. -/
theorem scan_pairs (g fdv : Bool) (term : Nat) (more : List Nat)
    (hterm : term = SEMI ∨ term = LBRACE) :
    ∀ (pairs : List (piece × List Nat)) (tok : List Nat) (line : Nat) (args : List (List Nat))
      (st sl : Nat), pairs ≠ [] → pairs_ok pairs = true →
      (g = true → tok.length < NGX_CONF_BUFFER ∧ pairs_short pairs = true) →
      scan g fdv (render_pairs pairs ++ term :: more) (mk_l false true false false false st sl)
          tok line args
        = ⟨term_rc term, args ++ pairs.map (fun x => x.1.value),
            line + (render_pairs pairs).count LF, none, more⟩ := by
  intro pairs
  induction pairs with
  | nil => intro _ _ _ _ _ h; exact absurd rfl h
  | cons a rest ih =>
    intro tok line args st sl _ hok hg
    obtain ⟨p, ws⟩ := a
    cases rest with
    | nil =>
      simp only [pairs_ok, Bool.and_eq_true, List.all_eq_true] at hok
      simp only [render_pairs, List.append_nil, List.map_cons, List.map_nil]
      exact scan_last g fdv p ws term more tok line args st sl hok.1 hok.2 hterm
        (by intro h; have := hg h
            simp only [pairs_short, Bool.and_true, decide_eq_true_eq] at this
            exact this)
    | cons b rest =>
      simp only [pairs_ok, Bool.and_eq_true, List.all_eq_true, Bool.not_eq_true',
        List.isEmpty_eq_false] at hok
      obtain ⟨⟨⟨hp, hws⟩, hne⟩, hrest⟩ := hok
      cases ws with
      | nil => exact absurd rfl hne
      | cons w ws =>
        have hsh : g = true → p.span + (w :: ws).length < NGX_CONF_BUFFER ∧
            pairs_short (b :: rest) = true := by
          intro h
          have := (hg h).2
          simp only [pairs_short, Bool.and_eq_true, decide_eq_true_eq] at this
          simpa [pairs_short] using this
        obtain ⟨tok1, h1, h2⟩ := reach_pair g p w ws tok line args st sl hp hws
          (by intro h; exact ⟨(hg h).1, by have := (hsh h).1; omega⟩)
        have e : render_pairs ((p, w :: ws) :: b :: rest) ++ term :: more
            = (p.render ++ w :: ws) ++ (render_pairs (b :: rest) ++ term :: more) := by
          simp [render_pairs]
        rw [e, scan_reach g fdv _ _ _ _ _ _ _ h1]
        rw [ih tok1 _ _ st line (by simp) hrest
          (by intro h; exact ⟨by have := (hsh h).1; omega, (hsh h).2⟩)]
        have e2 : render_pairs ((p, w :: ws) :: b :: rest)
            = (p.render ++ w :: ws) ++ render_pairs (b :: rest) := by
          simp [render_pairs]
        have e3 : (render_pairs ((p, w :: ws) :: b :: rest)).count LF
            = (p.render ++ w :: ws).count LF + (render_pairs (b :: rest)).count LF := by
          rw [e2, List.count_append]
        simp only [e3, Nat.add_assoc, List.map_cons, List.append_assoc, List.singleton_append]

theorem token_init_eq (cf : ngx_conf_t) :
    token_init cf
      = mk_l false true false false false cf.conf_file.buffer.pos cf.conf_file.line := rfl

/-- A directive without escape sequences is read as its tokens (shared by the theorems
on unquoted and on quoted tokens). -/
theorem directive_read (g : Bool) (cf : ngx_conf_t) (ws0 : List Nat)
    (pairs : List (piece × List Nat)) (term : Nat) (more : List Nat)
    (hok : conf_ok g cf)
    (hin : upcoming cf = ws0 ++ render_pairs pairs ++ term :: more)
    (hws : ∀ c ∈ ws0, is_space c = true) (hne : pairs ≠ []) (hpo : pairs_ok pairs = true)
    (hterm : term = SEMI ∨ term = LBRACE)
    (hg : g = true → ws0.length < NGX_CONF_BUFFER ∧ pairs_short pairs = true) :
    ∃ cf1, ngx_conf_read_token cf = some (term_rc term, cf1) ∧
      cf1.args = pairs.map (fun x => x.1.value) ∧ upcoming cf1 = more ∧
      cf1.conf_file.line = cf.conf_file.line + (ws0 ++ render_pairs pairs).count LF ∧
      cf1.log = cf.log ∧ conf_ok g cf1 ∧ same_file cf cf1 := by
  obtain ⟨cf1, h1, h2⟩ := read_token_scan g cf hok
  have hr := reach_ws g ws0 [] cf.conf_file.line [] cf.conf_file.buffer.pos cf.conf_file.line hws
    (by intro h; have := (hg h).1; simp only [List.length_nil]; omega)
  have hs : scan g cf.conf_file.fd_valid (upcoming cf) (token_init cf) [] cf.conf_file.line []
      = ⟨term_rc term, pairs.map (fun x => x.1.value),
          cf.conf_file.line + (ws0 ++ render_pairs pairs).count LF, none, more⟩ := by
    rw [hin, token_init_eq, List.append_assoc, scan_reach g _ _ _ _ _ _ _ _ hr]
    simp only [List.nil_append]
    rw [scan_pairs g _ term more hterm pairs ws0 _ [] _ _ hne hpo
      (by intro h; exact ⟨(hg h).1, (hg h).2⟩)]
    simp [List.count_append, Nat.add_assoc]
  rw [hs] at h1 h2
  obtain ⟨a1, a2, a3, a4, a5, a6⟩ := h2
  exact ⟨cf1, h1, a1, a4, a2, by simpa using a3, a6, a5⟩

theorem scan_too_long (fdv : Bool) (ch : Nat) (rest : List Nat) (l : token_locals)
    (tok : List Nat) (line : Nat) (args : List (List Nat))
    (h : tok.length = NGX_CONF_BUFFER) :
    scan true fdv (ch :: rest) l tok line args
      = ⟨NGX_ERROR, args, l.start_line, some (too_long_msg l), ch :: rest⟩ := by
  simp [scan, h]

theorem scan_eof_in_token (g fdv : Bool) (l : token_locals) (tok : List Nat) (line : Nat)
    (args : List (List Nat)) (h : l.last_space = false) :
    (scan g fdv [] l tok line args).rc = NGX_ERROR ∧
      (scan g fdv [] l tok line args).args = args := by
  simp only [scan, h, or_true, if_true]
  split_ifs <;> exact ⟨rfl, rfl⟩

/-- An unquoted token of 4096 bytes or more, met at a token position while a file is
read, ends the call with `NGX_ERROR` before anything of it is stored. -/
theorem scan_long_plain (fdv : Bool) (t more tok : List Nat) (line : Nat)
    (args : List (List Nat)) (st sl : Nat) (hp : ∀ c ∈ t, is_plain c = true)
    (hlen : NGX_CONF_BUFFER ≤ t.length) :
    (scan true fdv (t ++ more) (mk_l false true false false false st sl) tok line args).rc
        = NGX_ERROR ∧
      (scan true fdv (t ++ more) (mk_l false true false false false st sl) tok line args).args
        = args := by
  by_cases htok : tok.length = NGX_CONF_BUFFER
  · cases t with
    | nil => simp at hlen
    | cons c t =>
      rw [List.cons_append, scan_too_long fdv c _ _ tok line args htok]
      exact ⟨rfl, rfl⟩
  · have hsplit : t ++ more = t.take NGX_CONF_BUFFER ++ (t.drop NGX_CONF_BUFFER ++ more) := by
      rw [← List.append_assoc, List.take_append_drop]
    have hl : (t.take NGX_CONF_BUFFER).length = NGX_CONF_BUFFER := by
      simp only [List.length_take]; omega
    have hr := reach_piece_plain true (t.take NGX_CONF_BUFFER) tok line args st sl
      (by intro e; rw [e] at hl; simp at hl)
      (fun c hc => hp c (List.mem_of_mem_take hc))
      (fun _ => ⟨htok, by omega⟩)
    rw [hsplit, scan_reach true fdv _ _ _ _ _ _ _ hr]
    cases hrest : t.drop NGX_CONF_BUFFER ++ more with
    | nil => exact scan_eof_in_token true fdv _ _ _ _ rfl
    | cons c r =>
      rw [scan_too_long fdv c r _ _ line args hl]
      exact ⟨rfl, rfl⟩

/-! ### Quoted strings with escape sequences -/

theorem scan_go (g fdv : Bool) (ch : Nat) (rest : List Nat) (l : token_locals)
    (tok : List Nat) (line : Nat) (args : List (List Nat)) (l1 : token_locals) (m : mark)
    (hg : ¬(g = true ∧ tok.length = NGX_CONF_BUFFER))
    (hact : char_act l (decide (args.length = 0)) (if ch = LF then line + 1 else line) ch
      = .go l1 m) :
    scan g fdv (ch :: rest) l tok line args
      = scan g fdv rest l1 (apply_mark m tok ch) (if ch = LF then line + 1 else line) args := by
  simp only [scan, hg, if_false, hact]


theorem act_q_step (q : Nat) (hq : q = DQUOTE ∨ q = SQUOTE) (n v qd : Bool)
    (line ch st sl : Nat) (h : qd = true ∨ ch ≠ q) :
    ∃ v1, char_act (mk_q q v qd st sl) n line ch
      = .go (mk_q q v1 (!qd && decide (ch = BSLASH)) st sl) .keep := by
  cases qd with
  | true =>
    refine ⟨v, ?_⟩
    rcases hq with hq | hq <;> subst hq <;>
      by_cases hlf : ch = LF <;> simp [char_act, mk_q, hlf]
  | false =>
    have hne : ch ≠ q := by
      rcases h with h | h
      · cases h
      · exact h
    by_cases hlf : ch = LF
    · subst hlf
      refine ⟨false, ?_⟩
      rcases hq with hq | hq <;> subst hq <;> simp [char_act, char_act_tail, mk_q]
    · by_cases hb : ch = LBRACE ∧ v = true
      · refine ⟨v, ?_⟩
        obtain ⟨hb1, hb2⟩ := hb
        subst hb1 hb2
        rcases hq with hq | hq <;> subst hq <;> simp [char_act, char_act_tail, mk_q]
      · by_cases hbs : ch = BSLASH
        · subst hbs
          refine ⟨false, ?_⟩
          rcases hq with hq | hq <;> subst hq <;> simp [char_act, char_act_tail, mk_q]
        · by_cases hd : ch = DOLLAR
          · subst hd
            refine ⟨true, ?_⟩
            rcases hq with hq | hq <;> subst hq <;> simp [char_act, char_act_tail, mk_q]
          · refine ⟨false, ?_⟩
            have e1 : decide (SQUOTE = DQUOTE) = false := rfl
            have e2 : decide (DQUOTE = SQUOTE) = false := rfl
            have e3 : decide (DQUOTE = DQUOTE) = true := rfl
            have e4 : decide (SQUOTE = SQUOTE) = true := rfl
            rcases hq with hq | hq <;> subst hq <;>
              simp only [char_act, char_act_tail, mk_q, hlf, if_false, Bool.false_eq_true, hb,
                hbs, hd, hne, decide_False, decide_True, if_true, Bool.not_false, Bool.and_false,
                Bool.true_and, e1, e2, e3, e4]

theorem reach_q (g : Bool) (q : Nat) (hq : q = DQUOTE ∨ q = SQUOTE) (c : List Nat) :
    ∀ (v qd : Bool) (tok : List Nat) (line : Nat) (args : List (List Nat)) (st sl : Nat),
      no_unescaped q qd c = true →
      (g = true → tok.length + c.length ≤ NGX_CONF_BUFFER) →
      ∃ v1 qd1, reach g c (mk_q q v qd st sl) tok line args
        = some (mk_q q v1 qd1 st sl, tok ++ c, line + c.count LF, args) := by
  induction c with
  | nil => intro v qd tok line args st sl _ _; exact ⟨v, qd, by simp [reach]⟩
  | cons ch c ih =>
    intro v qd tok line args st sl hs hg
    have hg1 : ¬(g = true ∧ tok.length = NGX_CONF_BUFFER) := by
      rintro ⟨h1, h2⟩
      have := hg h1
      simp only [List.length_cons] at this
      omega
    have hstep : (qd = true ∨ ch ≠ q) ∧
        no_unescaped q (!qd && decide (ch = BSLASH)) c = true := by
      cases qd with
      | true => exact ⟨Or.inl rfl, by simpa [no_unescaped] using hs⟩
      | false =>
        by_cases hb : ch = BSLASH
        · subst hb
          refine ⟨Or.inr ?_, by simpa [no_unescaped] using hs⟩
          rcases hq with hq | hq <;> subst hq <;> decide
        · simp only [no_unescaped, hb, if_false, Bool.and_eq_true, bne_iff_ne] at hs
          exact ⟨Or.inr hs.1, by simpa [hb] using hs.2⟩
    obtain ⟨v0, hv0⟩ := act_q_step q hq (decide (args.length = 0)) v qd
      (if ch = LF then line + 1 else line) ch st sl hstep.1
    obtain ⟨v1, qd1, hv1⟩ := ih v0 (!qd && decide (ch = BSLASH)) (tok ++ [ch])
      (if ch = LF then line + 1 else line) args st sl hstep.2
      (by intro h; have := hg h; simp only [List.length_cons] at this
          simp only [List.length_append, List.length_singleton]; omega)
    refine ⟨v1, qd1, ?_⟩
    simp only [reach, hg1, if_false, hv0, apply_mark, hv1]
    simp only [List.append_assoc, List.singleton_append, count_lf_cons]

theorem act_space_quote (q : Nat) (hq : q = DQUOTE ∨ q = SQUOTE) (n : Bool)
    (line st sl : Nat) :
    char_act (mk_l false true false false false st sl) n line q
      = .go (mk_q q false false st line) .after_ch := by
  rcases hq with hq | hq <;> subst hq <;> simp [char_act, char_act_tail, mk_l, mk_q, is_space]

/-- A quoted string whose first 4096 bytes hold no closing quote, met at a token
position while a file is read, ends the call with `NGX_ERROR` and nothing of it is
stored. -/
theorem scan_long_quoted (fdv : Bool) (q : Nat) (hq : q = DQUOTE ∨ q = SQUOTE)
    (content more tok : List Nat) (line : Nat) (args : List (List Nat)) (st sl : Nat)
    (hlen : NGX_CONF_BUFFER ≤ content.length)
    (hc : no_unescaped q false (content.take NGX_CONF_BUFFER) = true) :
    (scan true fdv (q :: content ++ more) (mk_l false true false false false st sl) tok line
        args).rc = NGX_ERROR ∧
      (scan true fdv (q :: content ++ more) (mk_l false true false false false st sl) tok line
        args).args = args := by
  by_cases htok : tok.length = NGX_CONF_BUFFER
  · rw [List.cons_append, scan_too_long fdv q _ _ tok line args htok]
    exact ⟨rfl, rfl⟩
  · have hsplit : content ++ more
        = content.take NGX_CONF_BUFFER ++ (content.drop NGX_CONF_BUFFER ++ more) := by
      rw [← List.append_assoc, List.take_append_drop]
    have hl : (content.take NGX_CONF_BUFFER).length = NGX_CONF_BUFFER := by
      simp only [List.length_take]; omega
    have hqlf : ¬ (q = LF) := by rcases hq with hq | hq <;> subst hq <;> decide
    obtain ⟨v1, qd1, hr⟩ := reach_q true q hq (content.take NGX_CONF_BUFFER) false false []
      line args st line hc (by intro _; simp only [List.length_nil, hl]; omega)
    have hg1 : ¬((true = true) ∧ tok.length = NGX_CONF_BUFFER) := fun h => htok h.2
    rw [List.cons_append, scan_go true fdv q _ _ tok line args _ _ hg1
      (act_space_quote q hq _ _ st sl), hsplit]
    simp only [apply_mark, hqlf, if_false]
    rw [scan_reach true fdv _ _ _ _ _ _ _ hr]
    simp only [List.nil_append]
    cases hrest : content.drop NGX_CONF_BUFFER ++ more with
    | nil => exact scan_eof_in_token true fdv _ _ _ _ rfl
    | cons c r =>
      rw [scan_too_long fdv c r _ _ _ args hl]
      exact ⟨rfl, rfl⟩

theorem token_position_eq (l : token_locals) (h : token_position l) :
    l = mk_l false true false false false l.start l.start_line := by
  obtain ⟨ns, ls, sc, v, q, sq, dq, st, sl⟩ := l
  obtain ⟨h1, h2, h3, h4, h5, h6, h7⟩ := h
  simp only at h1 h2 h3 h4 h5 h6 h7
  subst h1 h2 h3 h4 h5 h6 h7
  rfl

theorem no_unescaped_replicate (q c : Nat) (h1 : c ≠ q) (h2 : c ≠ BSLASH) (n : Nat) :
    no_unescaped q false (List.replicate n c) = true := by
  induction n with
  | zero => rfl
  | succ n ih => simp [List.replicate_succ, no_unescaped, h1, h2, ih]

/-- A file that begins with an unquoted token of 4096 bytes or more: the first call
returns `NGX_ERROR` and stores nothing. -/
theorem file_long_plain (name t more : List Nat) (d : Bool)
    (hp : ∀ c ∈ t, is_plain c = true) (hlen : NGX_CONF_BUFFER ≤ t.length) :
    (ngx_conf_read_token (file_conf name (t ++ more) d)).map Prod.fst = some NGX_ERROR ∧
      (ngx_conf_read_token (file_conf name (t ++ more) d)).map (fun r => r.2.args)
        = some [] := by
  obtain ⟨cf1, h1, h2⟩ := read_token_scan true (file_conf name (t ++ more) d)
    (conf_ok_file _ _ _)
  have hs := scan_long_plain true t more [] 1 [] 0 1 hp hlen
  rw [upcoming_file, token_init_eq] at h1 h2
  rw [h1]
  exact ⟨congrArg some hs.1, congrArg some (h2.1.trans hs.2)⟩

/-- A file that begins with a quoted string whose first 4096 bytes hold no closing
quote: the first call returns `NGX_ERROR` and stores nothing. -/
theorem file_long_quoted (name : List Nat) (q : Nat) (content more : List Nat) (d : Bool)
    (hq : q = DQUOTE ∨ q = SQUOTE) (hlen : NGX_CONF_BUFFER ≤ content.length)
    (hc : no_unescaped q false (content.take NGX_CONF_BUFFER) = true) :
    (ngx_conf_read_token (file_conf name (q :: content ++ more) d)).map Prod.fst
        = some NGX_ERROR ∧
      (ngx_conf_read_token (file_conf name (q :: content ++ more) d)).map (fun r => r.2.args)
        = some [] := by
  obtain ⟨cf1, h1, h2⟩ := read_token_scan true (file_conf name (q :: content ++ more) d)
    (conf_ok_file _ _ _)
  have hs := scan_long_quoted true q hq content more [] 1 [] 0 1 hlen hc
  rw [upcoming_file, token_init_eq] at h1 h2
  rw [h1]
  exact ⟨congrArg some hs.1, congrArg some (h2.1.trans hs.2)⟩

/-! ### C1: directives of unquoted tokens -/

/-- C1 (amended): for a `-g` string, and for a file in which the leading white space
and every token together with the white space after it are shorter than 4096 bytes,
an input made of unquoted tokens separated by white space and ended by `;` (or by an
opening brace) makes `ngx_conf_read_token` return `NGX_OK` (or `NGX_CONF_BLOCK_START`)
with `cf->args` equal to exactly those tokens in order. -/
theorem read_token_unquoted_directive (g : Bool) (cf : ngx_conf_t) (ws0 : List Nat)
    (toks : List (List Nat × List Nat)) (term : Nat) (more : List Nat)
    (hok : conf_ok g cf)
    (hin : upcoming cf = ws0 ++ render_pairs (plain_pairs toks) ++ term :: more)
    (hws : ws0.all is_space = true) (hne : toks ≠ [])
    (htoks : pairs_ok (plain_pairs toks) = true)
    (hterm : term = SEMI ∨ term = LBRACE)
    (hshort : g = true →
      ws0.length < NGX_CONF_BUFFER ∧ pairs_short (plain_pairs toks) = true) :
    ∃ cf1, ngx_conf_read_token cf = some (term_rc term, cf1) ∧
      cf1.args = toks.map Prod.fst := by
  obtain ⟨cf1, h1, h2, _⟩ := directive_read g cf ws0 (plain_pairs toks) term more hok hin
    (by simpa using hws) (by simpa [plain_pairs] using hne) htoks hterm hshort
  refine ⟨cf1, h1, ?_⟩
  rw [h2]
  simp [plain_pairs, piece.value]

theorem read_token_unquoted_directive_witness :
    ∃ cf1, ngx_conf_read_token (file_conf [] (bytes "worker_processes  4;\n") false)
        = some (term_rc SEMI, cf1) ∧
      cf1.args = [(bytes "worker_processes", bytes "  "), (bytes "4", [])].map Prod.fst :=
  read_token_unquoted_directive true (file_conf [] (bytes "worker_processes  4;\n") false) []
    [(bytes "worker_processes", bytes "  "), (bytes "4", [])] SEMI [LF]
    (conf_ok_file _ _ _) (by decide) (by decide) (by decide) (by decide) (Or.inl rfl)
    (fun _ => ⟨by decide, by decide⟩)

/-- C1 fails as stated: a file whose directive is one unquoted token of 4096 bytes
followed by `;` makes `ngx_conf_read_token` return `NGX_ERROR` ("too long parameter"),
not `NGX_OK`. -/
theorem read_token_unquoted_too_long :
    (ngx_conf_read_token (file_conf [] (List.replicate 4096 97 ++ [SEMI]) false)).map Prod.fst
      = some NGX_ERROR :=
  (file_long_plain [] (List.replicate 4096 97) [SEMI] false
    (by intro c hc; rw [List.eq_of_mem_replicate hc]; decide)
    (by rw [List.length_replicate])).1

/-! ### C2: quoted strings -/

/-- In a directive of tokens without escape sequences, a quoted string is stored as one
argument among the arguments of the other tokens: the arguments of the call are the
values of the tokens in order. -/
theorem read_token_quoted_in_directive (g : Bool) (cf : ngx_conf_t) (ws0 : List Nat)
    (before after : List (piece × List Nat)) (q : Nat) (content ws : List Nat)
    (term : Nat) (more : List Nat)
    (hok : conf_ok g cf)
    (hin : upcoming cf
      = ws0 ++ render_pairs (before ++ (piece.quoted q content, ws) :: after) ++ term :: more)
    (hws : ws0.all is_space = true)
    (hpairs : pairs_ok (before ++ (piece.quoted q content, ws) :: after) = true)
    (hterm : term = SEMI ∨ term = LBRACE)
    (hshort : g = true → ws0.length < NGX_CONF_BUFFER ∧
      pairs_short (before ++ (piece.quoted q content, ws) :: after) = true) :
    ∃ cf1, ngx_conf_read_token cf = some (term_rc term, cf1) ∧
      cf1.args = before.map (fun x => x.1.value) ++ content
        :: after.map (fun x => x.1.value) := by
  obtain ⟨cf1, h1, h2, _⟩ := directive_read g cf ws0
    (before ++ (piece.quoted q content, ws) :: after) term more hok hin
    (by simpa using hws) (by simp) hpairs hterm hshort
  refine ⟨cf1, h1, ?_⟩
  rw [h2]
  simp [piece.value]

theorem scan_args_prefix (g fdv : Bool) (s : List Nat) :
    ∀ (l : token_locals) (tok : List Nat) (line : Nat) (args : List (List Nat)),
      args <+: (scan g fdv s l tok line args).args := by
  induction s with
  | nil =>
    intro l tok line args
    simp only [scan]
    split_ifs <;> exact List.prefix_refl _
  | cons ch s ih =>
    intro l tok line args
    by_cases hg : g = true ∧ tok.length = NGX_CONF_BUFFER
    · simp only [scan, hg, and_self, if_true]
      exact List.prefix_refl _
    · simp only [scan, hg, if_false]
      cases hact : char_act l (decide (args.length = 0)) (if ch = LF then line + 1 else line) ch with
      | go l1 m => exact ih _ _ _ _
      | word l1 =>
        dsimp only
        by_cases h1 : ch = SEMI
        · rw [if_pos h1]
          exact List.prefix_append _ _
        · rw [if_neg h1]
          by_cases h2 : ch = LBRACE
          · rw [if_pos h2]
            exact List.prefix_append _ _
          · rw [if_neg h2]
            exact (List.prefix_append _ _).trans (ih _ _ _ _)
      | stop rc => exact List.prefix_refl _
      | fail m => exact List.prefix_refl _

theorem scan_ns_ws_term (g fdv : Bool) (term : Nat) (more : List Nat)
    (hterm : term = SEMI ∨ term = LBRACE) (ws : List Nat) (tok : List Nat) (line : Nat)
    (args : List (List Nat)) (st sl : Nat) (hws : ∀ c ∈ ws, is_space c = true)
    (hargs : args ≠ []) (hg : g = true → tok.length + ws.length < NGX_CONF_BUFFER) :
    scan g fdv (ws ++ term :: more) (mk_l true false false false false st sl) tok line args
      = ⟨term_rc term, args, line + ws.count LF, none, more⟩ := by
  cases ws with
  | nil =>
    rw [List.nil_append, scan_ns_term g fdv term more tok line args st sl hterm (by
      intro h
      have := hg h
      simp only [List.length_nil, Nat.add_zero] at this
      exact this)]
    simp
  | cons w ws =>
    have hw : is_space w = true := hws w (List.mem_cons_self _ _)
    have hlen : g = true → tok.length + (ws.length + 1) < NGX_CONF_BUFFER := by
      intro h
      have := hg h
      simp only [List.length_cons] at this
      exact this
    have hg0 : ¬(g = true ∧ tok.length = NGX_CONF_BUFFER) := by
      rintro ⟨h1, h2⟩
      have := hlen h1
      omega
    have hstep : reach g [w] (mk_l true false false false false st sl) tok line args
        = some (mk_l false true false false false st sl, tok ++ [w],
            (if w = LF then line + 1 else line), args) := by
      simp only [reach, hg0, if_false, act_ns_ws _ _ w _ _ hw, apply_mark]
    have hrest := reach_ws g ws (tok ++ [w]) (if w = LF then line + 1 else line) args st sl
      (fun c hc0 => hws c (List.mem_cons_of_mem _ hc0)) (by
        intro h
        have := hlen h
        simp only [List.length_append, List.length_singleton]
        omega)
    have hall : reach g (w :: ws) (mk_l true false false false false st sl) tok line args
        = some (mk_l false true false false false st sl, tok ++ [w] ++ ws,
            (if w = LF then line + 1 else line) + ws.count LF, args) := by
      have := reach_append g [w] ws _ _ _ _ _ hstep
      simp only [List.singleton_append] at this
      rw [this]
      exact hrest
    rw [List.cons_append, ← List.cons_append, scan_reach g fdv (w :: ws) (term :: more) _ _ _ _ _ hall]
    simp only
    rw [scan_space_term g fdv term more _ _ _ st sl hterm hargs (by
      intro h
      have := hlen h
      simp only [List.length_append, List.length_singleton]
      omega)]
    simp only [scan_result.mk.injEq, true_and, and_true]
    by_cases hwl : w = LF
    · subst hwl
      simp only [if_true, List.count_cons_self]
      omega
    · have hne : ¬ (LF = w) := fun e => hwl e.symm
      rw [if_neg hwl, List.count_cons_of_ne hne]


/-- C2 (amended): let a call of `ngx_conf_read_token` have read the bytes `pre` without
returning and be where a token may start (`pre` may hold comments and tokens of any
kind), and let a quote `q`, single or double, follow, then bytes `content` that hold
neither `q` nor a backslash, then `q` again. For a `-g` string, and for a file when the
bytes since the last token mark and the content are shorter than 4096 bytes, the call
stores exactly one argument for the string, the bytes `content` (white space, `;`,
braces, `#` and the other quote included): behind the closing quote the arguments are
those read before with `content` appended, and the call returns with these in front of
its arguments. When only white space and then `;` or an opening brace follow, the call
returns for that terminator with exactly these arguments. -/
theorem read_token_quoted_string (g : Bool) (cf : ngx_conf_t) (pre rest : List Nat)
    (q : Nat) (content : List Nat)
    (st : token_locals × List Nat × Nat × List (List Nat))
    (hok : conf_ok g cf)
    (hin : upcoming cf = pre ++ (q :: content ++ [q]) ++ rest)
    (hpre : reach g pre (token_init cf) [] cf.conf_file.line [] = some st)
    (hpos : token_position st.1)
    (hq : q = DQUOTE ∨ q = SQUOTE)
    (hc : ∀ x ∈ content, x ≠ q ∧ x ≠ BSLASH)
    (hshort : g = true → st.2.1.length ≠ NGX_CONF_BUFFER ∧ content.length < NGX_CONF_BUFFER) :
    reach g (pre ++ (q :: content ++ [q])) (token_init cf) [] cf.conf_file.line []
      = some (mk_l true false false false false st.1.start st.2.2.1, content ++ [q],
          st.2.2.1 + content.count LF, st.2.2.2 ++ [content]) ∧
    (∃ rc cf1, ngx_conf_read_token cf = some (rc, cf1) ∧
      (st.2.2.2 ++ [content]) <+: cf1.args) ∧
    (∀ (ws more : List Nat) (term : Nat), rest = ws ++ term :: more →
      (∀ c ∈ ws, is_space c = true) → term = SEMI ∨ term = LBRACE →
      (g = true → content.length + 1 + ws.length < NGX_CONF_BUFFER) →
      ∃ cf1, ngx_conf_read_token cf = some (term_rc term, cf1) ∧
        cf1.args = st.2.2.2 ++ [content]) := by
  obtain ⟨l, tok, line, args⟩ := st
  have hl := token_position_eq l hpos
  simp only at hshort hl ⊢
  have hq1 : reach g (q :: content ++ [q]) l tok line args
      = some (mk_l true false false false false l.start line, content ++ [q],
          line + content.count LF, args ++ [content]) := by
    rw [hl]
    exact reach_piece_quoted g q content tok line args l.start l.start_line hq hc hshort
  have hre : reach g (pre ++ (q :: content ++ [q])) (token_init cf) [] cf.conf_file.line []
      = some (mk_l true false false false false l.start line, content ++ [q],
          line + content.count LF, args ++ [content]) := by
    rw [reach_append g pre _ _ _ _ _ _ hpre]
    exact hq1
  obtain ⟨cf1, e1, e2⟩ := read_token_scan g cf hok
  rw [hin, scan_reach g cf.conf_file.fd_valid _ rest _ _ _ _ _ hre] at e1 e2
  simp only at e1 e2
  refine ⟨hre, ⟨_, cf1, e1, ?_⟩, ?_⟩
  · rw [e2.1]
    exact scan_args_prefix _ _ _ _ _ _ _
  · intro ws more term hrest hws hterm hg
    subst hrest
    have hscan := scan_ns_ws_term g cf.conf_file.fd_valid term more hterm ws (content ++ [q])
      (line + content.count LF) (args ++ [content]) l.start line hws (by simp) (by
        intro h
        have := hg h
        simp only [List.length_append, List.length_singleton]
        omega)
    rw [hscan] at e1 e2
    exact ⟨cf1, e1, e2.1⟩

theorem read_token_quoted_string_witness :
    ∃ cf1, ngx_conf_read_token (file_conf [] (bytes "# c\nset $a \x27b c;#\"\x27;") false)
        = some (NGX_OK, cf1) ∧
      cf1.args = [bytes "set", bytes "$a", bytes "b c;#\""] :=
  (read_token_quoted_string true (file_conf [] (bytes "# c\nset $a \x27b c;#\"\x27;") false)
    (bytes "# c\nset $a ") [SEMI] SQUOTE (bytes "b c;#\"")
    (mk_l false true false false false 0 2, bytes "$a ", 2, [bytes "set", bytes "$a"])
    (conf_ok_file _ _ _) (by decide) (by decide) ⟨rfl, rfl, rfl, rfl, rfl, rfl, rfl⟩
    (Or.inr rfl) (by decide) (fun _ => ⟨by decide, by decide⟩)).2.2 [] [] SEMI rfl
    (by decide) (Or.inl rfl) (fun _ => by decide)

/-- C2 fails as stated: for a file that starts with a quoted string of 4096 bytes,
closed by its quote and followed by `;`, `ngx_conf_read_token` returns `NGX_ERROR`
and stores no argument. -/
theorem read_token_quoted_too_long :
    (ngx_conf_read_token
        (file_conf [] (DQUOTE :: List.replicate 4096 97 ++ [DQUOTE, SEMI]) false)).map
        (fun r => r.2.args) = some [] :=
  (file_long_quoted [] DQUOTE (List.replicate 4096 97) [DQUOTE, SEMI] false (Or.inl rfl)
    (by rw [List.length_replicate])
    (by rw [List.take_replicate]; exact no_unescaped_replicate _ _ (by decide) (by decide) _)).2

/-! ### C3: escape sequences -/

/-- C3: the argument copied from a token in which every backslash is followed by
another byte of the token is the token with the pairs backslash-quote and
backslash-backslash replaced by their second byte, `\t`, `\r`, `\n` replaced by TAB,
CR, LF, and every other byte (also a backslash before any other byte) unchanged. -/
theorem copy_token_unescape (data : List Nat) (start pos : Nat) (h1 : start < pos)
    (h2 : pos ≤ data.length)
    (h3 : escapes_closed ((data.drop start).take (pos - 1 - start)) = true) :
    copy_token data start pos = unescape_spec ((data.drop start).take (pos - 1 - start)) := by
  have hd := copy_loop_drop data start (pos - 1 - start) (pos - 1 - start) 0
  have e : start + (pos - 1 - start) = pos - 1 := by omega
  rw [e, Nat.add_zero] at hd
  have hlen : ((data.drop start).take (pos - 1 - start)).length = pos - 1 - start := by
    simp only [List.length_take, List.length_drop]; omega
  have hu := copy_loop_unescape _ ((data.drop start).take (pos - 1 - start))
    ((data.drop start).drop (pos - 1 - start)) (pos - 1 - start) rfl h3 (by omega)
  rw [List.take_append_drop, hlen] at hu
  unfold copy_token
  rw [hd, hu]

theorem copy_token_unescape_witness :
    copy_token (bytes "a\\tb\\\"c\\\\d\\e;") 0 13
      = [97, TAB, 98, DQUOTE, 99, BSLASH, 100, BSLASH, 101] :=
  copy_token_unescape (bytes "a\\tb\\\"c\\\\d\\e;") 0 13 (by decide) (by decide) (by decide)

/-! ### C6: parameters of 4096 bytes or more -/

/-- C6: while a file is read (4096-byte buffer), a quoted string met at a token
position whose content is 4096 bytes or longer (its first 4096 bytes hold no closing
quote) makes `ngx_conf_read_token` return `NGX_ERROR`, and so does an unquoted
parameter of 4096 bytes or more. `pre` is what the call reads before the parameter. -/
theorem read_token_long_parameter (cf : ngx_conf_t) (pre : List Nat)
    (st : token_locals × List Nat × Nat × List (List Nat))
    (hok : conf_ok true cf)
    (hpre : reach false pre (token_init cf) [] cf.conf_file.line [] = some st)
    (hpos : token_position st.1) :
    (∀ (q : Nat) (content more : List Nat), q = DQUOTE ∨ q = SQUOTE →
      upcoming cf = pre ++ (q :: content ++ more) →
      NGX_CONF_BUFFER ≤ content.length →
      no_unescaped q false (content.take NGX_CONF_BUFFER) = true →
      ∃ cf1, ngx_conf_read_token cf = some (NGX_ERROR, cf1)) ∧
    (∀ (t more : List Nat), upcoming cf = pre ++ (t ++ more) →
      (∀ c ∈ t, is_plain c = true) → NGX_CONF_BUFFER ≤ t.length →
      ∃ cf1, ngx_conf_read_token cf = some (NGX_ERROR, cf1)) := by
  obtain ⟨cf1, h1, _⟩ := read_token_scan true cf hok
  have hst := token_position_eq st.1 hpos
  constructor
  · intro q content more hq hin hlen hc
    rw [hin] at h1
    rcases scan_reach_guard cf.conf_file.fd_valid pre (q :: content ++ more) _ _ _ _ st hpre
      with hgd | hgd
    · rw [hgd.1] at h1; exact ⟨cf1, h1⟩
    · rw [hgd, hst, (scan_long_quoted _ q hq content more _ _ _ _ _ hlen hc).1] at h1
      exact ⟨cf1, h1⟩
  · intro t more hin hp hlen
    rw [hin] at h1
    rcases scan_reach_guard cf.conf_file.fd_valid pre (t ++ more) _ _ _ _ st hpre
      with hgd | hgd
    · rw [hgd.1] at h1; exact ⟨cf1, h1⟩
    · rw [hgd, hst, (scan_long_plain _ t more _ _ _ _ _ hp hlen).1] at h1
      exact ⟨cf1, h1⟩

theorem read_token_long_parameter_witness :
    ∃ cf1, ngx_conf_read_token
        (file_conf [] (bytes "a " ++ (SQUOTE :: List.replicate 5000 98 ++ [SQUOTE, SEMI])) false)
      = some (NGX_ERROR, cf1) :=
  (read_token_long_parameter
    (file_conf [] (bytes "a " ++ (SQUOTE :: List.replicate 5000 98 ++ [SQUOTE, SEMI])) false)
    (bytes "a ") (mk_l false true false false false 0 1, bytes "a ", 1, [bytes "a"])
    (conf_ok_file _ _ _) (by decide) ⟨rfl, rfl, rfl, rfl, rfl, rfl, rfl⟩).1 SQUOTE
    (List.replicate 5000 98)
    [SQUOTE, SEMI] (Or.inr rfl) rfl (by rw [List.length_replicate]; decide)
    (by rw [List.take_replicate]; exact no_unescaped_replicate _ _ (by decide) (by decide) _)

/-! ### C4: comments -/

theorem too_long_msg_is (l : token_locals) : is_too_long (some (too_long_msg l)) = true := by
  unfold too_long_msg
  split_ifs <;> rfl

/-- With the refill check, a call either logs the "too long parameter" error or does
what it does without the check. -/
theorem scan_guard_or (fdv : Bool) (s : List Nat) :
    ∀ (l : token_locals) (tok : List Nat) (line : Nat) (args : List (List Nat)),
      is_too_long (scan true fdv s l tok line args).err = true ∨
      scan true fdv s l tok line args = scan false fdv s l tok line args := by
  induction s with
  | nil => intro l tok line args; right; simp [scan]
  | cons ch s ih =>
    intro l tok line args
    by_cases hg : tok.length = NGX_CONF_BUFFER
    · left
      rw [scan_too_long fdv ch s l tok line args hg]
      exact too_long_msg_is l
    · simp only [scan, hg, and_false, Bool.false_eq_true, false_and, if_false]
      cases hact : char_act l (decide (args.length = 0)) (if ch = LF then line + 1 else line) ch with
      | go l1 m => exact ih _ _ _ _
      | word l1 =>
        simp only
        by_cases h1 : ch = SEMI
        · simp only [h1, if_true]; right; trivial
        · by_cases h2 : ch = LBRACE
          · simp only [h1, h2, if_true, if_false]; right; trivial
          · simp only [h1, h2, if_false]; exact ih _ _ _ _
      | stop rc => right; rfl
      | fail m => right; rfl

theorem char_act_tail_fail (l : token_locals) (n : Bool) (line ch : Nat) (m : conf_msg)
    (h : char_act_tail l n line ch = .fail m) : is_too_long (some m) = false := by
  obtain ⟨ns, ls, sc, v, q, sq, dq, st, sl⟩ := l
  unfold char_act_tail at h
  cases ls
  · simp only [Bool.false_eq_true, if_false] at h
    split_ifs at h
  · simp only [if_true] at h
    split_ifs at h <;> cases h <;> rfl

theorem char_act_fail (l : token_locals) (n : Bool) (line ch : Nat) (m : conf_msg)
    (h : char_act l n line ch = .fail m) : is_too_long (some m) = false := by
  unfold char_act at h
  simp only at h
  split_ifs at h
  all_goals first
    | exact char_act_tail_fail _ _ _ _ _ h
    | (cases h; rfl)

theorem scan_false_not_too_long (fdv : Bool) (s : List Nat) :
    ∀ (l : token_locals) (tok : List Nat) (line : Nat) (args : List (List Nat)),
      is_too_long (scan false fdv s l tok line args).err = false := by
  induction s with
  | nil =>
    intro l tok line args
    simp only [scan]
    split_ifs <;> rfl
  | cons ch s ih =>
    intro l tok line args
    simp only [scan, Bool.false_eq_true, false_and, if_false]
    cases hact : char_act l (decide (args.length = 0)) (if ch = LF then line + 1 else line) ch with
    | go l1 m => exact ih _ _ _ _
    | word l1 =>
      simp only
      by_cases h1 : ch = SEMI
      · simp only [h1, if_true]; rfl
      · by_cases h2 : ch = LBRACE
        · simp only [h1, h2, if_true, if_false]; rfl
        · simp only [h1, h2, if_false]; exact ih _ _ _ _
    | stop rc => rfl
    | fail m => exact char_act_fail _ _ _ _ _ hact

theorem act_space_nonspace (n : Bool) (line ch st sl sl1 : Nat) (h : is_space ch = false) :
    char_act (mk_l false true false false false st sl) n line ch
        = char_act (mk_l false true false false false st sl1) n line ch ∧
      (∀ l1, char_act (mk_l false true false false false st sl) n line ch ≠ .go l1 .keep) ∧
      (∀ l1, char_act (mk_l false true false false false st sl) n line ch ≠ .word l1) := by
  have hlf : ch ≠ LF := by
    intro e; subst e; simp [is_space] at h
  simp only [char_act, char_act_tail, mk_l, hlf, if_false, Bool.false_eq_true, h, if_true]
  refine ⟨trivial, ?_, ?_⟩ <;> intro l1 <;> split_ifs <;> simp

/-- At a token position the outcome of a call without the refill check depends neither
on the bytes since the mark nor on the line of the mark. -/
theorem scan_position_irrel (fdv : Bool) (s : List Nat) :
    ∀ (tok tok1 : List Nat) (line : Nat) (args : List (List Nat)) (st sl sl1 : Nat),
      scan false fdv s (mk_l false true false false false st sl) tok line args
        = scan false fdv s (mk_l false true false false false st sl1) tok1 line args := by
  induction s with
  | nil => intro tok tok1 line args st sl sl1; simp [scan, mk_l]
  | cons ch s ih =>
    intro tok tok1 line args st sl sl1
    have hg : ∀ t : List Nat, ¬(false = true ∧ t.length = NGX_CONF_BUFFER) := by
      intro t h; exact Bool.false_ne_true h.1
    cases hsp : is_space ch with
    | true =>
      rw [scan_go false fdv ch s _ tok line args _ _ (hg tok) (act_space_ws _ _ ch st sl hsp),
        scan_go false fdv ch s _ tok1 line args _ _ (hg tok1) (act_space_ws _ _ ch st sl1 hsp)]
      exact ih _ _ _ _ _ _ _
    | false =>
      obtain ⟨h1, h2, h3⟩ := act_space_nonspace (decide (args.length = 0))
        (if ch = LF then line + 1 else line) ch st sl sl1 hsp
      simp only [scan, hg, if_false, ← h1]
      cases hact : char_act (mk_l false true false false false st sl) (decide (args.length = 0))
          (if ch = LF then line + 1 else line) ch with
      | go l1 m =>
        cases m with
        | keep => exact absurd hact (h2 l1)
        | at_ch => rfl
        | after_ch => rfl
      | word l1 => exact absurd hact (h3 l1)
      | stop rc => rfl
      | fail m => rfl

theorem scan_comment_body (fdv : Bool) (com : List Nat) :
    ∀ (rest tok : List Nat) (line : Nat) (args : List (List Nat)) (st sl : Nat),
      (∀ c ∈ com, c ≠ LF) →
      scan false fdv (com ++ rest) (mk_c st sl) tok line args
        = scan false fdv rest (mk_c st sl) (tok ++ com) line args := by
  induction com with
  | nil => intro rest tok line args st sl _; simp
  | cons c com ih =>
    intro rest tok line args st sl h
    have hc : c ≠ LF := h c (List.mem_cons_self _ _)
    have hg : ¬(false = true ∧ tok.length = NGX_CONF_BUFFER) := fun h => Bool.false_ne_true h.1
    have hact : char_act (mk_c st sl) (decide (args.length = 0))
        (if c = LF then line + 1 else line) c = .go (mk_c st sl) .keep := by
      simp [char_act, mk_c, hc]
    rw [List.cons_append, scan_go false fdv c _ _ tok line args _ _ hg hact]
    simp only [hc, if_false, apply_mark]
    rw [ih rest _ line args st sl (fun x hx => h x (List.mem_cons_of_mem _ hx))]
    simp

/-- Without the refill check, a comment met at a token position changes nothing. -/
theorem scan_comment (fdv : Bool) (com rest tok : List Nat) (line : Nat)
    (args : List (List Nat)) (st sl : Nat) (hcom : ∀ c ∈ com, c ≠ LF)
    (hrest : rest = [] ∨ ∃ r, rest = LF :: r) :
    scan false fdv (SHARP :: (com ++ rest)) (mk_l false true false false false st sl) tok line
        args
      = scan false fdv rest (mk_l false true false false false st sl) tok line args := by
  have hg : ∀ t : List Nat, ¬(false = true ∧ t.length = NGX_CONF_BUFFER) := by
    intro t h; exact Bool.false_ne_true h.1
  have hact : char_act (mk_l false true false false false st sl) (decide (args.length = 0))
      (if SHARP = LF then line + 1 else line) SHARP = .go (mk_c st line) .at_ch := by
    simp [char_act, char_act_tail, mk_l, mk_c, is_space]
  rw [scan_go false fdv SHARP _ _ tok line args _ _ (hg tok) hact]
  have hs : ¬ (SHARP = LF) := by decide
  simp only [hs, if_false, apply_mark]
  rw [scan_comment_body fdv com rest _ line args st line hcom]
  rcases hrest with h | ⟨r, h⟩
  · subst h; simp [scan, mk_l, mk_c]
  · subst h
    have hact2 : char_act (mk_c st line) (decide (args.length = 0))
        (if LF = LF then line + 1 else line) LF
          = .go (mk_l false true false false false st line) .keep := by
      simp [char_act, char_act_tail, mk_l, mk_c, is_space]
    rw [scan_go false fdv LF r _ _ line args _ _ (hg _) hact2,
      scan_go false fdv LF r _ tok line args _ _ (hg tok) (act_space_ws _ _ LF st sl rfl)]
    exact scan_position_irrel fdv r _ _ _ _ _ _ _

theorem reach_comment (g : Bool) (com : List Nat) :
    ∀ (tok : List Nat) (line : Nat) (args : List (List Nat)) (st sl : Nat),
      (∀ c ∈ com, c ≠ LF) →
      (g = true → tok.length + com.length ≤ NGX_CONF_BUFFER) →
      reach g com (mk_c st sl) tok line args = some (mk_c st sl, tok ++ com, line, args) := by
  induction com with
  | nil => intro tok line args st sl _ _; simp [reach]
  | cons c com ih =>
    intro tok line args st sl h hg
    have hc : c ≠ LF := h c (List.mem_cons_self _ _)
    have hg1 : ¬(g = true ∧ tok.length = NGX_CONF_BUFFER) := by
      rintro ⟨h1, h2⟩
      have := hg h1
      simp only [List.length_cons] at this
      omega
    have hact : ∀ ln, char_act (mk_c st sl) (decide (args.length = 0)) ln c
        = .go (mk_c st sl) .keep := by
      intro ln; simp [char_act, mk_c, hc]
    simp only [reach, hg1, if_false, hact, apply_mark, hc]
    rw [ih (tok ++ [c]) line args st sl (fun x hx => h x (List.mem_cons_of_mem _ hx))
      (by intro h; have := hg h; simp only [List.length_cons] at this
          simp only [List.length_append, List.length_singleton]; omega)]
    simp

/-- A file that begins with a comment line of more than 4096 bytes: the first call
returns `NGX_ERROR`. -/
theorem file_long_comment (name com more : List Nat) (d : Bool)
    (hcom : ∀ c ∈ com, c ≠ LF) (hlen : NGX_CONF_BUFFER ≤ com.length) :
    (ngx_conf_read_token (file_conf name (SHARP :: com ++ more) d)).map Prod.fst
      = some NGX_ERROR := by
  obtain ⟨cf1, h1, _⟩ := read_token_scan true (file_conf name (SHARP :: com ++ more) d)
    (conf_ok_file _ _ _)
  rw [upcoming_file, token_init_eq] at h1
  rw [h1]
  refine congrArg some ?_
  have hg0 : ¬(true = true ∧ ([] : List Nat).length = NGX_CONF_BUFFER) := by
    rintro ⟨_, h⟩; simp at h
  have hact : ∀ ln, char_act (mk_l false true false false false 0 1) (decide (([] : List (List Nat)).length = 0))
      ln SHARP = .go (mk_c 0 ln) .at_ch := by
    intro ln; simp [char_act, char_act_tail, mk_l, mk_c, is_space]
  have hN : NGX_CONF_BUFFER = 4096 := rfl
  have hsplit : com ++ more = com.take 4095 ++ (com.drop 4095 ++ more) := by
    rw [← List.append_assoc, List.take_append_drop]
  have hl : (com.take 4095).length = 4095 := by
    simp only [List.length_take]; omega
  have hr := reach_comment true (com.take 4095) [SHARP] 1 [] 0 1
    (fun c hc => hcom c (List.mem_of_mem_take hc))
    (by intro _; simp only [List.length_singleton, hl]; omega)
  show (scan true true (SHARP :: com ++ more) (mk_l false true false false false 0 1) [] 1 []).rc
    = NGX_ERROR
  rw [List.cons_append, scan_go true true SHARP _ _ [] 1 [] _ _ hg0 (hact _), hsplit]
  simp only [apply_mark]
  have hs : ¬ (SHARP = LF) := by decide
  simp only [hs, if_false]
  rw [scan_reach true true _ _ _ _ _ _ _ hr]
  cases hd : com.drop 4095 ++ more with
  | nil =>
    have := congrArg List.length hd
    simp only [List.length_append, List.length_drop, List.length_nil] at this
    omega
  | cons c r =>
    rw [scan_too_long true c r _ _ _ _ (by simp only [List.length_append, List.length_singleton, hl])]

theorem agrees_too_long (g : Bool) (cf cf1 : ngx_conf_t) (r : scan_result)
    (h : agrees g cf cf1 r) (ht : is_too_long r.err = true) : too_long_logged cf cf1 := by
  obtain ⟨_, _, h3, _⟩ := h
  cases he : r.err with
  | none => rw [he] at ht; cases ht
  | some m =>
    rw [he] at h3 ht
    refine ⟨entry_of cf.conf_file.fd_valid r.line m, by simpa using h3, ?_⟩
    unfold entry_of
    split_ifs <;> exact ht

/-! ### C4: comments -/

/-- C4 (amended): a `#` met where a token may start opens a comment that runs to the
next line feed: deleting the bytes from such a `#` up to (not including) the next LF
changes neither the return code nor the arguments of the call, for a `-g` string
always and for a file unless one of the two calls ends in the "too long parameter"
error. `pre` is what the call reads before the `#`. -/
theorem read_token_comment_removed (g : Bool) (cf cf2 : ngx_conf_t) (pre com rest : List Nat)
    (st : token_locals × List Nat × Nat × List (List Nat))
    (hok : conf_ok g cf) (hok2 : conf_ok g cf2)
    (hfd : cf2.conf_file.fd_valid = cf.conf_file.fd_valid)
    (hline : cf2.conf_file.line = cf.conf_file.line)
    (hin : upcoming cf = pre ++ SHARP :: (com ++ rest))
    (hin2 : upcoming cf2 = pre ++ rest)
    (hcom : ∀ c ∈ com, c ≠ LF) (hrest : rest = [] ∨ ∃ r, rest = LF :: r)
    (hpre : reach false pre (token_init cf) [] cf.conf_file.line [] = some st)
    (hpos : token_position st.1) :
    ∃ rc cf1 rc2 cf3,
      ngx_conf_read_token cf = some (rc, cf1) ∧ ngx_conf_read_token cf2 = some (rc2, cf3) ∧
      ((g = true ∧ (too_long_logged cf cf1 ∨ too_long_logged cf2 cf3)) ∨
        (rc = rc2 ∧ cf1.args = cf3.args)) := by
  obtain ⟨cf1, h1, a1⟩ := read_token_scan g cf hok
  obtain ⟨cf3, h2, a2⟩ := read_token_scan g cf2 hok2
  have hinit : token_init cf2 = { token_init cf with start := cf2.conf_file.buffer.pos } := by
    simp [token_init, hline]
  have e2 : scan g cf2.conf_file.fd_valid (upcoming cf2) (token_init cf2) []
      cf2.conf_file.line []
      = scan g cf.conf_file.fd_valid (pre ++ rest) (token_init cf) [] cf.conf_file.line [] := by
    rw [hinit, scan_start, hfd, hline, hin2]
  rw [e2] at h2 a2
  rw [hin] at h1 a1
  refine ⟨_, cf1, _, cf3, h1, h2, ?_⟩
  have hst := token_position_eq st.1 hpos
  have hfalse : scan false cf.conf_file.fd_valid (pre ++ SHARP :: (com ++ rest)) (token_init cf) []
      cf.conf_file.line []
      = scan false cf.conf_file.fd_valid (pre ++ rest) (token_init cf) [] cf.conf_file.line [] := by
    rw [scan_reach false _ pre _ _ _ _ _ st hpre, scan_reach false _ pre _ _ _ _ _ st hpre, hst]
    exact scan_comment _ com rest _ _ _ _ _ hcom hrest
  cases g with
  | false =>
    right
    rw [hfalse] at a1 ⊢
    exact ⟨rfl, a1.1.trans a2.1.symm⟩
  | true =>
    rcases scan_guard_or cf.conf_file.fd_valid (pre ++ SHARP :: (com ++ rest)) (token_init cf) []
      cf.conf_file.line [] with ht | he
    · left; exact ⟨rfl, Or.inl (agrees_too_long _ _ _ _ a1 ht)⟩
    · rcases scan_guard_or cf.conf_file.fd_valid (pre ++ rest) (token_init cf) []
        cf.conf_file.line [] with ht2 | he2
      · left
        exact ⟨rfl, Or.inr (agrees_too_long _ _ _ _ a2 ht2)⟩
      · right
        rw [he, hfalse, ← he2] at a1 ⊢
        exact ⟨rfl, a1.1.trans a2.1.symm⟩

theorem read_token_comment_removed_witness :
    ∃ rc cf1 rc2 cf3,
      ngx_conf_read_token (file_conf [] (bytes "a # c;\n b;") false) = some (rc, cf1) ∧
      ngx_conf_read_token (file_conf [] (bytes "a \n b;") false) = some (rc2, cf3) ∧
      ((true = true ∧ (too_long_logged (file_conf [] (bytes "a # c;\n b;") false) cf1 ∨
          too_long_logged (file_conf [] (bytes "a \n b;") false) cf3)) ∨
        (rc = rc2 ∧ cf1.args = cf3.args)) :=
  read_token_comment_removed true (file_conf [] (bytes "a # c;\n b;") false)
    (file_conf [] (bytes "a \n b;") false) (bytes "a ") (bytes " c;") (bytes "\n b;")
    (mk_l false true false false false 0 1, bytes "a ", 1, [bytes "a"])
    (conf_ok_file _ _ _) (conf_ok_file _ _ _) rfl rfl (by decide) (by decide) (by decide)
    (Or.inr ⟨bytes " b;", by decide⟩) (by decide) ⟨rfl, rfl, rfl, rfl, rfl, rfl, rfl⟩

/-- C4 fails as stated: a file that is one comment line of 4097 bytes and a line feed
makes `ngx_conf_read_token` return `NGX_ERROR`, while with the comment deleted (the
line feed alone) it returns `NGX_CONF_FILE_DONE`. -/
theorem read_token_long_comment_differs :
    (ngx_conf_read_token (file_conf [] (SHARP :: List.replicate 4096 120 ++ [LF]) false)).map
        Prod.fst = some NGX_ERROR ∧
      (ngx_conf_read_token (file_conf [] [LF] false)).map Prod.fst
        = some NGX_CONF_FILE_DONE :=
  ⟨file_long_comment [] (List.replicate 4096 120) [LF] false
      (by intro c hc; rw [List.eq_of_mem_replicate hc]; decide)
      (by rw [List.length_replicate]),
    by decide⟩

/-! ### C5: `$` followed by an opening brace -/

/-- C5 (code bug): when `$` is the first byte of a token the loop does not set
`variable`, so the opening brace after it ends the token: `set $a ${b};` returns
`NGX_CONF_BLOCK_START` with the arguments `set`, `$a`, `$`; with a byte before the `$`
(`set $a x${b};`) the brace is kept and the call returns `NGX_OK`. -/
theorem read_token_dollar_brace_first :
    (ngx_conf_read_token (file_conf [] (bytes "set $a $\x7bb\x7d;") false)).map
        (fun r => (r.1, r.2.args))
        = some (NGX_CONF_BLOCK_START, [bytes "set", bytes "$a", bytes "$"]) ∧
      (ngx_conf_read_token (file_conf [] (bytes "set $a x$\x7bb\x7d;") false)).map
        (fun r => (r.1, r.2.args))
        = some (NGX_OK, [bytes "set", bytes "$a", bytes "x$\x7bb\x7d"]) := by
  constructor <;> decide

/-! ### C10: the line counter -/

theorem char_act_tail_start_line (l : token_locals) (n : Bool) (line ch : Nat) :
    start_line_ok l.start_line line ch (char_act_tail l n line ch) := by
  obtain ⟨ns, ls, sc, v, q, sq, dq, st, sl⟩ := l
  unfold char_act_tail
  cases ls
  · simp only [Bool.false_eq_true, if_false]
    split_ifs <;> simp [start_line_ok]
  · simp only [if_true]
    by_cases hsp : is_space ch = true
    · simp [hsp, start_line_ok]
    · have hne : ch ≠ LF := by
        intro e; subst e; simp [is_space] at hsp
      simp only [hsp, if_false]
      split_ifs <;> simp [start_line_ok, hne]

theorem char_act_start_line (l : token_locals) (n : Bool) (line ch : Nat) :
    start_line_ok l.start_line line ch (char_act l n line ch) := by
  have ht := fun ns ls sc v q sq dq st =>
    char_act_tail_start_line ⟨ns, ls, sc, v, q, sq, dq, st, l.start_line⟩ n line ch
  obtain ⟨ns, ls, sc, v, q, sq, dq, st, sl⟩ := l
  simp only at ht
  unfold char_act
  have hsp : is_space LF = true := rfl
  by_cases hlf : ch = LF
  · subst hlf
    cases q <;> cases ns <;> simp only [Bool.false_eq_true, if_true, if_false, hsp] <;>
      first
        | exact ht _ _ _ _ _ _ _ _
        | simp [start_line_ok]
  · simp only [hlf, if_false]
    cases sc <;> cases q <;> cases ns <;>
      simp only [Bool.false_eq_true, if_true, if_false] <;>
      first
        | exact ht _ _ _ _ _ _ _ _
        | (simp [start_line_ok]; done)
        | (split_ifs <;> first
            | exact ht _ _ _ _ _ _ _ _
            | simp [start_line_ok])

theorem scan_err_rc (g fdv : Bool) (s : List Nat) :
    ∀ (l : token_locals) (tok : List Nat) (line : Nat) (args : List (List Nat)),
      (scan g fdv s l tok line args).rc ≠ NGX_ERROR →
      (scan g fdv s l tok line args).err = none := by
  induction s with
  | nil =>
    intro l tok line args
    simp only [scan]
    split_ifs <;> simp
  | cons ch s ih =>
    intro l tok line args
    by_cases hg : g = true ∧ tok.length = NGX_CONF_BUFFER
    · simp [scan, hg]
    · simp only [scan, hg, if_false]
      cases hact : char_act l (decide (args.length = 0)) (if ch = LF then line + 1 else line) ch with
      | go l1 m => exact ih _ _ _ _
      | word l1 =>
        simp only
        by_cases h1 : ch = SEMI
        · simp only [h1, if_true]; intro _; trivial
        · by_cases h2 : ch = LBRACE
          · simp only [h1, h2, if_true, if_false]; intro _; trivial
          · simp only [h1, h2, if_false]; exact ih _ _ _ _
      | stop rc => intro _; rfl
      | fail m => intro h; exact absurd rfl h

/-- The line counter of a call: it grows by the line feeds among the bytes consumed;
after the "too long parameter" error it is the counter at the 4096 pending bytes
`tok1`, the last bytes read. -/
theorem scan_line (g fdv : Bool) (s : List Nat) :
    ∀ (l : token_locals) (tok : List Nat) (line : Nat) (args : List (List Nat))
      (hist : List Nat),
      l.start_line + tok.count LF = line → tok <:+ hist →
      ∃ consumed, s = consumed ++ (scan g fdv s l tok line args).rest ∧
        (is_too_long (scan g fdv s l tok line args).err = false →
          (scan g fdv s l tok line args).line = line + consumed.count LF) ∧
        (is_too_long (scan g fdv s l tok line args).err = true →
          ∃ tok1, tok1 <:+ hist ++ consumed ∧ tok1.length = NGX_CONF_BUFFER ∧
            (scan g fdv s l tok line args).line + tok1.count LF
              = line + consumed.count LF) := by
  induction s with
  | nil =>
    intro l tok line args hist _ _
    refine ⟨[], ?_, ?_, ?_⟩
    · simp only [scan]; split_ifs <;> rfl
    · intro _; simp only [scan]; split_ifs <;> rfl
    · intro h; simp only [scan] at h; split_ifs at h <;> cases h
  | cons ch s ih =>
    intro l tok line args hist hsl hsuf
    by_cases hg : g = true ∧ tok.length = NGX_CONF_BUFFER
    · have hr : scan g fdv (ch :: s) l tok line args
          = ⟨NGX_ERROR, args, l.start_line, some (too_long_msg l), ch :: s⟩ := by
        simp only [scan, hg, and_self, if_true]
      rw [hr]
      refine ⟨[], rfl, ?_, ?_⟩
      · intro h; rw [too_long_msg_is] at h; cases h
      · intro _
        exact ⟨tok, by simpa using hsuf, hg.2, by simpa using hsl⟩
    · have hsl_ok := char_act_start_line l (decide (args.length = 0))
        (if ch = LF then line + 1 else line) ch
      have hstep : ∀ (l1 : token_locals) (tok1 : List Nat) (args1 : List (List Nat)),
          l1.start_line + tok1.count LF = (if ch = LF then line + 1 else line) →
          tok1 <:+ hist ++ [ch] →
          ∃ consumed, ch :: s = consumed ++
              (scan g fdv s l1 tok1 (if ch = LF then line + 1 else line) args1).rest ∧
            (is_too_long (scan g fdv s l1 tok1 (if ch = LF then line + 1 else line) args1).err
                = false →
              (scan g fdv s l1 tok1 (if ch = LF then line + 1 else line) args1).line
                = line + consumed.count LF) ∧
            (is_too_long (scan g fdv s l1 tok1 (if ch = LF then line + 1 else line) args1).err
                = true →
              ∃ tok2, tok2 <:+ hist ++ consumed ∧ tok2.length = NGX_CONF_BUFFER ∧
                (scan g fdv s l1 tok1 (if ch = LF then line + 1 else line) args1).line
                  + tok2.count LF = line + consumed.count LF) := by
        intro l1 tok1 args1 h1 h2
        obtain ⟨c, hc1, hc2, hc3⟩ := ih l1 tok1 _ args1 (hist ++ [ch]) h1 h2
        refine ⟨ch :: c, by rw [List.cons_append, ← hc1], ?_, ?_⟩
        · intro h; rw [hc2 h, count_lf_cons]
        · intro h
          obtain ⟨t2, ht1, ht2, ht3⟩ := hc3 h
          refine ⟨t2, by simpa using ht1, ht2, ?_⟩
          rw [ht3, count_lf_cons]
      have hone : ∀ (rc : Int) (args1 : List (List Nat)) (e : Option conf_msg),
          is_too_long e = false →
          ∃ consumed, ch :: s = consumed ++ (⟨rc, args1, (if ch = LF then line + 1 else line), e,
              s⟩ : scan_result).rest ∧
            (is_too_long (⟨rc, args1, (if ch = LF then line + 1 else line), e, s⟩ :
                scan_result).err = false →
              (⟨rc, args1, (if ch = LF then line + 1 else line), e, s⟩ : scan_result).line
                = line + consumed.count LF) ∧
            (is_too_long (⟨rc, args1, (if ch = LF then line + 1 else line), e, s⟩ :
                scan_result).err = true →
              ∃ tok2, tok2 <:+ hist ++ consumed ∧ tok2.length = NGX_CONF_BUFFER ∧
                (⟨rc, args1, (if ch = LF then line + 1 else line), e, s⟩ : scan_result).line
                  + tok2.count LF = line + consumed.count LF) := by
        intro rc args1 e he
        refine ⟨[ch], rfl, ?_, ?_⟩
        · intro _
          have := count_lf_cons ch [] line
          simpa using this
        · intro h; simp only at h; rw [he] at h; cases h
      have hcnt : ∀ t : List Nat, (t ++ [ch]).count LF = t.count LF + (if ch = LF then 1 else 0) := by
        intro t
        by_cases h : ch = LF
        · subst h; simp
        · have : ¬ (LF = ch) := fun e => h e.symm
          simp [h, List.count_cons, this]
      simp only [scan, hg, if_false]
      cases hact : char_act l (decide (args.length = 0)) (if ch = LF then line + 1 else line) ch with
      | go l1 m =>
        rw [hact] at hsl_ok
        simp only
        cases m with
        | keep =>
          simp only [start_line_ok] at hsl_ok
          refine hstep l1 _ args ?_ ?_
          · simp only [apply_mark, hcnt, hsl_ok]
            split_ifs <;> omega
          · simp only [apply_mark]
            obtain ⟨p, hp⟩ := hsuf
            exact ⟨p, by rw [← hp, List.append_assoc]⟩
        | at_ch =>
          simp only [start_line_ok] at hsl_ok
          refine hstep l1 _ args ?_ ?_
          · have : ¬ (LF = ch) := fun e => hsl_ok.2 e.symm
            simp [apply_mark, hsl_ok.1, hsl_ok.2, List.count_cons, this]
          · simp only [apply_mark]
            exact List.suffix_append _ _
        | after_ch =>
          simp only [start_line_ok] at hsl_ok
          refine hstep l1 _ args ?_ ?_
          · simp [apply_mark, hsl_ok.1, hsl_ok.2]
          · simp only [apply_mark]
            exact List.nil_suffix
      | word l1 =>
        rw [hact] at hsl_ok
        simp only [start_line_ok] at hsl_ok
        simp only
        by_cases h1 : ch = SEMI
        · simp only [h1, if_true]
          have := hone NGX_OK (args ++ [copy_token (tok ++ [ch]) 0 (tok.length + 1)]) none rfl
          simpa only [h1] using this
        · by_cases h2 : ch = LBRACE
          · simp only [h1, h2, if_true, if_false]
            have := hone NGX_CONF_BLOCK_START
              (args ++ [copy_token (tok ++ [ch]) 0 (tok.length + 1)]) none rfl
            simpa only [h2] using this
          · simp only [h1, h2, if_false]
            refine hstep l1 _ _ ?_ ?_
            · simp only [hcnt, hsl_ok]
              split_ifs <;> omega
            · obtain ⟨p, hp⟩ := hsuf
              exact ⟨p, by rw [← hp, List.append_assoc]⟩
      | stop rc => exact hone rc args none rfl
      | fail m => exact hone NGX_ERROR args (some m) (char_act_fail _ _ _ _ _ hact)

/-- One call in terms of the bytes it consumes and of the line counter. -/
theorem read_token_line (g : Bool) (cf : ngx_conf_t) (hok : conf_ok g cf) :
    ∃ rc cf1 consumed err,
      ngx_conf_read_token cf = some (rc, cf1) ∧ upcoming cf = consumed ++ upcoming cf1 ∧
      conf_ok g cf1 ∧ same_file cf cf1 ∧
      cf1.log = cf.log ++ (Option.map (entry_of cf.conf_file.fd_valid cf1.conf_file.line)
        err).toList ∧
      (rc ≠ NGX_ERROR → err = none) ∧
      (is_too_long err = false →
        cf1.conf_file.line = cf.conf_file.line + consumed.count LF) ∧
      (is_too_long err = true →
        ∃ tok1, tok1 <:+ consumed ∧ tok1.length = NGX_CONF_BUFFER ∧
          cf1.conf_file.line + tok1.count LF = cf.conf_file.line + consumed.count LF) := by
  obtain ⟨cf1, h1, a1, a2, a3, a4, a5, a6⟩ := read_token_scan g cf hok
  obtain ⟨c, hc1, hc2, hc3⟩ := scan_line g cf.conf_file.fd_valid (upcoming cf) (token_init cf) []
    cf.conf_file.line [] [] (by simp [token_init]) (List.suffix_refl _)
  refine ⟨_, cf1, c, _, h1, ?_, a6, a5, ?_, scan_err_rc _ _ _ _ _ _ _, ?_, ?_⟩
  · rw [a4]; exact hc1
  · rw [a3, a2]
  · intro h; rw [a2]; exact hc2 h
  · intro h
    obtain ⟨t, ht1, ht2, ht3⟩ := hc3 h
    exact ⟨t, by simpa using ht1, ht2, by rw [a2]; exact ht3⟩

theorem read_calls_line_aux (content : List Nat) :
    ∀ (n : Nat) (cf : ngx_conf_t) (consumed0 : List Nat),
      conf_ok true cf → cf.conf_file.fd_valid = true → cf.log = [] →
      content = consumed0 ++ upcoming cf →
      cf.conf_file.line = 1 + consumed0.count LF →
      ∀ (rc : Int) (cf1 : ngx_conf_t), read_calls n cf = some (rc, cf1) →
      ∃ consumed, content = consumed ++ upcoming cf1 ∧
        (¬ ends_too_long cf1 → cf1.conf_file.line = 1 + consumed.count LF) ∧
        (ends_too_long cf1 → cf1.conf_file.line
          = 1 + (consumed.take (consumed.length - NGX_CONF_BUFFER)).count LF) ∧
        (∀ e ∈ cf1.log, e.line = some cf1.conf_file.line) := by
  intro n
  induction n with
  | zero =>
    intro cf consumed0 hok hfd hlog hcont hline rc cf1 h
    obtain ⟨rc1, cf2, c, err, h1, h2, _, _, h5, _, h7, h8⟩ := read_token_line true cf hok
    simp only [read_calls] at h
    rw [h1] at h
    simp only [Option.some.injEq, Prod.mk.injEq] at h
    obtain ⟨_, hcf⟩ := h
    subst hcf
    rw [hlog, hfd] at h5
    refine ⟨consumed0 ++ c, by rw [hcont, h2, List.append_assoc], ?_, ?_, ?_⟩
    · intro hn
      have he : is_too_long err = false := by
        cases err with
        | none => rfl
        | some m =>
          cases ht : is_too_long (some m) with
          | false => rfl
          | true =>
            exfalso; apply hn
            refine ⟨entry_of true cf2.conf_file.line m, by rw [h5]; rfl, ?_⟩
            simpa [entry_of] using ht
      rw [h7 he, hline, List.count_append]; omega
    · intro ht
      have he : is_too_long err = true := by
        obtain ⟨e, he1, he2⟩ := ht
        cases err with
        | none => rw [h5] at he1; cases he1
        | some m =>
          rw [h5] at he1
          simp only [Option.map_some', Option.toList_some, List.nil_append, List.getLast?_singleton,
            Option.some.injEq] at he1
          rw [← he1] at he2
          simpa [entry_of] using he2
      obtain ⟨t, ⟨p, hp⟩, ht2, ht3⟩ := h8 he
      have e1 : (consumed0 ++ c).take ((consumed0 ++ c).length - NGX_CONF_BUFFER)
          = consumed0 ++ p := by
        rw [← hp, ← List.append_assoc]
        have : (consumed0 ++ p ++ t).length - NGX_CONF_BUFFER = (consumed0 ++ p).length := by
          simp only [List.length_append, ht2]; omega
        rw [this, List.take_left']
        rfl
      rw [e1, List.count_append]
      rw [← hp, List.count_append] at ht3
      omega
    · intro e he
      rw [h5] at he
      cases err with
      | none => simp at he
      | some m =>
        simp only [Option.map_some', Option.toList_some, List.nil_append, List.mem_singleton] at he
        rw [he]; rfl
  | succ n ih =>
    intro cf consumed0 hok hfd hlog hcont hline rc cf1 h
    obtain ⟨rc1, cf2, c, err, h1, h2, h3, h4, h5, h6, h7, _⟩ := read_token_line true cf hok
    simp only [read_calls] at h
    rw [h1] at h
    simp only at h
    by_cases hrc : rc1 = NGX_OK ∨ rc1 = NGX_CONF_BLOCK_START ∨ rc1 = NGX_CONF_BLOCK_DONE
    · simp only [hrc, if_true] at h
      have hne : rc1 ≠ NGX_ERROR := by
        rcases hrc with h | h | h <;> rw [h] <;> decide
      have herr := h6 hne
      subst herr
      refine ih cf2 (consumed0 ++ c) h3 (by rw [h4.1, hfd]) (by rw [h5, hlog]; rfl)
        (by rw [hcont, h2, List.append_assoc]) ?_ rc cf1 h
      rw [h7 rfl, hline, List.count_append]; omega
    · simp only [hrc, if_false] at h
      cases h

/-- C10: while a file is parsed, `cf->conf_file->line` starts at 1 and after any call
of `ngx_conf_read_token` it is 1 plus the number of LF bytes consumed so far from the
file (wherever they stand: comments and quoted strings included), except after the
"too long parameter" error, where it is the line at which the 4096 pending bytes
began; and the line the call logs for an error is that counter. -/
theorem read_calls_line (name content : List Nat) (d : Bool) (n : Nat) (rc : Int)
    (cf1 : ngx_conf_t) (h : read_calls n (file_conf name content d) = some (rc, cf1)) :
    (file_conf name content d).conf_file.line = 1 ∧
    ∃ consumed, content = consumed ++ upcoming cf1 ∧
      (¬ ends_too_long cf1 → cf1.conf_file.line = 1 + consumed.count LF) ∧
      (ends_too_long cf1 → cf1.conf_file.line
        = 1 + (consumed.take (consumed.length - NGX_CONF_BUFFER)).count LF) ∧
      (∀ e ∈ cf1.log, e.line = some cf1.conf_file.line) :=
  ⟨rfl, read_calls_line_aux content n (file_conf name content d) [] (conf_ok_file _ _ _) rfl rfl
    (by rw [upcoming_file]; rfl) rfl rc cf1 h⟩

theorem read_calls_line_witness :
    ∃ rc cf1, read_calls 1 (file_conf [] (bytes "a \"x\ny\";\n# c\nb \x7d") false) = some (rc, cf1) ∧
      ((file_conf [] (bytes "a \"x\ny\";\n# c\nb \x7d") false).conf_file.line = 1 ∧
      ∃ consumed, bytes "a \"x\ny\";\n# c\nb \x7d" = consumed ++ upcoming cf1 ∧
        (¬ ends_too_long cf1 → cf1.conf_file.line = 1 + consumed.count LF) ∧
        (ends_too_long cf1 → cf1.conf_file.line
          = 1 + (consumed.take (consumed.length - NGX_CONF_BUFFER)).count LF) ∧
        (∀ e ∈ cf1.log, e.line = some cf1.conf_file.line)) := by
  have h : (read_calls 1 (file_conf [] (bytes "a \"x\ny\";\n# c\nb \x7d") false)).isSome = true := by
    decide
  obtain ⟨⟨rc, cf1⟩, hr⟩ := Option.isSome_iff_exists.mp h
  exact ⟨rc, cf1, hr, read_calls_line _ _ _ 1 rc cf1 hr⟩

/-! ### C9: `ngx_conf_include` -/

theorem conf_log_frame {σ : Type} (st : parse_t σ) (m : conf_msg) :
    (conf_log st m).ctx = st.ctx ∧ (conf_log st m).cf.conf_file = st.cf.conf_file ∧
      (conf_log st m).conf_file_null = st.conf_file_null ∧
      (conf_log st m).config_dump = st.config_dump ∧ (conf_log st m).handler = st.handler := by
  unfold conf_log
  split_ifs
  · exact ⟨rfl, rfl, rfl, rfl, rfl⟩
  · exact ⟨rfl, log_error_conf_file _ _, rfl, rfl, rfl⟩

theorem include_loop_good (parse : parse_fn directive_trace) (hp : parse_good parse)
    (names : List (List Nat)) :
    ∀ (st st1 : parse_t directive_trace) (rv : conf_rv),
      include_loop parse names st = some (rv, st1) →
      st.ctx <+: st1.ctx ∧ st1.cf.conf_file = st.cf.conf_file ∧
        st1.conf_file_null = st.conf_file_null := by
  induction names with
  | nil =>
    intro st st1 rv h
    simp only [include_loop, Option.some.injEq, Prod.mk.injEq] at h
    obtain ⟨_, h⟩ := h
    subst h
    exact ⟨List.prefix_refl _, rfl, rfl⟩
  | cons n rest ih =>
    intro st st1 rv h
    simp only [include_loop] at h
    cases hq : parse st (some n) with
    | none => rw [hq] at h; cases h
    | some r =>
      obtain ⟨rv0, st0⟩ := r
      rw [hq] at h
      simp only at h
      obtain ⟨g1, g2⟩ := hp st (some n) rv0 st0 hq
      obtain ⟨g3, g4⟩ := g2 (by simp)
      by_cases hrv : rv0 ≠ .NGX_CONF_OK
      · rw [if_pos hrv] at h
        simp only [Option.some.injEq, Prod.mk.injEq] at h
        rw [← h.2]
        exact ⟨g1, g3, g4⟩
      · rw [if_neg hrv] at h
        obtain ⟨k1, k2, k3⟩ := ih st0 st1 rv h
        exact ⟨g1.trans k1, k2.trans g3, k3.trans g4⟩

theorem conf_include_good (env : conf_env) (parse : parse_fn directive_trace)
    (hp : parse_good parse) (st st1 : parse_t directive_trace) (rv : conf_rv)
    (h : ngx_conf_include env parse st = some (rv, st1)) :
    st.ctx <+: st1.ctx ∧ st1.cf.conf_file = st.cf.conf_file ∧
      st1.conf_file_null = st.conf_file_null := by
  unfold ngx_conf_include at h
  simp only at h
  cases hf : env.full_name (st.cf.args.getD 1 []) with
  | none =>
    rw [hf] at h
    simp only [Option.some.injEq, Prod.mk.injEq] at h
    obtain ⟨_, h⟩ := h
    subst h
    exact ⟨List.prefix_refl _, rfl, rfl⟩
  | some file =>
    rw [hf] at h
    simp only at h
    by_cases hg : no_glob_char file = true
    · rw [if_pos hg] at h
      obtain ⟨g1, g2⟩ := hp st (some file) rv st1 h
      exact ⟨g1, g2 (by simp)⟩
    · rw [if_neg hg] at h
      cases hgl : env.glob file with
      | none =>
        rw [hgl] at h
        simp only [Option.some.injEq, Prod.mk.injEq] at h
        obtain ⟨c1, c2, c3, _⟩ := conf_log_frame st .open_failed
        rw [← h.2]
        exact ⟨by rw [c1], c2, c3⟩
      | some names =>
        rw [hgl] at h
        exact include_loop_good parse hp names st st1 rv h

theorem record_dispatch_extends (env : conf_env) (parse : parse_fn directive_trace)
    (hp : parse_good parse) (st st1 : parse_t directive_trace) (last rc : Int)
    (h : record_dispatch env parse st last = some (rc, st1)) : st.ctx <+: st1.ctx := by
  unfold record_dispatch at h
  simp only at h
  have h0 : st.ctx <+: st.ctx ++ [(st.cf.args, last)] := List.prefix_append _ _
  split_ifs at h with c1 c2
  · cases hi : ngx_conf_include env parse
        { st with ctx := st.ctx ++ [(st.cf.args, last)] } with
    | none => rw [hi] at h; cases h
    | some r =>
      obtain ⟨rv, st2⟩ := r
      rw [hi] at h
      have hg := (conf_include_good env parse hp _ st2 rv hi).1
      simp only at h
      split_ifs at h
      · simp only [Option.some.injEq, Prod.mk.injEq] at h; rw [← h.2]; exact h0.trans hg
      · simp only [Option.some.injEq, Prod.mk.injEq] at h; rw [← h.2]; exact h0.trans hg
      · simp only [Option.some.injEq, Prod.mk.injEq] at h
        rw [← h.2, (conf_log_frame st2 _).1]; exact h0.trans hg
  · cases hq : parse { st with ctx := st.ctx ++ [(st.cf.args, last)] } none with
    | none => rw [hq] at h; cases h
    | some r =>
      obtain ⟨rv, st2⟩ := r
      rw [hq] at h
      have hg := (hp _ none rv st2 hq).1
      simp only at h
      split_ifs at h
      · simp only [Option.some.injEq, Prod.mk.injEq] at h
        rw [← h.2]
        exact (h0.trans hg).trans (List.prefix_append _ _)
      · simp only [Option.some.injEq, Prod.mk.injEq] at h; rw [← h.2]; exact h0.trans hg
  · simp only [Option.some.injEq, Prod.mk.injEq] at h; rw [← h.2]; exact h0

theorem parse_loop_extends (env : conf_env) (parse : parse_fn directive_trace)
    (hp : parse_good parse) (type : parse_type) (k : Nat) :
    ∀ (st st1 : parse_t directive_trace) (rc : Int),
      parse_loop (record_dispatch env) no_custom parse type k st = some (rc, st1) →
      st.ctx <+: st1.ctx := by
  induction k with
  | zero => intro st st1 rc h; cases h
  | succ k ih =>
    intro st st1 rc h
    simp only [parse_loop] at h
    cases ht : ngx_conf_read_token st.cf with
    | none => rw [ht] at h; cases h
    | some r =>
      obtain ⟨rc0, cf1⟩ := r
      rw [ht] at h
      simp only at h
      have hfin : ∀ (x : Int) (s : parse_t directive_trace),
          some (x, s) = some (rc, st1) → st.ctx <+: s.ctx → st.ctx <+: st1.ctx := by
        intro x s e hs
        simp only [Option.some.injEq, Prod.mk.injEq] at e
        rw [← e.2]; exact hs
      have hlog : ∀ (m : conf_msg),
          st.ctx <+: (conf_log { st with cf := cf1 } m).ctx := by
        intro m
        rw [(conf_log_frame _ m).1]
      by_cases c1 : rc0 = NGX_ERROR
      · rw [if_pos c1] at h
        exact hfin _ _ h (List.prefix_refl _)
      rw [if_neg c1] at h
      by_cases c2 : rc0 = NGX_CONF_BLOCK_DONE
      · rw [if_pos c2] at h
        split_ifs at h
        · exact hfin _ _ h (hlog _)
        · exact hfin _ _ h (List.prefix_refl _)
      rw [if_neg c2] at h
      by_cases c3 : rc0 = NGX_CONF_FILE_DONE
      · rw [if_pos c3] at h
        split_ifs at h
        · exact hfin _ _ h (hlog _)
        · exact hfin _ _ h (List.prefix_refl _)
      rw [if_neg c3] at h
      by_cases c4 : rc0 = NGX_CONF_BLOCK_START ∧ type = .parse_param
      · rw [if_pos c4] at h
        exact hfin _ _ h (hlog _)
      rw [if_neg c4] at h
      cases hh : st.handler with
      | some hd =>
        rw [hh] at h
        simp only at h
        by_cases c5 : rc0 = NGX_CONF_BLOCK_START
        · rw [if_pos c5] at h
          refine hfin _ _ h ?_
          rw [(conf_log_frame _ _).1]
        rw [if_neg c5] at h
        simp only [no_custom] at h
        rw [if_pos trivial] at h
        exact hfin _ _ h (List.prefix_refl _)
      | none =>
        rw [hh] at h
        simp only at h
        cases hd : record_dispatch env parse { st with cf := cf1, handler := none } rc0 with
        | none => rw [hd] at h; cases h
        | some r2 =>
          obtain ⟨rc2, st2⟩ := r2
          rw [hd] at h
          simp only at h
          have g := record_dispatch_extends env parse hp _ st2 rc0 rc2 hd
          by_cases c6 : rc2 = NGX_ERROR
          · rw [if_pos c6] at h
            exact hfin _ _ h g
          rw [if_neg c6] at h
          exact List.IsPrefix.trans g (ih st2 st1 rc h)

theorem conf_parse_good (env : conf_env) (fuel : Nat) :
    parse_good (ngx_conf_parse env (record_dispatch env) no_custom fuel) := by
  induction fuel with
  | zero => intro st fn rv st1 h; cases h
  | succ k ih =>
    intro st fn rv st1 h
    have ih0 : parse_good (fun s f => ngx_conf_parse env (record_dispatch env) no_custom k s f) :=
      ih
    cases fn with
    | none =>
      simp only [ngx_conf_parse] at h
      refine ⟨?_, fun e => absurd rfl e⟩
      cases hl : parse_loop (record_dispatch env) no_custom
          (fun s f => ngx_conf_parse env (record_dispatch env) no_custom k s f)
          (if st.cf.conf_file.fd_valid = true then parse_type.parse_block
            else parse_type.parse_param) (k + 1) st with
      | none => rw [hl] at h; cases h
      | some r =>
        obtain ⟨rc, s1⟩ := r
        rw [hl] at h
        simp only [Option.some.injEq, Prod.mk.injEq] at h
        rw [← h.2]
        exact parse_loop_extends env _ ih0 _ _ _ _ _ hl
    | some name =>
      simp only [ngx_conf_parse] at h
      cases hf : env.files name with
      | none =>
        rw [hf] at h
        simp only [Option.some.injEq, Prod.mk.injEq] at h
        obtain ⟨c1, c2, c3, _⟩ := conf_log_frame st .open_failed
        rw [← h.2]
        exact ⟨by rw [c1], fun _ => ⟨c2, c3⟩⟩
      | some content =>
        rw [hf] at h
        simp only at h
        split at h
        · cases h
        · rename_i rc s1 hl
          simp only [Option.some.injEq, Prod.mk.injEq] at h
          rw [← h.2]
          have g := parse_loop_extends env _ ih0 _ _ _ s1 rc hl
          exact ⟨g, fun _ => ⟨rfl, rfl⟩⟩

set_option maxHeartbeats 1000000 in
theorem char_act_tail_forget (l : token_locals) (n : Bool) (line line1 ch : Nat) :
    act_forget (char_act_tail l n line ch) = act_forget (char_act_tail (forget l) n line1 ch) := by
  obtain ⟨ns, ls, sc, v, q, sq, dq, st, sl⟩ := l
  unfold char_act_tail forget
  cases ls
  · simp only [Bool.false_eq_true, if_false]
    split_ifs <;> simp_all [act_forget, forget]
  · simp only [if_true]
    split_ifs <;> simp_all [act_forget, forget]

set_option maxHeartbeats 1000000 in
theorem char_act_forget (l : token_locals) (n : Bool) (line line1 ch : Nat) :
    act_forget (char_act l n line ch) = act_forget (char_act (forget l) n line1 ch) := by
  have ht := fun ns ls sc v q sq dq =>
    char_act_tail_forget ⟨ns, ls, sc, v, q, sq, dq, l.start, l.start_line⟩ n line line1 ch
  obtain ⟨ns, ls, sc, v, q, sq, dq, st, sl⟩ := l
  simp only [forget] at ht
  unfold char_act forget
  have hsp : is_space LF = true := rfl
  by_cases hlf : ch = LF
  · subst hlf
    cases q <;> cases ns <;> simp only [Bool.false_eq_true, if_true, if_false, hsp] <;>
      first
        | exact ht _ _ _ _ _ _ _
        | simp [act_forget, forget]
  · simp only [hlf, if_false]
    cases sc <;> cases q <;> cases ns <;>
      simp only [Bool.false_eq_true, if_true, if_false] <;>
      first
        | exact ht _ _ _ _ _ _ _
        | (simp [act_forget, forget]; done)
        | (split_ifs <;> first
            | exact ht _ _ _ _ _ _ _
            | simp [act_forget, forget])

theorem scan_forget (fdv : Bool) (s : List Nat) :
    ∀ (l l1 : token_locals) (tok : List Nat) (line line1 : Nat) (args : List (List Nat)),
      forget l = forget l1 →
      (scan false fdv s l tok line args).rc = (scan false fdv s l1 tok line1 args).rc ∧
      (scan false fdv s l tok line args).args = (scan false fdv s l1 tok line1 args).args ∧
      (scan false fdv s l tok line args).rest = (scan false fdv s l1 tok line1 args).rest := by
  induction s with
  | nil =>
    intro l l1 tok line line1 args h
    have hls : (forget l).last_space = (forget l1).last_space := by rw [h]
    simp only [forget] at hls
    simp only [scan, hls]
    split_ifs <;> exact ⟨rfl, rfl, rfl⟩
  | cons ch s ih =>
    intro l l1 tok line line1 args h
    have e : act_forget (char_act l (decide (args.length = 0))
          (if ch = LF then line + 1 else line) ch)
        = act_forget (char_act l1 (decide (args.length = 0))
          (if ch = LF then line1 + 1 else line1) ch) := by
      rw [char_act_forget l _ _ 0 ch, char_act_forget l1 _ _ 0 ch, h]
    simp only [scan, Bool.false_eq_true, false_and, if_false]
    cases h1 : char_act l (decide (args.length = 0)) (if ch = LF then line + 1 else line) ch with
    | go a m =>
      cases h2 : char_act l1 (decide (args.length = 0))
          (if ch = LF then line1 + 1 else line1) ch with
      | go b m1 =>
        rw [h1, h2] at e
        simp only [act_forget, act.go.injEq] at e
        obtain ⟨e1, e2⟩ := e
        subst e2
        exact ih _ _ _ _ _ _ e1
      | word b => rw [h1, h2] at e; simp [act_forget] at e
      | stop rc => rw [h1, h2] at e; simp [act_forget] at e
      | fail m1 => rw [h1, h2] at e; simp [act_forget] at e
    | word a =>
      cases h2 : char_act l1 (decide (args.length = 0))
          (if ch = LF then line1 + 1 else line1) ch with
      | go b m1 => rw [h1, h2] at e; simp [act_forget] at e
      | word b =>
        rw [h1, h2] at e
        simp only [act_forget, act.word.injEq] at e
        simp only
        by_cases c1 : ch = SEMI
        · simp [c1]
        · by_cases c2 : ch = LBRACE
          · simp [c1, c2]
          · simp only [c1, c2, if_false]
            exact ih _ _ _ _ _ _ e
      | stop rc => rw [h1, h2] at e; simp [act_forget] at e
      | fail m1 => rw [h1, h2] at e; simp [act_forget] at e
    | stop rc =>
      cases h2 : char_act l1 (decide (args.length = 0))
          (if ch = LF then line1 + 1 else line1) ch with
      | go b m1 => rw [h1, h2] at e; simp [act_forget] at e
      | word b => rw [h1, h2] at e; simp [act_forget] at e
      | stop rc1 =>
        rw [h1, h2] at e
        simp only [act_forget, act.stop.injEq] at e
        exact ⟨e, rfl, rfl⟩
      | fail m1 => rw [h1, h2] at e; simp [act_forget] at e
    | fail m =>
      cases h2 : char_act l1 (decide (args.length = 0))
          (if ch = LF then line1 + 1 else line1) ch with
      | go b m1 => rw [h1, h2] at e; simp [act_forget] at e
      | word b => rw [h1, h2] at e; simp [act_forget] at e
      | stop rc1 => rw [h1, h2] at e; simp [act_forget] at e
      | fail m1 => exact ⟨rfl, rfl, rfl⟩

/-- One more line feed at the end of the bytes changes neither the return code nor the
arguments of a call that does not fail, when no refill check is made. -/
theorem scan_append_lf (fdv : Bool) (s : List Nat) :
    ∀ (l : token_locals) (tok : List Nat) (line : Nat) (args : List (List Nat)),
      (scan false fdv s l tok line args).rc ≠ NGX_ERROR →
      (scan false fdv (s ++ [LF]) l tok line args).rc = (scan false fdv s l tok line args).rc ∧
      (scan false fdv (s ++ [LF]) l tok line args).args
        = (scan false fdv s l tok line args).args ∧
      ((scan false fdv s l tok line args).rc ≠ NGX_CONF_FILE_DONE →
        (scan false fdv (s ++ [LF]) l tok line args).rest
          = (scan false fdv s l tok line args).rest ++ [LF]) := by
  induction s with
  | nil =>
    intro l tok line args h
    obtain ⟨ns, ls, sc, v, q, sq, dq, st, sl⟩ := l
    by_cases c : args.length > 0 ∨ ls = false
    · exfalso
      apply h
      simp only [scan, c, if_true]
      split_ifs <;> rfl
    · have c1 : args.length = 0 := by omega
      have c2 : ls = true := by
        cases ls
        · exact absurd (Or.inr rfl) c
        · rfl
      subst c2
      have c3 : args = [] := List.length_eq_zero.mp c1
      subst c3
      cases sc <;> cases q <;> cases ns <;>
        simp [scan, char_act, char_act_tail, is_space, NGX_CONF_FILE_DONE, NGX_ERROR]
  | cons ch s ih =>
    intro l tok line args h
    simp only [scan, Bool.false_eq_true, false_and, if_false, List.cons_append] at h ⊢
    cases h1 : char_act l (decide (args.length = 0)) (if ch = LF then line + 1 else line) ch with
    | go a m =>
      rw [h1] at h
      exact ih _ _ _ _ h
    | word a =>
      rw [h1] at h
      simp only at h ⊢
      by_cases c1 : ch = SEMI
      · simp [c1, NGX_OK, NGX_CONF_FILE_DONE]
      · by_cases c2 : ch = LBRACE
        · simp [c1, c2, NGX_CONF_BLOCK_START, NGX_CONF_FILE_DONE]
        · simp only [c1, c2, if_false] at h ⊢
          exact ih _ _ _ _ h
    | stop rc => simp
    | fail m => simp

theorem scan_too_long_rc (g fdv : Bool) (s : List Nat) (l : token_locals) (tok : List Nat)
    (line : Nat) (args : List (List Nat))
    (h : is_too_long (scan g fdv s l tok line args).err = true) :
    (scan g fdv s l tok line args).rc = NGX_ERROR := by
  by_contra hne
  rw [scan_err_rc g fdv s l tok line args hne] at h
  cases h

theorem scan_header (fdv : Bool) (x s : List Nat) (hx : is_header x) (st sl line : Nat) :
    ∃ (tok : List Nat) (line1 : Nat),
      scan false fdv (x ++ s) (mk_l false true false false false st sl) [] line []
        = scan false fdv s (mk_l false true false false false st sl) tok line1 [] := by
  rcases hx with hx | ⟨com, hx, hcom⟩
  · subst hx
    exact ⟨[], line, rfl⟩
  · subst hx
    have e : (SHARP :: (com ++ [LF])) ++ s = SHARP :: (com ++ (LF :: s)) := by simp
    rw [e, scan_comment fdv com (LF :: s) [] line [] st sl hcom (Or.inr ⟨s, rfl⟩)]
    have hg : ¬(false = true ∧ ([] : List Nat).length = NGX_CONF_BUFFER) :=
      fun h => Bool.false_ne_true h.1
    have hsp : is_space LF = true := rfl
    rw [scan_go false fdv LF s _ [] line [] _ _ hg (act_space_ws _ _ LF st sl hsp)]
    exact ⟨_, _, rfl⟩

/-- A call on a file and the call on the bytes of the dump that stand for the same
place: unless the second one ends in the "too long parameter" error, both return the
same code and the same arguments, and leave the same bytes. -/
theorem scan_dump_sim (x s : List Nat) (hx : is_header x) (st sl st1 sl1 line line1 : Nat)
    (h : (scan true true s (mk_l false true false false false st sl) [] line []).rc
      ≠ NGX_ERROR) :
    ((scan true true (x ++ s ++ [LF]) (mk_l false true false false false st1 sl1) [] line1
          []).rc = NGX_ERROR ∧
      is_too_long (scan true true (x ++ s ++ [LF]) (mk_l false true false false false st1 sl1)
          [] line1 []).err = true) ∨
    ((scan true true (x ++ s ++ [LF]) (mk_l false true false false false st1 sl1) [] line1
          []).rc
        = (scan true true s (mk_l false true false false false st sl) [] line []).rc ∧
      (scan true true (x ++ s ++ [LF]) (mk_l false true false false false st1 sl1) [] line1
          []).args
        = (scan true true s (mk_l false true false false false st sl) [] line []).args ∧
      ((scan true true s (mk_l false true false false false st sl) [] line []).rc
          ≠ NGX_CONF_FILE_DONE →
        (scan true true (x ++ s ++ [LF]) (mk_l false true false false false st1 sl1) [] line1
            []).rest
          = (scan true true s (mk_l false true false false false st sl) [] line []).rest
            ++ [LF])) := by
  have hr : scan true true s (mk_l false true false false false st sl) [] line []
      = scan false true s (mk_l false true false false false st sl) [] line [] := by
    rcases scan_guard_or true s (mk_l false true false false false st sl) [] line [] with c | c
    · rw [scan_err_rc true true s _ [] line [] h] at c
      cases c
    · exact c
  rcases scan_guard_or true (x ++ s ++ [LF]) (mk_l false true false false false st1 sl1) []
    line1 [] with c | c
  · left
    exact ⟨scan_too_long_rc _ _ _ _ _ _ _ c, c⟩
  · right
    rw [c, hr]
    rw [hr] at h
    obtain ⟨tok, line2, e⟩ := scan_header true x (s ++ [LF]) hx st1 sl1 line1
    rw [List.append_assoc, e,
      scan_position_irrel true (s ++ [LF]) tok [] line2 [] st1 sl1 sl1]
    obtain ⟨f1, f2, f3⟩ := scan_forget true (s ++ [LF])
      (mk_l false true false false false st1 sl1) (mk_l false true false false false st sl)
      [] line2 line [] rfl
    obtain ⟨g1, g2, g3⟩ := scan_append_lf true s (mk_l false true false false false st sl)
      [] line [] h
    rw [f1, f2, f3]
    exact ⟨g1, g2, g3⟩

theorem char_act_tail_stop (l : token_locals) (n : Bool) (line ch : Nat) (rc : Int)
    (h : char_act_tail l n line ch = .stop rc) : rc ≠ NGX_CONF_FILE_DONE := by
  obtain ⟨ns, ls, sc, v, q, sq, dq, st, sl⟩ := l
  unfold char_act_tail at h
  cases ls
  · simp only [Bool.false_eq_true, if_false] at h
    split_ifs at h
  · simp only [if_true] at h
    split_ifs at h <;> cases h <;> decide

theorem char_act_stop (l : token_locals) (n : Bool) (line ch : Nat) (rc : Int)
    (h : char_act l n line ch = .stop rc) : rc ≠ NGX_CONF_FILE_DONE := by
  unfold char_act at h
  simp only at h
  split_ifs at h
  all_goals first
    | exact char_act_tail_stop _ _ _ _ _ h
    | (cases h; decide)

/-- The reader returns `NGX_CONF_FILE_DONE` only when no byte is left. -/
theorem scan_file_done (g fdv : Bool) (s : List Nat) :
    ∀ (l : token_locals) (tok : List Nat) (line : Nat) (args : List (List Nat)),
      (scan g fdv s l tok line args).rc = NGX_CONF_FILE_DONE →
      (scan g fdv s l tok line args).rest = [] := by
  induction s with
  | nil =>
    intro l tok line args _
    simp only [scan]
    split_ifs <;> rfl
  | cons ch s ih =>
    intro l tok line args h
    by_cases hg : g = true ∧ tok.length = NGX_CONF_BUFFER
    · simp [scan, hg, NGX_ERROR, NGX_CONF_FILE_DONE] at h
    · simp only [scan, hg, if_false] at h ⊢
      cases hact : char_act l (decide (args.length = 0)) (if ch = LF then line + 1 else line) ch with
      | go l1 m => rw [hact] at h; exact ih _ _ _ _ h
      | word l1 =>
        rw [hact] at h
        simp only at h ⊢
        by_cases h1 : ch = SEMI
        · simp [h1, NGX_OK, NGX_CONF_FILE_DONE] at h
        · by_cases h2 : ch = LBRACE
          · simp [h1, h2, NGX_CONF_BLOCK_START, NGX_CONF_FILE_DONE] at h
          · simp only [h1, h2, if_false] at h ⊢
            exact ih _ _ _ _ h
      | stop rc =>
        rw [hact] at h
        exact absurd h (char_act_stop _ _ _ _ _ hact)
      | fail m =>
        rw [hact] at h
        simp [NGX_ERROR, NGX_CONF_FILE_DONE] at h

theorem agrees_ends_too_long (g : Bool) (cf cf1 : ngx_conf_t) (r : scan_result)
    (h : agrees g cf cf1 r) (ht : is_too_long r.err = true) : ends_too_long cf1 := by
  obtain ⟨e, h1, h2⟩ := agrees_too_long g cf cf1 r h ht
  exact ⟨e, by rw [h1]; simp, h2⟩

/-- A call of `ngx_conf_read_token` on a file and the call on the dump at the same
place of the text. -/
theorem read_token_dump_sim (x : List Nat) (hx : is_header x) (cf cf2 : ngx_conf_t)
    (h1 : conf_ok true cf) (h2 : conf_ok true cf2) (hf : cf.conf_file.fd_valid = true)
    (hf2 : cf2.conf_file.fd_valid = true)
    (hup : upcoming cf2 = x ++ upcoming cf ++ [LF]) (rc : Int) (cf1 : ngx_conf_t)
    (h : ngx_conf_read_token cf = some (rc, cf1)) (hrc : rc ≠ NGX_ERROR) :
    conf_ok true cf1 ∧ cf1.conf_file.fd_valid = true ∧
    (rc = NGX_CONF_FILE_DONE → upcoming cf1 = []) ∧
    ∃ rc3 cf3, ngx_conf_read_token cf2 = some (rc3, cf3) ∧ conf_ok true cf3 ∧
      cf3.conf_file.fd_valid = true ∧
      ((rc3 = NGX_ERROR ∧ ends_too_long cf3) ∨
       (rc3 = rc ∧ cf3.args = cf1.args ∧
        (rc ≠ NGX_CONF_FILE_DONE → upcoming cf3 = upcoming cf1 ++ [LF]))) := by
  obtain ⟨c1, e1, a1⟩ := read_token_scan true cf h1
  obtain ⟨c3, e3, a3⟩ := read_token_scan true cf2 h2
  rw [h] at e1
  simp only [Option.some.injEq, Prod.mk.injEq] at e1
  obtain ⟨e1a, e1b⟩ := e1
  subst e1b
  rw [hf, token_init_eq] at e1a a1
  rw [hf2, token_init_eq, hup] at e3 a3
  rw [e1a] at hrc
  have hs := scan_dump_sim x (upcoming cf) hx cf.conf_file.buffer.pos cf.conf_file.line
    cf2.conf_file.buffer.pos cf2.conf_file.line cf.conf_file.line cf2.conf_file.line hrc
  have k1 : cf1.conf_file.fd_valid = true := by rw [a1.2.2.2.2.1.1, hf]
  have k3 : c3.conf_file.fd_valid = true := by rw [a3.2.2.2.2.1.1, hf2]
  refine ⟨agrees_conf_ok _ _ _ _ a1, k1, ?_, _, c3, e3, agrees_conf_ok _ _ _ _ a3, k3, ?_⟩
  · intro hrcd
    rw [a1.2.2.2.1]
    exact scan_file_done _ _ _ _ _ _ _ (by rw [← e1a]; exact hrcd)
  · rcases hs with ⟨s1, s2⟩ | ⟨s1, s2, s3⟩
    · left
      exact ⟨s1, agrees_ends_too_long _ _ _ _ a3 s2⟩
    · right
      refine ⟨s1.trans e1a.symm, by rw [a3.1, s2, a1.1], ?_⟩
      intro hne
      rw [a3.2.2.2.1, a1.2.2.2.1]
      exact s3 (by rw [← e1a]; exact hne)

theorem token_char_file (l : token_locals) (cf : ngx_conf_t) (ch : Nat) :
    (step_conf (token_char l cf ch)).conf_file.dump = cf.conf_file.dump ∧
    (step_conf (token_char l cf ch)).conf_file.offset = cf.conf_file.offset ∧
    (step_conf (token_char l cf ch)).conf_file.content = cf.conf_file.content := by
  rw [token_char_act]
  cases char_act l (decide (cf.args.length = 0)) (count_line cf ch).conf_file.line ch with
  | go l1 m =>
    simp only [run_act, step_conf, count_line]
    split_ifs <;> exact ⟨rfl, rfl, rfl⟩
  | word l1 =>
    simp only [run_act, token_found, if_true, count_line]
    split_ifs <;> exact ⟨rfl, rfl, rfl⟩
  | stop rc =>
    simp only [run_act, step_conf, count_line]
    split_ifs <;> exact ⟨rfl, rfl, rfl⟩
  | fail m =>
    simp only [run_act, step_conf, log_error_conf_file, count_line]
    split_ifs <;> exact ⟨rfl, rfl, rfl⟩

theorem token_iter_dump (l : token_locals) (cf : ngx_conf_t) (h : dump_inv cf) :
    dump_inv (step_conf (token_iter l cf)) ∧
    (step_conf (token_iter l cf)).conf_file.content = cf.conf_file.content := by
  obtain ⟨args, ⟨name, content, fdv, offset, ⟨data, pos, cap⟩, dump, line⟩, log⟩ := cf
  simp only [dump_inv] at h
  subst h
  unfold token_iter
  simp only
  split_ifs
  all_goals first
    | (simp [step_conf, dump_inv, log_error_conf_file]; done)
    | (simp only [dump_inv]
       refine ⟨?_, (token_char_file _ _ _).2.2⟩
       rw [(token_char_file _ _ _).1, (token_char_file _ _ _).2.1, (token_char_file _ _ _).2.2]
       try simp [ngx_read_file, List.take_add, List.take_take])

theorem token_loop_dump :
    ∀ (fuel : Nat) (l : token_locals) (cf cf1 : ngx_conf_t) (rc : Int),
      dump_inv cf → token_loop fuel l cf = some (rc, cf1) →
      dump_inv cf1 ∧ cf1.conf_file.content = cf.conf_file.content := by
  intro fuel
  induction fuel with
  | zero => intro l cf cf1 rc _ h; cases h
  | succ k ih =>
    intro l cf cf1 rc hd h
    simp only [token_loop] at h
    have hi := token_iter_dump l cf hd
    cases hs : token_iter l cf with
    | ret rc2 cf2 =>
      rw [hs] at h hi
      simp only [Option.some.injEq, Prod.mk.injEq] at h
      rw [← h.2]
      exact hi
    | next l2 cf2 =>
      rw [hs] at h hi
      simp only [step_conf] at hi
      obtain ⟨g1, g2⟩ := ih l2 cf2 cf1 rc hi.1 h
      exact ⟨g1, g2.trans hi.2⟩

/-- What a call of `ngx_conf_read_token` on a file keeps. -/
theorem read_token_file (cf cf1 : ngx_conf_t) (rc : Int) (hok : conf_ok true cf)
    (hf : cf.conf_file.fd_valid = true) (hd : dump_inv cf)
    (h : ngx_conf_read_token cf = some (rc, cf1)) :
    conf_ok true cf1 ∧ cf1.conf_file.fd_valid = true ∧ dump_inv cf1 ∧
      cf1.conf_file.content = cf.conf_file.content ∧
      (rc = NGX_CONF_FILE_DONE → upcoming cf1 = []) := by
  obtain ⟨c1, e1, a1⟩ := read_token_scan true cf hok
  rw [h] at e1
  simp only [Option.some.injEq, Prod.mk.injEq] at e1
  obtain ⟨e1a, e1b⟩ := e1
  subst e1b
  have hd0 : dump_inv { cf with args := [] } := hd
  obtain ⟨g1, g2⟩ := token_loop_dump _ _ _ _ _ hd0 h
  refine ⟨agrees_conf_ok _ _ _ _ a1, by rw [a1.2.2.2.2.1.1, hf], g1, g2, ?_⟩
  intro hrc
  rw [a1.2.2.2.1]
  exact scan_file_done _ _ _ _ _ _ _ (by rw [← e1a]; exact hrc)

theorem no_include_mono (t t1 : directive_trace) (h : t <+: t1) (h1 : no_include t1) :
    no_include t :=
  fun d hd => h1 d (h.subset hd)

theorem record_dispatch_entry (env : conf_env) (parse : parse_fn directive_trace)
    (hp : parse_good parse) (st st1 : parse_t directive_trace) (last rc : Int)
    (h : record_dispatch env parse st last = some (rc, st1)) :
    (st.ctx ++ [(st.cf.args, last)]) <+: st1.ctx := by
  unfold record_dispatch at h
  simp only at h
  split_ifs at h with c1 c2
  · cases hi : ngx_conf_include env parse
        { st with ctx := st.ctx ++ [(st.cf.args, last)] } with
    | none => rw [hi] at h; cases h
    | some r =>
      obtain ⟨rv, st2⟩ := r
      rw [hi] at h
      have hg := (conf_include_good env parse hp _ st2 rv hi).1
      simp only at h
      split_ifs at h
      · simp only [Option.some.injEq, Prod.mk.injEq] at h; rw [← h.2]; exact hg
      · simp only [Option.some.injEq, Prod.mk.injEq] at h; rw [← h.2]; exact hg
      · simp only [Option.some.injEq, Prod.mk.injEq] at h
        rw [← h.2, (conf_log_frame st2 _).1]; exact hg
  · cases hq : parse { st with ctx := st.ctx ++ [(st.cf.args, last)] } none with
    | none => rw [hq] at h; cases h
    | some r =>
      obtain ⟨rv, st2⟩ := r
      rw [hq] at h
      have hg := (hp _ none rv st2 hq).1
      simp only at h
      split_ifs at h
      · simp only [Option.some.injEq, Prod.mk.injEq] at h
        rw [← h.2]
        exact hg.trans (List.prefix_append _ _)
      · simp only [Option.some.injEq, Prod.mk.injEq] at h; rw [← h.2]; exact hg
  · simp only [Option.some.injEq, Prod.mk.injEq] at h; rw [← h.2]

/-- The stand-in handler on a directive that is not an `include`: a block is parsed and
closed, any other directive is only recorded. -/
theorem record_dispatch_plain (env : conf_env) (parse : parse_fn directive_trace)
    (st : parse_t directive_trace) (last : Int)
    (h : ¬ (st.cf.args.head? = some (bytes "include") ∧ st.cf.args.length = 2 ∧ last = NGX_OK)) :
    record_dispatch env parse st last =
      if last = NGX_CONF_BLOCK_START then
        match parse { st with ctx := st.ctx ++ [(st.cf.args, last)] } none with
        | none => none
        | some (rv, st2) =>
          if rv = .NGX_CONF_OK then
            some (NGX_OK, { st2 with ctx := st2.ctx ++ [([], NGX_CONF_BLOCK_DONE)] })
          else some (NGX_ERROR, st2)
      else some (NGX_OK, { st with ctx := st.ctx ++ [(st.cf.args, last)] }) := by
  unfold record_dispatch
  simp only [h, if_false]

theorem parse_loop_unfold (dispatch : dispatch_fn directive_trace)
    (custom : custom_fn directive_trace) (parse : parse_fn directive_trace) (type : parse_type)
    (k : Nat) (st : parse_t directive_trace) (rc0 : Int) (cf1 : ngx_conf_t)
    (h : ngx_conf_read_token st.cf = some (rc0, cf1)) (hh : st.handler = none) :
    parse_loop dispatch custom parse type (k + 1) st =
      if rc0 = NGX_ERROR then some (rc0, { st with cf := cf1 })
      else if rc0 = NGX_CONF_BLOCK_DONE then
        if type ≠ .parse_block then
          some (NGX_ERROR, conf_log { st with cf := cf1 } .unexpected_close)
        else some (rc0, { st with cf := cf1 })
      else if rc0 = NGX_CONF_FILE_DONE then
        if type = .parse_block then
          some (NGX_ERROR, conf_log { st with cf := cf1 } .unexpected_eof_in_block)
        else some (rc0, { st with cf := cf1 })
      else if rc0 = NGX_CONF_BLOCK_START ∧ type = .parse_param then
        some (NGX_ERROR, conf_log { st with cf := cf1 } .block_in_param)
      else
        match dispatch parse { st with cf := cf1 } rc0 with
        | none => none
        | some (rc2, st2) =>
          if rc2 = NGX_ERROR then some (NGX_ERROR, st2)
          else parse_loop dispatch custom parse type k st2 := by
  simp only [parse_loop, h, hh]
  split_ifs
  all_goals first
    | rfl
    | (cases dispatch parse { st with cf := cf1, handler := none } rc0 <;> rfl)

theorem dispatch_dump_sim (env env2 : conf_env) (parse parse2 : parse_fn directive_trace)
    (hp : parse_good parse) (hs : parse_dump_sim parse parse2) (content : List Nat)
    (cd : List ngx_conf_dump_t) (st sta : parse_t directive_trace) (last rc2 : Int)
    (hfs : file_state content cd st)
    (hd : record_dispatch env parse st last = some (rc2, sta)) (hrc : rc2 ≠ NGX_ERROR)
    (hni : no_include sta.ctx) :
    file_state content cd sta ∧
    ∀ st2, dump_state [] st st2 → st2.cf.args = st.cf.args →
      ∃ rc4 sta2, record_dispatch env2 parse2 st2 last = some (rc4, sta2) ∧
        ((rc4 = NGX_ERROR ∧ dump_too_long sta sta2) ∨ (rc4 = rc2 ∧ dump_state [] sta sta2)) := by
  have hent := record_dispatch_entry env parse hp st sta last rc2 hd
  have hnot := hni (st.cf.args, last) (hent.subset (by simp))
  simp only at hnot
  rw [record_dispatch_plain env parse st last hnot] at hd
  obtain ⟨f1, f2, f3, f4, f5, f6⟩ := hfs
  by_cases cb : last = NGX_CONF_BLOCK_START
  · rw [if_pos cb] at hd
    cases hq : parse { st with ctx := st.ctx ++ [(st.cf.args, last)] } none with
    | none => rw [hq] at hd; cases hd
    | some r =>
      obtain ⟨rv, stc⟩ := r
      rw [hq] at hd
      simp only at hd
      by_cases cv : rv = .NGX_CONF_OK
      · rw [if_pos cv] at hd
        simp only [Option.some.injEq, Prod.mk.injEq] at hd
        obtain ⟨hd1, hd2⟩ := hd
        subst cv
        subst hd2
        have hnc : no_include stc.ctx := no_include_mono _ _ (List.prefix_append _ _) hni
        obtain ⟨⟨c1, c2, c3, c4, c5, c6⟩, simc⟩ := hs content cd _ stc hq hnc
          ⟨f1, f2, f3, f4, f5, f6⟩
        refine ⟨⟨c1, c2, c3, c4, c5, c6⟩, ?_⟩
        intro st2 hds hargs
        obtain ⟨d1, d2, d3, d4, d5⟩ := hds
        have hnot2 : ¬ (st2.cf.args.head? = some (bytes "include") ∧ st2.cf.args.length = 2
            ∧ last = NGX_OK) := by rw [hargs]; exact hnot
        rw [record_dispatch_plain env2 parse2 st2 last hnot2, if_pos cb]
        obtain ⟨rv3, st3, e3, alt⟩ := simc { st2 with ctx := st2.ctx ++ [(st2.cf.args, last)] }
          ⟨d1, d2, d3, by simp only [d4, hargs], d5⟩
        rw [e3]
        simp only
        rcases alt with ⟨b1, b2, b3⟩ | ⟨g1, g2, g3, g4, g5, g6⟩
        · subst b1
          rw [if_neg (by intro e; cases e)]
          exact ⟨_, _, rfl, Or.inl ⟨rfl, b2, b3.trans (List.prefix_append _ _)⟩⟩
        · subst g1
          rw [if_pos rfl]
          exact ⟨_, _, rfl, Or.inr ⟨hd1, g2, g3, g4, by simp only [g5], g6⟩⟩
      · rw [if_neg cv] at hd
        simp only [Option.some.injEq, Prod.mk.injEq] at hd
        exact absurd hd.1.symm hrc
  · rw [if_neg cb] at hd
    simp only [Option.some.injEq, Prod.mk.injEq] at hd
    obtain ⟨hd1, hd2⟩ := hd
    subst hd2
    refine ⟨⟨f1, f2, f3, f4, f5, f6⟩, ?_⟩
    intro st2 hds hargs
    obtain ⟨d1, d2, d3, d4, d5⟩ := hds
    have hnot2 : ¬ (st2.cf.args.head? = some (bytes "include") ∧ st2.cf.args.length = 2
        ∧ last = NGX_OK) := by rw [hargs]; exact hnot
    rw [record_dispatch_plain env2 parse2 st2 last hnot2, if_neg cb]
    exact ⟨_, _, rfl, Or.inr ⟨hd1, d1, d2, d3, by simp only [d4, hargs], d5⟩⟩

theorem parse_loop_dump_sim (env env2 : conf_env) (parse parse2 : parse_fn directive_trace)
    (hp : parse_good parse) (hs : parse_dump_sim parse parse2) (type : parse_type)
    (content : List Nat) (cd : List ngx_conf_dump_t) (k : Nat) :
    ∀ (x : List Nat) (st st1 : parse_t directive_trace) (rc : Int),
      is_header x → file_state content cd st →
      parse_loop (record_dispatch env) no_custom parse type k st = some (rc, st1) →
      rc ≠ NGX_ERROR → no_include st1.ctx →
      (file_state content cd st1 ∧ (type = .parse_block → rc = NGX_CONF_BLOCK_DONE) ∧
        (type ≠ .parse_block → rc = NGX_CONF_FILE_DONE ∧ upcoming st1.cf = [])) ∧
      ∀ st2, dump_state x st st2 →
        ∃ rc3 st3,
          parse_loop (record_dispatch env2) no_custom parse2 type k st2 = some (rc3, st3) ∧
          ((rc3 = NGX_ERROR ∧ dump_too_long st1 st3) ∨
           (rc3 = rc ∧ st3.ctx = st1.ctx ∧
            (rc ≠ NGX_CONF_FILE_DONE → dump_state [] st1 st3))) := by
  induction k with
  | zero => intro x st st1 rc _ _ h; cases h
  | succ k ih =>
    intro x st st1 rc hx hfs h hrc hni
    obtain ⟨hh, hok, hfd, hdi, hcd, hct⟩ := hfs
    cases ht : ngx_conf_read_token st.cf with
    | none => simp only [parse_loop, ht] at h; cases h
    | some r =>
      obtain ⟨rc0, cf1⟩ := r
      rw [parse_loop_unfold _ _ _ _ _ _ _ _ ht hh] at h
      obtain ⟨r1, r2, r3, r4, r5⟩ := read_token_file st.cf cf1 rc0 hok hfd hdi ht
      have hfs1 : file_state content cd { st with cf := cf1 } :=
        ⟨hh, r1, r2, r3, hcd, r4.trans hct⟩
      have hsim : ∀ st2, dump_state x st st2 → rc0 ≠ NGX_ERROR →
          ∃ rc3 cf3, ngx_conf_read_token st2.cf = some (rc3, cf3) ∧ conf_ok true cf3 ∧
            cf3.conf_file.fd_valid = true ∧
            ((rc3 = NGX_ERROR ∧ ends_too_long cf3) ∨
             (rc3 = rc0 ∧ cf3.args = cf1.args ∧
              (rc0 ≠ NGX_CONF_FILE_DONE → upcoming cf3 = upcoming cf1 ++ [LF]))) :=
        fun st2 hds hne =>
          (read_token_dump_sim x hx st.cf st2.cf hok hds.2.1 hfd hds.2.2.1 hds.2.2.2.2 rc0 cf1
            ht hne).2.2.2
      have hbad : ∀ (st2 : parse_t directive_trace) (cf3 : ngx_conf_t),
          dump_state x st st2 → ngx_conf_read_token st2.cf = some (NGX_ERROR, cf3) →
          parse_loop (record_dispatch env2) no_custom parse2 type (k + 1) st2
            = some (NGX_ERROR, { st2 with cf := cf3 }) := by
        intro st2 cf3 hds e3
        rw [parse_loop_unfold _ _ _ _ _ _ _ _ e3 hds.1, if_pos rfl]
      by_cases c1 : rc0 = NGX_ERROR
      · rw [if_pos c1] at h
        simp only [Option.some.injEq, Prod.mk.injEq] at h
        exact absurd (h.1.symm.trans c1) hrc
      rw [if_neg c1] at h
      by_cases c2 : rc0 = NGX_CONF_BLOCK_DONE
      · rw [if_pos c2] at h
        by_cases ct : type ≠ .parse_block
        · rw [if_pos ct] at h
          simp only [Option.some.injEq, Prod.mk.injEq] at h
          exact absurd h.1.symm hrc
        · rw [if_neg ct] at h
          simp only [Option.some.injEq, Prod.mk.injEq] at h
          obtain ⟨h1, h2⟩ := h
          subst h1 h2
          refine ⟨⟨hfs1, fun _ => c2, fun hne => absurd hne ct⟩, ?_⟩
          intro st2 hds
          obtain ⟨rc3, cf3, e3, ok3, fd3, alt⟩ := hsim st2 hds c1
          rcases alt with ⟨b1, b2⟩ | ⟨g1, g2, g3⟩
          · subst b1
            refine ⟨_, _, hbad st2 cf3 hds e3, Or.inl ⟨rfl, b2, ?_⟩⟩
            simp only [hds.2.2.2.1]
            exact List.prefix_refl _
          · subst g1
            rw [parse_loop_unfold _ _ _ _ _ _ _ _ e3 hds.1, if_neg c1, if_pos c2, if_neg ct]
            exact ⟨_, _, rfl, Or.inr ⟨rfl, hds.2.2.2.1, fun hne =>
              ⟨hds.1, ok3, fd3, hds.2.2.2.1, by simpa using g3 hne⟩⟩⟩
      rw [if_neg c2] at h
      by_cases c3 : rc0 = NGX_CONF_FILE_DONE
      · rw [if_pos c3] at h
        by_cases ct : type = .parse_block
        · rw [if_pos ct] at h
          simp only [Option.some.injEq, Prod.mk.injEq] at h
          exact absurd h.1.symm hrc
        · rw [if_neg ct] at h
          simp only [Option.some.injEq, Prod.mk.injEq] at h
          obtain ⟨h1, h2⟩ := h
          subst h1 h2
          refine ⟨⟨hfs1, fun e => absurd e ct, fun _ => ⟨c3, r5 c3⟩⟩, ?_⟩
          intro st2 hds
          obtain ⟨rc3, cf3, e3, ok3, fd3, alt⟩ := hsim st2 hds c1
          rcases alt with ⟨b1, b2⟩ | ⟨g1, g2, g3⟩
          · subst b1
            refine ⟨_, _, hbad st2 cf3 hds e3, Or.inl ⟨rfl, b2, ?_⟩⟩
            simp only [hds.2.2.2.1]
            exact List.prefix_refl _
          · subst g1
            rw [parse_loop_unfold _ _ _ _ _ _ _ _ e3 hds.1, if_neg c1, if_neg c2, if_pos c3,
              if_neg ct]
            exact ⟨_, _, rfl, Or.inr ⟨rfl, hds.2.2.2.1, fun hne => absurd c3 hne⟩⟩
      rw [if_neg c3] at h
      by_cases c4 : rc0 = NGX_CONF_BLOCK_START ∧ type = .parse_param
      · rw [if_pos c4] at h
        simp only [Option.some.injEq, Prod.mk.injEq] at h
        exact absurd h.1.symm hrc
      rw [if_neg c4] at h
      cases hd : record_dispatch env parse { st with cf := cf1 } rc0 with
      | none => rw [hd] at h; cases h
      | some r2 =>
        obtain ⟨rc2, sta⟩ := r2
        rw [hd] at h
        simp only at h
        by_cases c5 : rc2 = NGX_ERROR
        · rw [if_pos c5] at h
          simp only [Option.some.injEq, Prod.mk.injEq] at h
          exact absurd h.1.symm hrc
        rw [if_neg c5] at h
        have hpre : sta.ctx <+: st1.ctx := parse_loop_extends env parse hp type k sta st1 rc h
        obtain ⟨fsa, sima⟩ := dispatch_dump_sim env env2 parse parse2 hp hs content cd
          { st with cf := cf1 } sta rc0 rc2 hfs1 hd c5 (no_include_mono _ _ hpre hni)
        obtain ⟨u1, u2⟩ := ih [] sta st1 rc (Or.inl rfl) fsa h hrc hni
        refine ⟨u1, ?_⟩
        intro st2 hds
        obtain ⟨rc3, cf3, e3, ok3, fd3, alt⟩ := hsim st2 hds c1
        rcases alt with ⟨b1, b2⟩ | ⟨g1, g2, g3⟩
        · subst b1
          refine ⟨_, _, hbad st2 cf3 hds e3, Or.inl ⟨rfl, b2, ?_⟩⟩
          simp only [hds.2.2.2.1]
          exact (record_dispatch_extends env parse hp _ sta rc0 rc2 hd).trans hpre
        · subst g1
          rw [parse_loop_unfold _ _ _ _ _ _ _ _ e3 hds.1, if_neg c1, if_neg c2, if_neg c3,
            if_neg c4]
          obtain ⟨rc4, sta2, e4, alt2⟩ := sima { st2 with cf := cf3 }
            ⟨hds.1, ok3, fd3, hds.2.2.2.1, by simpa using g3 c3⟩ g2
          rw [e4]
          simp only
          rcases alt2 with ⟨p1, p2, p3⟩ | ⟨q1, q2⟩
          · subst p1
            rw [if_pos rfl]
            exact ⟨_, _, rfl, Or.inl ⟨rfl, p2, p3.trans hpre⟩⟩
          · subst q1
            rw [if_neg c5]
            exact u2 sta2 q2

theorem parse_rv_ok (rc : Int) : parse_rv rc = .NGX_CONF_OK ↔ rc ≠ NGX_ERROR := by
  unfold parse_rv
  split_ifs with h
  · simp [h]
  · simp [h]

theorem conf_parse_dump_sim (env env2 : conf_env) (fuel : Nat) :
    parse_dump_sim (ngx_conf_parse env (record_dispatch env) no_custom fuel)
      (ngx_conf_parse env2 (record_dispatch env2) no_custom fuel) := by
  induction fuel with
  | zero => intro content cd st st1 h; cases h
  | succ k ih =>
    intro content cd st st1 h hni hfs
    have hp0 : parse_good (fun s f => ngx_conf_parse env (record_dispatch env) no_custom k s f) :=
      conf_parse_good env k
    have hs0 : parse_dump_sim
        (fun s f => ngx_conf_parse env (record_dispatch env) no_custom k s f)
        (fun s f => ngx_conf_parse env2 (record_dispatch env2) no_custom k s f) := ih
    simp only [ngx_conf_parse, hfs.2.2.1, if_true] at h
    cases hl : parse_loop (record_dispatch env) no_custom
        (fun s f => ngx_conf_parse env (record_dispatch env) no_custom k s f)
        parse_type.parse_block (k + 1) st with
    | none => rw [hl] at h; cases h
    | some r =>
      obtain ⟨rc, s1⟩ := r
      rw [hl] at h
      simp only [Option.some.injEq, Prod.mk.injEq] at h
      obtain ⟨h1, h2⟩ := h
      subst h2
      have hrc : rc ≠ NGX_ERROR := (parse_rv_ok rc).mp h1
      obtain ⟨⟨u1, u2, _⟩, u3⟩ := parse_loop_dump_sim env env2 _ _ hp0 hs0 .parse_block content
        cd (k + 1) [] st s1 rc (Or.inl rfl) hfs hl hrc hni
      refine ⟨u1, ?_⟩
      intro st2 hds
      obtain ⟨rc3, st3, e3, alt⟩ := u3 st2 hds
      simp only [ngx_conf_parse, hds.2.2.1, if_true, e3]
      rcases alt with ⟨b1, b2⟩ | ⟨g1, g2, g3⟩
      · subst b1
        exact ⟨_, _, rfl, Or.inl ⟨rfl, b2⟩⟩
      · subst g1
        refine ⟨_, _, rfl, Or.inr ⟨h1, g3 ?_⟩⟩
        rw [u2 rfl]
        decide

theorem dump_header_is_header (name : List Nat) (hn : ∀ c ∈ name, c ≠ LF) :
    is_header (bytes "# configuration file " ++ name ++ bytes ":" ++ [LF]) := by
  right
  refine ⟨bytes " configuration file " ++ name ++ bytes ":", ?_, ?_⟩
  · have e : bytes "# configuration file " = SHARP :: bytes " configuration file " := by decide
    rw [e]
    simp
  · intro c hc
    simp only [List.mem_append] at hc
    rcases hc with (hc | hc) | hc
    · revert c
      decide
    · exact hn c hc
    · revert c
      decide

theorem dump_all_read (cf : ngx_conf_t) (hd : dump_inv cf) (hu : upcoming cf = []) :
    cf.conf_file.dump = some cf.conf_file.content := by
  unfold upcoming at hu
  rw [List.append_eq_nil] at hu
  have h2 : cf.conf_file.content.length ≤ cf.conf_file.offset := by simpa using hu.2
  rw [hd, List.take_of_length_le h2]

/-- C8 (amended): a configuration file whose name holds no line feed is parsed with
`NGX_CONF_OK` while the dump is enabled, and no `include` directive is handled. Then
`-T` writes the line `# configuration file NAME:`, the bytes of the file and a line
feed; and the parse of a file with these bytes returns: either with `NGX_CONF_OK` after
handling the same directives with the same arguments in the same order and block
structure, or with `NGX_CONF_ERROR` after a "too long parameter" error, the directives
handled before it being the first ones of the file. -/
theorem dump_reparse (env env2 : conf_env) (fuel : Nat) (name name2 : List Nat)
    (st1 : parse_t directive_trace) (hd : env.dump_config = true)
    (hn : ∀ c ∈ name, c ≠ LF)
    (h : parse_config env fuel name = some (.NGX_CONF_OK, st1))
    (hni : no_include st1.ctx)
    (h2 : env2.files name2 = some (dump_output st1.config_dump)) :
    (∃ content, env.files name = some content ∧
      dump_output st1.config_dump
        = bytes "# configuration file " ++ name ++ bytes ":" ++ [LF] ++ content ++ [LF]) ∧
    ∃ rv3 st3, parse_config env2 fuel name2 = some (rv3, st3) ∧
      ((rv3 = .NGX_CONF_OK ∧ st3.ctx = st1.ctx) ∨
       (rv3 = .NGX_CONF_ERROR ∧ ends_too_long st3.cf ∧ st3.ctx <+: st1.ctx)) := by
  cases fuel with
  | zero => cases h
  | succ k =>
    simp only [parse_config, ngx_conf_parse] at h
    cases hf : env.files name with
    | none => rw [hf] at h; cases h
    | some content =>
      rw [hf] at h
      simp only [hd, if_true] at h
      have hp0 : parse_good
          (fun s f => ngx_conf_parse env (record_dispatch env) no_custom k s f) :=
        conf_parse_good env k
      have hs0 : parse_dump_sim
          (fun s f => ngx_conf_parse env (record_dispatch env) no_custom k s f)
          (fun s f => ngx_conf_parse env2 (record_dispatch env2) no_custom k s f) :=
        conf_parse_dump_sim env env2 k
      split at h
      · cases h
      · rename_i rc s1 hl
        simp only [Option.some.injEq, Prod.mk.injEq] at h
        obtain ⟨h1, h3⟩ := h
        have hrc : rc ≠ NGX_ERROR := (parse_rv_ok rc).mp h1
        have hctx : st1.ctx = s1.ctx := by rw [← h3]
        have hcd : st1.config_dump
            = sync_dump s1.config_dump init_state.config_dump.length s1.cf.conf_file.dump := by
          rw [← h3]
        rw [hctx] at hni
        obtain ⟨⟨u1, _, u2⟩, u3⟩ := parse_loop_dump_sim env env2 _ _ hp0 hs0 .parse_file content
          (init_state.config_dump ++ [⟨name, []⟩]) (k + 1)
          (bytes "# configuration file " ++ name ++ bytes ":" ++ [LF]) _ s1 rc
          (dump_header_is_header name hn)
          ⟨rfl, by simp [conf_ok, wf, token_init], rfl, by simp [dump_inv], rfl, rfl⟩
          hl hrc hni
        obtain ⟨u2a, u2b⟩ := u2 (by decide)
        obtain ⟨_, _, _, v4, v5, v6⟩ := u1
        have hdump : s1.cf.conf_file.dump = some content := by
          rw [dump_all_read s1.cf v4 u2b, v6]
        have hout : dump_output st1.config_dump
            = bytes "# configuration file " ++ name ++ bytes ":" ++ [LF] ++ content ++ [LF] := by
          rw [hcd, v5, hdump]
          simp [sync_dump, init_state, dump_output, List.modify]
        refine ⟨⟨content, rfl, hout⟩, ?_⟩
        rw [hout] at h2
        simp only [parse_config, ngx_conf_parse, h2]
        obtain ⟨rc3, st3, e3, alt⟩ := u3
          { init_state with
            cf := { init_state.cf with
              conf_file :=
                { name := name2,
                  content := bytes "# configuration file " ++ name ++ bytes ":" ++ [LF]
                    ++ content ++ [LF],
                  fd_valid := true, offset := 0,
                  buffer := { data := [], pos := 0, cap := NGX_CONF_BUFFER },
                  dump := if env2.dump_config then some [] else none, line := 1 } },
            conf_file_null := false,
            config_dump := if env2.dump_config then init_state.config_dump ++ [⟨name2, []⟩]
              else init_state.config_dump }
          ⟨rfl, by simp [conf_ok, wf, token_init], rfl, rfl, by simp [upcoming]⟩
        rw [e3]
        simp only
        rcases alt with ⟨b1, b2, b3⟩ | ⟨g1, g2, _⟩
        · subst b1
          refine ⟨_, _, rfl, Or.inr ⟨rfl, b2, ?_⟩⟩
          rw [hctx]
          exact b3
        · subst g1
          refine ⟨_, _, rfl, Or.inl ⟨h1, ?_⟩⟩
          rw [hctx]
          exact g2

/-- C8, counterexample: the file `m` holds `include b;` and `z;`, the file `b` holds
`x;`. The parse of `m` handles `include b`, `x`, `z`. What `-T` writes is the text of `m`
followed by the text of `b`, each after its header line; the parse of that output handles
`include b`, `x`, `z` and once more `x`. -/
theorem dump_reparse_include_differs :
    (parse_config include_env 5 (bytes "m")).map (fun r => (r.1, r.2.ctx))
      = some (.NGX_CONF_OK,
          [([bytes "include", bytes "b"], NGX_OK), ([bytes "x"], NGX_OK), ([bytes "z"], NGX_OK)]) ∧
    (parse_config include_env 5 (bytes "m")).map (fun r => dump_output r.2.config_dump)
      = some (bytes "# configuration file m:\ninclude b;\nz;\n# configuration file b:\nx;\n") ∧
    (parse_config
        (with_file include_env (bytes "d")
          (bytes "# configuration file m:\ninclude b;\nz;\n# configuration file b:\nx;\n"))
        5 (bytes "d")).map (fun r => (r.1, r.2.ctx))
      = some (.NGX_CONF_OK,
          [([bytes "include", bytes "b"], NGX_OK), ([bytes "x"], NGX_OK), ([bytes "z"], NGX_OK),
           ([bytes "x"], NGX_OK)]) := by
  refine ⟨?_, ?_, ?_⟩ <;> decide

theorem dump_reparse_witness :
    ∃ st1, parse_config plain_env 3 (bytes "m") = some (.NGX_CONF_OK, st1) ∧
      ((∃ content, plain_env.files (bytes "m") = some content ∧
        dump_output st1.config_dump
          = bytes "# configuration file " ++ bytes "m" ++ bytes ":" ++ [LF] ++ content ++ [LF]) ∧
      ∃ rv3 st3,
        parse_config (with_file plain_env (bytes "d") (dump_output st1.config_dump)) 3 (bytes "d")
          = some (rv3, st3) ∧
        ((rv3 = .NGX_CONF_OK ∧ st3.ctx = st1.ctx) ∨
         (rv3 = .NGX_CONF_ERROR ∧ ends_too_long st3.cf ∧ st3.ctx <+: st1.ctx))) := by
  have h : (parse_config plain_env 3 (bytes "m")).map (fun r => (r.1, r.2.ctx))
      = some (.NGX_CONF_OK,
          [([bytes "a", bytes "1"], NGX_OK), ([bytes "ev"], NGX_CONF_BLOCK_START),
           ([bytes "w", bytes "2"], NGX_OK), ([], NGX_CONF_BLOCK_DONE)]) := by decide
  obtain ⟨⟨rv, st1⟩, hr, hrv⟩ := Option.map_eq_some'.mp h
  simp only [Prod.mk.injEq] at hrv
  obtain ⟨hrv1, hctx⟩ := hrv
  subst hrv1
  exact ⟨st1, hr, dump_reparse plain_env
    (with_file plain_env (bytes "d") (dump_output st1.config_dump)) 3 (bytes "m") (bytes "d")
    st1 rfl (by decide) hr (by unfold no_include; rw [hctx]; decide) (by simp [with_file])⟩

/-! ### `ngx_get_options` -/

theorem with_flags_nil (o : options_t) : with_flags o [] = o := by
  simp [with_flags]

theorem option_chars_flag (c : Nat) (p : List Nat) (rest : List (List Nat)) (o : options_t)
    (h : is_flag c = true) :
    option_chars (c :: p) rest o = option_chars p rest (with_flags o [c]) := by
  simp only [is_flag, Bool.or_eq_true, beq_iff_eq] at h
  rcases h with (((((h | h) | h) | h) | h) | h) | h <;> subst h <;>
    simp [option_chars, with_flags]

theorem with_flags_append (o : options_t) (a b : List Nat) :
    with_flags (with_flags o a) b = with_flags o (a ++ b) := by
  simp [with_flags, List.any_append, Bool.or_assoc]

theorem option_chars_flags (fl : List Nat) :
    ∀ (q : List Nat) (rest : List (List Nat)) (o : options_t),
      (∀ c ∈ fl, is_flag c = true) →
      option_chars (fl ++ q) rest o = option_chars q rest (with_flags o fl) := by
  induction fl with
  | nil => intro q rest o _; rw [with_flags_nil]; rfl
  | cons c fl ih =>
    intro q rest o h
    rw [List.cons_append, option_chars_flag c _ rest o (h c (List.mem_cons_self _ _)),
      ih q rest _ (fun d hd => h d (List.mem_cons_of_mem _ hd)), with_flags_append]
    rfl

theorem options_loop_flags (fl : List Nat) (rest : List (List Nat)) (o : options_t)
    (h : ∀ c ∈ fl, is_flag c = true) :
    options_loop ((45 :: fl) :: rest) o = options_loop rest (with_flags o fl) := by
  have e := option_chars_flags fl [] rest o h
  rw [List.append_nil] at e
  simp only [options_loop, e, option_chars]

theorem options_loop_flag_args (as : List (List Nat)) :
    ∀ (o : options_t), (∀ a ∈ as, ∀ c ∈ a, is_flag c = true) →
      options_loop (as.map (fun a => 45 :: a)) o = (NGX_OK, with_flags o as.flatten) := by
  induction as with
  | nil => intro o _; simp [options_loop, with_flags_nil]
  | cons a as ih =>
    intro o h
    rw [List.map_cons, options_loop_flags a _ o (h a (List.mem_cons_self _ _)),
      ih _ (fun b hb => h b (List.mem_cons_of_mem _ hb)), with_flags_append]
    simp

/-- C11 (amended): the flags are mapped as the usage text documents them, also when
several stand in one argument: an argument `-` followed only by letters of `?hvVtTq`
sets `ngx_show_version` and `ngx_show_help` for `?` and `h`, `ngx_show_version` for `v`,
`ngx_show_version` and `ngx_show_configure` for `V`, `ngx_test_config` for `t`,
`ngx_test_config` and `ngx_dump_config` for `T`, `ngx_quiet_mode` for `q`, and the loop
goes on with the next argument; a command line of such arguments returns `NGX_OK`. A
byte other than these letters and `p`, `c`, `g`, `s`, read where an option letter is
expected, and an argument that is read as an option and does not start with `-`, make
it return `NGX_ERROR`. (The state `o` is any state of the globals, so the argument may
follow any arguments accepted before.) -/
theorem get_options_flags (fl : List Nat) (rest : List (List Nat)) (o : options_t)
    (h : ∀ c ∈ fl, is_flag c = true) :
    options_loop ((45 :: fl) :: rest) o = options_loop rest (with_flags o fl) ∧
    (∀ (argv0 : List Nat) (as : List (List Nat)),
      (∀ a ∈ as, ∀ c ∈ a, is_flag c = true) →
      ngx_get_options (argv0 :: as.map (fun a => 45 :: a)) o
        = (NGX_OK, with_flags o as.flatten)) ∧
    (∀ (c : Nat) (p : List Nat), is_flag c = false → c ≠ 112 → c ≠ 99 → c ≠ 103 → c ≠ 115 →
      (options_loop ((45 :: (fl ++ c :: p)) :: rest) o).1 = NGX_ERROR) ∧
    (∀ arg : List Nat, arg.head? ≠ some 45 →
      (options_loop (arg :: rest) o).1 = NGX_ERROR) := by
  refine ⟨options_loop_flags fl rest o h, ?_, ?_, ?_⟩
  · intro argv0 as has
    simp only [ngx_get_options, List.drop_succ_cons, List.drop_zero]
    exact options_loop_flag_args as o has
  · intro c p hc h1 h2 h3 h4
    simp only [is_flag, Bool.or_eq_false_iff, beq_eq_false_iff_ne, ne_eq] at hc
    obtain ⟨⟨⟨⟨⟨⟨c1, c2⟩, c3⟩, c4⟩, c5⟩, c6⟩, c7⟩ := hc
    simp only [options_loop, option_chars_flags fl (c :: p) rest o h, option_chars, c1, c2, c3,
      c4, c5, c6, c7, h1, h2, h3, h4, or_self, if_false]
  · intro arg harg
    cases arg with
    | nil => simp [options_loop]
    | cons a p =>
      have ha : a ≠ 45 := by
        intro e
        subst e
        exact harg rfl
      unfold options_loop
      split
      · rename_i p1 heq
        simp only [List.cons.injEq] at heq
        exact absurd heq.1 ha
      · rfl

theorem get_options_flags_witness :
    options_loop ((45 :: bytes "tq") :: [bytes "-v"]) options_init
        = options_loop [bytes "-v"] (with_flags options_init (bytes "tq")) ∧
    (∀ (argv0 : List Nat) (as : List (List Nat)),
      (∀ a ∈ as, ∀ c ∈ a, is_flag c = true) →
      ngx_get_options (argv0 :: as.map (fun a => 45 :: a)) options_init
        = (NGX_OK, with_flags options_init as.flatten)) ∧
    (∀ (c : Nat) (p : List Nat), is_flag c = false → c ≠ 112 → c ≠ 99 → c ≠ 103 → c ≠ 115 →
      (options_loop ((45 :: (bytes "tq" ++ c :: p)) :: [bytes "-v"]) options_init).1
        = NGX_ERROR) ∧
    (∀ arg : List Nat, arg.head? ≠ some 45 →
      (options_loop (arg :: [bytes "-v"]) options_init).1 = NGX_ERROR) :=
  get_options_flags (bytes "tq") [bytes "-v"] options_init (by decide)

/-- C11, counterexample: in `nginx -c x` the argument `x` does not start with `-`, and
`ngx_get_options` returns `NGX_OK`: the argument is the value of `-c`. -/
theorem get_options_value_argument :
    (bytes "x").head? ≠ some 45 ∧
      ngx_get_options [bytes "nginx", bytes "-c", bytes "x"] options_init
        = (NGX_OK, { options_init with ngx_conf_file := some (bytes "x") }) := by
  decide

theorem options_loop_value (q : List Nat) (v : List Nat) (rest1 : List (List Nat))
    (o o1 : options_t) :
    (∀ rest, option_chars q rest o = .next o1 false →
      options_loop ((45 :: q) :: rest) o = options_loop rest o1) ∧
    (option_chars q (v :: rest1) o = .next o1 true →
      options_loop ((45 :: q) :: v :: rest1) o = options_loop rest1 o1) ∧
    (∀ rest, option_chars q rest o = .error o1 →
      options_loop ((45 :: q) :: rest) o = (NGX_ERROR, o1)) := by
  refine ⟨?_, ?_, ?_⟩
  · intro rest h
    simp only [options_loop, h]
  · intro h
    simp only [options_loop, h]
  · intro rest h
    simp only [options_loop, h]

theorem is_signal_name_iff (v : List Nat) :
    is_signal_name v = true ↔
      v = bytes "stop" ∨ v = bytes "quit" ∨ v = bytes "reopen" ∨ v = bytes "reload" := by
  simp [is_signal_name, or_assoc]

/-- C12: the value of `-s` is the rest of the argument when that is not empty, otherwise
the next argument. When the value is one of `stop`, `quit`, `reopen`, `reload`,
`ngx_signal` is the value, `ngx_process` is set to `NGX_PROCESS_SIGNALLER` and the loop
goes on with the argument after the value; for every other value, and when there is no
value, `ngx_get_options` returns `NGX_ERROR` and `ngx_process` is left as it was. (The
letters `fl` before the `s` are flags, the state `o` is any state of the globals.) -/
theorem get_options_signal (fl : List Nat) (o : options_t)
    (h : ∀ c ∈ fl, is_flag c = true) :
    (∀ (p : List Nat) (rest : List (List Nat)), p ≠ [] → is_signal_name p = true →
      options_loop ((45 :: (fl ++ 115 :: p)) :: rest) o
        = options_loop rest { with_flags o fl with
            ngx_signal := some p, ngx_process := NGX_PROCESS_SIGNALLER }) ∧
    (∀ (p : List Nat) (rest : List (List Nat)), p ≠ [] → is_signal_name p = false →
      (options_loop ((45 :: (fl ++ 115 :: p)) :: rest) o).1 = NGX_ERROR ∧
      (options_loop ((45 :: (fl ++ 115 :: p)) :: rest) o).2.ngx_process = o.ngx_process) ∧
    (∀ (v : List Nat) (rest1 : List (List Nat)), is_signal_name v = true →
      options_loop ((45 :: (fl ++ [115])) :: v :: rest1) o
        = options_loop rest1 { with_flags o fl with
            ngx_signal := some v, ngx_process := NGX_PROCESS_SIGNALLER }) ∧
    (∀ (v : List Nat) (rest1 : List (List Nat)), is_signal_name v = false →
      (options_loop ((45 :: (fl ++ [115])) :: v :: rest1) o).1 = NGX_ERROR ∧
      (options_loop ((45 :: (fl ++ [115])) :: v :: rest1) o).2.ngx_process = o.ngx_process) ∧
    ((options_loop [45 :: (fl ++ [115])] o).1 = NGX_ERROR ∧
      (options_loop [45 :: (fl ++ [115])] o).2.ngx_process = o.ngx_process) ∧
    (∀ v : List Nat, is_signal_name v = true ↔
      v = bytes "stop" ∨ v = bytes "quit" ∨ v = bytes "reopen" ∨ v = bytes "reload") := by
  have hp : (with_flags o fl).ngx_process = o.ngx_process := rfl
  refine ⟨?_, ?_, ?_, ?_, ?_, is_signal_name_iff⟩
  · intro p rest hne hs
    refine (options_loop_value _ [] [] o _).1 rest ?_
    rw [option_chars_flags fl _ rest o h]
    simp [option_chars, option_value, hne, hs]
  · intro p rest hne hs
    have e : option_chars (fl ++ 115 :: p) rest o
        = .error { with_flags o fl with
            ngx_signal := some p,
            stderr := (with_flags o fl).stderr ++ [.invalid_signal p] } := by
      rw [option_chars_flags fl _ rest o h]
      simp [option_chars, option_value, hne, hs]
    rw [(options_loop_value _ [] [] o _).2.2 rest e]
    exact ⟨rfl, rfl⟩
  · intro v rest1 hs
    refine (options_loop_value _ v rest1 o _).2.1 ?_
    rw [option_chars_flags fl _ _ o h]
    simp [option_chars, option_value, hs]
  · intro v rest1 hs
    have e : option_chars (fl ++ [115]) (v :: rest1) o
        = .error { with_flags o fl with
            ngx_signal := some v,
            stderr := (with_flags o fl).stderr ++ [.invalid_signal v] } := by
      rw [option_chars_flags fl _ _ o h]
      simp [option_chars, option_value, hs]
    rw [(options_loop_value _ [] [] o _).2.2 _ e]
    exact ⟨rfl, rfl⟩
  · have e : option_chars (fl ++ [115]) [] o
        = .error { with_flags o fl with
            stderr := (with_flags o fl).stderr ++ [.requires_parameter 115] } := by
      rw [option_chars_flags fl _ _ o h]
      simp [option_chars, option_value]
    rw [(options_loop_value _ [] [] o _).2.2 _ e]
    exact ⟨rfl, rfl⟩

theorem get_options_signal_witness :
    options_loop ((45 :: (bytes "t" ++ 115 :: bytes "reload")) :: []) options_init
      = options_loop [] { with_flags options_init (bytes "t") with
          ngx_signal := some (bytes "reload"), ngx_process := NGX_PROCESS_SIGNALLER } :=
  (get_options_signal (bytes "t") options_init (by decide)).1 (bytes "reload") []
    (by decide) (by decide)

/-- C13: for each of `-p`, `-c` and `-g` the value is the rest of the argument when that
is not empty, otherwise the whole next argument; it is stored in `ngx_prefix`,
`ngx_conf_file` or `ngx_conf_params`, and the loop goes on with the argument after the
value. When the argument ends with the letter and no argument follows,
`ngx_get_options` returns `NGX_ERROR`. (The letters `fl` before the option letter are
flags, the state `o` is any state of the globals.) -/
theorem get_options_value (fl : List Nat) (o : options_t)
    (h : ∀ c ∈ fl, is_flag c = true) :
    (∀ (p : List Nat) (rest : List (List Nat)), p ≠ [] →
      options_loop ((45 :: (fl ++ 112 :: p)) :: rest) o
          = options_loop rest { with_flags o fl with ngx_prefix := some p } ∧
      options_loop ((45 :: (fl ++ 99 :: p)) :: rest) o
          = options_loop rest { with_flags o fl with ngx_conf_file := some p } ∧
      options_loop ((45 :: (fl ++ 103 :: p)) :: rest) o
          = options_loop rest { with_flags o fl with ngx_conf_params := some p }) ∧
    (∀ (v : List Nat) (rest1 : List (List Nat)),
      options_loop ((45 :: (fl ++ [112])) :: v :: rest1) o
          = options_loop rest1 { with_flags o fl with ngx_prefix := some v } ∧
      options_loop ((45 :: (fl ++ [99])) :: v :: rest1) o
          = options_loop rest1 { with_flags o fl with ngx_conf_file := some v } ∧
      options_loop ((45 :: (fl ++ [103])) :: v :: rest1) o
          = options_loop rest1 { with_flags o fl with ngx_conf_params := some v }) ∧
    ((options_loop [45 :: (fl ++ [112])] o).1 = NGX_ERROR ∧
      (options_loop [45 :: (fl ++ [99])] o).1 = NGX_ERROR ∧
      (options_loop [45 :: (fl ++ [103])] o).1 = NGX_ERROR) := by
  refine ⟨?_, ?_, ?_, ?_, ?_⟩
  · intro p rest hne
    refine ⟨?_, ?_, ?_⟩ <;>
      refine (options_loop_value _ [] [] o _).1 rest ?_ <;>
      rw [option_chars_flags fl _ rest o h] <;>
      simp [option_chars, option_value, hne]
  · intro v rest1
    refine ⟨?_, ?_, ?_⟩ <;>
      refine (options_loop_value _ v rest1 o _).2.1 ?_ <;>
      rw [option_chars_flags fl _ _ o h] <;>
      simp [option_chars, option_value]
  · simp only [options_loop, option_chars_flags fl _ _ o h, option_chars, option_value]
    simp
  · simp only [options_loop, option_chars_flags fl _ _ o h, option_chars, option_value]
    simp
  · simp only [options_loop, option_chars_flags fl _ _ o h, option_chars, option_value]
    simp

theorem get_options_value_witness :
    options_loop ((45 :: (bytes "q" ++ [99])) :: bytes "f.conf" :: [bytes "-t"]) options_init
      = options_loop [bytes "-t"]
          { with_flags options_init (bytes "q") with ngx_conf_file := some (bytes "f.conf") } :=
  ((get_options_value (bytes "q") options_init (by decide)).2.1 (bytes "f.conf")
    [bytes "-t"]).2.1

/-! ### C14: the exit code of `main` -/

/-- C14: `main` returns 1 whenever `ngx_get_options` does not return `NGX_OK`, and
whenever `ngx_init_cycle` returns NULL (it is called unless the version alone was
requested; `ngx_test_config` plays no part); it returns 0 when the calls before
`ngx_init_cycle` succeed, `ngx_init_cycle` returns a cycle and `ngx_test_config` is set
(by `-t` or `-T`), and when the options are accepted with `ngx_show_version` set and
`ngx_test_config` not set, as for `-v`, `-V`, `-h` or `-?` alone. -/
theorem main_exit_code (e : main_env) (argv : List (List Nat)) :
    ((ngx_get_options argv options_init).1 ≠ NGX_OK → main e argv = 1) ∧
    (e.init_cycle = false →
      ¬ ((ngx_get_options argv options_init).2.ngx_show_version = true ∧
          (ngx_get_options argv options_init).2.ngx_test_config = false) →
      main e argv = 1) ∧
    (startup_ok e → (ngx_get_options argv options_init).1 = NGX_OK → e.init_cycle = true →
      (ngx_get_options argv options_init).2.ngx_test_config = true → main e argv = 0) ∧
    (e.strerror_init = NGX_OK → (ngx_get_options argv options_init).1 = NGX_OK →
      (ngx_get_options argv options_init).2.ngx_show_version = true →
      (ngx_get_options argv options_init).2.ngx_test_config = false → main e argv = 0) ∧
    (e.strerror_init = NGX_OK →
      ∀ (argv0 fl : List Nat), fl ≠ [] →
        (∀ c ∈ fl, c = 118 ∨ c = 86 ∨ c = 104 ∨ c = 63) →
        main e [argv0, 45 :: fl] = 0) := by
  have key : ∀ r : Int × options_t,
      (r.1 ≠ NGX_OK →
        (if e.strerror_init ≠ NGX_OK then (1 : Int) else main_rest e r) = 1) ∧
      (e.init_cycle = false →
        ¬ (r.2.ngx_show_version = true ∧ r.2.ngx_test_config = false) →
        (if e.strerror_init ≠ NGX_OK then (1 : Int) else main_rest e r) = 1) ∧
      (startup_ok e → r.1 = NGX_OK → e.init_cycle = true → r.2.ngx_test_config = true →
        (if e.strerror_init ≠ NGX_OK then (1 : Int) else main_rest e r) = 0) ∧
      (e.strerror_init = NGX_OK → r.1 = NGX_OK → r.2.ngx_show_version = true →
        r.2.ngx_test_config = false →
        (if e.strerror_init ≠ NGX_OK then (1 : Int) else main_rest e r) = 0) := by
    intro r
    by_cases hs : e.strerror_init ≠ NGX_OK
    · rw [if_pos hs]
      refine ⟨fun _ => rfl, fun _ _ => rfl, ?_, ?_⟩
      · intro h
        exact absurd h.1 hs
      · intro h
        exact absurd h hs
    rw [if_neg hs]
    refine ⟨?_, ?_, ?_, ?_⟩
    · intro h
      unfold main_rest
      exact if_pos h
    · intro h1 h2
      unfold main_rest
      by_cases c0 : r.1 ≠ NGX_OK
      · exact if_pos c0
      rw [if_neg c0, if_neg h2]
      by_cases c1 : e.log_init = false
      · rw [if_pos c1]
      rw [if_neg c1]
      by_cases c2 : e.create_pool = false
      · rw [if_pos c2]
      rw [if_neg c2]
      by_cases c3 : e.save_argv ≠ NGX_OK
      · rw [if_pos c3]
      rw [if_neg c3]
      by_cases c4 : e.process_options ≠ NGX_OK
      · rw [if_pos c4]
      rw [if_neg c4]
      by_cases c5 : e.os_init ≠ NGX_OK
      · rw [if_pos c5]
      rw [if_neg c5]
      by_cases c6 : e.crc32_table_init ≠ NGX_OK
      · rw [if_pos c6]
      rw [if_neg c6]
      by_cases c7 : e.add_inherited_sockets ≠ NGX_OK
      · rw [if_pos c7]
      rw [if_neg c7, if_pos h1]
    · rintro ⟨s1, s2, s3, s4, s5, s6, s7, s8⟩ h1 h2 h3
      unfold main_rest
      rw [if_neg (not_not.mpr h1), if_neg (by rw [h3]; simp), if_neg (by rw [s2]; simp),
        if_neg (by rw [s3]; simp), if_neg (not_not.mpr s4), if_neg (not_not.mpr s5),
        if_neg (not_not.mpr s6), if_neg (not_not.mpr s7), if_neg (not_not.mpr s8),
        if_neg (by rw [h2]; simp), if_pos h3]
    · intro _ h1 h2 h3
      unfold main_rest
      rw [if_neg (not_not.mpr h1), if_pos ⟨h2, h3⟩]
  obtain ⟨k1, k2, k3, k4⟩ := key (ngx_get_options argv options_init)
  refine ⟨k1, k2, k3, k4, ?_⟩
  · intro s1 argv0 fl hne hfl
    have hflag : ∀ c ∈ fl, is_flag c = true := by
      intro c hc
      rcases hfl c hc with h | h | h | h <;> subst h <;> rfl
    have e1 : ngx_get_options [argv0, 45 :: fl] options_init
        = (NGX_OK, with_flags options_init fl) := by
      simp only [ngx_get_options, List.drop_succ_cons, List.drop_zero]
      rw [options_loop_flags fl [] options_init hflag]
      rfl
    have e2 : (with_flags options_init fl).ngx_show_version = true := by
      cases fl with
      | nil => exact absurd rfl hne
      | cons c p =>
        have := hfl c (List.mem_cons_self _ _)
        simp only [with_flags, options_init, Bool.false_or, List.any_cons, Bool.or_eq_true,
          beq_iff_eq]
        left
        tauto
    have e3 : (with_flags options_init fl).ngx_test_config = false := by
      simp only [with_flags, options_init, Bool.false_or, List.any_eq_false, Bool.or_eq_true,
        beq_iff_eq, not_or]
      intro c hc
      rcases hfl c hc with h | h | h | h <;> subst h <;> decide
    unfold main main_rest
    rw [e1, if_neg (not_not.mpr s1), if_neg (not_not.mpr rfl), if_pos ⟨e2, e3⟩]

theorem main_exit_code_witness :
    main good_env [bytes "nginx", bytes "-t"] = 0 ∧
      main { good_env with init_cycle := false } [bytes "nginx", bytes "-t"] = 1 ∧
      main good_env [bytes "nginx", bytes "x"] = 1 :=
  ⟨(main_exit_code good_env [bytes "nginx", bytes "-t"]).2.2.1
      ⟨rfl, rfl, rfl, rfl, rfl, rfl, rfl, rfl⟩ (by decide) rfl (by decide),
    (main_exit_code { good_env with init_cycle := false } [bytes "nginx", bytes "-t"]).2.1
      rfl (by decide),
    (main_exit_code good_env [bytes "nginx", bytes "x"]).1 (by decide)⟩

/-! ### C15: the inherited sockets -/

theorem digits_loop_spec :
    ∀ (fuel n : Nat) (acc : List Nat), n < 10 ^ fuel → 0 < fuel →
      ∃ ds, digits_loop fuel n acc = ds ++ acc ∧ ds ≠ [] ∧
        (∀ d ∈ ds, 48 ≤ d ∧ d ≤ 57) ∧
        ∀ v, ds.foldl (fun v c => v * 10 + (c - 48)) v = v * 10 ^ ds.length + n := by
  intro fuel
  induction fuel with
  | zero => intro n acc _ h; omega
  | succ k ih =>
    intro n acc hn _
    simp only [digits_loop]
    by_cases h0 : n / 10 = 0
    · rw [if_pos h0]
      refine ⟨[48 + n % 10], rfl, by simp, ?_, ?_⟩
      · intro d hd
        simp only [List.mem_singleton] at hd
        omega
      · intro v
        simp only [List.foldl_cons, List.foldl_nil, List.length_singleton, pow_one]
        omega
    · rw [if_neg h0]
      have hk : 0 < k := by
        rcases Nat.eq_zero_or_pos k with hk | hk
        · subst hk
          simp only [zero_add, pow_one] at hn
          omega
        · exact hk
      have hn1 : n / 10 < 10 ^ k := by
        rw [pow_succ] at hn
        omega
      obtain ⟨ds, e1, e2, e3, e4⟩ := ih (n / 10) ((48 + n % 10) :: acc) hn1 hk
      refine ⟨ds ++ [48 + n % 10], by rw [e1]; simp, by simp, ?_, ?_⟩
      · intro d hd
        simp only [List.mem_append, List.mem_singleton] at hd
        rcases hd with hd | hd
        · exact e3 d hd
        · omega
      · intro v
        rw [List.foldl_append, e4 v]
        simp only [List.foldl_cons, List.foldl_nil, List.length_append, List.length_singleton,
          pow_succ]
        have : 48 + n % 10 - 48 = n % 10 := by omega
        rw [this]
        have h2 : n = 10 * (n / 10) + n % 10 := (Nat.div_add_mod n 10).symm
        nlinarith [h2]

theorem foldl_dec_le (l : List Nat) :
    ∀ v : Nat, v ≤ l.foldl (fun v c => v * 10 + (c - 48)) v := by
  induction l with
  | nil => intro v; exact le_refl _
  | cons c l ih =>
    intro v
    simp only [List.foldl_cons]
    exact le_trans (by omega) (ih _)

theorem atoi_loop_digits (max_int : Nat) (l : List Nat) :
    ∀ v : Nat, (∀ d ∈ l, 48 ≤ d ∧ d ≤ 57) →
      l.foldl (fun v c => v * 10 + (c - 48)) v ≤ max_int →
      atoi_loop max_int l v = ((l.foldl (fun v c => v * 10 + (c - 48)) v : Nat) : Int) := by
  induction l with
  | nil => intro v _ _; rfl
  | cons c l ih =>
    intro v hd hle
    have hc := hd c (List.mem_cons_self _ _)
    simp only [List.foldl_cons] at hle ⊢
    have hstep : v * 10 + (c - 48) ≤ max_int := le_trans (foldl_dec_le l _) hle
    have h1 : ¬(c < 48 ∨ c > 57) := by omega
    have h2 : ¬(v ≥ max_int / 10 ∧ (v > max_int / 10 ∨ c - 48 > max_int % 10)) := by omega
    simp only [atoi_loop, h1, h2, if_false]
    exact ih _ (fun d hd1 => hd d (List.mem_cons_of_mem _ hd1)) hle

/-- The number printed by `%ud` is read back by `ngx_atoi`. -/
theorem atoi_sprintf (max_int : Nat) (hmax : 2 ^ 31 - 1 ≤ max_int) (fd : Int)
    (h0 : 0 ≤ fd) (h1 : fd < 2 ^ 31) :
    (∀ d ∈ sprintf_ud fd, 48 ≤ d ∧ d ≤ 57) ∧ ngx_atoi max_int (sprintf_ud fd) = fd := by
  have hn : (fd % 2 ^ 32).toNat < 10 ^ 10 := by omega
  obtain ⟨ds, e1, e2, e3, e4⟩ := digits_loop_spec 10 (fd % 2 ^ 32).toNat [] hn (by decide)
  rw [List.append_nil] at e1
  have e5 := e4 0
  simp only [zero_mul, zero_add] at e5
  unfold sprintf_ud ngx_atoi
  rw [e1]
  refine ⟨e3, ?_⟩
  rw [if_neg e2, atoi_loop_digits max_int ds 0 e3 (by rw [e5]; omega), e5]
  omega

theorem inherited_loop_digits (max_int : Nat) (ds : List Nat) :
    ∀ (p v : List Nat) (ls : List Int), (∀ d ∈ ds, 48 ≤ d ∧ d ≤ 57) →
      inherited_loop max_int (ds ++ p) v ls = inherited_loop max_int p (v ++ ds) ls := by
  induction ds with
  | nil => intro p v ls _; simp
  | cons d ds ih =>
    intro p v ls h
    have hd := h d (List.mem_cons_self _ _)
    have h1 : ¬(d = 58 ∨ d = 59) := by omega
    simp only [List.cons_append, inherited_loop, h1, if_false, List.append_eq]
    rw [ih p _ ls (fun x hx => h x (List.mem_cons_of_mem _ hx))]
    simp

theorem inherited_loop_fds (max_int : Nat) (hmax : 2 ^ 31 - 1 ≤ max_int) (fds : List Int) :
    ∀ ls : List Int, (∀ fd ∈ fds, 0 ≤ fd ∧ fd < 2 ^ 31) →
      inherited_loop max_int (fds.map (fun fd => sprintf_ud fd ++ [59])).flatten [] ls
        = ls ++ fds := by
  induction fds with
  | nil => intro ls _; simp [inherited_loop]
  | cons fd fds ih =>
    intro ls h
    obtain ⟨h0, h1⟩ := h fd (List.mem_cons_self _ _)
    obtain ⟨g1, g2⟩ := atoi_sprintf max_int hmax fd h0 h1
    simp only [List.map_cons, List.flatten_cons, List.append_assoc]
    rw [inherited_loop_digits max_int _ _ [] ls g1]
    have hne : ¬ (fd = NGX_ERROR) := by
      intro e
      rw [e] at h0
      exact absurd h0 (by decide)
    have hs : to_socket fd = fd := by
      unfold to_socket
      omega
    simp only [List.nil_append, List.singleton_append, inherited_loop, or_true, if_true, g2, hne,
      if_false, hs, List.append_eq]
    rw [ih _ (fun x hx => h x (List.mem_cons_of_mem _ hx))]
    simp

/-- C15: for every list of listening descriptors that are non-negative 32-bit integers,
`getenv(NGINX_VAR)` finds, in the entry that `ngx_exec_new_binary` builds (`NGINX=` and
every descriptor in decimal followed by `;`), the descriptors after the `=`, and
`ngx_add_inherited_sockets` rebuilds from that value a listening array with exactly
these descriptors in the same order, whatever the array held before; it sets
`ngx_inherited`. (`max_int` is the largest `ngx_int_t`, at least `2^31 - 1`.) -/
theorem inherited_sockets_roundtrip (max_int : Nat) (hmax : 2 ^ 31 - 1 ≤ max_int)
    (fds : List Int) (h : ∀ fd ∈ fds, 0 ≤ fd ∧ fd < 2 ^ 31) (listening : List Int)
    (inherited : Bool) (set_rc : Int) :
    getenv_entry NGINX_VAR (inherited_var fds)
      = some (fds.map (fun fd => sprintf_ud fd ++ [59])).flatten ∧
    ngx_add_inherited_sockets max_int (getenv_entry NGINX_VAR (inherited_var fds)) listening
      inherited set_rc = ⟨set_rc, fds, true⟩ := by
  have e : getenv_entry NGINX_VAR (inherited_var fds)
      = some (fds.map (fun fd => sprintf_ud fd ++ [59])).flatten := by
    simp [getenv_entry, inherited_var]
  refine ⟨e, ?_⟩
  rw [e]
  simp only [ngx_add_inherited_sockets]
  rw [inherited_loop_fds max_int hmax fds [] h]
  simp

theorem inherited_sockets_roundtrip_witness :
    getenv_entry NGINX_VAR (inherited_var [6, 7, 12])
      = some ([6, 7, 12].map (fun fd => sprintf_ud fd ++ [59])).flatten ∧
    ngx_add_inherited_sockets (2 ^ 63 - 1) (getenv_entry NGINX_VAR (inherited_var [6, 7, 12]))
      [3] false 0 = ⟨0, [6, 7, 12], true⟩ :=
  inherited_sockets_roundtrip (2 ^ 63 - 1) (by decide) [6, 7, 12] (by decide) [3] false 0

/-! ### C16, C17: `ngx_set_environment` -/

/-- What the loops of `ngx_set_environment` add for one element of the env list. -/
theorem env_fill_eq (os : List (List Nat)) (var : List ngx_str_t) :
    ∀ env : List (List Nat),
      env_fill os var env
        = env ++ var.filterMap (fun v =>
            if v.data.getD v.len 0 = 61 then some v.data else os.find? (env_match v)) := by
  induction var with
  | nil => intro env; simp [env_fill]
  | cons v var ih =>
    intro env
    simp only [env_fill, List.filterMap_cons]
    by_cases h : v.data.getD v.len 0 = 61
    · simp only [h, if_true]
      rw [ih]
      simp
    · simp only [h, if_false]
      cases hf : os.find? (env_match v) with
      | none => simp only; rw [ih]
      | some p => simp only; rw [ih]; simp

theorem env_count_eq (os : List (List Nat)) (var : List ngx_str_t) :
    ∀ n : Nat,
      env_count os var n
        = n + (var.filterMap (fun v =>
            if v.data.getD v.len 0 = 61 then some v.data else os.find? (env_match v))).length := by
  induction var with
  | nil => intro n; simp [env_count]
  | cons v var ih =>
    intro n
    simp only [env_count, List.filterMap_cons]
    by_cases h : v.data.getD v.len 0 = 61
    · simp only [h, if_true]
      rw [ih]
      simp only [List.length_cons]
      omega
    · simp only [h, if_false]
      cases hf : os.find? (env_match v) with
      | none => simp only; rw [ih]
      | some p =>
        simp only
        rw [ih]
        simp only [List.length_cons]
        omega

theorem env_name_len_le (d : List Nat) : env_name_len d ≤ d.length := by
  induction d with
  | nil => simp [env_name_len]
  | cons c d ih =>
    simp only [env_name_len, List.length_cons]
    split_ifs <;> omega

theorem env_name_len_eq (d : List Nat) :
    (d.getD (env_name_len d) 0 = 61 ↔ 61 ∈ d) ∧
      (61 ∉ d → env_name_len d = d.length) := by
  induction d with
  | nil => simp [env_name_len]
  | cons c d ih =>
    by_cases h : c = 61
    · subst h
      simp [env_name_len]
    · have h2 : ¬ (61 = c) := fun e => h e.symm
      simp only [env_name_len, h, if_false, List.getD_cons_succ, List.mem_cons, h2, false_or,
        List.length_cons, add_left_inj]
      exact ih

theorem take_prefix_iff (d : List Nat) :
    ∀ p : List Nat,
      (p.take d.length == d && p.getD d.length 0 == 61) = (d ++ [61]).isPrefixOf p := by
  induction d with
  | nil =>
    intro p
    cases p with
    | nil => simp [List.isPrefixOf]
    | cons a p => simp [List.isPrefixOf, eq_comm]
  | cons c d ih =>
    intro p
    cases p with
    | nil => simp [List.isPrefixOf]
    | cons a p =>
      have e := ih p
      simp only [List.length_cons, List.take_succ_cons, List.getD_cons_succ, List.cons_append,
        List.isPrefixOf, List.append_eq] at e ⊢
      rw [← e]
      by_cases hac : a = c
      · subst hac
        simp
      · have h2 : ¬ (c = a) := fun x => hac x.symm
        have h3 : (a == c) = false := by simpa using hac
        have h4 : (c == a) = false := by simpa using h2
        simp [h3, h4]

/-- For an element as `ngx_set_env` makes it, the loops of `ngx_set_environment` choose
the entry that the allow-list describes. -/
theorem env_entry_spec (os : List (List Nat)) (v : ngx_str_t)
    (h : v.len = env_name_len v.data) :
    (if v.data.getD v.len 0 = 61 then some v.data else os.find? (env_match v))
      = spec_env_entry os v := by
  unfold spec_env_entry
  obtain ⟨e1, e2⟩ := env_name_len_eq v.data
  rw [h]
  by_cases hm : 61 ∈ v.data
  · rw [if_pos (e1.mpr hm), if_pos hm]
  · rw [if_neg (fun x => hm (e1.mp x)), if_neg hm]
    congr 1
    funext p
    unfold env_match
    rw [h, e2 hm, List.take_length]
    exact take_prefix_iff v.data p

theorem filterMap_entry_spec (os : List (List Nat)) (var : List ngx_str_t)
    (h : ∀ v ∈ var, v.len = env_name_len v.data) :
    var.filterMap (fun v =>
        if v.data.getD v.len 0 = 61 then some v.data else os.find? (env_match v))
      = var.filterMap (spec_env_entry os) := by
  induction var with
  | nil => rfl
  | cons v var ih =>
    simp only [List.filterMap_cons]
    rw [env_entry_spec os v (h v (List.mem_cons_self _ _)),
      ih (fun x hx => h x (List.mem_cons_of_mem _ hx))]

/-- The env list after a call: as before, or with `TZ` appended when no element named
`TZ`. -/
theorem set_environment_env (os : List (List Nat)) (ccf : env_conf_t) (last : Option Nat) :
    (ngx_set_environment os ccf last).ccf.env = ccf.env ∨
    ((ngx_set_environment os ccf last).ccf.env = ccf.env ++ [⟨2, bytes "TZ"⟩] ∧
      ccf.env.any is_tz = false) := by
  unfold ngx_set_environment
  cases last with
  | none =>
    cases henv : ccf.environment with
    | some e => left; rfl
    | none =>
      cases ht : ccf.env.any is_tz with
      | true => left; simp [ht]
      | false => right; simp [ht]
  | some k =>
    cases ht : ccf.env.any is_tz with
    | true => left; simp [ht]
    | false => right; simp [ht]

theorem set_environment_built (os : List (List Nat)) (ccf : env_conf_t) (last : Option Nat)
    (hb : last ≠ none ∨ ccf.environment = none) :
    (ngx_set_environment os ccf last).env
        = env_fill os (ngx_set_environment os ccf last).ccf.env [] ∧
      (∀ k, last = some k →
        (ngx_set_environment os ccf last).last
          = some (env_count os (ngx_set_environment os ccf last).ccf.env 0)) ∧
      (ngx_set_environment os ccf last).ccf.env.any is_tz = true := by
  have htz : is_tz ⟨2, bytes "TZ"⟩ = true := by decide
  unfold ngx_set_environment
  cases last with
  | none =>
    rcases hb with hb | hb
    · exact absurd rfl hb
    · rw [hb]
      cases ht : ccf.env.any is_tz with
      | true => simp [ht]
      | false => simp [ht, htz]
  | some k =>
    cases ht : ccf.env.any is_tz with
    | true => simp [ht]
    | false => simp [ht, htz]

theorem set_environment_ok (os : List (List Nat)) (ccf : env_conf_t) (last : Option Nat)
    (hok : env_ok ccf) : env_ok (ngx_set_environment os ccf last).ccf := by
  intro v hv
  rcases set_environment_env os ccf last with e | ⟨e, _⟩
  · rw [e] at hv
    exact hok v hv
  · rw [e, List.mem_append, List.mem_singleton] at hv
    rcases hv with hv | hv
    · exact hok v hv
    · subst hv
      decide

theorem set_environment_spec (os : List (List Nat)) (ccf : env_conf_t) (last : Option Nat)
    (hok : env_ok ccf) (hb : last ≠ none ∨ ccf.environment = none) :
    (ngx_set_environment os ccf last).env
        = (ngx_set_environment os ccf last).ccf.env.filterMap (spec_env_entry os) ∧
    (∀ k, last = some k →
      (ngx_set_environment os ccf last).last
        = some (ngx_set_environment os ccf last).env.length) := by
  obtain ⟨b1, b2, _⟩ := set_environment_built os ccf last hb
  have hok1 := set_environment_ok os ccf last hok
  have e1 : (ngx_set_environment os ccf last).env
      = (ngx_set_environment os ccf last).ccf.env.filterMap (spec_env_entry os) := by
    rw [b1, env_fill_eq, List.nil_append, filterMap_entry_spec os _ hok1]
  refine ⟨e1, ?_⟩
  intro k hk
  rw [b2 k hk, env_count_eq, Nat.zero_add, filterMap_entry_spec os _ hok1, ← e1]

theorem set_env_values (values : List (List Nat)) :
    ∀ ccf : env_conf_t,
      (values.foldl ngx_set_env ccf).env
        = ccf.env ++ values.map (fun v => ⟨env_name_len v, v⟩) := by
  induction values with
  | nil => intro ccf; simp
  | cons v values ih =>
    intro ccf
    simp only [List.foldl_cons, List.map_cons]
    rw [ih]
    simp [ngx_set_env]

/-- C17: the array that `ngx_set_environment` builds (it is built unless `last` is NULL
and `ccf->environment` is set already) holds, in the order of the env list, for every
element of the list that has a `=` the element verbatim, and for every other element
the first entry of the original environment that starts with the element followed by
`=`, if there is one; it holds nothing else, and the number stored in `*last` is the
number of its entries. The env list is the configured one, with `TZ` at its end when
the function appended it; the configured list holds the arguments of the `env`
directives in their order, each with its length cut at the first `=`. -/
theorem set_environment_allow_list (os : List (List Nat)) (ccf : env_conf_t)
    (last : Option Nat) (hok : env_ok ccf) (hb : last ≠ none ∨ ccf.environment = none) :
    (ngx_set_environment os ccf last).env
        = (ngx_set_environment os ccf last).ccf.env.filterMap (spec_env_entry os) ∧
    (∀ k, last = some k →
      (ngx_set_environment os ccf last).last
        = some (ngx_set_environment os ccf last).env.length) ∧
    ((ngx_set_environment os ccf last).ccf.env = ccf.env ∨
      (ngx_set_environment os ccf last).ccf.env = ccf.env ++ [⟨2, bytes "TZ"⟩]) ∧
    (∀ values : List (List Nat),
      (values.foldl ngx_set_env ⟨[], none⟩).env
          = values.map (fun v => ⟨env_name_len v, v⟩) ∧
        env_ok (values.foldl ngx_set_env ⟨[], none⟩)) := by
  obtain ⟨s1, s2⟩ := set_environment_spec os ccf last hok hb
  refine ⟨s1, s2, ?_, ?_⟩
  · rcases set_environment_env os ccf last with e | ⟨e, _⟩
    · exact Or.inl e
    · exact Or.inr e
  · intro values
    have e := set_env_values values ⟨[], none⟩
    simp only [List.nil_append] at e
    refine ⟨e, ?_⟩
    intro v hv
    rw [e, List.mem_map] at hv
    obtain ⟨x, _, hx⟩ := hv
    rw [← hx]

theorem set_environment_allow_list_witness :
    (ngx_set_environment [bytes "HOME=/root", bytes "A=1", bytes "TZ=UTC", bytes "A=2"]
        ([bytes "A", bytes "B=x", bytes "C"].foldl ngx_set_env ⟨[], none⟩) (some 2)).env
      = (ngx_set_environment [bytes "HOME=/root", bytes "A=1", bytes "TZ=UTC", bytes "A=2"]
          ([bytes "A", bytes "B=x", bytes "C"].foldl ngx_set_env ⟨[], none⟩)
          (some 2)).ccf.env.filterMap
          (spec_env_entry [bytes "HOME=/root", bytes "A=1", bytes "TZ=UTC", bytes "A=2"]) ∧
    (ngx_set_environment [bytes "HOME=/root", bytes "A=1", bytes "TZ=UTC", bytes "A=2"]
        ([bytes "A", bytes "B=x", bytes "C"].foldl ngx_set_env ⟨[], none⟩) (some 2)).env
      = [bytes "A=1", bytes "B=x", bytes "TZ=UTC"] :=
  ⟨(set_environment_allow_list
      [bytes "HOME=/root", bytes "A=1", bytes "TZ=UTC", bytes "A=2"]
      ([bytes "A", bytes "B=x", bytes "C"].foldl ngx_set_env ⟨[], none⟩) (some 2)
      (by unfold env_ok; decide) (Or.inl (by decide))).1, by decide⟩

theorem set_environment_calls_keep (calls : List (List (List Nat) × Option Nat)) :
    ∀ ccf : env_conf_t, ccf.env.any is_tz = true →
      (set_environment_calls calls ccf).env = ccf.env := by
  induction calls with
  | nil => intro ccf _; rfl
  | cons call calls ih =>
    intro ccf h
    have e : (ngx_set_environment call.1 ccf call.2).ccf.env = ccf.env := by
      rcases set_environment_env call.1 ccf call.2 with e | ⟨_, e⟩
      · exact e
      · rw [h] at e
        cases e
    simp only [set_environment_calls, List.foldl_cons]
    have := ih (ngx_set_environment call.1 ccf call.2).ccf (by rw [e]; exact h)
    simp only [set_environment_calls] at this
    rw [this, e]

theorem set_environment_calls_env (calls : List (List (List Nat) × Option Nat)) :
    ∀ ccf : env_conf_t,
      (set_environment_calls calls ccf).env = ccf.env ∨
      (set_environment_calls calls ccf).env = ccf.env ++ [⟨2, bytes "TZ"⟩] := by
  induction calls with
  | nil => intro ccf; left; rfl
  | cons call calls ih =>
    intro ccf
    have hstep : set_environment_calls (call :: calls) ccf
        = set_environment_calls calls (ngx_set_environment call.1 ccf call.2).ccf := rfl
    rw [hstep]
    rcases set_environment_env call.1 ccf call.2 with e | ⟨e, _⟩
    · rw [← e]
      exact ih _
    · right
      have htz : is_tz ⟨2, bytes "TZ"⟩ = true := by decide
      rw [set_environment_calls_keep calls _
        (by rw [e]; simp only [List.any_append, List.any_cons, htz, Bool.true_or, Bool.or_true]),
        e]

theorem c_str_eq_cases (s t : List Nat) (h : c_str s = t) :
    s = t ∨ (t ++ [0]) <+: s := by
  unfold c_str at h
  have e := List.takeWhile_append_dropWhile (fun c => c != 0) s
  rw [h] at e
  cases hd : s.dropWhile (fun c => c != 0) with
  | nil =>
    rw [hd, List.append_nil] at e
    exact Or.inl e.symm
  | cons a rest =>
    have ha : (fun c : Nat => c != 0) a = false := by
      have := List.head_dropWhile_not (fun c : Nat => c != 0) s (by rw [hd]; simp)
      simpa [hd] using this
    have ha0 : a = 0 := by simpa using ha
    rw [hd, ha0] at e
    exact Or.inr ⟨rest, by rw [← e]; simp⟩

theorem tz_entry (v : ngx_str_t) (h1 : is_tz v = true)
    (h2 : (bytes "TZ=").isPrefixOf v.data = false)
    (h3 : (bytes "TZ" ++ [0]).isPrefixOf v.data = false) : v.data = bytes "TZ" := by
  simp only [is_tz, Bool.or_eq_true, beq_iff_eq] at h1
  rcases h1 with h1 | h1
  · rcases c_str_eq_cases _ _ h1 with e | e
    · exact e
    · exfalso
      rw [← List.isPrefixOf_iff_prefix] at e
      rw [e] at h3
      cases h3
  · exfalso
    have hp : bytes "TZ=" <+: v.data := by
      rw [← h1]
      exact List.take_prefix 3 v.data
    rw [← List.isPrefixOf_iff_prefix] at hp
    rw [hp] at h2
    cases h2

/-- C16 (amended): whenever the original environment has an entry that starts with `TZ=`
and no element of the env list sets `TZ=VALUE` itself or has a NUL byte right behind the
name `TZ`, the array that `ngx_set_environment` builds (it is built unless `last` is
NULL and `ccf->environment` is set already) holds the first such entry, also when no
`env` directive names `TZ`; and after any number of calls of the function, with any
environments and arguments, the env list is the one before the calls or that list with
the single element `TZ` appended. -/
theorem set_environment_tz (os : List (List Nat)) (ccf : env_conf_t) (last : Option Nat)
    (hok : env_ok ccf) :
    (∀ tz : List Nat, last ≠ none ∨ ccf.environment = none →
      os.find? (fun p => (bytes "TZ=").isPrefixOf p) = some tz →
      (∀ v ∈ ccf.env, (bytes "TZ=").isPrefixOf v.data = false) →
      (∀ v ∈ ccf.env, (bytes "TZ" ++ [0]).isPrefixOf v.data = false) →
      tz ∈ (ngx_set_environment os ccf last).env) ∧
    (∀ calls : List (List (List Nat) × Option Nat),
      (set_environment_calls calls ccf).env = ccf.env ∨
      (set_environment_calls calls ccf).env = ccf.env ++ [⟨2, bytes "TZ"⟩]) := by
  refine ⟨?_, fun calls => set_environment_calls_env calls ccf⟩
  intro tz hb hfind hno hnul
  obtain ⟨s1, _⟩ := set_environment_spec os ccf last hok hb
  obtain ⟨_, _, b3⟩ := set_environment_built os ccf last hb
  rw [List.any_eq_true] at b3
  obtain ⟨v, hv, hvtz⟩ := b3
  have hdata : v.data = bytes "TZ" := by
    rcases set_environment_env os ccf last with e | ⟨e, _⟩
    · rw [e] at hv
      exact tz_entry v hvtz (hno v hv) (hnul v hv)
    · rw [e, List.mem_append, List.mem_singleton] at hv
      rcases hv with hv | hv
      · exact tz_entry v hvtz (hno v hv) (hnul v hv)
      · rw [hv]
  rw [s1, List.mem_filterMap]
  refine ⟨v, hv, ?_⟩
  unfold spec_env_entry
  rw [hdata, if_neg (by decide)]
  exact hfind

theorem set_environment_tz_witness :
    bytes "TZ=UTC" ∈ (ngx_set_environment [bytes "HOME=/root", bytes "TZ=UTC"]
      ([bytes "HOME"].foldl ngx_set_env ⟨[], none⟩) none).env :=
  (set_environment_tz [bytes "HOME=/root", bytes "TZ=UTC"]
    ([bytes "HOME"].foldl ngx_set_env ⟨[], none⟩) none (by unfold env_ok; decide)).1
    (bytes "TZ=UTC") (Or.inr rfl) (by decide) (by decide) (by decide)

/-- C16, counterexample: the original environment has the entry `TZ=Europe/Paris`, the
configuration has `env TZ=UTC;`. The array built holds `TZ=UTC` and not the entry of
the original environment. And with an `env` directive whose argument is `TZ`, a NUL
byte and `x`, the test `ngx_strcmp(var[i].data, "TZ")` finds `TZ`, so that no `TZ` is
appended, while no entry of the environment matches the seven bytes of the argument: the
array built is empty. -/
theorem set_environment_tz_configured :
    ((ngx_set_environment [bytes "TZ=Europe/Paris"] (ngx_set_env ⟨[], none⟩ (bytes "TZ=UTC"))
        none).env = [bytes "TZ=UTC"] ∧
      bytes "TZ=Europe/Paris" ∉ (ngx_set_environment [bytes "TZ=Europe/Paris"]
        (ngx_set_env ⟨[], none⟩ (bytes "TZ=UTC")) none).env) ∧
    (ngx_set_environment [bytes "TZ=Europe/Paris"]
        (ngx_set_env ⟨[], none⟩ (bytes "TZ" ++ [0, 120])) none).env = [] := by
  decide


/-! ### C18: the name of the old pid file -/

/-- C18: when `ngx_core_module_init_conf` returns `NGX_CONF_OK`, `oldpid.len` is
`pid.len + 8`, and the bytes at `oldpid.data` are the `pid.len` bytes of the pid path,
then `.oldbin`, then a NUL; `pid` is the path that `ngx_conf_full_name` made (of
`NGX_PID_PATH` when none was configured). When `pid.data` holds exactly the `pid.len`
bytes, `oldpid.data` is `pid.data` followed by `.oldbin` and the NUL. -/
theorem init_conf_oldpid (pid_path : List Nat) (full_name : ngx_str_t → Option ngx_str_t)
    (alloc_ok : Bool) (rest : conf_rv) (ccf ccf1 : pid_conf_t)
    (h : ngx_core_module_init_conf pid_path full_name alloc_ok rest ccf
      = (.NGX_CONF_OK, ccf1)) :
    ccf1.oldpid.len = ccf1.pid.len + 8 ∧
    ccf1.oldpid.data = ccf1.pid.data.take ccf1.pid.len ++ bytes ".oldbin" ++ [0] ∧
    (ccf1.pid.data.length = ccf1.pid.len →
      ccf1.oldpid.data = ccf1.pid.data ++ bytes ".oldbin" ++ [0]) ∧
    full_name (if ccf.pid.len = 0 then ⟨pid_path.length, pid_path⟩ else ccf.pid)
      = some ccf1.pid := by
  unfold ngx_core_module_init_conf at h
  simp only at h
  have hp : (if ccf.pid.len = 0 then { ccf with pid := ⟨pid_path.length, pid_path⟩ }
      else ccf).pid = if ccf.pid.len = 0 then ⟨pid_path.length, pid_path⟩ else ccf.pid := by
    split_ifs <;> rfl
  rw [hp] at h
  cases hf : full_name (if ccf.pid.len = 0 then ⟨pid_path.length, pid_path⟩ else ccf.pid) with
  | none => rw [hf] at h; cases h
  | some pid =>
    rw [hf] at h
    simp only at h
    cases alloc_ok with
    | false => cases h
    | true =>
      simp only [Bool.true_eq_false, if_false, Prod.mk.injEq] at h
      obtain ⟨_, h2⟩ := h
      subst h2
      have e : ∀ l : List Nat, l ++ (NGX_OLDPID_EXT ++ [0]) = l ++ bytes ".oldbin" ++ [0] := by
        intro l
        simp [NGX_OLDPID_EXT]
      refine ⟨rfl, e _, ?_, rfl⟩
      intro hl
      simp only
      rw [e, ← hl, List.take_length]

theorem init_conf_oldpid_witness :
    ngx_core_module_init_conf (bytes "logs/nginx.pid")
        (fun p => some ⟨p.len + 5, bytes "/run/" ++ p.data⟩) true .NGX_CONF_OK
        ⟨⟨9, bytes "nginx.pid"⟩, ⟨0, []⟩⟩
      = (.NGX_CONF_OK,
          ⟨⟨14, bytes "/run/nginx.pid"⟩, ⟨22, bytes "/run/nginx.pid.oldbin" ++ [0]⟩⟩) ∧
    (⟨⟨14, bytes "/run/nginx.pid"⟩, ⟨22, bytes "/run/nginx.pid.oldbin" ++ [0]⟩⟩ :
        pid_conf_t).oldpid.len
      = (⟨⟨14, bytes "/run/nginx.pid"⟩, ⟨22, bytes "/run/nginx.pid.oldbin" ++ [0]⟩⟩ :
          pid_conf_t).pid.len + 8 :=
  ⟨by decide,
    (init_conf_oldpid (bytes "logs/nginx.pid")
      (fun p => some ⟨p.len + 5, bytes "/run/" ++ p.data⟩) true .NGX_CONF_OK
      ⟨⟨9, bytes "nginx.pid"⟩, ⟨0, []⟩⟩
      ⟨⟨14, bytes "/run/nginx.pid"⟩, ⟨22, bytes "/run/nginx.pid.oldbin" ++ [0]⟩⟩
      (by decide)).1⟩

/-! ### C19: the pid file around the start of the new binary -/

/-- C19: `ngx_exec_new_binary` calls `ngx_execute` only right after a successful rename
of the pid file to the `.oldbin` name. When that rename fails it returns
`NGX_INVALID_PID` and makes no other call; when `ngx_execute` returns `NGX_INVALID_PID`
it renames the `.oldbin` file back to the pid path and returns `NGX_INVALID_PID`; when
`ngx_execute` returns a process id, that id is returned and nothing is renamed
back. -/
theorem exec_new_binary_pid_file (e : exec_env) (os_environ : List (List Nat))
    (ccf : env_conf_t) (listening : List Int) (pid oldpid : List Nat)
    (argv : List (List Nat)) (spare : Bool) :
    (∀ a ∈ (ngx_exec_new_binary e os_environ ccf listening pid oldpid argv spare).2,
      is_execute a = true →
      ∃ rest,
        (ngx_exec_new_binary e os_environ ccf listening pid oldpid argv spare).2
          = .rename_file pid oldpid true :: a :: rest ∧
        ∀ b ∈ rest, is_execute b = false) ∧
    (e.alloc_var = true → e.rename_old = false →
      ngx_exec_new_binary e os_environ ccf listening pid oldpid argv spare
        = (NGX_INVALID_PID, [.rename_file pid oldpid false, .alert_rename_failed])) ∧
    (e.alloc_var = true → e.rename_old = true → e.execute = NGX_INVALID_PID →
      ∃ envp,
        ngx_exec_new_binary e os_environ ccf listening pid oldpid argv spare
          = (NGX_INVALID_PID,
              [.rename_file pid oldpid true, .execute (argv.headD []) envp NGX_INVALID_PID,
                .rename_file oldpid pid e.rename_back]
              ++ (if e.rename_back = false then [.alert_rename_back_failed] else []))) ∧
    (e.alloc_var = true → e.rename_old = true → e.execute ≠ NGX_INVALID_PID →
      ∃ envp,
        ngx_exec_new_binary e os_environ ccf listening pid oldpid argv spare
          = (e.execute,
              [.rename_file pid oldpid true, .execute (argv.headD []) envp e.execute])) := by
  obtain ⟨av, ro, ex, rb⟩ := e
  refine ⟨?_, ?_, ?_, ?_⟩
  · intro a ha hx
    cases av
    · simp [ngx_exec_new_binary] at ha
    cases ro
    · simp only [ngx_exec_new_binary, Bool.true_eq_false, if_false, if_true, List.mem_cons,
        List.mem_singleton, List.not_mem_nil, or_false] at ha
      rcases ha with ha | ha <;> subst ha <;> cases hx
    by_cases hp : ex = NGX_INVALID_PID
    · cases rb
      · simp only [ngx_exec_new_binary, Bool.true_eq_false, if_false, if_true, hp,
          List.cons_append, List.nil_append, List.mem_cons, List.mem_singleton,
          List.not_mem_nil, or_false] at ha ⊢
        rcases ha with ha | ha | ha | ha <;> subst ha
        · cases hx
        · exact ⟨_, rfl, by simp [is_execute]⟩
        · cases hx
        · cases hx
      · simp only [ngx_exec_new_binary, Bool.true_eq_false, if_false, if_true, hp,
          List.cons_append, List.nil_append, List.mem_cons, List.mem_singleton,
          List.not_mem_nil, or_false] at ha ⊢
        rcases ha with ha | ha | ha <;> subst ha
        · cases hx
        · exact ⟨_, rfl, by simp [is_execute]⟩
        · cases hx
    · simp only [ngx_exec_new_binary, Bool.true_eq_false, if_false, if_true, hp,
        List.mem_cons, List.mem_singleton, List.not_mem_nil, or_false] at ha ⊢
      rcases ha with ha | ha <;> subst ha
      · cases hx
      · exact ⟨_, rfl, by simp⟩
  · intro h1 h2
    simp only at h1 h2
    subst h1 h2
    simp [ngx_exec_new_binary]
  · intro h1 h2 h3
    simp only at h1 h2 h3
    subst h1 h2 h3
    cases rb
    · exact ⟨_, by simp only [ngx_exec_new_binary, Bool.true_eq_false, if_false, if_true]; rfl⟩
    · exact ⟨_, by simp only [ngx_exec_new_binary, Bool.true_eq_false, if_false, if_true]; rfl⟩
  · intro h1 h2 h3
    simp only at h1 h2 h3
    subst h1 h2
    exact ⟨_, by simp only [ngx_exec_new_binary, Bool.true_eq_false, if_false, h3]; rfl⟩

theorem exec_new_binary_pid_file_witness :
    ngx_exec_new_binary ⟨true, false, 4711, true⟩ [] ⟨[], none⟩ [6] (bytes "nginx.pid")
        (bytes "nginx.pid.oldbin") [bytes "/sbin/nginx"] false
      = (NGX_INVALID_PID,
          [.rename_file (bytes "nginx.pid") (bytes "nginx.pid.oldbin") false,
            .alert_rename_failed]) :=
  (exec_new_binary_pid_file ⟨true, false, 4711, true⟩ [] ⟨[], none⟩ [6] (bytes "nginx.pid")
    (bytes "nginx.pid.oldbin") [bytes "/sbin/nginx"] false).2.1 rfl rfl

/-! ### C20: the masks of `worker_cpu_affinity` -/

theorem bit_string_value_cons (ch : Nat) (v : List Nat) :
    bit_string_value (ch :: v) = (ch - 48) * 2 ^ v.length + bit_string_value v := by
  unfold bit_string_value
  rw [List.map_cons, List.reverse_cons, Nat.ofDigits_append]
  simp [Nat.ofDigits_singleton, Nat.mul_comm, Nat.add_comm]

theorem shift_or_one (m : Nat) (h : 2 * m < 2 ^ 64) :
    (m <<< 1) % 2 ^ 64 = 2 * m ∧ ((m <<< 1) % 2 ^ 64) ||| 1 = 2 * m + 1 := by
  have e : m <<< 1 = 2 * m := by rw [Nat.shiftLeft_eq]; omega
  rw [e, Nat.mod_eq_of_lt h]
  refine ⟨rfl, ?_⟩
  have := Nat.mul_add_lt_is_or (show 1 < 2 ^ 1 by decide) m
  simp only [pow_one] at this
  exact this.symm

theorem mask_loop_value (v : List Nat) :
    ∀ m : Nat, (∀ ch ∈ v, ch = 48 ∨ ch = 49 ∨ ch = 32) →
      (m + 1) * 2 ^ (mask_bits v).length ≤ 2 ^ 64 →
      mask_loop v m
        = (m * 2 ^ (mask_bits v).length + bit_string_value (mask_bits v), none) := by
  induction v with
  | nil => intro m _ _; simp [mask_loop, mask_bits, bit_string_value]
  | cons ch v ih =>
    intro m hv hm
    have hrest : ∀ c ∈ v, c = 48 ∨ c = 49 ∨ c = 32 := fun c hc => hv c (List.mem_cons_of_mem _ hc)
    rcases hv ch (List.mem_cons_self _ _) with h | h | h
    · subst h
      have hb : mask_bits (48 :: v) = 48 :: mask_bits v := by simp [mask_bits]
      rw [hb, List.length_cons, pow_succ] at hm
      have h2 : 2 * m < 2 ^ 64 := by
        have : 1 ≤ 2 ^ (mask_bits v).length := Nat.one_le_two_pow
        nlinarith
      simp only [mask_loop, show ¬ ((48 : Nat) = 32) by decide, if_false, if_true,
        (shift_or_one m h2).1]
      rw [ih (2 * m) hrest (by nlinarith), hb, bit_string_value_cons, List.length_cons, pow_succ]
      simp only [Nat.sub_self, zero_mul, zero_add, Prod.mk.injEq, and_true]
      ring
    · subst h
      have hb : mask_bits (49 :: v) = 49 :: mask_bits v := by simp [mask_bits]
      rw [hb, List.length_cons, pow_succ] at hm
      have h2 : 2 * m < 2 ^ 64 := by
        have : 1 ≤ 2 ^ (mask_bits v).length := Nat.one_le_two_pow
        nlinarith
      simp only [mask_loop, show ¬ ((49 : Nat) = 32) by decide, show ¬ ((49 : Nat) = 48) by decide,
        if_false, if_true, (shift_or_one m h2).2]
      rw [ih (2 * m + 1) hrest (by nlinarith), hb, bit_string_value_cons, List.length_cons,
        pow_succ]
      simp only [show (49 : Nat) - 48 = 1 by decide, one_mul, Prod.mk.injEq, and_true]
      ring
    · subst h
      have hb : mask_bits (32 :: v) = mask_bits v := by simp [mask_bits]
      rw [hb] at hm ⊢
      simp only [mask_loop, if_true]
      exact ih m hrest hm

theorem mask_bits_length (v : List Nat) : (mask_bits v).length ≤ v.length :=
  List.length_filter_le _ _

theorem mask_loop_ok (v : List Nat) (h : mask_ok v = true) :
    mask_loop v 0 = (bit_string_value (mask_bits v), none) := by
  simp only [mask_ok, Bool.and_eq_true, decide_eq_true_eq, List.all_eq_true, Bool.or_eq_true,
    beq_iff_eq] at h
  obtain ⟨h1, h2⟩ := h
  have hl := mask_bits_length v
  have hp : 2 ^ (mask_bits v).length ≤ 2 ^ 64 := Nat.pow_le_pow_right (by decide) (by omega)
  rw [mask_loop_value v 0 (fun ch hc => by rcases h2 ch hc with (x | x) | x <;> simp [x])
    (by simpa using hp)]
  simp

theorem mask_loop_invalid (v : List Nat) :
    ∀ m : Nat, (∃ ch ∈ v, ¬ (ch = 48 ∨ ch = 49 ∨ ch = 32)) →
      ∃ m1 c, mask_loop v m = (m1, some c) := by
  induction v with
  | nil => intro m h; obtain ⟨ch, hc, _⟩ := h; cases hc
  | cons ch v ih =>
    intro m h
    by_cases hok : ch = 48 ∨ ch = 49 ∨ ch = 32
    · have hrest : ∃ c ∈ v, ¬ (c = 48 ∨ c = 49 ∨ c = 32) := by
        obtain ⟨c, hc, hn⟩ := h
        rcases List.mem_cons.mp hc with e | e
        · subst e; exact absurd hok hn
        · exact ⟨c, e, hn⟩
      simp only [mask_loop]
      split_ifs
      · exact ih _ hrest
      · exact ih _ hrest
      · exact ih _ hrest
      · exact ⟨_, _, rfl⟩
    · have h1 : ¬ ch = 32 := fun e => hok (Or.inr (Or.inr e))
      have h2 : ¬ ch = 48 := fun e => hok (Or.inl e)
      have h3 : ¬ ch = 49 := fun e => hok (Or.inr (Or.inl e))
      simp only [mask_loop, h1, h2, h3, if_false]
      exact ⟨_, _, rfl⟩

theorem masks_loop_ok (values : List (List Nat)) :
    ∀ masks : List Nat, (∀ v ∈ values, mask_ok v = true) →
      masks_loop values masks
        = (.NGX_CONF_OK, masks ++ values.map (fun v => bit_string_value (mask_bits v)), []) := by
  induction values with
  | nil => intro masks _; simp [masks_loop]
  | cons v values ih =>
    intro masks h
    have hv := h v (List.mem_cons_self _ _)
    have hlen : ¬ v.length > 64 := by
      simp only [mask_ok, Bool.and_eq_true, decide_eq_true_eq] at hv
      omega
    simp only [masks_loop, hlen, if_false, mask_loop_ok v hv]
    rw [ih _ (fun x hx => h x (List.mem_cons_of_mem _ hx))]
    simp

theorem masks_loop_bad (v : List Nat) (rest : List (List Nat)) (masks : List Nat)
    (h : mask_ok v = false) :
    (masks_loop (v :: rest) masks).1 = .NGX_CONF_ERROR ∧
      masks <+: (masks_loop (v :: rest) masks).2.1 := by
  by_cases hlen : v.length > 64
  · simp only [masks_loop, hlen, if_true]
    exact ⟨trivial, List.prefix_refl _⟩
  · have hinv : ∃ ch ∈ v, ¬ (ch = 48 ∨ ch = 49 ∨ ch = 32) := by
      simp only [mask_ok, Bool.and_eq_false_iff, decide_eq_false_iff_not, List.all_eq_false,
        Bool.or_eq_true, beq_iff_eq] at h
      rcases h with h | ⟨ch, hc, hn⟩
      · omega
      · exact ⟨ch, hc, fun x => hn (by rcases x with x | x | x <;> simp [x])⟩
    obtain ⟨m1, c, e⟩ := mask_loop_invalid v 0 hinv
    simp only [masks_loop, hlen, if_false, e]
    exact ⟨trivial, List.prefix_append _ _⟩

theorem masks_loop_first_bad (pre : List (List Nat)) (bad : List Nat) (rest : List (List Nat))
    (masks : List Nat) (hpre : ∀ v ∈ pre, mask_ok v = true) (hbad : mask_ok bad = false) :
    (masks_loop (pre ++ bad :: rest) masks).1 = .NGX_CONF_ERROR ∧
      (masks ++ pre.map (fun v => bit_string_value (mask_bits v)))
        <+: (masks_loop (pre ++ bad :: rest) masks).2.1 := by
  induction pre generalizing masks with
  | nil =>
    simp only [List.nil_append, List.map_nil, List.append_nil]
    exact masks_loop_bad bad rest masks hbad
  | cons v pre ih =>
    have hv := hpre v (List.mem_cons_self _ _)
    have hlen : ¬ v.length > 64 := by
      simp only [mask_ok, Bool.and_eq_true, decide_eq_true_eq] at hv
      omega
    simp only [List.cons_append, masks_loop, hlen, if_false, mask_loop_ok v hv, List.map_cons]
    have := ih (masks ++ [bit_string_value (mask_bits v)])
      (fun x hx => hpre x (List.mem_cons_of_mem _ hx))
    simpa using this

theorem mask_bits_digits (v : List Nat) (h : ∀ ch ∈ v, ch = 48 ∨ ch = 49) :
    mask_bits v = v := by
  unfold mask_bits
  rw [List.filter_eq_self]
  intro ch hc
  rcases h ch hc with e | e <;> subst e <;> decide

/-- The function `ngx_set_cpu_affinity` built with `NGX_HAVE_CPU_AFFINITY` and called
while no mask is configured yet: what it returns and stores, by the arguments. -/
theorem set_cpu_affinity_first (ccf : affinity_conf_t) (name : List Nat)
    (values : List (List Nat)) (hnew : ccf.cpu_affinity = none) :
    ((∀ v ∈ values, mask_ok v = true) →
      ngx_set_cpu_affinity true ccf (name :: values)
        = (.NGX_CONF_OK,
            ⟨values.length, some (values.map (fun v => bit_string_value (mask_bits v)))⟩, [])) ∧
    (∀ v : List Nat, (∀ ch ∈ v, ch = 48 ∨ ch = 49) →
      bit_string_value (mask_bits v) = bit_string_value v ∧
      (v.length ≤ 64 → mask_ok v = true)) ∧
    ((∃ v ∈ values, mask_ok v = false) →
      (ngx_set_cpu_affinity true ccf (name :: values)).1 = .NGX_CONF_ERROR) ∧
    (∀ (pre rest : List (List Nat)) (bad : List Nat), values = pre ++ bad :: rest →
      (∀ v ∈ pre, mask_ok v = true) → mask_ok bad = false →
      (ngx_set_cpu_affinity true ccf (name :: values)).1 = .NGX_CONF_ERROR ∧
      (ngx_set_cpu_affinity true ccf (name :: values)).2.1.cpu_affinity_n = values.length ∧
      ∃ masks, (ngx_set_cpu_affinity true ccf (name :: values)).2.1.cpu_affinity = some masks ∧
        pre.map (fun v => bit_string_value (mask_bits v)) <+: masks) ∧
    (∀ v : List Nat, mask_ok v = false ↔
      (v.length > 64 ∨ ∃ ch ∈ v, ch ≠ 48 ∧ ch ≠ 49 ∧ ch ≠ 32)) := by
  have hfirst : ∀ (pre rest : List (List Nat)) (bad : List Nat), values = pre ++ bad :: rest →
      (∀ v ∈ pre, mask_ok v = true) → mask_ok bad = false →
      (ngx_set_cpu_affinity true ccf (name :: values)).1 = .NGX_CONF_ERROR ∧
      (ngx_set_cpu_affinity true ccf (name :: values)).2.1.cpu_affinity_n = values.length ∧
      ∃ masks, (ngx_set_cpu_affinity true ccf (name :: values)).2.1.cpu_affinity = some masks ∧
        pre.map (fun v => bit_string_value (mask_bits v)) <+: masks := by
    intro pre rest bad hv hpre hbad
    obtain ⟨g1, g2⟩ := masks_loop_first_bad pre bad rest [] hpre hbad
    simp only [ngx_set_cpu_affinity, hnew, Option.isSome_none, Bool.false_eq_true, if_false,
      if_true, List.drop_succ_cons, List.drop_zero, List.length_cons, Nat.add_sub_cancel]
    rw [hv]
    exact ⟨g1, trivial, _, rfl, by simpa using g2⟩
  refine ⟨?_, ?_, ?_, hfirst, ?_⟩
  · intro h
    simp only [ngx_set_cpu_affinity, hnew, Option.isSome_none, Bool.false_eq_true, if_false,
      if_true, List.drop_succ_cons, List.drop_zero, List.length_cons, Nat.add_sub_cancel,
      masks_loop_ok values [] h, List.nil_append]
  · intro v hv
    refine ⟨by rw [mask_bits_digits v hv], ?_⟩
    intro hl
    simp only [mask_ok, Bool.and_eq_true, decide_eq_true_eq, List.all_eq_true, Bool.or_eq_true,
      beq_iff_eq]
    exact ⟨hl, fun ch hc => Or.inl (hv ch hc)⟩
  · rintro ⟨v, hv, hbad⟩
    -- the first argument that is not accepted
    have hsplit : ∀ l : List (List Nat), (∃ x ∈ l, mask_ok x = false) →
        ∃ pre bad rest, l = pre ++ bad :: rest ∧ (∀ x ∈ pre, mask_ok x = true) ∧
          mask_ok bad = false := by
      intro l
      induction l with
      | nil => rintro ⟨x, hx, _⟩; cases hx
      | cons a l ih =>
        rintro ⟨x, hx, hxb⟩
        cases ha : mask_ok a with
        | false => exact ⟨[], a, l, rfl, ⟨fun y hy => absurd hy (List.not_mem_nil y), ha⟩⟩
        | true =>
          have hx2 : x ∈ l := by
            rcases List.mem_cons.mp hx with e | e
            · subst e; rw [ha] at hxb; cases hxb
            · exact e
          obtain ⟨pre, bad, rest, e1, e2, e3⟩ := ih ⟨x, hx2, hxb⟩
          refine ⟨a :: pre, bad, rest, by rw [e1]; rfl, ?_, e3⟩
          intro y hy
          rcases List.mem_cons.mp hy with e | e
          · subst e; exact ha
          · exact e2 y e
    obtain ⟨pre, bad, rest, e1, e2, e3⟩ := hsplit values ⟨v, hv, hbad⟩
    exact (hfirst pre rest bad e1 e2 e3).1
  · intro v
    simp only [mask_ok, Bool.and_eq_false_iff, decide_eq_false_iff_not, not_le,
      List.all_eq_false, Bool.or_eq_true, beq_iff_eq, not_or, gt_iff_lt, ne_eq]
    constructor
    · rintro (h | ⟨ch, hc, ⟨h1, h2⟩, h3⟩)
      · exact Or.inl h
      · exact Or.inr ⟨ch, hc, h1, h2, h3⟩
    · rintro (h | ⟨ch, hc, h1, h2, h3⟩)
      · exact Or.inl h
      · exact Or.inr ⟨ch, hc, ⟨h1, h2⟩, h3⟩

/-- C20 (counterexample): a second `worker_cpu_affinity` directive is answered with
`"is duplicate"` and a build without `NGX_HAVE_CPU_AFFINITY` with a warning and
`NGX_CONF_OK`; in both the argument `2`, which holds a byte other than `0`, `1` and
space, is not rejected with `NGX_CONF_ERROR`, and for the arguments `01 10` no mask is
stored: the configuration stays as it was. -/
theorem set_cpu_affinity_not_examined :
    ngx_set_cpu_affinity true ⟨1, some [1]⟩ [bytes "worker_cpu_affinity", bytes "2"]
      = (.message, ⟨1, some [1]⟩, []) ∧
    ngx_set_cpu_affinity true ⟨1, some [1]⟩
        [bytes "worker_cpu_affinity", bytes "01", bytes "10"]
      = (.message, ⟨1, some [1]⟩, []) ∧
    ngx_set_cpu_affinity false ⟨0, none⟩ [bytes "worker_cpu_affinity", bytes "2"]
      = (.NGX_CONF_OK, ⟨0, none⟩, [.not_supported]) ∧
    ngx_set_cpu_affinity false ⟨0, none⟩
        [bytes "worker_cpu_affinity", bytes "01", bytes "10"]
      = (.NGX_CONF_OK, ⟨0, none⟩, [.not_supported]) ∧
    mask_ok (bytes "2") = false ∧ mask_ok (bytes "01") = true ∧ mask_ok (bytes "10") = true := by
  decide

/-- C20 (amended): in a build with `NGX_HAVE_CPU_AFFINITY` and while no mask is
configured yet, `ngx_set_cpu_affinity` reads every argument as a binary number, the most
significant bit first, skipping spaces. When every argument has at most 64 bytes, each
`0`, `1` or a space, it returns `NGX_CONF_OK`, `cpu_affinity_n` and the number of masks
stored are the number of arguments, and the mask stored for an argument is the value of
its digits; for an argument of the digits `0` and `1` only, that is the value of the
argument. When an argument is longer than 64 bytes or holds a byte other than `0`, `1`
and space, it returns `NGX_CONF_ERROR`; the masks of the arguments before the first such
argument are stored as described. When masks are configured already, the function
returns `"is duplicate"`, and in a build without `NGX_HAVE_CPU_AFFINITY` it logs a
warning and returns `NGX_CONF_OK`; in both cases, whatever the arguments are, the
configuration stays as it was. -/
theorem set_cpu_affinity_masks (have_affinity : Bool) (ccf : affinity_conf_t)
    (name : List Nat) (values : List (List Nat)) :
    (have_affinity = true → ccf.cpu_affinity = none →
      ((∀ v ∈ values, mask_ok v = true) →
        ngx_set_cpu_affinity have_affinity ccf (name :: values)
          = (.NGX_CONF_OK,
              ⟨values.length, some (values.map (fun v => bit_string_value (mask_bits v)))⟩,
              [])) ∧
      (∀ v : List Nat, (∀ ch ∈ v, ch = 48 ∨ ch = 49) →
        bit_string_value (mask_bits v) = bit_string_value v ∧
        (v.length ≤ 64 → mask_ok v = true)) ∧
      ((∃ v ∈ values, mask_ok v = false) →
        (ngx_set_cpu_affinity have_affinity ccf (name :: values)).1 = .NGX_CONF_ERROR) ∧
      (∀ (pre rest : List (List Nat)) (bad : List Nat), values = pre ++ bad :: rest →
        (∀ v ∈ pre, mask_ok v = true) → mask_ok bad = false →
        (ngx_set_cpu_affinity have_affinity ccf (name :: values)).1 = .NGX_CONF_ERROR ∧
        (ngx_set_cpu_affinity have_affinity ccf (name :: values)).2.1.cpu_affinity_n
          = values.length ∧
        ∃ masks,
          (ngx_set_cpu_affinity have_affinity ccf (name :: values)).2.1.cpu_affinity
            = some masks ∧
          pre.map (fun v => bit_string_value (mask_bits v)) <+: masks) ∧
      (∀ v : List Nat, mask_ok v = false ↔
        (v.length > 64 ∨ ∃ ch ∈ v, ch ≠ 48 ∧ ch ≠ 49 ∧ ch ≠ 32))) ∧
    (have_affinity = true → ccf.cpu_affinity ≠ none →
      ngx_set_cpu_affinity have_affinity ccf (name :: values) = (.message, ccf, [])) ∧
    (have_affinity = false →
      ngx_set_cpu_affinity have_affinity ccf (name :: values)
        = (.NGX_CONF_OK, ccf, [.not_supported])) := by
  refine ⟨fun h1 h2 => ?_, fun h1 h2 => ?_, fun h1 => ?_⟩
  · subst h1
    exact set_cpu_affinity_first ccf name values h2
  · subst h1
    have h3 : ccf.cpu_affinity.isSome = true := by
      cases h : ccf.cpu_affinity with
      | none => exact absurd h h2
      | some m => rfl
    simp only [ngx_set_cpu_affinity, h3, if_true]
  · subst h1
    simp only [ngx_set_cpu_affinity, Bool.false_eq_true, if_false]

theorem set_cpu_affinity_masks_witness :
    ngx_set_cpu_affinity true ⟨0, none⟩
        (bytes "worker_cpu_affinity" :: [bytes "0001", bytes "1010"])
      = (.NGX_CONF_OK, ⟨2, some [1, 10]⟩, []) ∧
    ngx_set_cpu_affinity true ⟨2, some [1, 10]⟩
        (bytes "worker_cpu_affinity" :: [bytes "0011"])
      = (.message, ⟨2, some [1, 10]⟩, []) ∧
    ngx_set_cpu_affinity false ⟨0, none⟩ (bytes "worker_cpu_affinity" :: [bytes "0011"])
      = (.NGX_CONF_OK, ⟨0, none⟩, [.not_supported]) :=
  ⟨(((set_cpu_affinity_masks true ⟨0, none⟩ (bytes "worker_cpu_affinity")
      [bytes "0001", bytes "1010"]).1 rfl rfl).1 (by decide)).trans (by decide),
   (set_cpu_affinity_masks true ⟨2, some [1, 10]⟩ (bytes "worker_cpu_affinity")
      [bytes "0011"]).2.1 rfl (by decide),
   (set_cpu_affinity_masks false ⟨0, none⟩ (bytes "worker_cpu_affinity")
      [bytes "0011"]).2.2 rfl⟩

/-! ### C22: the failure types of `next_upstream` -/

/-- C22 (counterexample): the header defines no flag for the failure kind non-idempotent:
none of its fourteen failure types has a name that contains `IDEMPOTENT`, so that the
lookup of `NON_IDEMPOTENT` finds nothing. -/
theorem upstream_ft_no_non_idempotent :
    upstream_ft "NON_IDEMPOTENT" = none ∧
    upstream_ft_flags.map Prod.fst =
      ["ERROR", "TIMEOUT", "INVALID_HEADER", "HTTP_500", "HTTP_502", "HTTP_503", "HTTP_504",
       "HTTP_403", "HTTP_404", "UPDATING", "BUSY_LOCK", "MAX_WAITING", "NOLIVE", "OFF"] := by
  constructor
  · decide
  · rfl

/-- C22 (amended): each of the failure kinds error, timeout, invalid-header, http-500,
http-502, http-503, http-504, http-403 and http-404 has a flag, every flag is a single
bit, the flags are pairwise distinct, and `NGX_HTTP_UPSTREAM_FT_STATUS` is exactly the
union of the six flags of the http statuses: a bit is set in it if and only if it is the
flag of one of them. -/
theorem upstream_ft_bitmask :
    (∀ k ∈ next_upstream_kinds, ∃ f, upstream_ft k = some f ∧ single_bit f = true) ∧
    (next_upstream_kinds.filterMap upstream_ft).length = 9 ∧
    (next_upstream_kinds.filterMap upstream_ft).Nodup ∧
    NGX_HTTP_UPSTREAM_FT_STATUS = (http_status_kinds.filterMap upstream_ft).foldl (· ||| ·) 0 ∧
    (http_status_kinds.filterMap upstream_ft).length = 6 ∧
    (∀ i < 32, NGX_HTTP_UPSTREAM_FT_STATUS.testBit i = true ↔
      2 ^ i ∈ http_status_kinds.filterMap upstream_ft) := by
  refine ⟨?_, ?_, ?_, ?_, ?_, ?_⟩
  · decide
  · decide
  · decide
  · decide
  · decide
  · decide

/-! ### C26: a malformed `NGINX` variable -/

theorem atoi_loop_not_decimal (max_int : Nat) (l : List Nat) :
    ∀ v : Nat, l.any (fun c => decide (c < 48) || decide (c > 57)) = true →
      atoi_loop max_int l v = NGX_ERROR := by
  induction l with
  | nil => intro v h; simp at h
  | cons c l ih =>
    intro v h
    simp only [atoi_loop]
    by_cases h1 : c < 48 ∨ c > 57
    · rw [if_pos h1]
    · rw [if_neg h1]
      by_cases h2 : v ≥ max_int / 10 ∧ (v > max_int / 10 ∨ c - 48 > max_int % 10)
      · rw [if_pos h2]
      · rw [if_neg h2]
        apply ih
        simp only [List.any_cons, Bool.or_eq_true, decide_eq_true_eq] at h
        rcases h with h | h
        · exact absurd h h1
        · exact h

theorem atoi_not_decimal (max_int : Nat) (l : List Nat) (h : not_decimal l = true) :
    ngx_atoi max_int l = NGX_ERROR := by
  unfold ngx_atoi
  by_cases e : l = []
  · rw [if_pos e]
  · rw [if_neg e]
    apply atoi_loop_not_decimal
    unfold not_decimal at h
    cases l with
    | nil => exact absurd rfl e
    | cons c l => simpa using h

theorem inherited_loop_skip (max_int : Nat) (seg : List Nat) :
    ∀ (p v : List Nat) (ls : List Int), (∀ c ∈ seg, is_separator c = false) →
      inherited_loop max_int (seg ++ p) v ls = inherited_loop max_int p (v ++ seg) ls := by
  induction seg with
  | nil => intro p v ls _; simp
  | cons d ds ih =>
    intro p v ls h
    have hd := h d (List.mem_cons_self _ _)
    have h1 : ¬(d = 58 ∨ d = 59) := by
      simpa [is_separator] using hd
    simp only [List.cons_append, inherited_loop, h1, if_false, List.append_eq]
    rw [ih p _ ls (fun x hx => h x (List.mem_cons_of_mem _ hx))]
    simp

theorem inherited_loop_tail (max_int : Nat) (tail : List Nat) (ls : List Int)
    (h : ∀ c ∈ tail, is_separator c = false) :
    inherited_loop max_int tail [] ls = ls := by
  have e := inherited_loop_skip max_int tail [] [] ls h
  rw [List.append_nil] at e
  rw [e]
  rfl

theorem inherited_loop_good (max_int : Nat) (good : List (List Nat × Nat)) :
    ∀ (p : List Nat) (ls : List Int), (∀ s ∈ good, segment_ok max_int s = true) →
      inherited_loop max_int (join_segments good ++ p) [] ls
        = inherited_loop max_int p []
            (ls ++ good.map (fun s => to_socket (ngx_atoi max_int s.1))) := by
  induction good with
  | nil => intro p ls _; simp [join_segments]
  | cons s good ih =>
    intro p ls h
    have hs := h s (List.mem_cons_self _ _)
    simp only [segment_ok, Bool.and_eq_true, List.all_eq_true, Bool.not_eq_true', bne_iff_ne,
      ne_eq] at hs
    obtain ⟨⟨h1, h2⟩, h3⟩ := hs
    have h4 : s.2 = 58 ∨ s.2 = 59 := by
      simpa [is_separator] using h2
    simp only [join_segments, List.append_assoc, List.cons_append]
    rw [inherited_loop_skip max_int s.1 _ [] ls h1]
    simp only [List.nil_append, inherited_loop, h4, if_true, h3, if_false]
    rw [ih p _ (fun x hx => h x (List.mem_cons_of_mem _ hx))]
    simp

/-- C26: let the value of `NGINX` begin with segments that `ngx_atoi` accepts, each ended
by `:` or `;`. If the next segment, ended by `:` or `;`, is not a non-negative decimal
integer (it is empty or has a byte that is not a digit), then whatever follows,
`cycle->listening` holds exactly the descriptors of the segments before it, in order,
`ngx_inherited` is set and the function returns what `ngx_set_inherited_sockets`
returns. If instead only bytes without `:` and `;` follow, they are not added: the
result is the same. -/
theorem inherited_sockets_malformed (max_int : Nat) (good : List (List Nat × Nat))
    (bad : List Nat) (t : Nat) (rest tail : List Nat)
    (hg : ∀ s ∈ good, segment_ok max_int s = true)
    (hb : not_decimal bad = true) (hbs : ∀ c ∈ bad, is_separator c = false)
    (ht : is_separator t = true) (htail : ∀ c ∈ tail, is_separator c = false)
    (listening : List Int) (inherited : Bool) (set_rc : Int) :
    ngx_add_inherited_sockets max_int (some (join_segments good ++ (bad ++ t :: rest)))
        listening inherited set_rc
      = ⟨set_rc, good.map (fun s => to_socket (ngx_atoi max_int s.1)), true⟩ ∧
    ngx_add_inherited_sockets max_int (some (join_segments good ++ tail))
        listening inherited set_rc
      = ⟨set_rc, good.map (fun s => to_socket (ngx_atoi max_int s.1)), true⟩ := by
  have h4 : t = 58 ∨ t = 59 := by
    simpa [is_separator] using ht
  constructor
  · simp only [ngx_add_inherited_sockets]
    rw [inherited_loop_good max_int good _ [] hg, inherited_loop_skip max_int bad _ [] _ hbs]
    simp only [List.nil_append, inherited_loop, h4, if_true, atoi_not_decimal max_int bad hb]
  · simp only [ngx_add_inherited_sockets]
    rw [inherited_loop_good max_int good _ [] hg, inherited_loop_tail max_int tail _ htail]
    simp

theorem inherited_sockets_malformed_witness :
    ngx_add_inherited_sockets (2 ^ 63 - 1)
        (some (join_segments [(bytes "6", 59), (bytes "7", 58)] ++ (bytes "x8" ++ 59 :: bytes "9;")))
        [3] false 0
      = ⟨0, [(bytes "6", 59), (bytes "7", 58)].map
          (fun s => to_socket (ngx_atoi (2 ^ 63 - 1) s.1)), true⟩ ∧
    ngx_add_inherited_sockets (2 ^ 63 - 1)
        (some (join_segments [(bytes "6", 59), (bytes "7", 58)] ++ bytes "12"))
        [3] false 0
      = ⟨0, [(bytes "6", 59), (bytes "7", 58)].map
          (fun s => to_socket (ngx_atoi (2 ^ 63 - 1) s.1)), true⟩ :=
  inherited_sockets_malformed (2 ^ 63 - 1) [(bytes "6", 59), (bytes "7", 58)] (bytes "x8") 59
    (bytes "9;") (bytes "12") (by decide) (by decide) (by decide) (by decide) (by decide)
    [3] false 0

/-! ### C27: `ngx_get_cpu_affinity` -/

theorem masks_loop_length (values : List (List Nat)) :
    ∀ masks : List Nat, (masks_loop values masks).1 = .NGX_CONF_OK →
      (masks_loop values masks).2.1.length = masks.length + values.length := by
  induction values with
  | nil => intro masks _; rfl
  | cons v rest ih =>
    intro masks h
    simp only [masks_loop] at h ⊢
    by_cases hl : v.length > 64
    · rw [if_pos hl] at h
      simp at h
    · rw [if_neg hl] at h ⊢
      rcases hm : mask_loop v 0 with ⟨m, _ | ch⟩
      · simp only [hm] at h ⊢
        rw [ih _ h]
        simp only [List.length_append, List.length_cons, List.length_nil]
        omega
      · simp [hm] at h

/-- The directive `worker_cpu_affinity` with at least one argument (`NGX_CONF_1MORE`)
leaves the fields in the state `affinity_ok` unless it returns `NGX_CONF_ERROR`. -/
theorem set_cpu_affinity_ok (have_affinity : Bool) (ccf : affinity_conf_t)
    (args : List (List Nat)) (h0 : affinity_ok ccf) (h2 : 2 ≤ args.length)
    (hmax : args.length ≤ 2 ^ 64)
    (hrc : (ngx_set_cpu_affinity have_affinity ccf args).1 ≠ .NGX_CONF_ERROR) :
    affinity_ok (ngx_set_cpu_affinity have_affinity ccf args).2.1 := by
  unfold ngx_set_cpu_affinity at hrc ⊢
  cases have_affinity with
  | false => exact h0
  | true =>
    simp only [if_true] at hrc ⊢
    by_cases hs : ccf.cpu_affinity.isSome = true
    · rw [if_pos hs]
      exact h0
    · rw [if_neg hs] at hrc ⊢
      simp only at hrc ⊢
      have hok : (masks_loop (args.drop 1) []).1 = .NGX_CONF_OK := by
        have h3 : ∀ values masks, (masks_loop values masks).1 = .NGX_CONF_OK ∨
            (masks_loop values masks).1 = .NGX_CONF_ERROR := by
          intro values
          induction values with
          | nil => intro masks; left; rfl
          | cons v rest ih =>
            intro masks
            simp only [masks_loop]
            by_cases hl : v.length > 64
            · rw [if_pos hl]; right; rfl
            · rw [if_neg hl]
              rcases hm : mask_loop v 0 with ⟨m, _ | ch⟩
              · exact ih _
              · right; rfl
        rcases h3 (args.drop 1) [] with h | h
        · exact h
        · exact absurd h hrc
      intro masks hm
      simp only [Option.some.injEq] at hm
      have hl := masks_loop_length (args.drop 1) [] hok
      rw [hm] at hl
      simp only [List.length_nil, zero_add, List.length_drop] at hl
      refine ⟨hl, ?_, ?_⟩
      · show 0 < args.length - 1
        omega
      · show args.length - 1 < 2 ^ 64
        omega

/-- C27: in a configuration as the directive `worker_cpu_affinity` leaves it (no mask
array, or an array of `cpu_affinity_n ≥ 1` masks), `ngx_get_cpu_affinity(n)` returns 0
when no mask is configured, the `n`-th mask when `n` is smaller than the number of
masks, and the last mask for every other `n`; the element it reads is always one of the
configured masks. -/
theorem get_cpu_affinity_spec (ccf : affinity_conf_t) (h : affinity_ok ccf) (n : Nat) :
    (ccf.cpu_affinity = none → ngx_get_cpu_affinity ccf n = some 0) ∧
    (∀ masks, ccf.cpu_affinity = some masks →
      (n < masks.length → ngx_get_cpu_affinity ccf n = masks[n]?) ∧
      (masks.length ≤ n → ngx_get_cpu_affinity ccf n = masks.getLast?) ∧
      ∃ m ∈ masks, ngx_get_cpu_affinity ccf n = some m) := by
  constructor
  · intro e
    simp [ngx_get_cpu_affinity, e]
  · intro masks e
    obtain ⟨h1, h2, h3⟩ := h masks e
    have hi : (ccf.cpu_affinity_n + (2 ^ 64 - 1)) % 2 ^ 64 = masks.length - 1 := by
      rw [h1]; omega
    have hlast : masks[masks.length - 1]? = masks.getLast? := by
      rw [List.getLast?_eq_getElem?]
    refine ⟨?_, ?_, ?_⟩
    · intro hn
      simp only [ngx_get_cpu_affinity, e]
      rw [if_pos (by omega)]
    · intro hn
      simp only [ngx_get_cpu_affinity, e]
      rw [if_neg (by omega), hi, hlast]
    · simp only [ngx_get_cpu_affinity, e]
      by_cases hn : ccf.cpu_affinity_n > n
      · rw [if_pos hn]
        have hn2 : n < masks.length := by omega
        exact ⟨masks[n], List.getElem_mem _, List.getElem?_eq_getElem hn2⟩
      · rw [if_neg hn, hi]
        have hn2 : masks.length - 1 < masks.length := by omega
        exact ⟨masks[masks.length - 1], List.getElem_mem _, List.getElem?_eq_getElem hn2⟩

theorem get_cpu_affinity_spec_witness :
    affinity_ok (ngx_set_cpu_affinity true ⟨0, none⟩
      [bytes "worker_cpu_affinity", bytes "0101", bytes "1010"]).2.1 ∧
    (∀ masks, (ngx_set_cpu_affinity true ⟨0, none⟩
        [bytes "worker_cpu_affinity", bytes "0101", bytes "1010"]).2.1.cpu_affinity = some masks →
      (5 < masks.length → ngx_get_cpu_affinity (ngx_set_cpu_affinity true ⟨0, none⟩
        [bytes "worker_cpu_affinity", bytes "0101", bytes "1010"]).2.1 5 = masks[5]?) ∧
      (masks.length ≤ 5 → ngx_get_cpu_affinity (ngx_set_cpu_affinity true ⟨0, none⟩
        [bytes "worker_cpu_affinity", bytes "0101", bytes "1010"]).2.1 5 = masks.getLast?) ∧
      ∃ m ∈ masks, ngx_get_cpu_affinity (ngx_set_cpu_affinity true ⟨0, none⟩
        [bytes "worker_cpu_affinity", bytes "0101", bytes "1010"]).2.1 5 = some m) ∧
    ngx_get_cpu_affinity (ngx_set_cpu_affinity true ⟨0, none⟩
        [bytes "worker_cpu_affinity", bytes "0101", bytes "1010"]).2.1 5 = some 10 :=
  have hok : affinity_ok (ngx_set_cpu_affinity true ⟨0, none⟩
      [bytes "worker_cpu_affinity", bytes "0101", bytes "1010"]).2.1 :=
    set_cpu_affinity_ok true ⟨0, none⟩ _ (fun _ hm => absurd hm (by simp)) (by decide)
      (by decide) (by decide)
  ⟨hok, (get_cpu_affinity_spec _ hok 5).2, by decide⟩

/-! ### C28: the paths of `ngx_process_options` -/

theorem conf_prefix_loop_last (sep : Nat → Bool) (data : List Nat) (k : Nat) :
    ∀ i : Nat, 1 ≤ k → k ≤ i → sep (data.getD k 0) = true →
      (∀ j, k < j → j ≤ i → sep (data.getD j 0) = false) →
      conf_prefix_loop sep data i = some (k + 1) := by
  intro i
  induction i with
  | zero => intro h1 h2; omega
  | succ i ih =>
    intro h1 h2 h3 h4
    simp only [conf_prefix_loop]
    by_cases hk : k = i + 1
    · subst hk
      rw [if_pos h3]
    · rw [if_neg (by rw [h4 (i + 1) (by omega) (by omega)]; decide)]
      exact ih h1 (by omega) h3 (fun j g1 g2 => h4 j g1 (by omega))

theorem conf_prefix_loop_split (sep : Nat → Bool) (dir base : List Nat) (s : Nat)
    (hd : dir ≠ []) (hs : sep s = true) (hb : ∀ c ∈ base, sep c = false) :
    conf_prefix_loop sep (dir ++ s :: base) ((dir ++ s :: base).length - 1)
      = some (dir.length + 1) := by
  have hl : 1 ≤ dir.length := by
    cases dir with
    | nil => exact absurd rfl hd
    | cons a l => simp
  apply conf_prefix_loop_last sep _ dir.length _ hl
  · simp only [List.length_append, List.length_cons]
    omega
  · rw [List.getD_eq_getElem?_getD, List.getElem?_append_right (le_refl _), Nat.sub_self]
    simpa using hs
  · intro j h1 h2
    simp only [List.length_append, List.length_cons] at h2
    obtain ⟨m, hm⟩ : ∃ m, j = dir.length + 1 + m := ⟨j - dir.length - 1, by omega⟩
    subst hm
    have hj : m < base.length := by omega
    have e1 : dir.length + 1 + m - dir.length = m + 1 := by omega
    rw [List.getD_eq_getElem?_getD, List.getElem?_append_right (by omega), e1,
      List.getElem?_cons_succ, List.getElem?_eq_getElem hj]
    exact hb _ (List.getElem_mem _)

theorem process_conf_file_keeps (e : process_env) (o : options_t) (c2 : ngx_cycle_t) :
    (process_conf_file e o c2).2.prefix_ = c2.prefix_ := by
  unfold process_conf_file
  cases ngx_conf_full_name e c2 c2.conf_file false with
  | none => rfl
  | some name =>
    simp only
    cases conf_prefix_loop e.path_separator name (name.length - 1) <;>
      cases o.ngx_conf_params <;> cases o.ngx_test_config <;> rfl

theorem process_conf_file_fields (e : process_env) (o : options_t) (c2 : ngx_cycle_t)
    (name : List Nat) (hf : ngx_conf_full_name e c2 c2.conf_file false = some name) :
    (process_conf_file e o c2).2.conf_file = name ∧
    ngx_cycle_t.conf_prefix (process_conf_file e o c2).2
      = (match conf_prefix_loop e.path_separator name (name.length - 1) with
          | some len => name.take len
          | none => c2.conf_prefix) := by
  unfold process_conf_file
  rw [hf]
  simp only
  cases conf_prefix_loop e.path_separator name (name.length - 1) <;>
    cases o.ngx_conf_params <;> cases o.ngx_test_config <;> exact ⟨rfl, rfl⟩

theorem process_conf_file_error (e : process_env) (o : options_t) (c2 : ngx_cycle_t)
    (hf : ngx_conf_full_name e c2 c2.conf_file false = none) :
    (process_conf_file e o c2).1 = NGX_ERROR := by
  unfold process_conf_file
  rw [hf]

theorem process_conf_file_dir (e : process_env) (o : options_t) (c2 : ngx_cycle_t)
    (dir base : List Nat) (s : Nat) (hrc : (process_conf_file e o c2).1 = NGX_OK)
    (hname : (process_conf_file e o c2).2.conf_file = dir ++ s :: base)
    (hd : dir ≠ []) (hs : e.path_separator s = true)
    (hb : ∀ c ∈ base, e.path_separator c = false) :
    ngx_cycle_t.conf_prefix (process_conf_file e o c2).2 = dir ++ [s] := by
  cases hf : ngx_conf_full_name e c2 c2.conf_file false with
  | none =>
    rw [process_conf_file_error e o c2 hf] at hrc
    exact absurd hrc (by decide)
  | some name =>
    obtain ⟨h1, h2⟩ := process_conf_file_fields e o c2 name hf
    rw [h1] at hname
    subst hname
    rw [h2, conf_prefix_loop_split e.path_separator dir base s hd hs hb]
    simp only
    rw [List.take_append_eq_append_take]
    simp

/-- C28 (counterexample): on a Unix build an empty `-p` prefix, which does not end with
a path separator, gets no `/` appended: `prefix` stays empty; and for the absolute file
name `/nginx.conf`, whose last path separator is its first byte, `conf_prefix` is not
`/` but stays the prefix. -/
theorem process_options_empty_path :
    (ngx_process_options unix_env { options_init with ngx_prefix := some [] } cycle_init).1
      = NGX_OK ∧
    (ngx_process_options unix_env { options_init with ngx_prefix := some [] } cycle_init).2.prefix_
      = [] ∧
    (ngx_process_options unix_env
      { options_init with ngx_conf_file := some (bytes "/nginx.conf") } cycle_init)
      = (NGX_OK, { cycle_init with
          conf_prefix := bytes "/usr/local/nginx/", prefix_ := bytes "/usr/local/nginx/",
          conf_file := bytes "/nginx.conf" }) := by
  refine ⟨?_, ?_, ?_⟩
  · decide
  · decide
  · decide

/-- C28 (amended): when `ngx_pnalloc` does not fail, a `-p` prefix that is not empty and
does not end with a path separator gets `/` appended, and every other `-p` prefix is
kept unchanged; and when `ngx_process_options` returns `NGX_OK`, so that the file name
was made absolute, and the last path separator of that name is not its first byte,
`conf_prefix` is the name up to and including this separator. -/
theorem process_options_paths (e : process_env) (o : options_t) (cycle : ngx_cycle_t) :
    (∀ p, o.ngx_prefix = some p → e.alloc_ok = true →
      (ngx_process_options e o cycle).2.prefix_
        = (if p ≠ [] ∧ e.path_separator (p.getLast?.getD 0) = false then p ++ [47] else p)) ∧
    (∀ (dir base : List Nat) (s : Nat),
      (ngx_process_options e o cycle).1 = NGX_OK →
      (ngx_process_options e o cycle).2.conf_file = dir ++ s :: base →
      dir ≠ [] → e.path_separator s = true → (∀ c ∈ base, e.path_separator c = false) →
      ngx_cycle_t.conf_prefix (ngx_process_options e o cycle).2 = dir ++ [s]) := by
  constructor
  · intro p hp ha
    have hlast : p.getD (p.length - 1) 0 = p.getLast?.getD 0 := by
      rw [List.getD_eq_getElem?_getD, List.getLast?_eq_getElem?]
    have hlen : p.length ≠ 0 ↔ p ≠ [] := by
      cases p <;> simp
    unfold ngx_process_options process_prefix
    rw [hp]
    simp only [hlast, hlen, ha, if_true]
    by_cases hc : p ≠ [] ∧ e.path_separator (p.getLast?.getD 0) = false
    · rw [if_pos hc, if_pos hc]
      simp only
      rw [process_conf_file_keeps]
    · rw [if_neg hc, if_neg hc]
      simp only
      rw [process_conf_file_keeps]
  · intro dir base s hrc hname hd hs hb
    unfold ngx_process_options at hrc hname ⊢
    revert hrc hname
    cases process_prefix e o cycle with
    | none =>
      intro hrc _
      simp at hrc
    | some c1 =>
      intro hrc hname
      exact process_conf_file_dir e o _ dir base s hrc hname hd hs hb

theorem process_options_paths_witness :
    (ngx_process_options unix_env
        { options_init with ngx_prefix := some (bytes "/opt/nginx"),
                            ngx_conf_file := some (bytes "conf/nginx.conf") } cycle_init).2.prefix_
      = bytes "/opt/nginx/" ∧
    ngx_cycle_t.conf_prefix (ngx_process_options unix_env
        { options_init with ngx_prefix := some (bytes "/opt/nginx"),
                            ngx_conf_file := some (bytes "conf/nginx.conf") } cycle_init).2
      = bytes "/opt/nginx/conf/" :=
  have h := process_options_paths unix_env
    { options_init with ngx_prefix := some (bytes "/opt/nginx"),
                        ngx_conf_file := some (bytes "conf/nginx.conf") } cycle_init
  ⟨(h.1 (bytes "/opt/nginx") rfl rfl).trans (by decide),
   h.2 (bytes "/opt/nginx/conf") (bytes "nginx.conf") 47 (by decide) (by decide) (by decide)
     (by decide) (by decide)⟩

/-! ### C21: the invariant of the buffer -/

theorem token_char_buf (l : token_locals) (cf : ngx_conf_t) (ch : Nat) :
    (step_conf (token_char l cf ch)).conf_file.buffer = cf.conf_file.buffer ∧
    (step_conf (token_char l cf ch)).conf_file.offset = cf.conf_file.offset ∧
    (step_conf (token_char l cf ch)).conf_file.content = cf.conf_file.content ∧
    ∀ l1 cf1, token_char l cf ch = .next l1 cf1 → l.start ≤ cf.conf_file.buffer.pos →
      1 ≤ cf.conf_file.buffer.pos → l1.start ≤ cf.conf_file.buffer.pos := by
  rw [token_char_act]
  cases char_act l (decide (cf.args.length = 0)) (count_line cf ch).conf_file.line ch with
  | go l1 m =>
    simp only [run_act, step_conf, count_line]
    refine ⟨by split_ifs <;> rfl, by split_ifs <;> rfl, by split_ifs <;> rfl, ?_⟩
    intro l2 cf2 h h1 h2
    simp only [token_step.next.injEq] at h
    rw [← h.1]
    have hb : (if ch = LF then
        { cf with conf_file := { cf.conf_file with line := cf.conf_file.line + 1 } }
        else cf).conf_file.buffer.pos = cf.conf_file.buffer.pos := by
      split_ifs <;> rfl
    simp only [hb]
    cases m <;> simp only [mark_start] <;> omega
  | word l1 =>
    simp only [run_act, token_found, if_true, count_line]
    refine ⟨by split_ifs <;> rfl, by split_ifs <;> rfl, by split_ifs <;> rfl, ?_⟩
    intro l2 cf2 h h1 h2
    split_ifs at h <;> simp only [token_step.next.injEq] at h
    all_goals
      rw [← h.1]
      exact h1
  | stop rc =>
    simp only [run_act, step_conf, count_line]
    refine ⟨by split_ifs <;> rfl, by split_ifs <;> rfl, by split_ifs <;> rfl, ?_⟩
    intro l2 cf2 h
    cases h
  | fail m =>
    simp only [run_act, step_conf, log_error_conf_file, count_line]
    refine ⟨by split_ifs <;> rfl, by split_ifs <;> rfl, by split_ifs <;> rfl, ?_⟩
    intro l2 cf2 h
    cases h

/-- One iteration of the loop of `ngx_conf_read_token`, the refill included, keeps the
state of the reader well-formed and the buffer within its bounds. -/
theorem token_iter_buf (g : Bool) (l : token_locals) (cf : ngx_conf_t) (hwf : wf g l cf)
    (hc : cf.conf_file.buffer.data.length ≤ cf.conf_file.buffer.cap) :
    buf_inv (step_conf (token_iter l cf)) ∧
    wf g (token_init (step_conf (token_iter l cf))) (step_conf (token_iter l cf)) ∧
    ∀ l1 cf1, token_iter l cf = .next l1 cf1 → wf g l1 cf1 := by
  obtain ⟨args, ⟨name, content, fdv, offset, ⟨data, pos, cap⟩, dump, line⟩, log⟩ := cf
  obtain ⟨h1, h2, h3⟩ := hwf
  simp only at h1 h2 h3 hc
  have key : ∀ (l0 : token_locals) (cf0 : ngx_conf_t) (ch : Nat),
      l0.start ≤ cf0.conf_file.buffer.pos → 1 ≤ cf0.conf_file.buffer.pos →
      cf0.conf_file.buffer.pos ≤ cf0.conf_file.buffer.data.length →
      cf0.conf_file.buffer.data.length ≤ cf0.conf_file.buffer.cap →
      (if g = true then cf0.conf_file.buffer.cap = NGX_CONF_BUFFER ∧
          cf0.conf_file.buffer.data.length ≤ cf0.conf_file.buffer.cap
        else cf0.conf_file.content.length ≤ cf0.conf_file.offset) →
      buf_inv (step_conf (token_char l0 cf0 ch)) ∧
      wf g (token_init (step_conf (token_char l0 cf0 ch))) (step_conf (token_char l0 cf0 ch)) ∧
      ∀ l1 cf1, token_char l0 cf0 ch = .next l1 cf1 → wf g l1 cf1 := by
    intro l0 cf0 ch g1 g2 g3 g4 g5
    obtain ⟨e1, e2, e3, e4⟩ := token_char_buf l0 cf0 ch
    refine ⟨?_, ?_, ?_⟩
    · simp only [buf_inv, e1]
      exact ⟨Nat.zero_le _, g3, g4⟩
    · simp only [wf, token_init, e1, e2, e3]
      exact ⟨le_refl _, g3, g5⟩
    · intro l1 cf1 h
      have hs : step_conf (token_char l0 cf0 ch) = cf1 := by rw [h]; rfl
      rw [hs] at e1 e2 e3
      simp only [wf, e1, e2, e3]
      exact ⟨e4 l1 cf1 h g1 g2, g3, g5⟩
  have same : ∀ cf0 : ngx_conf_t,
      cf0.conf_file.buffer = ⟨data, pos, cap⟩ → cf0.conf_file.offset = offset →
      cf0.conf_file.content = content →
      buf_inv cf0 ∧ wf g (token_init cf0) cf0 := by
    intro cf0 e1 e2 e3
    refine ⟨?_, ?_⟩
    · simp only [buf_inv, e1]
      exact ⟨Nat.zero_le _, h2, hc⟩
    · simp only [wf, token_init, e1, e2, e3]
      exact ⟨le_refl _, h2, h3⟩
  unfold token_iter
  dsimp only
  by_cases hpos : pos ≥ data.length
  · rw [if_pos hpos]
    by_cases hoff : offset ≥ content.length
    · rw [if_pos hoff]
      split_ifs
      · refine and_assoc.mp ⟨same _ ?_ ?_ ?_, fun _ _ h => by cases h⟩ <;>
          simp only [step_conf, log_error_conf_file]
      · refine and_assoc.mp ⟨same _ ?_ ?_ ?_, fun _ _ h => by cases h⟩ <;>
          simp only [step_conf, log_error_conf_file]
      · exact and_assoc.mp ⟨same _ rfl rfl rfl, fun _ _ h => by cases h⟩
    · rw [if_neg hoff]
      have hg : g = true := by
        cases g
        · simp only [Bool.false_eq_true, if_false] at h3
          exact absurd h3 hoff
        · rfl
      subst hg
      simp only [if_true] at h3
      by_cases hlen : pos - l.start = NGX_CONF_BUFFER
      · rw [if_pos hlen]
        split_ifs
        · refine and_assoc.mp ⟨same _ ?_ ?_ ?_, fun _ _ h => by cases h⟩ <;>
          simp only [step_conf, log_error_conf_file]
        · refine and_assoc.mp ⟨same _ ?_ ?_ ?_, fun _ _ h => by cases h⟩ <;>
          simp only [step_conf, log_error_conf_file]
        · refine and_assoc.mp ⟨same _ ?_ ?_ ?_, fun _ _ h => by cases h⟩ <;>
          simp only [step_conf, log_error_conf_file]
      · rw [if_neg hlen]
        by_cases hn : (ngx_read_file ⟨name, content, fdv, offset, ⟨data, pos, cap⟩, dump, line⟩
            (if content.length - offset > cap - (pos - l.start) then cap - (pos - l.start)
              else content.length - offset)).length
            ≠ (if content.length - offset > cap - (pos - l.start) then cap - (pos - l.start)
              else content.length - offset)
        · rw [if_pos hn]
          refine and_assoc.mp ⟨same _ ?_ ?_ ?_, fun _ _ h => by cases h⟩ <;>
          simp only [step_conf, log_error_conf_file]
        · rw [if_neg hn]
          have hn2 := not_not.mp hn
          have hsz : 1 ≤ (if content.length - offset > cap - (pos - l.start)
              then cap - (pos - l.start) else content.length - offset) := by
            split_ifs <;> omega
          have hsz2 : pos - l.start + (if content.length - offset > cap - (pos - l.start)
              then cap - (pos - l.start) else content.length - offset) ≤ cap := by
            split_ifs <;> omega
          have hmv : ((data.drop l.start).take (pos - l.start)).length = pos - l.start := by
            simp only [List.length_take, List.length_drop]
            omega
          apply key
          · exact Nat.zero_le _
          · simp
          · simp only [List.length_append, hmv, hn2]
            omega
          · simp only [List.length_append, hmv, hn2]
            omega
          · simp only [if_true, List.length_append, hmv, hn2]
            exact ⟨h3.1, by omega⟩
  · rw [if_neg hpos]
    apply key
    · show l.start ≤ pos + 1
      omega
    · show 1 ≤ pos + 1
      omega
    · show pos + 1 ≤ data.length
      omega
    · exact hc
    · exact h3

theorem token_loop_buf (g : Bool) :
    ∀ (fuel : Nat) (l : token_locals) (cf cf1 : ngx_conf_t) (rc : Int),
      wf g l cf → cf.conf_file.buffer.data.length ≤ cf.conf_file.buffer.cap →
      token_loop fuel l cf = some (rc, cf1) → buf_inv cf1 ∧ conf_ok g cf1 := by
  intro fuel
  induction fuel with
  | zero => intro l cf cf1 rc _ _ h; cases h
  | succ k ih =>
    intro l cf cf1 rc hwf hc h
    simp only [token_loop] at h
    obtain ⟨g1, g2, g3⟩ := token_iter_buf g l cf hwf hc
    cases hs : token_iter l cf with
    | ret rc2 cf2 =>
      rw [hs] at h g1 g2
      simp only [Option.some.injEq, Prod.mk.injEq] at h
      rw [← h.2]
      exact ⟨g1, g2⟩
    | next l2 cf2 =>
      rw [hs] at h g1
      exact ih l2 cf2 cf1 rc (g3 l2 cf2 hs) g1.2.2 h

/-- C21: the configuration buffer keeps `start ≤ pos ≤ last ≤ end`. It holds for the
buffer that `ngx_conf_parse` sets up for a file and for the buffer that `ngx_conf_param`
sets up for the `-g` string; every call of `ngx_conf_read_token` in such a state of the
reader returns in a state of the same kind in which it holds again; and so does every
single iteration of its loop, the refill of the buffer included, whatever the token
mark `start` between the start of the buffer and `pos` is. -/
theorem read_token_buf_inv :
    (∀ (name content : List Nat) (d : Bool),
      buf_inv (file_conf name content d) ∧ conf_ok true (file_conf name content d)) ∧
    (∀ param : List Nat, buf_inv (param_conf param) ∧ conf_ok false (param_conf param)) ∧
    (∀ (g : Bool) (cf : ngx_conf_t), conf_ok g cf → buf_inv cf →
      ∃ rc cf1, ngx_conf_read_token cf = some (rc, cf1) ∧ conf_ok g cf1 ∧ buf_inv cf1) ∧
    (∀ (g : Bool) (l : token_locals) (cf : ngx_conf_t), wf g l cf → buf_inv cf →
      buf_inv (step_conf (token_iter l cf)) ∧
      ∀ l1 cf1, token_iter l cf = .next l1 cf1 → wf g l1 cf1) := by
  refine ⟨?_, ?_, ?_, ?_⟩
  · intro name content d
    simp [buf_inv, conf_ok, wf, token_init, file_conf]
  · intro param
    simp [buf_inv, conf_ok, wf, token_init, param_conf]
  · intro g cf hok hb
    obtain ⟨cf1, e1, _⟩ := read_token_scan g cf hok
    refine ⟨_, cf1, e1, ?_⟩
    have hwf : wf g (token_init { cf with args := [] }) { cf with args := [] } := hok
    have h := token_loop_buf g _ _ _ cf1 _ hwf hb.2.2 e1
    exact ⟨h.2, h.1⟩
  · intro g l cf hwf hb
    obtain ⟨g1, _, g3⟩ := token_iter_buf g l cf hwf hb.2.2
    exact ⟨g1, g3⟩

theorem read_token_buf_inv_witness :
    (∃ rc cf1, ngx_conf_read_token (file_conf (bytes "nginx.conf") (bytes "user www;") true)
        = some (rc, cf1) ∧ conf_ok true cf1 ∧ buf_inv cf1) ∧
    (∃ rc cf1, ngx_conf_read_token (param_conf (bytes "daemon off;"))
        = some (rc, cf1) ∧ conf_ok false cf1 ∧ buf_inv cf1) :=
  ⟨read_token_buf_inv.2.2.1 true _ (read_token_buf_inv.1 _ _ _).2 (read_token_buf_inv.1 _ _ _).1,
   read_token_buf_inv.2.2.1 false _ (read_token_buf_inv.2.1 _).2 (read_token_buf_inv.2.1 _).1⟩

/-! ### C23: the bytes between the tokens -/

theorem char_act_tail_flags (l : token_locals) (noargs : Bool) (line ch : Nat)
    (h1 : l.need_space = false) (h2 : l.sharp_comment = false) (h3 : l.quoted = false) :
    act_flags l ch (char_act_tail l noargs line ch) := by
  obtain ⟨ns, ls, sc, v, q, sq, dq, st, sl⟩ := l
  simp only at h1 h2 h3
  subst h1 h2 h3
  unfold char_act_tail
  cases ls <;> cases dq <;> cases sq <;> simp only [Bool.false_eq_true, if_true, if_false] <;>
    split_ifs <;> simp_all [act_flags, flags_ok, closes_quote]

theorem act_flags_congr (l l2 : token_locals) (ch : Nat) (a : act)
    (h1 : l2.d_quoted = l.d_quoted) (h2 : l2.s_quoted = l.s_quoted)
    (h : act_flags l2 ch a) : act_flags l ch a := by
  cases a <;> simp_all [act_flags, closes_quote]

theorem char_act_flags (l : token_locals) (noargs : Bool) (line ch : Nat)
    (h : flags_ok l) : act_flags l ch (char_act l noargs line ch) := by
  obtain ⟨ns, ls, sc, v, q, sq, dq, st, sl⟩ := l
  simp only [flags_ok] at h
  obtain ⟨h1, h2⟩ := h
  unfold char_act
  by_cases hlf : ch = LF
  · simp only [hlf, if_true]
    cases q
    · cases ns
      · simp only [Bool.false_eq_true, if_false]
        exact act_flags_congr _ _ _ _ rfl rfl (char_act_tail_flags _ _ _ _ rfl rfl rfl)
      · have hs : is_space LF = true := by decide
        simp only [Bool.false_eq_true, if_false, if_true, hs, act_flags, flags_ok]
        simp
    · have hns : ns = false := by
        cases ns
        · rfl
        · exact absurd (h1 rfl).2.1 (by decide)
      subst hns
      have hls : ls = false := by
        cases ls
        · rfl
        · exact absurd (h2 rfl) (by decide)
      subst hls
      simp [act_flags, flags_ok]
  · simp only [hlf, if_false]
    cases sc
    · cases q
      · cases ns
        · simp only [Bool.false_eq_true, if_false]
          exact char_act_tail_flags _ _ _ _ rfl rfl rfl
        · simp only [Bool.false_eq_true, if_false, if_true]
          split_ifs
          · simp [act_flags, flags_ok]
          · trivial
          · trivial
          · exact act_flags_congr _ _ _ _ rfl rfl (char_act_tail_flags _ _ _ _ rfl rfl rfl)
          · trivial
      · have hns : ns = false := by
          cases ns
          · rfl
          · exact absurd (h1 rfl).2.1 (by decide)
        subst hns
        have hls : ls = false := by
          cases ls
          · rfl
          · exact absurd (h2 rfl) (by decide)
        subst hls
        simp [act_flags, flags_ok]
    · have hns : ns = false := by
        cases ns
        · rfl
        · exact absurd (h1 rfl).1 (by decide)
      subst hns
      simp only [if_true, act_flags, flags_ok]
      simpa using h2

theorem reach_split (g : Bool) (a : List Nat) :
    ∀ (b : List Nat) (l : token_locals) (tok : List Nat) (line : Nat) (args : List (List Nat))
      (st : token_locals × List Nat × Nat × List (List Nat)),
      reach g (a ++ b) l tok line args = some st →
      ∃ st0, reach g a l tok line args = some st0 ∧
        reach g b st0.1 st0.2.1 st0.2.2.1 st0.2.2.2 = some st := by
  induction a with
  | nil =>
    intro b l tok line args st h
    exact ⟨(l, tok, line, args), rfl, h⟩
  | cons ch a ih =>
    intro b l tok line args st h
    simp only [List.cons_append, reach] at h ⊢
    by_cases hg : g = true ∧ tok.length = NGX_CONF_BUFFER
    · simp [hg] at h
    · simp only [hg, if_false] at h ⊢
      cases hact : char_act l (decide (args.length = 0)) (if ch = LF then line + 1 else line) ch with
      | go l1 m =>
        simp only [hact] at h
        exact ih b _ _ _ _ st h
      | word l1 =>
        simp only [hact] at h
        by_cases hc : ch = SEMI ∨ ch = LBRACE
        · simp [hc] at h
        · simp only [hc, if_false] at h ⊢
          exact ih b _ _ _ _ st h
      | stop rc => rw [hact] at h; exact Option.noConfusion h
      | fail m => rw [hact] at h; exact Option.noConfusion h

theorem reach_one_flags (g : Bool) (ch : Nat) (l : token_locals) (tok : List Nat) (line : Nat)
    (args : List (List Nat)) (st : token_locals × List Nat × Nat × List (List Nat))
    (hl : flags_ok l) (h : reach g [ch] l tok line args = some st) :
    flags_ok st.1 ∧ (st.1.need_space = true → closes_quote l ch) := by
  simp only [reach] at h
  by_cases hg : g = true ∧ tok.length = NGX_CONF_BUFFER
  · simp [hg] at h
  · simp only [hg, if_false] at h
    have hf := char_act_flags l (decide (args.length = 0)) (if ch = LF then line + 1 else line) ch hl
    cases hact : char_act l (decide (args.length = 0)) (if ch = LF then line + 1 else line) ch with
    | go l1 m =>
      rw [hact] at h hf
      simp only [Option.some.injEq] at h
      rw [← h]
      simp only [act_flags] at hf
      refine ⟨hf.1, ?_⟩
      intro hn
      rw [hf.2] at hn
      exact absurd hn (by decide)
    | word l1 =>
      rw [hact] at h hf
      by_cases hc : ch = SEMI ∨ ch = LBRACE
      · simp [hc] at h
      · simp only [hc, if_false, Option.some.injEq] at h
        rw [← h]
        exact hf
    | stop rc => rw [hact] at h; exact Option.noConfusion h
    | fail m => rw [hact] at h; exact Option.noConfusion h

theorem reach_flags (g : Bool) (pre : List Nat) :
    ∀ (l : token_locals) (tok : List Nat) (line : Nat) (args : List (List Nat))
      (st : token_locals × List Nat × Nat × List (List Nat)),
      flags_ok l → reach g pre l tok line args = some st → flags_ok st.1 := by
  induction pre with
  | nil =>
    intro l tok line args st hl h
    simp only [reach, Option.some.injEq] at h
    rw [← h]
    exact hl
  | cons ch pre ih =>
    intro l tok line args st hl h
    obtain ⟨st0, h1, h2⟩ := reach_split g [ch] pre l tok line args st h
    exact ih _ _ _ _ st (reach_one_flags g ch l tok line args st0 hl h1).1 h2

theorem scan_fail_rc (g fdv : Bool) (ch : Nat) (rest : List Nat) (l : token_locals)
    (tok : List Nat) (line : Nat) (args : List (List Nat)) (m : conf_msg)
    (hact : char_act l (decide (args.length = 0)) (if ch = LF then line + 1 else line) ch
      = .fail m) :
    (scan g fdv (ch :: rest) l tok line args).rc = NGX_ERROR := by
  simp only [scan]
  by_cases hg : g = true ∧ tok.length = NGX_CONF_BUFFER
  · rw [if_pos hg]
  · rw [if_neg hg]
    simp only [hact]

theorem char_act_need_space (l : token_locals) (n : Bool) (line ch : Nat)
    (h1 : l.need_space = true) (h2 : l.sharp_comment = false) (h3 : l.quoted = false)
    (hch : after_quote_ok ch = false) :
    char_act l n line ch = .fail (.unexpected_char ch) := by
  obtain ⟨ns, ls, sc, v, q, sq, dq, st, sl⟩ := l
  simp only at h1 h2 h3
  subst h1 h2 h3
  simp only [after_quote_ok, Bool.or_eq_false_iff, beq_eq_false_iff_ne, ne_eq] at hch
  obtain ⟨⟨⟨c1, c2⟩, c3⟩, c4⟩ := hch
  have hlf : ch ≠ LF := by
    intro e
    rw [e] at c1
    exact absurd c1 (by decide)
  simp [char_act, hlf, c1, c2, c3, c4]

theorem char_act_token_start (l : token_locals) (n : Bool) (line ch : Nat)
    (h0 : l.last_space = true) (h1 : l.need_space = false) (h2 : l.sharp_comment = false)
    (h3 : l.quoted = false) :
    ((ch = SEMI ∨ ch = LBRACE) → n = true →
      char_act l n line ch = .fail (.unexpected_char ch)) ∧
    (ch = RBRACE → n = false → char_act l n line ch = .fail .unexpected_close) := by
  obtain ⟨ns, ls, sc, v, q, sq, dq, st, sl⟩ := l
  simp only at h0 h1 h2 h3
  subst h0 h1 h2 h3
  constructor
  · intro hc hn
    subst hn
    rcases hc with hc | hc <;> subst hc <;> simp [char_act, char_act_tail, is_space]
  · intro hc hn
    subst hn hc
    simp [char_act, char_act_tail, is_space]

/-- C23: let a call of `ngx_conf_read_token` have read the bytes `pre` without
returning, and let `ch` be the next byte. If the reader is behind a closing quote (the
flag `need_space`, which only the quote that closes a quoted string sets, as the last
byte of `pre`) and `ch` is none of space, TAB, CR, LF, `;`, an opening brace and `)`,
the call returns `NGX_ERROR`. If the reader is where a token may start (`last_space`,
outside a comment) and `ch` is `;` or an opening brace while no argument was read, or
`ch` is a closing brace while an argument was read, the call returns `NGX_ERROR` as
well. -/
theorem read_token_separators (g : Bool) (cf : ngx_conf_t) (pre rest : List Nat) (ch : Nat)
    (l : token_locals) (tok : List Nat) (line : Nat) (args : List (List Nat))
    (hok : conf_ok g cf) (hin : upcoming cf = pre ++ ch :: rest)
    (hre : reach g pre (token_init cf) [] cf.conf_file.line [] = some (l, tok, line, args)) :
    (l.need_space = true →
      (∃ pre0 q st0, pre = pre0 ++ [q] ∧
        reach g pre0 (token_init cf) [] cf.conf_file.line [] = some st0 ∧
        closes_quote st0.1 q) ∧
      (after_quote_ok ch = false →
        ∃ cf1, ngx_conf_read_token cf = some (NGX_ERROR, cf1))) ∧
    (l.last_space = true → l.sharp_comment = false → args = [] → ch = SEMI ∨ ch = LBRACE →
      ∃ cf1, ngx_conf_read_token cf = some (NGX_ERROR, cf1)) ∧
    (l.last_space = true → l.sharp_comment = false → args ≠ [] → ch = RBRACE →
      ∃ cf1, ngx_conf_read_token cf = some (NGX_ERROR, cf1)) := by
  have h0 : flags_ok (token_init cf) := by
    simp [flags_ok, token_init]
  have hl : flags_ok l := reach_flags g pre _ _ _ _ _ h0 hre
  obtain ⟨cf1, e1, _⟩ := read_token_scan g cf hok
  rw [hin, scan_reach g cf.conf_file.fd_valid pre (ch :: rest) _ _ _ _ _ hre] at e1
  have fin : ∀ m, char_act l (decide (args.length = 0)) (if ch = LF then line + 1 else line) ch
      = .fail m → ∃ cf1, ngx_conf_read_token cf = some (NGX_ERROR, cf1) := by
    intro m hm
    refine ⟨cf1, ?_⟩
    rw [e1, scan_fail_rc g _ ch rest l tok line args m hm]
  refine ⟨?_, ?_, ?_⟩
  · intro hn
    constructor
    · rcases List.eq_nil_or_concat pre with hp | ⟨pre0, q, hp⟩
      · subst hp
        simp only [reach, Option.some.injEq, Prod.mk.injEq] at hre
        rw [← hre.1] at hn
        simp [token_init] at hn
      · rw [List.concat_eq_append] at hp
        subst hp
        obtain ⟨st0, g1, g2⟩ := reach_split g pre0 [q] _ _ _ _ _ hre
        have hf0 := reach_flags g pre0 _ _ _ _ _ h0 g1
        exact ⟨pre0, q, st0, rfl, g1, (reach_one_flags g q _ _ _ _ _ hf0 g2).2 hn⟩
    · intro hch
      exact fin _ (char_act_need_space l _ _ ch hn (hl.1 hn).1 (hl.1 hn).2.1 hch)
  · intro hls hsc ha hch
    have hns : l.need_space = false := by
      cases hq : l.need_space
      · rfl
      · rw [(hl.1 hq).2.2] at hls
        exact absurd hls (by decide)
    refine fin _ ((char_act_token_start l _ _ ch hls hns hsc (hl.2 hls)).1 hch ?_)
    simp [ha]
  · intro hls hsc ha hch
    have hns : l.need_space = false := by
      cases hq : l.need_space
      · rfl
      · rw [(hl.1 hq).2.2] at hls
        exact absurd hls (by decide)
    refine fin _ ((char_act_token_start l _ _ ch hls hns hsc (hl.2 hls)).2 hch ?_)
    simpa using ha

theorem read_token_separators_witness :
    (∃ cf1, ngx_conf_read_token (file_conf [] (bytes "a \"b\"c;") false)
        = some (NGX_ERROR, cf1)) ∧
    (∃ cf1, ngx_conf_read_token (file_conf [] (bytes " ;") false) = some (NGX_ERROR, cf1)) ∧
    (∃ cf1, ngx_conf_read_token (file_conf [] (bytes "a \x7d") false)
        = some (NGX_ERROR, cf1)) :=
  ⟨((read_token_separators true (file_conf [] (bytes "a \"b\"c;") false) (bytes "a \"b\"")
      [SEMI] 99 (mk_l true false false false false 0 1) [98, 34] 1 [[97], [98]]
      (conf_ok_file _ _ _) (by decide) (by decide)).1 (by decide)).2 (by decide),
   (read_token_separators true (file_conf [] (bytes " ;") false) [SP] [] SEMI
      (mk_l false true false false false 0 1) [32] 1 []
      (conf_ok_file _ _ _) (by decide) (by decide)).2.1 (by decide) (by decide) (by decide)
      (Or.inl rfl),
   (read_token_separators true (file_conf [] (bytes "a \x7d") false) (bytes "a ") [] RBRACE
      (mk_l false true false false false 0 1) [97, 32] 1 [[97]]
      (conf_ok_file _ _ _) (by decide) (by decide)).2.2 (by decide) (by decide)
      (by decide) rfl⟩

/-! ### C24: the dump buffer -/

theorem read_calls_dump :
    ∀ (n : Nat) (cf cf1 : ngx_conf_t) (rc : Int), conf_ok true cf →
      cf.conf_file.fd_valid = true → dump_inv cf → read_calls n cf = some (rc, cf1) →
      dump_inv cf1 ∧ cf1.conf_file.content = cf.conf_file.content ∧
        (rc = NGX_CONF_FILE_DONE → upcoming cf1 = []) := by
  intro n
  induction n with
  | zero =>
    intro cf cf1 rc hok hf hd h
    simp only [read_calls] at h
    obtain ⟨_, _, g3, g4, g5⟩ := read_token_file cf cf1 rc hok hf hd h
    exact ⟨g3, g4, g5⟩
  | succ k ih =>
    intro cf cf1 rc hok hf hd h
    simp only [read_calls] at h
    cases hr : ngx_conf_read_token cf with
    | none => rw [hr] at h; cases h
    | some r =>
      obtain ⟨rc0, cf0⟩ := r
      rw [hr] at h
      simp only at h
      obtain ⟨g1, g2, g3, g4, _⟩ := read_token_file cf cf0 rc0 hok hf hd hr
      by_cases hc : rc0 = NGX_OK ∨ rc0 = NGX_CONF_BLOCK_START ∨ rc0 = NGX_CONF_BLOCK_DONE
      · rw [if_pos hc] at h
        obtain ⟨k1, k2, k3⟩ := ih cf0 cf1 rc g1 g2 g3 h
        exact ⟨k1, k2.trans g4, k3⟩
      · rw [if_neg hc] at h
        cases h

/-- C24: with dumping enabled, the dump buffer of a file holds exactly the first
`file.offset` bytes of the file, which are the bytes read from it so far. This holds
when `ngx_conf_parse` has set up the buffers; every iteration of the loop of
`ngx_conf_read_token`, the refill included, keeps it; every call of
`ngx_conf_read_token` returns and keeps it; and so does every sequence of calls. When a
call returns `NGX_CONF_FILE_DONE`, the dump buffer holds the whole content of the
file. -/
theorem dump_holds_read (name content : List Nat) :
    dump_inv (file_conf name content true) ∧
    (∀ (l : token_locals) (cf : ngx_conf_t), dump_inv cf →
      dump_inv (step_conf (token_iter l cf))) ∧
    (∀ cf : ngx_conf_t, conf_ok true cf → cf.conf_file.fd_valid = true → dump_inv cf →
      ∃ rc cf1, ngx_conf_read_token cf = some (rc, cf1) ∧ dump_inv cf1 ∧
        (rc = NGX_CONF_FILE_DONE → cf1.conf_file.dump = some cf.conf_file.content)) ∧
    (∀ (n : Nat) (rc : Int) (cf1 : ngx_conf_t),
      read_calls n (file_conf name content true) = some (rc, cf1) →
      cf1.conf_file.dump = some (content.take cf1.conf_file.offset) ∧
      (rc = NGX_CONF_FILE_DONE → cf1.conf_file.dump = some content)) := by
  have h0 : dump_inv (file_conf name content true) := by
    simp [dump_inv, file_conf]
  refine ⟨h0, fun l cf hd => (token_iter_dump l cf hd).1, ?_, ?_⟩
  · intro cf hok hf hd
    obtain ⟨cf1, e1, _⟩ := read_token_scan true cf hok
    obtain ⟨_, _, g3, g4, g5⟩ := read_token_file cf cf1 _ hok hf hd e1
    refine ⟨_, cf1, e1, g3, ?_⟩
    intro hrc
    rw [← g4]
    exact dump_all_read cf1 g3 (g5 hrc)
  · intro n rc cf1 h
    obtain ⟨g1, g2, g3⟩ := read_calls_dump n _ cf1 rc (conf_ok_file _ _ _) rfl h0 h
    have hc : cf1.conf_file.content = content := g2
    constructor
    · rw [g1, hc]
    · intro hrc
      rw [← hc]
      exact dump_all_read cf1 g1 (g3 hrc)

theorem dump_holds_read_witness :
    ∃ rc cf1, ngx_conf_read_token (file_conf (bytes "nginx.conf") (bytes " \n") true)
        = some (rc, cf1) ∧ dump_inv cf1 ∧
      (rc = NGX_CONF_FILE_DONE → cf1.conf_file.dump
        = some (file_conf (bytes "nginx.conf") (bytes " \n") true).conf_file.content) :=
  (dump_holds_read (bytes "nginx.conf") (bytes " \n")).2.2.1 _ (conf_ok_file _ _ _) rfl
    (dump_holds_read (bytes "nginx.conf") (bytes " \n")).1

/-! ### C25: `cf->conf_file` around the parse of a file -/

theorem token_char_name (l : token_locals) (cf : ngx_conf_t) (ch : Nat) :
    (step_conf (token_char l cf ch)).conf_file.name = cf.conf_file.name ∧
    (step_conf (token_char l cf ch)).conf_file.fd_valid = cf.conf_file.fd_valid := by
  rw [token_char_act]
  cases char_act l (decide (cf.args.length = 0)) (count_line cf ch).conf_file.line ch with
  | go l1 m =>
    simp only [run_act, step_conf, count_line]
    split_ifs <;> exact ⟨rfl, rfl⟩
  | word l1 =>
    simp only [run_act, token_found, if_true, count_line]
    split_ifs <;> exact ⟨rfl, rfl⟩
  | stop rc =>
    simp only [run_act, step_conf, count_line]
    split_ifs <;> exact ⟨rfl, rfl⟩
  | fail m =>
    simp only [run_act, step_conf, log_error_conf_file, count_line]
    split_ifs <;> exact ⟨rfl, rfl⟩

theorem token_iter_name (l : token_locals) (cf : ngx_conf_t) :
    (step_conf (token_iter l cf)).conf_file.name = cf.conf_file.name ∧
    (step_conf (token_iter l cf)).conf_file.fd_valid = cf.conf_file.fd_valid := by
  obtain ⟨args, ⟨name, content, fdv, offset, ⟨data, pos, cap⟩, dump, line⟩, log⟩ := cf
  unfold token_iter
  simp only
  split_ifs
  all_goals first
    | (simp [step_conf, log_error_conf_file]; done)
    | (rw [(token_char_name _ _ _).1, (token_char_name _ _ _).2]
       exact ⟨rfl, rfl⟩)

theorem token_loop_name :
    ∀ (fuel : Nat) (l : token_locals) (cf cf1 : ngx_conf_t) (rc : Int),
      token_loop fuel l cf = some (rc, cf1) →
      cf1.conf_file.name = cf.conf_file.name ∧
        cf1.conf_file.fd_valid = cf.conf_file.fd_valid := by
  intro fuel
  induction fuel with
  | zero => intro l cf cf1 rc h; cases h
  | succ k ih =>
    intro l cf cf1 rc h
    simp only [token_loop] at h
    have hi := token_iter_name l cf
    cases hs : token_iter l cf with
    | ret rc2 cf2 =>
      rw [hs] at h hi
      simp only [Option.some.injEq, Prod.mk.injEq] at h
      rw [← h.2]
      exact hi
    | next l2 cf2 =>
      rw [hs] at h hi
      simp only [step_conf] at hi
      obtain ⟨g1, g2⟩ := ih l2 cf2 cf1 rc h
      exact ⟨g1.trans hi.1, g2.trans hi.2⟩

theorem read_token_name (cf cf1 : ngx_conf_t) (rc : Int)
    (h : ngx_conf_read_token cf = some (rc, cf1)) :
    cf1.conf_file.name = cf.conf_file.name ∧
      cf1.conf_file.fd_valid = cf.conf_file.fd_valid :=
  token_loop_name _ _ { cf with args := [] } cf1 rc h

theorem same_place_trans {σ : Type} (a b c : parse_t σ) (h1 : same_place a b)
    (h2 : same_place b c) : same_place a c :=
  ⟨h2.1.trans h1.1, h2.2.1.trans h1.2.1, h2.2.2.trans h1.2.2⟩

theorem same_place_log {σ : Type} (st : parse_t σ) (m : conf_msg) :
    same_place st (conf_log st m) := by
  obtain ⟨_, c2, c3, _, _⟩ := conf_log_frame st m
  exact ⟨by rw [c2], by rw [c2], c3⟩

theorem same_place_file {σ : Type} (st st1 : parse_t σ)
    (h1 : st1.cf.conf_file = st.cf.conf_file) (h2 : st1.conf_file_null = st.conf_file_null) :
    same_place st st1 :=
  ⟨by rw [h1], by rw [h1], h2⟩

theorem record_dispatch_place (env : conf_env) (parse : parse_fn directive_trace)
    (hp : parse_good parse)
    (hb : ∀ st rv st1, parse st none = some (rv, st1) → same_place st st1)
    (st st1 : parse_t directive_trace) (last rc : Int)
    (h : record_dispatch env parse st last = some (rc, st1)) :
    same_place st st1 ∧ (last = NGX_OK → st1.cf.conf_file = st.cf.conf_file) := by
  unfold record_dispatch at h
  simp only at h
  split_ifs at h with c1 c2
  · cases hi : ngx_conf_include env parse
        { st with ctx := st.ctx ++ [(st.cf.args, last)] } with
    | none => rw [hi] at h; cases h
    | some r =>
      obtain ⟨rv, st2⟩ := r
      rw [hi] at h
      obtain ⟨_, g2, g3⟩ := conf_include_good env parse hp _ st2 rv hi
      simp only at h
      split_ifs at h
      · simp only [Option.some.injEq, Prod.mk.injEq] at h
        rw [← h.2]
        exact ⟨same_place_file _ _ g2 g3, fun _ => g2⟩
      · simp only [Option.some.injEq, Prod.mk.injEq] at h
        rw [← h.2]
        exact ⟨same_place_file _ _ g2 g3, fun _ => g2⟩
      · simp only [Option.some.injEq, Prod.mk.injEq] at h
        rw [← h.2]
        obtain ⟨_, k2, k3, _, _⟩ := conf_log_frame st2 conf_msg.handler_message
        exact ⟨same_place_file _ _ (k2.trans g2) (k3.trans g3), fun _ => k2.trans g2⟩
  · have hne : ¬ last = NGX_OK := by
      rw [c2]
      decide
    cases hq : parse { st with ctx := st.ctx ++ [(st.cf.args, last)] } none with
    | none => rw [hq] at h; cases h
    | some r =>
      obtain ⟨rv, st2⟩ := r
      rw [hq] at h
      have hg := hb _ rv st2 hq
      simp only at h
      split_ifs at h
      · simp only [Option.some.injEq, Prod.mk.injEq] at h
        rw [← h.2]
        exact ⟨hg, fun e => absurd e hne⟩
      · simp only [Option.some.injEq, Prod.mk.injEq] at h
        rw [← h.2]
        exact ⟨hg, fun e => absurd e hne⟩
  · simp only [Option.some.injEq, Prod.mk.injEq] at h
    rw [← h.2]
    exact ⟨⟨rfl, rfl, rfl⟩, fun _ => rfl⟩

theorem parse_loop_place (env : conf_env) (parse : parse_fn directive_trace)
    (hp : parse_good parse)
    (hb : ∀ st rv st1, parse st none = some (rv, st1) → same_place st st1)
    (type : parse_type) (k : Nat) :
    ∀ (st st1 : parse_t directive_trace) (rc : Int),
      parse_loop (record_dispatch env) no_custom parse type k st = some (rc, st1) →
      same_place st st1 := by
  induction k with
  | zero => intro st st1 rc h; cases h
  | succ k ih =>
    intro st st1 rc h
    simp only [parse_loop] at h
    cases ht : ngx_conf_read_token st.cf with
    | none => rw [ht] at h; cases h
    | some r =>
      obtain ⟨rc0, cf1⟩ := r
      rw [ht] at h
      simp only at h
      obtain ⟨n1, n2⟩ := read_token_name st.cf cf1 rc0 ht
      have hrd : same_place st { st with cf := cf1 } := ⟨n1, n2, rfl⟩
      have hfin : ∀ (x : Int) (s : parse_t directive_trace),
          some (x, s) = some (rc, st1) → same_place st s → same_place st st1 := by
        intro x s e hs
        simp only [Option.some.injEq, Prod.mk.injEq] at e
        rw [← e.2]; exact hs
      have hlog : ∀ (m : conf_msg), same_place st (conf_log { st with cf := cf1 } m) :=
        fun m => same_place_trans _ _ _ hrd (same_place_log _ m)
      by_cases c1 : rc0 = NGX_ERROR
      · rw [if_pos c1] at h
        exact hfin _ _ h hrd
      rw [if_neg c1] at h
      by_cases c2 : rc0 = NGX_CONF_BLOCK_DONE
      · rw [if_pos c2] at h
        split_ifs at h
        · exact hfin _ _ h (hlog _)
        · exact hfin _ _ h hrd
      rw [if_neg c2] at h
      by_cases c3 : rc0 = NGX_CONF_FILE_DONE
      · rw [if_pos c3] at h
        split_ifs at h
        · exact hfin _ _ h (hlog _)
        · exact hfin _ _ h hrd
      rw [if_neg c3] at h
      by_cases c4 : rc0 = NGX_CONF_BLOCK_START ∧ type = .parse_param
      · rw [if_pos c4] at h
        exact hfin _ _ h (hlog _)
      rw [if_neg c4] at h
      cases hh : st.handler with
      | some hd =>
        rw [hh] at h
        simp only at h
        by_cases c5 : rc0 = NGX_CONF_BLOCK_START
        · rw [if_pos c5] at h
          have hrd2 : same_place st { st with cf := cf1, handler := some hd } := ⟨n1, n2, rfl⟩
          exact hfin _ _ h (same_place_trans _ _ _ hrd2 (same_place_log _ _))
        rw [if_neg c5] at h
        simp only [no_custom] at h
        rw [if_pos trivial] at h
        have hrd2 : same_place st { st with cf := cf1, handler := some hd } := ⟨n1, n2, rfl⟩
        exact hfin _ _ h hrd2
      | none =>
        rw [hh] at h
        simp only at h
        cases hd : record_dispatch env parse { st with cf := cf1, handler := none } rc0 with
        | none => rw [hd] at h; cases h
        | some r2 =>
          obtain ⟨rc2, st2⟩ := r2
          rw [hd] at h
          simp only at h
          have g := (record_dispatch_place env parse hp hb _ st2 rc0 rc2 hd).1
          have hrd2 : same_place st { st with cf := cf1, handler := none } := ⟨n1, n2, rfl⟩
          have g0 : same_place st st2 := same_place_trans _ _ _ hrd2 g
          by_cases c6 : rc2 = NGX_ERROR
          · rw [if_pos c6] at h
            exact hfin _ _ h g0
          rw [if_neg c6] at h
          exact same_place_trans _ _ _ g0 (ih st2 st1 rc h)

theorem conf_parse_unfold {σ : Type} (env : conf_env) (dispatch : dispatch_fn σ)
    (custom : custom_fn σ) (k : Nat) (st : parse_t σ) (name content : List Nat)
    (hf : env.files name = some content) :
    ngx_conf_parse env dispatch custom (k + 1) st (some name)
      = (parse_loop dispatch custom (fun s f => ngx_conf_parse env dispatch custom k s f)
          .parse_file (k + 1) (file_start env st name content)).map (file_finish st) := by
  simp only [ngx_conf_parse, hf, file_start, file_finish]
  cases parse_loop dispatch custom (fun s f => ngx_conf_parse env dispatch custom k s f)
      .parse_file (k + 1) _ with
  | none => rfl
  | some r => rfl

theorem conf_parse_restore {σ : Type} (env : conf_env) (dispatch : dispatch_fn σ)
    (custom : custom_fn σ) (fuel : Nat) (st st1 : parse_t σ) (name : List Nat) (rv : conf_rv)
    (h : ngx_conf_parse env dispatch custom fuel st (some name) = some (rv, st1)) :
    st1.cf.conf_file = st.cf.conf_file ∧ st1.conf_file_null = st.conf_file_null := by
  cases fuel with
  | zero => cases h
  | succ k =>
    cases hf : env.files name with
    | none =>
      simp only [ngx_conf_parse, hf, Option.some.injEq, Prod.mk.injEq] at h
      obtain ⟨_, c2, c3, _, _⟩ := conf_log_frame st conf_msg.open_failed
      rw [← h.2]
      exact ⟨c2, c3⟩
    | some content =>
      rw [conf_parse_unfold env dispatch custom k st name content hf] at h
      cases hl : parse_loop dispatch custom
          (fun s f => ngx_conf_parse env dispatch custom k s f) .parse_file (k + 1)
          (file_start env st name content) with
      | none => rw [hl] at h; cases h
      | some r =>
        rw [hl] at h
        simp only [Option.map_some', Option.some.injEq, file_finish, Prod.mk.injEq] at h
        rw [← h.2]
        exact ⟨rfl, rfl⟩

theorem conf_parse_place (env : conf_env) (fuel : Nat) :
    ∀ (st st1 : parse_t directive_trace) (fn : Option (List Nat)) (rv : conf_rv),
      ngx_conf_parse env (record_dispatch env) no_custom fuel st fn = some (rv, st1) →
      same_place st st1 := by
  induction fuel with
  | zero => intro st st1 fn rv h; cases h
  | succ k ih =>
    intro st st1 fn rv h
    cases fn with
    | some name =>
      obtain ⟨g1, g2⟩ := conf_parse_restore env _ _ _ st st1 name rv h
      exact same_place_file _ _ g1 g2
    | none =>
      simp only [ngx_conf_parse] at h
      cases hl : parse_loop (record_dispatch env) no_custom
          (fun s f => ngx_conf_parse env (record_dispatch env) no_custom k s f)
          (if st.cf.conf_file.fd_valid = true then parse_type.parse_block
            else parse_type.parse_param) (k + 1) st with
      | none => rw [hl] at h; cases h
      | some r =>
        obtain ⟨rc, s1⟩ := r
        rw [hl] at h
        simp only [Option.some.injEq, Prod.mk.injEq] at h
        rw [← h.2]
        exact parse_loop_place env _ (conf_parse_good env k) (fun s rv s1 hq => ih s s1 none rv hq)
          _ _ _ _ _ hl

theorem place_of_same {σ : Type} (st st1 : parse_t σ) (name : List Nat) (line : Nat)
    (h : same_place st st1) (hp : conf_log_place st = .file name line) :
    conf_log_place st1 = .file name st1.cf.conf_file.line := by
  unfold conf_log_place at hp ⊢
  obtain ⟨h1, h2, h3⟩ := h
  rw [h1, h2, h3]
  split_ifs at hp ⊢ with c1 c2
  simp only [log_place.file.injEq] at hp
  rw [hp.1]

theorem conf_log_entry {σ : Type} (st : parse_t σ) (m : conf_msg) :
    (conf_log st m).cf.log = st.cf.log ++ [⟨m, match conf_log_place st with
      | .file _ line => some line
      | _ => none⟩] := by
  unfold conf_log conf_log_place ngx_conf_log_error
  split_ifs <;> rfl

/-- C25: `ngx_conf_parse` called with a file name, whatever the handlers are, leaves
`cf->conf_file` as it was on entry whenever it returns, so that `ngx_conf_log_error`
names the same place as before the call; a file that cannot be opened gives
`NGX_CONF_ERROR` with the state of the entry and the message logged there. For a file
that can be opened the loop runs from a state in which `ngx_conf_log_error` names the
file and line 1, and the call ends by putting back `cf->conf_file`. While the file is
parsed (with the stand-in handlers, which parse blocks and included files),
`ngx_conf_log_error` names this file and the line counter of its own `cf->conf_file`:
after every call of `ngx_conf_read_token`, after every directive (an `include` directive
leaves the name and the counter as they were) and at the end of the loop; and the
model of `ngx_conf_log_error` logs the line of that place. -/
theorem conf_parse_conf_file (env : conf_env) (k : Nat) :
    (∀ (dispatch : dispatch_fn directive_trace) (custom : custom_fn directive_trace)
      (fuel : Nat) (st st1 : parse_t directive_trace) (name : List Nat) (rv : conf_rv),
      ngx_conf_parse env dispatch custom fuel st (some name) = some (rv, st1) →
      st1.cf.conf_file = st.cf.conf_file ∧ st1.conf_file_null = st.conf_file_null ∧
        conf_log_place st1 = conf_log_place st) ∧
    (∀ (st : parse_t directive_trace) (name : List Nat), env.files name = none →
      ngx_conf_parse env (record_dispatch env) no_custom (k + 1) st (some name)
        = some (.NGX_CONF_ERROR, conf_log st .open_failed)) ∧
    (∀ (st : parse_t directive_trace) (name content : List Nat),
      env.files name = some content →
      conf_log_place (file_start env st name content) = .file name 1 ∧
      ngx_conf_parse env (record_dispatch env) no_custom (k + 1) st (some name)
        = (parse_loop (record_dispatch env) no_custom
            (fun s f => ngx_conf_parse env (record_dispatch env) no_custom k s f)
            .parse_file (k + 1) (file_start env st name content)).map (file_finish st)) ∧
    (∀ (type : parse_type) (fuel : Nat) (st st1 : parse_t directive_trace) (rc : Int)
      (name : List Nat) (line : Nat), conf_log_place st = .file name line →
      parse_loop (record_dispatch env) no_custom
        (fun s f => ngx_conf_parse env (record_dispatch env) no_custom k s f) type fuel st
        = some (rc, st1) →
      conf_log_place st1 = .file name st1.cf.conf_file.line) ∧
    (∀ (st : parse_t directive_trace) (rc : Int) (cf1 : ngx_conf_t) (name : List Nat)
      (line : Nat), conf_log_place st = .file name line →
      ngx_conf_read_token st.cf = some (rc, cf1) →
      conf_log_place { st with cf := cf1 } = .file name cf1.conf_file.line) ∧
    (∀ (st st2 : parse_t directive_trace) (last rc2 : Int) (name : List Nat) (line : Nat),
      conf_log_place st = .file name line →
      record_dispatch env (fun s f => ngx_conf_parse env (record_dispatch env) no_custom k s f)
        st last = some (rc2, st2) →
      conf_log_place st2 = .file name st2.cf.conf_file.line ∧
        (last = NGX_OK → st2.cf.conf_file.line = line)) ∧
    (∀ (st : parse_t directive_trace) (m : conf_msg) (name : List Nat) (line : Nat),
      conf_log_place st = .file name line →
      (conf_log st m).cf.log = st.cf.log ++ [⟨m, some line⟩]) := by
  have hb : ∀ (st : parse_t directive_trace) (rv : conf_rv) (st1 : parse_t directive_trace),
      ngx_conf_parse env (record_dispatch env) no_custom k st none = some (rv, st1) →
      same_place st st1 := fun st rv st1 h => conf_parse_place env k st st1 none rv h
  refine ⟨?_, ?_, ?_, ?_, ?_, ?_, ?_⟩
  · intro dispatch custom fuel st st1 name rv h
    obtain ⟨g1, g2⟩ := conf_parse_restore env dispatch custom fuel st st1 name rv h
    refine ⟨g1, g2, ?_⟩
    unfold conf_log_place
    rw [g1, g2]
  · intro st name hf
    simp only [ngx_conf_parse, hf]
  · intro st name content hf
    refine ⟨?_, conf_parse_unfold env _ _ k st name content hf⟩
    simp [conf_log_place, file_start]
  · intro type fuel st st1 rc name line hp h
    exact place_of_same st st1 name line
      (parse_loop_place env _ (conf_parse_good env k) hb type fuel st st1 rc h) hp
  · intro st rc cf1 name line hp h
    obtain ⟨n1, n2⟩ := read_token_name st.cf cf1 rc h
    exact place_of_same st { st with cf := cf1 } name line ⟨n1, n2, rfl⟩ hp
  · intro st st2 last rc2 name line hp h
    obtain ⟨g1, g2⟩ := record_dispatch_place env _ (conf_parse_good env k) hb st st2 last rc2 h
    refine ⟨place_of_same st st2 name line g1 hp, ?_⟩
    intro hl
    rw [g2 hl]
    unfold conf_log_place at hp
    split_ifs at hp
    simp only [log_place.file.injEq] at hp
    exact hp.2
  · intro st m name line hp
    rw [conf_log_entry, hp]

theorem conf_parse_conf_file_witness :
    ∃ rv st1, ngx_conf_parse include_env (record_dispatch include_env) no_custom 5 init_state
        (some (bytes "m")) = some (rv, st1) ∧
      st1.cf.conf_file = init_state.cf.conf_file ∧
      st1.conf_file_null = init_state.conf_file_null ∧
      conf_log_place st1 = conf_log_place init_state := by
  have h : (ngx_conf_parse include_env (record_dispatch include_env) no_custom 5 init_state
      (some (bytes "m"))).isSome = true := by
    decide
  obtain ⟨⟨rv, st1⟩, hr⟩ := Option.isSome_iff_exists.mp h
  exact ⟨rv, st1, hr, (conf_parse_conf_file include_env 0).1 _ _ 5 _ _ _ _ hr⟩

/-! ### C29, C30: `ngx_conf_handler` -/

theorem command_step_spec {σ : Type} (fl : conf_flags) (mt ct : Nat) (m : ngx_module_t σ)
    (cmd : ngx_command_t σ) (parse : parse_fn σ) (st : parse_t σ) (last : Int) (found : Bool) :
    command_step fl mt ct m cmd parse st last found
      = if cmd_matches fl mt ct st (m, cmd) then .ret (run_command fl m cmd parse st last)
        else .next (found || name_matches st (m, cmd)) := by
  unfold command_step cmd_matches name_matches
  simp only
  generalize st.cf.args.getD 0 [] = name
  by_cases h1 : name.length ≠ cmd.name.length
  · have h2 : ¬ cmd.name = name := fun e => h1 (by rw [e])
    simp [h1, h2]
  · rw [if_neg h1]
    by_cases h2 : name ≠ cmd.name
    · have h3 : ¬ cmd.name = name := fun e => h2 e.symm
      simp [h2, h3]
    · rw [if_neg h2]
      have h3 : cmd.name = name := (not_not.mp h2).symm
      by_cases h4 : m.type ≠ fl.NGX_CONF_MODULE ∧ m.type ≠ mt
      · rw [if_pos h4]
        simp [h3, h4.1, h4.2]
      · rw [if_neg h4]
        have h5 : m.type = fl.NGX_CONF_MODULE ∨ m.type = mt := by
          by_cases e : m.type = fl.NGX_CONF_MODULE
          · exact Or.inl e
          · right
            by_contra e2
            exact h4 ⟨e, e2⟩
        by_cases h6 : cmd.type &&& ct = 0
        · rw [if_pos h6]
          simp [h3, h6]
        · rw [if_neg h6]
          simp [h3, h5, h6]

theorem commands_loop_spec {σ : Type} (fl : conf_flags) (mt ct : Nat) (m : ngx_module_t σ)
    (parse : parse_fn σ) (st : parse_t σ) (last : Int) (cmds : List (ngx_command_t σ)) :
    ∀ found : Bool,
      commands_loop fl mt ct m parse st last cmds found
        = match ((cmds.takeWhile (fun c => c.name.length != 0)).map (fun c => (m, c))).find?
              (cmd_matches fl mt ct st) with
          | some mc => .ret (run_command fl mc.1 mc.2 parse st last)
          | none => .next (found ||
              ((cmds.takeWhile (fun c => c.name.length != 0)).map (fun c => (m, c))).any
                (name_matches st)) := by
  induction cmds with
  | nil => intro found; simp [commands_loop]
  | cons c rest ih =>
    intro found
    simp only [commands_loop]
    by_cases h0 : c.name.length = 0
    · simp [h0, List.takeWhile]
    · rw [if_neg h0, command_step_spec]
      have h1 : (c.name.length != 0) = true := by simpa using h0
      simp only [List.takeWhile, h1, List.map_cons, List.find?_cons, List.any_cons]
      by_cases hm : cmd_matches fl mt ct st (m, c) = true
      · simp only [hm, if_true]
      · have hm2 : cmd_matches fl mt ct st (m, c) = false := by simpa using hm
        simp only [hm2, Bool.false_eq_true, if_false]
        rw [ih]
        cases ((rest.takeWhile (fun c => c.name.length != 0)).map (fun c => (m, c))).find?
            (cmd_matches fl mt ct st) with
        | none => simp only [Bool.or_assoc]
        | some mc => rfl

theorem modules_loop_spec {σ : Type} (fl : conf_flags) (mt ct : Nat) (parse : parse_fn σ)
    (st : parse_t σ) (last : Int) (ms : List (ngx_module_t σ)) :
    ∀ found : Bool,
      modules_loop fl mt ct parse st last ms found
        = match (all_commands ms).find? (cmd_matches fl mt ct st) with
          | some mc => run_command fl mc.1 mc.2 parse st last
          | none =>
            if (found || (all_commands ms).any (name_matches st)) = true then
              some (NGX_ERROR, conf_log st (.not_allowed (st.cf.args.getD 0 [])))
            else some (NGX_ERROR, conf_log st (.unknown_directive (st.cf.args.getD 0 []))) := by
  induction ms with
  | nil =>
    intro found
    cases found <;> simp [modules_loop, all_commands]
  | cons m rest ih =>
    intro found
    obtain ⟨idx, cidx, ty, mcmds⟩ := m
    simp only [modules_loop, all_commands]
    cases mcmds with
    | none =>
      simp only [List.nil_append]
      exact ih found
    | some cmds =>
      simp only [List.find?_append, List.any_append]
      rw [commands_loop_spec]
      generalize (List.map (fun c => ((⟨idx, cidx, ty, some cmds⟩ : ngx_module_t σ), c))
        (cmds.takeWhile (fun c => c.name.length != 0))) = L
      cases hf : L.find? (cmd_matches fl mt ct st) with
      | some mc => rfl
      | none =>
        simp only [Option.none_or]
        rw [ih]
        simp only [Bool.or_assoc]

theorem char_act_tail_stop_ok (l : token_locals) (n : Bool) (line ch : Nat) (rc : Int)
    (h : char_act_tail l n line ch = .stop rc)
    (hrc : rc = NGX_OK ∨ rc = NGX_CONF_BLOCK_START) : n = false := by
  cases n
  · rfl
  · exfalso
    simp only [char_act_tail] at h
    split_ifs at h
    cases h
    rcases hrc with e | e <;> exact absurd e (by decide)

theorem char_act_stop_ok (l : token_locals) (n : Bool) (line ch : Nat) (rc : Int)
    (h : char_act l n line ch = .stop rc)
    (hrc : rc = NGX_OK ∨ rc = NGX_CONF_BLOCK_START) : l.need_space = true ∨ n = false := by
  cases hns : l.need_space
  · right
    obtain ⟨ns, ls, sc, v, q, sq, dq, st, sl⟩ := l
    simp only at hns
    subst hns
    simp only [char_act] at h
    split_ifs at h <;> first
      | exact char_act_tail_stop_ok _ _ _ _ _ h hrc
      | (cases h; contradiction)
  · left
    rfl

theorem scan_ok_args (g fdv : Bool) (s : List Nat) :
    ∀ (l : token_locals) (tok : List Nat) (line : Nat) (args : List (List Nat)),
      flags_ok l → (l.need_space = true → args ≠ []) →
      ((scan g fdv s l tok line args).rc = NGX_OK ∨
        (scan g fdv s l tok line args).rc = NGX_CONF_BLOCK_START) →
      (scan g fdv s l tok line args).args ≠ [] := by
  induction s with
  | nil =>
    intro l tok line args _ _ h
    simp only [scan] at h
    split_ifs at h <;> simp [NGX_ERROR, NGX_OK, NGX_CONF_BLOCK_START, NGX_CONF_FILE_DONE] at h
  | cons ch s ih =>
    intro l tok line args hl hn h
    by_cases hg : g = true ∧ tok.length = NGX_CONF_BUFFER
    · simp [scan, hg, NGX_ERROR, NGX_OK, NGX_CONF_BLOCK_START] at h
    · simp only [scan, hg, if_false] at h ⊢
      have hf := char_act_flags l (decide (args.length = 0)) (if ch = LF then line + 1 else line)
        ch hl
      cases hact : char_act l (decide (args.length = 0)) (if ch = LF then line + 1 else line) ch with
      | go l1 m =>
        rw [hact] at h hf
        simp only at h ⊢
        simp only [act_flags] at hf
        exact ih l1 _ _ args hf.1 (fun e => by rw [hf.2] at e; exact absurd e (by decide)) h
      | word l1 =>
        rw [hact] at h hf
        simp only at h ⊢
        simp only [act_flags] at hf
        by_cases h1 : ch = SEMI
        · simp only [h1, if_true]
          simp
        · by_cases h2 : ch = LBRACE
          · simp only [h1, h2, if_true, if_false]
            simp
          · simp only [h1, h2, if_false] at h ⊢
            exact ih l1 _ _ _ hf.1 (fun _ => by simp) h
      | stop rc =>
        rw [hact] at h
        simp only at h ⊢
        rcases char_act_stop_ok l _ _ ch rc hact h with e | e
        · exact hn e
        · intro ha
          rw [ha] at e
          simp at e
      | fail m =>
        rw [hact] at h
        simp [NGX_ERROR, NGX_OK, NGX_CONF_BLOCK_START] at h

/-- A call of `ngx_conf_read_token` that returns `NGX_OK` or `NGX_CONF_BLOCK_START` has
stored at least one word, the name of the directive. -/
theorem read_token_args_ne (g : Bool) (cf cf1 : ngx_conf_t) (rc : Int) (hok : conf_ok g cf)
    (h : ngx_conf_read_token cf = some (rc, cf1))
    (hrc : rc = NGX_OK ∨ rc = NGX_CONF_BLOCK_START) : cf1.args ≠ [] := by
  obtain ⟨c1, e1, a1⟩ := read_token_scan g cf hok
  rw [h] at e1
  simp only [Option.some.injEq, Prod.mk.injEq] at e1
  obtain ⟨e1a, e1b⟩ := e1
  subst e1b
  rw [a1.1]
  apply scan_ok_args
  · simp [flags_ok, token_init]
  · intro e
    simp [token_init] at e
  · rw [← e1a]
    exact hrc

theorem check_args_spec (fl : conf_flags) (hmax : fl.NGX_CONF_MAX_ARGS ≤ 8) (type nelts : Nat)
    (h1 : 1 ≤ nelts) :
    (args_ok fl type (nelts - 1) → check_args fl type nelts = .ok) ∧
    (¬ args_ok fl type (nelts - 1) → check_args fl type nelts = .invalid) := by
  unfold check_args args_ok
  by_cases c0 : type &&& fl.NGX_CONF_ANY ≠ 0
  · simp only [if_pos c0]
    exact ⟨fun _ => trivial, fun h => absurd (Or.inl c0) h⟩
  have c0e : type &&& fl.NGX_CONF_ANY = 0 := not_not.mp c0
  simp only [if_neg c0]
  have hor : ∀ p : Prop, (type &&& fl.NGX_CONF_ANY ≠ 0 ∨ type &&& fl.NGX_CONF_ANY = 0 ∧ p) ↔ p :=
    fun p => ⟨fun h => h.elim (fun e => absurd e c0) (fun e => e.2), fun h => Or.inr ⟨c0e, h⟩⟩
  rw [hor]
  by_cases c1 : type &&& fl.NGX_CONF_FLAG ≠ 0
  · simp only [if_pos c1]
    by_cases e : nelts ≠ 2
    · simp only [if_pos e]
      exact ⟨fun h => absurd (by omega) e, fun _ => trivial⟩
    · simp only [if_neg e]
      exact ⟨fun _ => trivial, fun h => absurd (by omega) h⟩
  simp only [if_neg c1]
  by_cases c2 : type &&& fl.NGX_CONF_1MORE ≠ 0
  · simp only [if_pos c2]
    by_cases e : nelts < 2
    · simp only [if_pos e]
      exact ⟨fun h => absurd e (by omega), fun _ => trivial⟩
    · simp only [if_neg e]
      exact ⟨fun _ => trivial, fun h => absurd (by omega) h⟩
  simp only [if_neg c2]
  by_cases c3 : type &&& fl.NGX_CONF_2MORE ≠ 0
  · simp only [if_pos c3]
    by_cases e : nelts < 3
    · simp only [if_pos e]
      exact ⟨fun h => absurd e (by omega), fun _ => trivial⟩
    · simp only [if_neg e]
      exact ⟨fun _ => trivial, fun h => absurd (by omega) h⟩
  simp only [if_neg c3]
  by_cases c4 : nelts > fl.NGX_CONF_MAX_ARGS
  · simp only [if_pos c4]
    exact ⟨fun h => absurd h.1 (by omega), fun _ => trivial⟩
  simp only [if_neg c4]
  have hi : (nelts + (2 ^ 64 - 1)) % 2 ^ 64 = nelts - 1 := by omega
  rw [hi]
  have hk : nelts - 1 < 8 := by omega
  have hlen : nelts - 1 < (argument_number fl).length := by
    simpa [argument_number] using hk
  have he : [fl.NGX_CONF_NOARGS, fl.NGX_CONF_TAKE1, fl.NGX_CONF_TAKE2, fl.NGX_CONF_TAKE3,
      fl.NGX_CONF_TAKE4, fl.NGX_CONF_TAKE5, fl.NGX_CONF_TAKE6, fl.NGX_CONF_TAKE7][nelts - 1]?
      = some ((argument_number fl)[nelts - 1]) := List.getElem?_eq_getElem hlen
  rw [List.getElem?_eq_getElem hlen, he]
  simp only
  by_cases c5 : type &&& (argument_number fl)[nelts - 1] = 0
  · simp only [if_pos c5]
    refine ⟨fun h => ?_, fun _ => trivial⟩
    obtain ⟨_, a, ha, hb⟩ := h
    simp only [Option.some.injEq] at ha
    rw [← ha] at hb
    exact absurd c5 hb
  · simp only [if_neg c5]
    exact ⟨fun _ => trivial, fun h => absurd ⟨by omega, _, rfl, c5⟩ h⟩

/-- C29: with at most 8 for `NGX_CONF_MAX_ARGS`, and for `nelts ≥ 1` words, the name of
the directive included, as after every call of `ngx_conf_read_token` that returns
`NGX_OK` or `NGX_CONF_BLOCK_START`: the check of the argument count never reads outside
the 8-entry table `argument_number`; it succeeds if and only if the type has
`NGX_CONF_ANY`, or else with `NGX_CONF_FLAG` there is exactly one argument, or else with
`NGX_CONF_1MORE` at least one, or else with `NGX_CONF_2MORE` at least two, or else there
are at most `NGX_CONF_MAX_ARGS` words and the type has the bit `NGX_CONF_TAKEk` for the
number `k` of arguments; and in every other case `ngx_conf_handler`, for a command whose
terminator is right, logs the error and returns `NGX_ERROR` without calling the
setter. -/
theorem conf_handler_arg_count (fl : conf_flags) (hmax : fl.NGX_CONF_MAX_ARGS ≤ 8)
    (type nelts : Nat) (h1 : 1 ≤ nelts) :
    check_args fl type nelts ≠ .out_of_table ∧
    (check_args fl type nelts = .ok ↔ args_ok fl type (nelts - 1)) ∧
    (check_args fl type nelts = .invalid ↔ ¬ args_ok fl type (nelts - 1)) ∧
    (∀ (m : ngx_module_t directive_trace) (cmd : ngx_command_t directive_trace)
      (parse : parse_fn directive_trace) (st : parse_t directive_trace) (last : Int),
      cmd.type = type → st.cf.args.length = nelts →
      ¬ (cmd.type &&& fl.NGX_CONF_BLOCK = 0 ∧ last ≠ NGX_OK) →
      ¬ (cmd.type &&& fl.NGX_CONF_BLOCK ≠ 0 ∧ last ≠ NGX_CONF_BLOCK_START) →
      ¬ args_ok fl type (nelts - 1) →
      run_command fl m cmd parse st last
        = some (NGX_ERROR, conf_log st (.invalid_arguments (st.cf.args.getD 0 [])))) ∧
    (∀ (g : Bool) (cf cf1 : ngx_conf_t) (rc : Int), conf_ok g cf →
      ngx_conf_read_token cf = some (rc, cf1) → rc = NGX_OK ∨ rc = NGX_CONF_BLOCK_START →
      1 ≤ cf1.args.length) := by
  obtain ⟨s1, s2⟩ := check_args_spec fl hmax type nelts h1
  refine ⟨?_, ?_, ?_, ?_, ?_⟩
  · by_cases h : args_ok fl type (nelts - 1)
    · rw [s1 h]
      decide
    · rw [s2 h]
      decide
  · constructor
    · intro h
      by_contra hn
      rw [s2 hn] at h
      exact absurd h (by decide)
    · exact s1
  · constructor
    · intro h hn
      rw [s1 hn] at h
      exact absurd h (by decide)
    · exact s2
  · intro m cmd parse st last ht hl t1 t2 hn
    unfold run_command
    simp only
    rw [if_neg t1, if_neg t2, ht, hl, s2 hn]
  · intro g cf cf1 rc hok h hrc
    have hne := read_token_args_ne g cf cf1 rc hok h hrc
    cases hc : cf1.args with
    | nil => exact absurd hc hne
    | cons a l => simp

theorem conf_handler_arg_count_witness :
    check_args nginx_flags (0x01000000 ||| 0x00010000 ||| 0x00000002) 3 ≠ .out_of_table ∧
    (check_args nginx_flags (0x01000000 ||| 0x00010000 ||| 0x00000002) 3 = .ok ↔
      args_ok nginx_flags (0x01000000 ||| 0x00010000 ||| 0x00000002) (3 - 1)) ∧
    check_args nginx_flags (0x01000000 ||| 0x00010000 ||| 0x00000002) 3 = .invalid :=
  have h := conf_handler_arg_count nginx_flags (by decide)
    (0x01000000 ||| 0x00010000 ||| 0x00000002) 3 (by decide)
  ⟨h.1, h.2.1, by decide⟩

theorem run_command_ok {σ : Type} (fl : conf_flags) (m : ngx_module_t σ)
    (cmd : ngx_command_t σ) (parse : parse_fn σ) (st st1 : parse_t σ) (last : Int)
    (h : run_command fl m cmd parse st last = some (NGX_OK, st1)) :
    ∃ conf, cmd.set conf parse st = some (.NGX_CONF_OK, st1) := by
  unfold run_command at h
  simp only at h
  generalize (if cmd.type &&& fl.NGX_DIRECT_CONF ≠ 0 then conf_ref.direct m.index
    else if cmd.type &&& fl.NGX_MAIN_CONF ≠ 0 then conf_ref.main m.index
    else conf_ref.context cmd.conf m.ctx_index) = conf at h
  by_cases c1 : cmd.type &&& fl.NGX_CONF_BLOCK = 0 ∧ last ≠ NGX_OK
  · rw [if_pos c1] at h
    simp only [Option.some.injEq, Prod.mk.injEq] at h
    exact absurd h.1 (by decide)
  rw [if_neg c1] at h
  by_cases c2 : cmd.type &&& fl.NGX_CONF_BLOCK ≠ 0 ∧ last ≠ NGX_CONF_BLOCK_START
  · rw [if_pos c2] at h
    simp only [Option.some.injEq, Prod.mk.injEq] at h
    exact absurd h.1 (by decide)
  rw [if_neg c2] at h
  cases hc : check_args fl cmd.type st.cf.args.length with
  | out_of_table => rw [hc] at h; cases h
  | invalid =>
    rw [hc] at h
    simp only [Option.some.injEq, Prod.mk.injEq] at h
    exact absurd h.1 (by decide)
  | ok =>
    rw [hc] at h
    simp only at h
    cases hs : cmd.set conf parse st with
    | none => rw [hs] at h; cases h
    | some r =>
      obtain ⟨rv, s2⟩ := r
      rw [hs] at h
      simp only at h
      refine ⟨conf, ?_⟩
      rw [hs]
      by_cases d1 : rv = .NGX_CONF_OK
      · rw [if_pos d1] at h
        simp only [Option.some.injEq, Prod.mk.injEq] at h
        rw [d1, h.2]
      · rw [if_neg d1] at h
        by_cases d2 : rv = .NGX_CONF_ERROR
        · rw [if_pos d2] at h
          simp only [Option.some.injEq, Prod.mk.injEq] at h
          exact absurd h.1 (by decide)
        · rw [if_neg d2] at h
          simp only [Option.some.injEq, Prod.mk.injEq] at h
          exact absurd h.1 (by decide)

/-- C30: `ngx_conf_handler` is the dispatch to the first command of the module table, in
the order of the modules and of their command arrays, whose name is that of the
directive, whose module has the type `NGX_CONF_MODULE` or `cf->module_type` and whose
type has a bit of `cf->cmd_type`. For such a command it returns `NGX_ERROR` with the
state it was called in, but for the line logged, hence without a call of the setter,
when the command is not a block and the directive does not end with `;`, and when it is
a block and the directive does not end with an opening brace. When no command matches
it logs "is not allowed here" if a command has the name and "unknown directive" if none
has, and returns `NGX_ERROR`. It returns `NGX_OK` only if the setter of the first
matching command was called and returned `NGX_CONF_OK`. -/
theorem conf_handler_dispatch (fl : conf_flags) (modules : List (ngx_module_t directive_trace))
    (module_type cmd_type : parse_t directive_trace → Nat) (parse : parse_fn directive_trace)
    (st : parse_t directive_trace) (last : Int) :
    ngx_conf_handler fl modules module_type cmd_type parse st last
      = dispatch_first fl modules module_type cmd_type parse st last ∧
    (∀ (m : ngx_module_t directive_trace) (cmd : ngx_command_t directive_trace),
      (cmd.type &&& fl.NGX_CONF_BLOCK = 0 → last ≠ NGX_OK →
        run_command fl m cmd parse st last
          = some (NGX_ERROR, conf_log st (.not_terminated (st.cf.args.getD 0 [])))) ∧
      (cmd.type &&& fl.NGX_CONF_BLOCK ≠ 0 → last ≠ NGX_CONF_BLOCK_START →
        run_command fl m cmd parse st last
          = some (NGX_ERROR, conf_log st (.no_opening (st.cf.args.getD 0 []))))) ∧
    ((all_commands modules).find? (cmd_matches fl (module_type st) (cmd_type st) st) = none →
      ∃ msg, ngx_conf_handler fl modules module_type cmd_type parse st last
          = some (NGX_ERROR, conf_log st msg) ∧
        (msg = .not_allowed (st.cf.args.getD 0 []) ∨
          msg = .unknown_directive (st.cf.args.getD 0 []))) ∧
    (∀ st1, ngx_conf_handler fl modules module_type cmd_type parse st last = some (NGX_OK, st1) →
      ∃ mc conf,
        (all_commands modules).find? (cmd_matches fl (module_type st) (cmd_type st) st)
          = some mc ∧
        mc.2.set conf parse st = some (.NGX_CONF_OK, st1)) := by
  have he : ngx_conf_handler fl modules module_type cmd_type parse st last
      = dispatch_first fl modules module_type cmd_type parse st last := by
    unfold ngx_conf_handler dispatch_first
    rw [modules_loop_spec]
    simp only [Bool.false_or]
  refine ⟨he, ?_, ?_, ?_⟩
  · intro m cmd
    constructor
    · intro h1 h2
      unfold run_command
      simp only
      rw [if_pos ⟨h1, h2⟩]
    · intro h1 h2
      unfold run_command
      simp only
      rw [if_neg (fun c => h1 c.1), if_pos ⟨h1, h2⟩]
  · intro hn
    rw [he]
    unfold dispatch_first
    rw [hn]
    simp only
    split_ifs
    · exact ⟨_, rfl, Or.inl rfl⟩
    · exact ⟨_, rfl, Or.inr rfl⟩
  · intro st1 h
    rw [he] at h
    unfold dispatch_first at h
    cases hf : (all_commands modules).find?
        (cmd_matches fl (module_type st) (cmd_type st) st) with
    | none =>
      rw [hf] at h
      simp only at h
      split_ifs at h <;> simp only [Option.some.injEq, Prod.mk.injEq] at h <;>
        exact absurd h.1 (by decide)
    | some mc =>
      rw [hf] at h
      simp only at h
      obtain ⟨conf, hc⟩ := run_command_ok fl mc.1 mc.2 parse st st1 last h
      exact ⟨mc, conf, rfl, hc⟩

theorem conf_handler_dispatch_witness :
    (∃ st1, ngx_conf_handler nginx_flags example_modules (fun _ => 0x45524F43)
        (fun _ => 0x01000000) (fun _ _ => none)
        (directive_state [bytes "daemon", bytes "off"]) NGX_CONF_BLOCK_START
      = some (NGX_ERROR, st1)) ∧
    (∃ mc conf, (all_commands example_modules).find?
        (cmd_matches nginx_flags 0x45524F43 0x01000000
          (directive_state [bytes "include", bytes "mime.types"])) = some mc ∧
      mc.2.set conf (fun _ _ => none) (directive_state [bytes "include", bytes "mime.types"])
        = some (.NGX_CONF_OK,
            { directive_state [bytes "include", bytes "mime.types"] with
              ctx := [([bytes "include", bytes "mime.types"], NGX_OK)] })) :=
  have h1 := conf_handler_dispatch nginx_flags example_modules (fun _ => 0x45524F43)
    (fun _ => 0x01000000) (fun _ _ => none) (directive_state [bytes "daemon", bytes "off"])
    NGX_CONF_BLOCK_START
  have h2 := conf_handler_dispatch nginx_flags example_modules (fun _ => 0x45524F43)
    (fun _ => 0x01000000) (fun _ _ => none)
    (directive_state [bytes "include", bytes "mime.types"]) NGX_OK
  ⟨⟨_, h1.1.trans (by rfl)⟩, h2.2.2.2 _ (by rfl)⟩

/-! ### C33: `ngx_conf_check_num_bounds` -/

/-- Claim C33: `ngx_conf_check_num_bounds` returns `NGX_CONF_OK` if and only if the value
is at least `low` and, when `high` is not -1, also at most `high`; otherwise it returns
`NGX_CONF_ERROR`; the value is the same after the call. -/
theorem check_num_bounds_spec (bounds : ngx_conf_num_bounds_t) (np : Int) :
    ((ngx_conf_check_num_bounds bounds np).rv = slot_rv.NGX_CONF_OK ↔
      bounds.low ≤ np ∧ (bounds.high ≠ -1 → np ≤ bounds.high)) ∧
    ((ngx_conf_check_num_bounds bounds np).rv ≠ slot_rv.NGX_CONF_OK →
      (ngx_conf_check_num_bounds bounds np).rv = slot_rv.NGX_CONF_ERROR) ∧
    (ngx_conf_check_num_bounds bounds np).field = np := by
  unfold ngx_conf_check_num_bounds
  by_cases h : bounds.high = -1
  · rw [if_pos h]
    by_cases h1 : np ≥ bounds.low
    · rw [if_pos h1]
      exact ⟨⟨fun _ => ⟨h1, fun c => absurd h c⟩, fun _ => rfl⟩, fun c => absurd rfl c, rfl⟩
    · rw [if_neg h1]
      exact ⟨⟨fun c => (by cases c), fun c => absurd c.1 h1⟩, fun _ => rfl, rfl⟩
  · rw [if_neg h]
    by_cases h1 : np ≥ bounds.low ∧ np ≤ bounds.high
    · rw [if_pos h1]
      exact ⟨⟨fun _ => ⟨h1.1, fun _ => h1.2⟩, fun _ => rfl⟩, fun c => absurd rfl c, rfl⟩
    · rw [if_neg h1]
      exact ⟨⟨fun c => (by cases c), fun c => absurd ⟨c.1, c.2 h⟩ h1⟩, fun _ => rfl, rfl⟩

/-! ### C31: `ngx_conf_set_flag_slot` -/

theorem c_str_no_nul (s : List Nat) (h : 0 ∉ s) : c_str s = s := by
  unfold c_str
  rw [List.takeWhile_eq_self_iff]
  intro c hc
  have : c ≠ 0 := fun e => h (e ▸ hc)
  simpa using this

/-- Claim C31, where it fails: the argument of `daemon on\0x;` has the four bytes `on`,
NUL, `x` and is not `on` in any case of its letters, yet with an unset field the function
stores 1 and returns `NGX_CONF_OK`: the comparison ends at the NUL byte. -/
theorem set_flag_slot_nul :
    (ngx_conf_set_flag_slot none (bytes "daemon") NGX_CONF_UNSET
      [bytes "daemon", bytes "on" ++ [0, 120]]).rv = slot_rv.NGX_CONF_OK ∧
    (ngx_conf_set_flag_slot none (bytes "daemon") NGX_CONF_UNSET
      [bytes "daemon", bytes "on" ++ [0, 120]]).field = 1 ∧
    (bytes "on" ++ [0, 120]).map ngx_tolower ≠ bytes "on" := by
  decide

/-- Claim C31, amended: `ngx_conf_set_flag_slot` with a field that is already set returns
`"is duplicate"`; with an unset field it stores 1 for an argument whose bytes in front of
its first NUL byte are `on` and 0 when they are `off`, compared without regard to case,
and returns `NGX_CONF_ERROR` for every other argument; in both failure cases the field is
left as it was. Without a post handler (as for `daemon` and `master_process`) the field
is 1 after the call exactly for such an `on` and 0 exactly for such an `off`; with one,
the handler is given the stored field. An argument without a NUL byte is compared as a
whole. -/
theorem set_flag_slot_spec (post : Option (Int → slot_rv × Int)) (name : List Nat)
    (fp : Int) (args : List (List Nat)) :
    (fp ≠ NGX_CONF_UNSET →
      (ngx_conf_set_flag_slot post name fp args).rv = slot_rv.message "is duplicate" ∧
      (ngx_conf_set_flag_slot post name fp args).field = fp) ∧
    (fp = NGX_CONF_UNSET →
      ((c_str (args.getD 1 [])).map ngx_tolower = bytes "on" →
        (ngx_conf_set_flag_slot none name fp args).rv = slot_rv.NGX_CONF_OK ∧
        ∀ h, (ngx_conf_set_flag_slot (some h) name fp args).rv = (h 1).1 ∧
          (ngx_conf_set_flag_slot (some h) name fp args).field = (h 1).2) ∧
      ((c_str (args.getD 1 [])).map ngx_tolower = bytes "off" →
        (ngx_conf_set_flag_slot none name fp args).rv = slot_rv.NGX_CONF_OK ∧
        ∀ h, (ngx_conf_set_flag_slot (some h) name fp args).rv = (h 0).1 ∧
          (ngx_conf_set_flag_slot (some h) name fp args).field = (h 0).2) ∧
      (((ngx_conf_set_flag_slot none name fp args).field = 1 ↔
        (c_str (args.getD 1 [])).map ngx_tolower = bytes "on") ∧
       ((ngx_conf_set_flag_slot none name fp args).field = 0 ↔
        (c_str (args.getD 1 [])).map ngx_tolower = bytes "off")) ∧
      ((c_str (args.getD 1 [])).map ngx_tolower ≠ bytes "on" →
        (c_str (args.getD 1 [])).map ngx_tolower ≠ bytes "off" →
        (ngx_conf_set_flag_slot post name fp args).rv = slot_rv.NGX_CONF_ERROR ∧
        (ngx_conf_set_flag_slot post name fp args).field = fp)) ∧
    (0 ∉ args.getD 1 [] → c_str (args.getD 1 []) = args.getD 1 []) := by
  have hon : ∀ v : List Nat, ngx_strcasecmp v (bytes "on") = true ↔
      (c_str v).map ngx_tolower = bytes "on" := by
    intro v
    unfold ngx_strcasecmp
    rw [beq_iff_eq, show (c_str (bytes "on")).map ngx_tolower = bytes "on" by decide]
  have hoff : ∀ v : List Nat, ngx_strcasecmp v (bytes "off") = true ↔
      (c_str v).map ngx_tolower = bytes "off" := by
    intro v
    unfold ngx_strcasecmp
    rw [beq_iff_eq, show (c_str (bytes "off")).map ngx_tolower = bytes "off" by decide]
  have hne : bytes "on" ≠ bytes "off" := by decide
  refine ⟨fun h => ?_, fun h => ?_, c_str_no_nul _⟩
  · unfold ngx_conf_set_flag_slot
    rw [if_pos h]
    exact ⟨rfl, rfl⟩
  · have hu : ¬ fp ≠ NGX_CONF_UNSET := fun c => c h
    generalize hv : args.getD 1 [] = v
    have e : ∀ post, ngx_conf_set_flag_slot post name fp args =
        if ngx_strcasecmp v (bytes "on") then
          match post with
          | some post_handler => ⟨(post_handler 1).1, (post_handler 1).2, []⟩
          | none => ⟨slot_rv.NGX_CONF_OK, 1, []⟩
        else if ngx_strcasecmp v (bytes "off") then
          match post with
          | some post_handler => ⟨(post_handler 0).1, (post_handler 0).2, []⟩
          | none => ⟨slot_rv.NGX_CONF_OK, 0, []⟩
        else ⟨slot_rv.NGX_CONF_ERROR, fp, [slot_msg.flag_invalid v name]⟩ := by
      intro post
      unfold ngx_conf_set_flag_slot
      rw [if_neg hu, hv]
    by_cases c1 : (c_str v).map ngx_tolower = bytes "on"
    · have b1 := (hon v).2 c1
      have c2 : (c_str v).map ngx_tolower ≠ bytes "off" := by rw [c1]; exact hne
      have e1 : ∀ post, ngx_conf_set_flag_slot post name fp args =
          match post with
          | some post_handler => ⟨(post_handler 1).1, (post_handler 1).2, []⟩
          | none => ⟨slot_rv.NGX_CONF_OK, 1, []⟩ := by
        intro post; rw [e, b1]; rfl
      rw [e1 none]
      refine ⟨fun _ => ⟨rfl, fun h => by rw [e1 (some h)]; exact ⟨rfl, rfl⟩⟩, fun c => absurd c c2,
        ⟨⟨fun _ => c1, fun _ => rfl⟩, ⟨fun c => (by cases c), fun c => absurd c c2⟩⟩,
        fun c => absurd c1 c⟩
    · have b1 : ngx_strcasecmp v (bytes "on") = false := by
        cases hb : ngx_strcasecmp v (bytes "on")
        · rfl
        · exact absurd ((hon v).1 hb) c1
      by_cases c2 : (c_str v).map ngx_tolower = bytes "off"
      · have b2 := (hoff v).2 c2
        have e1 : ∀ post, ngx_conf_set_flag_slot post name fp args =
            match post with
            | some post_handler => ⟨(post_handler 0).1, (post_handler 0).2, []⟩
            | none => ⟨slot_rv.NGX_CONF_OK, 0, []⟩ := by
          intro post; rw [e, b1, b2]; rfl
        rw [e1 none]
        refine ⟨fun c => absurd c c1, fun _ => ⟨rfl, fun h => by rw [e1 (some h)]; exact ⟨rfl, rfl⟩⟩,
          ⟨⟨fun c => (by cases c), fun c => absurd c c1⟩, ⟨fun _ => c2, fun _ => rfl⟩⟩,
          fun _ c => absurd c2 c⟩
      · have b2 : ngx_strcasecmp v (bytes "off") = false := by
          cases hb : ngx_strcasecmp v (bytes "off")
          · rfl
          · exact absurd ((hoff v).1 hb) c2
        have e1 : ∀ post, ngx_conf_set_flag_slot post name fp args =
            ⟨slot_rv.NGX_CONF_ERROR, fp, [slot_msg.flag_invalid v name]⟩ := by
          intro post; rw [e, b1, b2]; rfl
        rw [e1 none, e1 post]
        refine ⟨fun c => absurd c c1, fun c => absurd c c2,
          ⟨⟨fun c => ?_, fun c => absurd c c1⟩, ⟨fun c => ?_, fun c => absurd c c2⟩⟩,
          fun _ _ => ⟨rfl, rfl⟩⟩
        · rw [h] at c; exact absurd (show (-1 : Int) = 1 from c) (by decide)
        · rw [h] at c; exact absurd (show (-1 : Int) = 0 from c) (by decide)

/-- The directive `daemon On` with an unset field stores 1; the post handler is NULL. -/
theorem set_flag_slot_spec_witness :
    (ngx_conf_set_flag_slot none (bytes "daemon") (-1) [bytes "daemon", bytes "On"]).rv
      = slot_rv.NGX_CONF_OK ∧
    (ngx_conf_set_flag_slot none (bytes "daemon") (-1) [bytes "daemon", bytes "On"]).field
      = 1 :=
  ⟨(((set_flag_slot_spec none (bytes "daemon") (-1) [bytes "daemon", bytes "On"]).2.1
      rfl).1 (by decide)).1,
   (((set_flag_slot_spec none (bytes "daemon") (-1) [bytes "daemon", bytes "On"]).2.1
      rfl).2.2.1.1).2 (by decide)⟩

/-! ### C32: `ngx_conf_set_bitmask_slot` -/

theorem bitmask_find_spec (mask : List ngx_conf_bitmask_t) (value : List Nat) :
    bitmask_find mask value =
      ((mask.takeWhile (fun e => decide (e.name.length ≠ 0))).find?
        (fun e => decide (e.name.length = value.length) && ngx_strcasecmp e.name value)).map
        (fun e => e.mask) := by
  induction mask with
  | nil => rfl
  | cons e rest ih =>
    unfold bitmask_find
    by_cases h0 : e.name.length = 0
    · rw [if_pos h0, List.takeWhile_cons_of_neg (by simpa using h0)]
      rfl
    · rw [if_neg h0, List.takeWhile_cons_of_pos (by simpa using h0)]
      by_cases h1 : e.name.length ≠ value.length ∨ ¬ ngx_strcasecmp e.name value
      · rw [if_pos h1, ih, List.find?_cons_of_neg]
        rcases h1 with h1 | h1
        · simp [h1]
        · simp [h1]
      · rw [if_neg h1]
        have h2 : e.name.length = value.length ∧ ngx_strcasecmp e.name value = true := by
          constructor
          · by_contra c; exact h1 (Or.inl c)
          · by_contra c; exact h1 (Or.inr c)
        rw [List.find?_cons_of_pos]
        · rfl
        · simp [h2.1, h2.2]

theorem add_mask_bits (np m i : Nat) (h : np.testBit i = true) :
    (add_mask np m).testBit i = true := by
  unfold add_mask
  split_ifs
  · exact h
  · rw [Nat.testBit_or, h]; rfl

theorem bitmask_loop_rv (mask : List ngx_conf_bitmask_t) (vs : List (List Nat)) :
    ∀ (np : Nat) (log : List slot_msg),
      ((bitmask_loop mask vs np log).rv = slot_rv.NGX_CONF_OK ↔
        ∀ v ∈ vs, (bitmask_find mask v).isSome = true) ∧
      ((bitmask_loop mask vs np log).rv = slot_rv.NGX_CONF_ERROR ↔
        ∃ v ∈ vs, bitmask_find mask v = none) := by
  induction vs with
  | nil =>
    intro np log
    unfold bitmask_loop
    exact ⟨⟨fun _ v hv => absurd hv (List.not_mem_nil v), fun _ => rfl⟩,
      ⟨fun c => (by cases c), fun ⟨v, hv, _⟩ => absurd hv (List.not_mem_nil v)⟩⟩
  | cons v rest ih =>
    intro np log
    unfold bitmask_loop
    cases hf : bitmask_find mask v with
    | none =>
      dsimp only
      refine ⟨⟨fun c => (by cases c), fun c => ?_⟩, ⟨fun _ => ⟨v, List.mem_cons_self _ _, hf⟩,
        fun _ => rfl⟩⟩
      have := c v (List.mem_cons_self _ _)
      rw [hf] at this
      cases this
    | some m =>
      dsimp only
      have key : ∀ np1 log1,
          ((bitmask_loop mask rest np1 log1).rv = slot_rv.NGX_CONF_OK ↔
            ∀ w ∈ v :: rest, (bitmask_find mask w).isSome = true) ∧
          ((bitmask_loop mask rest np1 log1).rv = slot_rv.NGX_CONF_ERROR ↔
            ∃ w ∈ v :: rest, bitmask_find mask w = none) := by
        intro np1 log1
        obtain ⟨i1, i2⟩ := ih np1 log1
        refine ⟨i1.trans ⟨fun c w hw => ?_, fun c w hw => c w (List.mem_cons_of_mem _ hw)⟩,
          i2.trans ⟨fun ⟨w, hw, e⟩ => ⟨w, List.mem_cons_of_mem _ hw, e⟩, fun ⟨w, hw, e⟩ => ?_⟩⟩
        · rcases List.mem_cons.1 hw with e | e
          · rw [e, hf]; rfl
          · exact c w e
        · rcases List.mem_cons.1 hw with e1 | e1
          · rw [e1, hf] at e; cases e
          · exact ⟨w, e1, e⟩
      split_ifs
      · exact key _ _
      · exact key _ _

theorem bitmask_loop_bits (mask : List ngx_conf_bitmask_t) (vs : List (List Nat)) :
    ∀ (np : Nat) (log : List slot_msg) (i : Nat), np.testBit i = true →
      (bitmask_loop mask vs np log).field.testBit i = true := by
  induction vs with
  | nil => intro np log i h; exact h
  | cons v rest ih =>
    intro np log i h
    unfold bitmask_loop
    cases hf : bitmask_find mask v with
    | none => exact h
    | some m =>
      dsimp only
      split_ifs
      · exact ih _ _ i h
      · exact ih _ _ i (by rw [Nat.testBit_or, h]; rfl)

theorem bitmask_loop_field (mask : List ngx_conf_bitmask_t) (vs : List (List Nat)) :
    ∀ (np : Nat) (log : List slot_msg), (∀ v ∈ vs, (bitmask_find mask v).isSome = true) →
      (bitmask_loop mask vs np log).field =
        (vs.filterMap (bitmask_find mask)).foldl add_mask np := by
  induction vs with
  | nil => intro np log _; rfl
  | cons v rest ih =>
    intro np log h
    have hv := h v (List.mem_cons_self _ _)
    have hr : ∀ w ∈ rest, (bitmask_find mask w).isSome = true :=
      fun w hw => h w (List.mem_cons_of_mem _ hw)
    unfold bitmask_loop
    cases hf : bitmask_find mask v with
    | none => rw [hf] at hv; cases hv
    | some m =>
      dsimp only
      rw [List.filterMap_cons_some hf, List.foldl_cons]
      unfold add_mask
      split_ifs
      · exact ih _ _ hr
      · exact ih _ _ hr

/-- A mask that shares a bit with the field, or lies in it, is not added again, also
when the field has grown. -/
theorem add_mask_fixed (np m g : Nat) (hg : ∀ i, (add_mask np m).testBit i = true →
    g.testBit i = true) : g &&& m ≠ 0 ∨ g ||| m = g := by
  unfold add_mask at hg
  by_cases c : np &&& m ≠ 0
  · rw [if_pos c] at hg
    left
    obtain ⟨i, hi⟩ := Nat.ne_zero_implies_bit_true c
    rw [Nat.testBit_and, Bool.and_eq_true] at hi
    intro e
    have : (g &&& m).testBit i = true := by
      rw [Nat.testBit_and, hg i hi.1, hi.2]; rfl
    rw [e, Nat.zero_testBit] at this
    cases this
  · rw [if_neg c] at hg
    right
    apply Nat.eq_of_testBit_eq
    intro i
    rw [Nat.testBit_or]
    cases hm : m.testBit i
    · rw [Bool.or_false]
    · rw [hg i (by rw [Nat.testBit_or, hm, Bool.or_true]), Bool.or_true]


theorem bitmask_loop_absorb (mask : List ngx_conf_bitmask_t) (vs : List (List Nat)) :
    ∀ (np : Nat) (log : List slot_msg) (g : Nat) (log1 : List slot_msg),
      (∀ i, (bitmask_loop mask vs np log).field.testBit i = true → g.testBit i = true) →
      (bitmask_loop mask vs g log1).field = g ∧
      (bitmask_loop mask vs g log1).rv = (bitmask_loop mask vs np log).rv := by
  induction vs with
  | nil => intro np log g log1 _; exact ⟨rfl, rfl⟩
  | cons v rest ih =>
    intro np log g log1 hg
    unfold bitmask_loop at hg ⊢
    cases hf : bitmask_find mask v with
    | none => exact ⟨rfl, rfl⟩
    | some m =>
      rw [hf] at hg
      dsimp only at hg ⊢
      have hsub : ∀ i, (add_mask np m).testBit i = true → g.testBit i = true := by
        intro i hi
        apply hg
        unfold add_mask at hi
        split_ifs at hi ⊢
        · exact bitmask_loop_bits mask rest _ _ i hi
        · exact bitmask_loop_bits mask rest _ _ i hi
      have hfix := add_mask_fixed np m g hsub
      by_cases c : g &&& m ≠ 0
      · rw [if_pos c]
        by_cases c1 : np &&& m ≠ 0
        · rw [if_pos c1] at hg ⊢
          exact ih _ _ g _ hg
        · rw [if_neg c1] at hg ⊢
          exact ih _ _ g _ hg
      · rw [if_neg c]
        have e : g ||| m = g := by
          rcases hfix with h1 | h1
          · exact absurd h1 c
          · exact h1
        rw [e]
        by_cases c1 : np &&& m ≠ 0
        · rw [if_pos c1] at hg ⊢
          exact ih _ _ g _ hg
        · rw [if_neg c1] at hg ⊢
          exact ih _ _ g _ hg

theorem foldl_add_mask_single (masks : List Nat) (h : ∀ m ∈ masks, ∃ k < 64, m = 2 ^ k) :
    ∀ np : Nat, masks.foldl add_mask np = or_masks np masks := by
  induction masks with
  | nil => intro np; rfl
  | cons m rest ih =>
    intro np
    unfold or_masks
    rw [List.foldl_cons, List.foldl_cons]
    have e : add_mask np m = np ||| m := by
      unfold add_mask
      by_cases c : np &&& m ≠ 0
      · rw [if_pos c]
        obtain ⟨k, _, hk⟩ := h m (List.mem_cons_self _ _)
        obtain ⟨i, hi⟩ := Nat.ne_zero_implies_bit_true c
        rw [Nat.testBit_and, Bool.and_eq_true, hk, Nat.testBit_two_pow] at hi
        have hki : k = i := by simpa using hi.2
        apply Nat.eq_of_testBit_eq
        intro j
        rw [Nat.testBit_or, hk, Nat.testBit_two_pow]
        by_cases cj : k = j
        · rw [← cj, hki, hi.1]; rfl
        · simp [cj]
      · rw [if_neg c]
    rw [e]
    exact ih (fun m1 hm1 => h m1 (List.mem_cons_of_mem _ hm1)) _

/-- Claim C32, where it fails: with the table `a` (mask 2), `b` (mask 6) and the field 0
the arguments `a b` are accepted, and the field becomes 2, not `0 | 2 | 6`. -/
theorem bitmask_slot_overlap :
    bitmask_find [⟨bytes "a", 2⟩, ⟨bytes "b", 6⟩] (bytes "a") = some 2 ∧
    bitmask_find [⟨bytes "a", 2⟩, ⟨bytes "b", 6⟩] (bytes "b") = some 6 ∧
    (ngx_conf_set_bitmask_slot [⟨bytes "a", 2⟩, ⟨bytes "b", 6⟩] 0
      [bytes "d", bytes "a", bytes "b"]).rv = slot_rv.NGX_CONF_OK ∧
    (ngx_conf_set_bitmask_slot [⟨bytes "a", 2⟩, ⟨bytes "b", 6⟩] 0
      [bytes "d", bytes "a", bytes "b"]).field = 2 ∧
    or_masks 0 [2, 6] = 6 := by
  decide

/-- Claim C32, amended: `ngx_conf_set_bitmask_slot` only adds bits. An argument names the
first entry in front of the empty name that has its length and equals it without regard
to case. The function returns `NGX_CONF_OK` exactly when every argument names an entry,
and `NGX_CONF_ERROR` exactly when some argument names none. When all arguments name
entries, the field is the old value with the mask of each argument OR-ed in, in their
order, unless the mask shares a bit with the field at that point; when every mask is a
single bit this is the old value OR-ed with the masks of all arguments. No bit that was
set on entry is cleared, and a second application with the same arguments leaves the
field of the first one and returns the same value. -/
theorem bitmask_slot_adds (mask : List ngx_conf_bitmask_t) (np : Nat)
    (args : List (List Nat)) :
    (∀ v, bitmask_find mask v =
      ((mask.takeWhile (fun e => decide (e.name.length ≠ 0))).find?
        (fun e => decide (e.name.length = v.length) && ngx_strcasecmp e.name v)).map
        (fun e => e.mask)) ∧
    ((ngx_conf_set_bitmask_slot mask np args).rv = slot_rv.NGX_CONF_OK ↔
      ∀ v ∈ args.drop 1, (bitmask_find mask v).isSome = true) ∧
    ((ngx_conf_set_bitmask_slot mask np args).rv = slot_rv.NGX_CONF_ERROR ↔
      ∃ v ∈ args.drop 1, bitmask_find mask v = none) ∧
    ((∀ v ∈ args.drop 1, (bitmask_find mask v).isSome = true) →
      (ngx_conf_set_bitmask_slot mask np args).field =
        ((args.drop 1).filterMap (bitmask_find mask)).foldl add_mask np ∧
      ((∀ m ∈ (args.drop 1).filterMap (bitmask_find mask), ∃ k < 64, m = 2 ^ k) →
        (ngx_conf_set_bitmask_slot mask np args).field =
          or_masks np ((args.drop 1).filterMap (bitmask_find mask)))) ∧
    (∀ i, np.testBit i = true →
      (ngx_conf_set_bitmask_slot mask np args).field.testBit i = true) ∧
    (ngx_conf_set_bitmask_slot mask
        (ngx_conf_set_bitmask_slot mask np args).field args).field =
      (ngx_conf_set_bitmask_slot mask np args).field ∧
    (ngx_conf_set_bitmask_slot mask
        (ngx_conf_set_bitmask_slot mask np args).field args).rv =
      (ngx_conf_set_bitmask_slot mask np args).rv := by
  unfold ngx_conf_set_bitmask_slot
  refine ⟨bitmask_find_spec mask, (bitmask_loop_rv mask _ np []).1,
    (bitmask_loop_rv mask _ np []).2, fun h => ⟨bitmask_loop_field mask _ np [] h, fun hs => ?_⟩,
    bitmask_loop_bits mask _ np [],
    (bitmask_loop_absorb mask _ np [] _ [] (fun _ hi => hi)).1,
    (bitmask_loop_absorb mask _ np [] _ [] (fun _ hi => hi)).2⟩
  rw [bitmask_loop_field mask _ np [] h]
  exact foldl_add_mask_single _ hs np

/-- The arguments `error timeout error` with single-bit masks: the field 1 becomes
`1 | 2 | 4`. -/
theorem bitmask_slot_adds_witness :
    (ngx_conf_set_bitmask_slot [⟨bytes "error", 2⟩, ⟨bytes "timeout", 4⟩] 1
      [bytes "d", bytes "Error", bytes "timeout", bytes "error"]).field = 7 :=
  (((bitmask_slot_adds [⟨bytes "error", 2⟩, ⟨bytes "timeout", 4⟩] 1
      [bytes "d", bytes "Error", bytes "timeout", bytes "error"]).2.2.2.1
      (by decide)).2 (by decide)).trans (by decide)

/-! ### C34: `ngx_conf_set_bufs_slot` -/

/-- Claim C34, where it fails: the directive with the count `x` returns
`"invalid value"` and leaves `NGX_ERROR` in `bufs->num`; the valid directive `4 4k`
after it, which is accepted when it comes first, then gets `"is duplicate"`, although
no directive was accepted. -/
theorem bufs_slot_not_atomic :
    (ngx_conf_set_bufs_slot 9223372036854775807 (fun _ => 4096) ⟨0, 0⟩
      [bytes "bufs", bytes "x", bytes "4k"]).rv = slot_rv.message "invalid value" ∧
    (ngx_conf_set_bufs_slot 9223372036854775807 (fun _ => 4096) ⟨0, 0⟩
      [bytes "bufs", bytes "x", bytes "4k"]).field = ⟨-1, 0⟩ ∧
    (ngx_conf_set_bufs_slot 9223372036854775807 (fun _ => 4096) ⟨0, 0⟩
      [bytes "bufs", bytes "4", bytes "4k"]).rv = slot_rv.NGX_CONF_OK ∧
    (ngx_conf_set_bufs_slot 9223372036854775807 (fun _ => 4096)
      (ngx_conf_set_bufs_slot 9223372036854775807 (fun _ => 4096) ⟨0, 0⟩
        [bytes "bufs", bytes "x", bytes "4k"]).field
      [bytes "bufs", bytes "4", bytes "4k"]).rv = slot_rv.message "is duplicate" := by
  decide

/-- Claim C34, amended: `ngx_conf_set_bufs_slot` returns `"is duplicate"` exactly when
`bufs->num` is not zero on entry, and then leaves the field as it was. Otherwise it
stores what `ngx_atoi` gives for the count before it checks it, and returns
`"invalid value"` exactly when that is `NGX_ERROR` or zero or when the size is
`(size_t) NGX_ERROR` or zero; with a valid count the size is stored as well. So after
an accepted directive every later one gets `"is duplicate"`, and after
`"invalid value"` a later one gets it exactly when the count stored was not zero. -/
theorem bufs_slot_spec (max_int : Nat) (ngx_parse_size : List Nat → Int)
    (bufs : ngx_bufs_t) (args : List (List Nat)) :
    ((ngx_conf_set_bufs_slot max_int ngx_parse_size bufs args).rv =
      slot_rv.message "is duplicate" ↔ bufs.num ≠ 0) ∧
    (bufs.num ≠ 0 → (ngx_conf_set_bufs_slot max_int ngx_parse_size bufs args).field = bufs) ∧
    (bufs.num = 0 →
      (ngx_conf_set_bufs_slot max_int ngx_parse_size bufs args).field.num =
        ngx_atoi max_int (args.getD 1 []) ∧
      ((ngx_conf_set_bufs_slot max_int ngx_parse_size bufs args).rv =
          slot_rv.message "invalid value" ↔
        ngx_atoi max_int (args.getD 1 []) = NGX_ERROR ∨
        ngx_atoi max_int (args.getD 1 []) = 0 ∨
        (ngx_parse_size (args.getD 2 []) % 2 ^ 64).toNat = 2 ^ 64 - 1 ∨
        (ngx_parse_size (args.getD 2 []) % 2 ^ 64).toNat = 0) ∧
      ((ngx_conf_set_bufs_slot max_int ngx_parse_size bufs args).rv ≠
          slot_rv.message "invalid value" →
        (ngx_conf_set_bufs_slot max_int ngx_parse_size bufs args).rv =
          slot_rv.NGX_CONF_OK) ∧
      (ngx_atoi max_int (args.getD 1 []) ≠ NGX_ERROR →
        ngx_atoi max_int (args.getD 1 []) ≠ 0 →
        (ngx_conf_set_bufs_slot max_int ngx_parse_size bufs args).field.size =
          (ngx_parse_size (args.getD 2 []) % 2 ^ 64).toNat)) ∧
    ((ngx_conf_set_bufs_slot max_int ngx_parse_size bufs args).rv = slot_rv.NGX_CONF_OK →
      ∀ later, (ngx_conf_set_bufs_slot max_int ngx_parse_size
        (ngx_conf_set_bufs_slot max_int ngx_parse_size bufs args).field later).rv =
        slot_rv.message "is duplicate") ∧
    ((ngx_conf_set_bufs_slot max_int ngx_parse_size bufs args).rv =
        slot_rv.message "invalid value" →
      ∀ later, ((ngx_conf_set_bufs_slot max_int ngx_parse_size
        (ngx_conf_set_bufs_slot max_int ngx_parse_size bufs args).field later).rv =
        slot_rv.message "is duplicate" ↔ ngx_atoi max_int (args.getD 1 []) ≠ 0)) := by
  have herr : (NGX_ERROR % 2 ^ 64).toNat = 2 ^ 64 - 1 := by decide
  have dup : ∀ (b : ngx_bufs_t) (a : List (List Nat)),
      ((ngx_conf_set_bufs_slot max_int ngx_parse_size b a).rv =
        slot_rv.message "is duplicate" ↔ b.num ≠ 0) := by
    intro b a
    unfold ngx_conf_set_bufs_slot
    by_cases c : b.num ≠ 0
    · rw [if_pos c]; exact ⟨fun _ => c, fun _ => rfl⟩
    · rw [if_neg c]
      dsimp only
      refine ⟨fun h => ?_, fun h => absurd h c⟩
      split_ifs at h <;> simp at h
  refine ⟨dup bufs args, ?_, ?_, ?_, ?_⟩
  · intro h
    unfold ngx_conf_set_bufs_slot
    rw [if_pos h]
  · intro h
    have hz : ¬ bufs.num ≠ 0 := fun c => c h
    unfold ngx_conf_set_bufs_slot
    rw [if_neg hz, herr]
    dsimp only
    generalize ngx_atoi max_int (args.getD 1 []) = num
    generalize (ngx_parse_size (args.getD 2 []) % 2 ^ 64).toNat = size
    by_cases c1 : num = NGX_ERROR ∨ num = 0
    · rw [if_pos c1]
      refine ⟨rfl, ⟨fun _ => ?_, fun _ => rfl⟩, fun c => absurd rfl c, fun a b => ?_⟩
      · rcases c1 with c1 | c1
        · exact Or.inl c1
        · exact Or.inr (Or.inl c1)
      · exact absurd c1 (fun c => c.elim a b)
    · rw [if_neg c1]
      by_cases c2 : size = 2 ^ 64 - 1 ∨ size = 0
      · rw [if_pos c2]
        refine ⟨rfl, ⟨fun _ => ?_, fun _ => rfl⟩, fun c => absurd rfl c, fun _ _ => rfl⟩
        exact Or.inr (Or.inr c2)
      · rw [if_neg c2]
        refine ⟨rfl, ⟨fun c => (by cases c), fun c => ?_⟩, fun _ => rfl, fun _ _ => rfl⟩
        rcases c with c | c | c
        · exact absurd (Or.inl c) c1
        · exact absurd (Or.inr c) c1
        · exact absurd c c2
  · intro h later
    rw [dup]
    revert h
    unfold ngx_conf_set_bufs_slot
    by_cases c : bufs.num ≠ 0
    · rw [if_pos c]; intro h; cases h
    · rw [if_neg c]
      dsimp only
      by_cases c1 : ngx_atoi max_int (args.getD 1 []) = NGX_ERROR ∨
          ngx_atoi max_int (args.getD 1 []) = 0
      · rw [if_pos c1]; intro h; cases h
      · rw [if_neg c1]
        intro _
        split_ifs
        · exact fun e => c1 (Or.inr e)
        · exact fun e => c1 (Or.inr e)
  · intro h later
    rw [dup]
    revert h
    unfold ngx_conf_set_bufs_slot
    by_cases c : bufs.num ≠ 0
    · rw [if_pos c]; intro h; simp at h
    · rw [if_neg c]
      dsimp only
      split_ifs
      · intro _; exact Iff.rfl
      · intro _; exact Iff.rfl
      · intro h; simp at h

/-- The directive `4 4k` with an unset field is accepted, and the next one is a
duplicate. -/
theorem bufs_slot_spec_witness :
    (ngx_conf_set_bufs_slot 9223372036854775807 (fun _ => 4096)
      (ngx_conf_set_bufs_slot 9223372036854775807 (fun _ => 4096) ⟨0, 0⟩
        [bytes "bufs", bytes "4", bytes "4k"]).field
      [bytes "bufs", bytes "8", bytes "4k"]).rv = slot_rv.message "is duplicate" :=
  (bufs_slot_spec 9223372036854775807 (fun _ => 4096) ⟨0, 0⟩
    [bytes "bufs", bytes "4", bytes "4k"]).2.2.2.1 (by decide)
    [bytes "bufs", bytes "8", bytes "4k"]

/-! ### C35: `worker_priority` -/

theorem not_decimal_false (ds : List Nat) (h : not_decimal ds = false) :
    ds ≠ [] ∧ ∀ d ∈ ds, 48 ≤ d ∧ d ≤ 57 := by
  unfold not_decimal at h
  rw [Bool.or_eq_false_iff] at h
  refine ⟨fun e => ?_, fun d hd => ?_⟩
  · rw [e] at h; exact absurd h.1 (by decide)
  · have h2 := h.2
    rw [List.any_eq_false] at h2
    have := h2 d hd
    simp only [Bool.or_eq_true, decide_eq_true_eq, not_or, not_lt] at this
    omega

theorem atoi_decimal (max_int : Nat) (ds : List Nat) (h : not_decimal ds = false)
    (hle : decimal_value ds ≤ max_int) :
    ngx_atoi max_int ds = (decimal_value ds : Int) := by
  obtain ⟨h1, h2⟩ := not_decimal_false ds h
  unfold ngx_atoi
  rw [if_neg h1]
  exact atoi_loop_digits max_int ds 0 h2 hle

theorem to_int_small (v : Int) (h1 : -(2 ^ 31) ≤ v) (h2 : v < 2 ^ 31) : to_int v = v := by
  unfold to_int
  omega

theorem set_priority_minus (max_int : Nat) (args : List (List Nat))
    (c : (args.getD 1 []).getD 0 0 = 45) :
    ngx_set_priority max_int 0 args =
      if to_int (ngx_atoi max_int ((args.getD 1 []).drop 1)) = NGX_ERROR then
        ⟨slot_rv.message "invalid number",
          to_int (ngx_atoi max_int ((args.getD 1 []).drop 1)), []⟩
      else ⟨slot_rv.NGX_CONF_OK,
        to_int (- to_int (ngx_atoi max_int ((args.getD 1 []).drop 1))), []⟩ := by
  unfold ngx_set_priority
  rw [if_neg (fun c => c rfl)]
  dsimp only
  simp only [if_pos c]
  by_cases h : to_int (ngx_atoi max_int ((args.getD 1 []).drop 1)) = NGX_ERROR
  · rw [if_pos h, if_pos h]
  · rw [if_neg h, if_neg h, if_pos (by decide)]

theorem set_priority_plus (max_int : Nat) (args : List (List Nat))
    (c : (args.getD 1 []).getD 0 0 = 43) :
    ngx_set_priority max_int 0 args =
      if to_int (ngx_atoi max_int ((args.getD 1 []).drop 1)) = NGX_ERROR then
        ⟨slot_rv.message "invalid number",
          to_int (ngx_atoi max_int ((args.getD 1 []).drop 1)), []⟩
      else ⟨slot_rv.NGX_CONF_OK, to_int (ngx_atoi max_int ((args.getD 1 []).drop 1)), []⟩ := by
  have c0 : ¬ (args.getD 1 []).getD 0 0 = 45 := by rw [c]; decide
  unfold ngx_set_priority
  rw [if_neg (fun c => c rfl)]
  dsimp only
  simp only [if_pos c, if_neg c0]
  by_cases h : to_int (ngx_atoi max_int ((args.getD 1 []).drop 1)) = NGX_ERROR
  · rw [if_pos h, if_pos h]
  · rw [if_neg h, if_neg h, if_neg (by decide)]

theorem set_priority_plain (max_int : Nat) (args : List (List Nat))
    (c0 : ¬ (args.getD 1 []).getD 0 0 = 45) (c : ¬ (args.getD 1 []).getD 0 0 = 43) :
    ngx_set_priority max_int 0 args =
      if to_int (ngx_atoi max_int (args.getD 1 [])) = NGX_ERROR then
        ⟨slot_rv.message "invalid number", to_int (ngx_atoi max_int (args.getD 1 [])), []⟩
      else ⟨slot_rv.NGX_CONF_OK, to_int (ngx_atoi max_int (args.getD 1 [])), []⟩ := by
  unfold ngx_set_priority
  rw [if_neg (fun c => c rfl)]
  dsimp only
  simp only [if_neg c, if_neg c0, List.drop_zero]
  by_cases h : to_int (ngx_atoi max_int (args.getD 1 [])) = NGX_ERROR
  · rw [if_pos h, if_pos h]
  · rw [if_neg h, if_neg h, if_neg (by decide)]

theorem set_priority_dup (max_int : Nat) (priority : Int) (args : List (List Nat)) :
    ((ngx_set_priority max_int priority args).rv = slot_rv.message "is duplicate" ↔
      priority ≠ 0) ∧
    (priority ≠ 0 → (ngx_set_priority max_int priority args).field = priority) := by
  by_cases h : priority ≠ 0
  · unfold ngx_set_priority
    rw [if_pos h]
    exact ⟨⟨fun _ => h, fun _ => rfl⟩, fun _ => rfl⟩
  · have h0 : priority = 0 := by
      by_contra c; exact h c
    subst h0
    refine ⟨⟨fun e => ?_, fun c => absurd c h⟩, fun c => absurd c h⟩
    exfalso
    by_cases c0 : (args.getD 1 []).getD 0 0 = 45
    · rw [set_priority_minus max_int args c0] at e
      split_ifs at e; simp at e
    · by_cases c1 : (args.getD 1 []).getD 0 0 = 43
      · rw [set_priority_plus max_int args c1] at e
        split_ifs at e; simp at e
      · rw [set_priority_plain max_int args c0 c1] at e
        split_ifs at e; simp at e

theorem digits_first (ds : List Nat) (h : not_decimal ds = false) :
    ¬ ds.getD 0 0 = 45 ∧ ¬ ds.getD 0 0 = 43 := by
  obtain ⟨h1, h2⟩ := not_decimal_false ds h
  cases ds with
  | nil => exact absurd rfl h1
  | cons d rest =>
    have := h2 d (List.mem_cons_self _ _)
    simp only [List.getD_cons_zero]
    omega

theorem to_int_atoi_decimal (max_int : Nat) (hmax : 2 ^ 31 - 1 ≤ max_int) (ds : List Nat)
    (h : not_decimal ds = false) (hlt : decimal_value ds < 2 ^ 31) :
    to_int (ngx_atoi max_int ds) = (decimal_value ds : Int) ∧
    to_int (ngx_atoi max_int ds) ≠ NGX_ERROR ∧
    to_int (- to_int (ngx_atoi max_int ds)) = - (decimal_value ds : Int) := by
  rw [atoi_decimal max_int ds h (by omega)]
  have e : to_int (decimal_value ds : Int) = (decimal_value ds : Int) :=
    to_int_small _ (by omega) (by omega)
  rw [e]
  refine ⟨rfl, ?_, to_int_small _ (by omega) (by omega)⟩
  unfold NGX_ERROR
  omega

/-- Claim C35, where it fails: `worker_priority 0` is accepted and leaves 0, so that the
directive `worker_priority 5` after it is accepted as well and is not a duplicate; and
the number 2147483648 does not fit the `int` that holds the priority. -/
theorem set_priority_zero_unnoticed :
    (ngx_set_priority 9223372036854775807 0 [bytes "worker_priority", bytes "0"]).rv =
      slot_rv.NGX_CONF_OK ∧
    (ngx_set_priority 9223372036854775807 0 [bytes "worker_priority", bytes "0"]).field = 0 ∧
    (ngx_set_priority 9223372036854775807
      (ngx_set_priority 9223372036854775807 0 [bytes "worker_priority", bytes "0"]).field
      [bytes "worker_priority", bytes "5"]).rv = slot_rv.NGX_CONF_OK ∧
    (ngx_set_priority 9223372036854775807 0
      [bytes "worker_priority", bytes "2147483648"]).rv = slot_rv.NGX_CONF_OK ∧
    (ngx_set_priority 9223372036854775807 0
      [bytes "worker_priority", bytes "2147483648"]).field = -2147483648 := by
  decide

/-- Claim C35, amended: `ngx_set_priority` returns `"is duplicate"` exactly when
`ccf->priority` is not zero on entry, and then leaves it; so a directive after an
accepted one is a duplicate exactly when the accepted one stored a value other than 0.
With a priority of zero on entry, the arguments `N` and `+N`, for a decimal number `N`
below 2^31, store `N` and `-N` stores `-N`; when what follows the optional sign is not
a decimal number the function returns `"invalid number"`. -/
theorem set_priority_spec (max_int : Nat) (hmax : 2 ^ 31 - 1 ≤ max_int) (priority : Int)
    (args : List (List Nat)) :
    ((ngx_set_priority max_int priority args).rv = slot_rv.message "is duplicate" ↔
      priority ≠ 0) ∧
    (priority ≠ 0 → (ngx_set_priority max_int priority args).field = priority) ∧
    ((ngx_set_priority max_int priority args).rv = slot_rv.NGX_CONF_OK →
      ∀ later, ((ngx_set_priority max_int
        (ngx_set_priority max_int priority args).field later).rv =
          slot_rv.message "is duplicate" ↔
        (ngx_set_priority max_int priority args).field ≠ 0)) ∧
    (priority = 0 → ∀ ds, not_decimal ds = false → decimal_value ds < 2 ^ 31 →
      ((args.getD 1 [] = ds ∨ args.getD 1 [] = 43 :: ds) →
        (ngx_set_priority max_int priority args).rv = slot_rv.NGX_CONF_OK ∧
        (ngx_set_priority max_int priority args).field = (decimal_value ds : Int)) ∧
      (args.getD 1 [] = 45 :: ds →
        (ngx_set_priority max_int priority args).rv = slot_rv.NGX_CONF_OK ∧
        (ngx_set_priority max_int priority args).field = - (decimal_value ds : Int))) ∧
    (priority = 0 → ∀ ds, not_decimal ds = true →
      (args.getD 1 [] = 43 :: ds ∨ args.getD 1 [] = 45 :: ds ∨
        (args.getD 1 [] = ds ∧ ds.getD 0 0 ≠ 43 ∧ ds.getD 0 0 ≠ 45)) →
      (ngx_set_priority max_int priority args).rv = slot_rv.message "invalid number") := by
  refine ⟨(set_priority_dup max_int priority args).1,
    (set_priority_dup max_int priority args).2,
    fun _ later => (set_priority_dup max_int _ later).1, ?_, ?_⟩
  · intro h0 ds hd hlt
    subst h0
    obtain ⟨e1, e2, e3⟩ := to_int_atoi_decimal max_int hmax ds hd hlt
    obtain ⟨f1, f2⟩ := digits_first ds hd
    refine ⟨fun hv => ?_, fun hv => ?_⟩
    · rcases hv with hv | hv
      · rw [set_priority_plain max_int args (by rw [hv]; exact f1) (by rw [hv]; exact f2),
          hv, if_neg e2]
        exact ⟨rfl, e1⟩
      · rw [set_priority_plus max_int args (by rw [hv]; rfl), hv, List.drop_one,
          List.tail_cons, if_neg e2]
        exact ⟨rfl, e1⟩
    · rw [set_priority_minus max_int args (by rw [hv]; rfl), hv, List.drop_one,
        List.tail_cons, if_neg e2]
      exact ⟨rfl, e3⟩
  · intro h0 ds hd hv
    subst h0
    have e := atoi_not_decimal max_int ds hd
    have e1 : to_int (ngx_atoi max_int ds) = NGX_ERROR := by rw [e]; decide
    rcases hv with hv | hv | ⟨hv, g1, g2⟩
    · rw [set_priority_plus max_int args (by rw [hv]; rfl), hv, List.drop_one,
        List.tail_cons, if_pos e1]
    · rw [set_priority_minus max_int args (by rw [hv]; rfl), hv, List.drop_one,
        List.tail_cons, if_pos e1]
    · rw [set_priority_plain max_int args (by rw [hv]; exact g2) (by rw [hv]; exact g1),
        hv, if_pos e1]

/-- The directive `worker_priority -5` with a priority of zero stores -5. -/
theorem set_priority_spec_witness :
    2 ^ 31 - 1 ≤ 9223372036854775807 ∧
    (ngx_set_priority 9223372036854775807 0 [bytes "worker_priority", bytes "-5"]).field
      = -5 :=
  ⟨by decide,
   ((((set_priority_spec 9223372036854775807 (by decide) 0
      [bytes "worker_priority", bytes "-5"]).2.2.2.1 rfl (bytes "5") (by decide)
      (by decide)).2 (by decide)).2).trans (by decide)⟩

/-! ### C36: `ngx_http_variable_unknown_header` -/

theorem header_key_loop_spec (var key : List Nat) (prefix_ : Nat) :
    ∀ (fuel n : Nat), key.length - n < fuel → n ≤ key.length → n + prefix_ ≤ var.length →
      (var.drop prefix_).take n = (key.map header_ch).take n →
      ((header_key_loop var key prefix_ fuel n + prefix_ = var.length ∧
        header_key_loop var key prefix_ fuel n = key.length) ↔
        key.map header_ch = var.drop prefix_) := by
  intro fuel
  induction fuel with
  | zero => intro n h; omega
  | succ fuel ih =>
    intro n hf hk hv ht
    have la : (var.drop prefix_).length = var.length - prefix_ := List.length_drop _ _
    have lb : (key.map header_ch).length = key.length := List.length_map _ _
    unfold header_key_loop
    by_cases c : n + prefix_ < var.length ∧ n < key.length
    · rw [if_pos c]
      have ea : (var.drop prefix_)[n]? = some (var.getD (n + prefix_) 0) := by
        rw [List.getElem?_drop, List.getD_eq_getElem?_getD, Nat.add_comm,
          List.getElem?_eq_getElem (by omega)]
        rfl
      have eb : (key.map header_ch)[n]? = some (header_ch (key.getD n 0)) := by
        rw [List.getElem?_map, List.getD_eq_getElem?_getD, List.getElem?_eq_getElem c.2]
        rfl
      by_cases d : var.getD (n + prefix_) 0 ≠ header_ch (key.getD n 0)
      · rw [if_pos d]
        constructor
        · intro h; omega
        · intro h
          rw [h, ea] at eb
          exact absurd (Option.some.inj eb) d
      · rw [if_neg d]
        have d1 : var.getD (n + prefix_) 0 = header_ch (key.getD n 0) := by
          by_contra q; exact d q
        apply ih (n + 1) (by omega) (by omega) (by omega)
        rw [List.take_succ, List.take_succ, ht, ea, eb, d1]
    · rw [if_neg c]
      constructor
      · intro h
        have h1 : (var.drop prefix_).take n = var.drop prefix_ :=
          List.take_of_length_le (by omega)
        have h2 : (key.map header_ch).take n = key.map header_ch :=
          List.take_of_length_le (by omega)
        rw [← h2, ← ht, h1]
      · intro h
        have := congrArg List.length h
        rw [la, lb] at this
        omega

theorem header_test_iff (var : List Nat) (prefix_ : Nat) (hp : prefix_ ≤ var.length)
    (h : ngx_table_elt_t) (hh : ¬ h.hash = 0) :
    (header_key_loop var h.key prefix_ (h.key.length + 1) 0 + prefix_ = var.length ∧
      header_key_loop var h.key prefix_ (h.key.length + 1) 0 = h.key.length) ↔
      header_matches var prefix_ h = true := by
  rw [header_key_loop_spec var h.key prefix_ (h.key.length + 1) 0 (by omega) (by omega)
    (by omega) rfl]
  unfold header_matches
  simp [hh]

theorem unknown_header_loop_spec (var : List Nat) (prefix_ : Nat)
    (hp : prefix_ ≤ var.length) :
    ∀ (fuel : Nat) (part : List ngx_table_elt_t) (next : List (List ngx_table_elt_t))
      (i : Nat), i ≤ part.length → (∀ p ∈ next, p ≠ []) →
      (part.length - i) + next.flatten.length < fuel →
      unknown_header_loop var prefix_ fuel part next i =
        some ((part.drop i ++ next.flatten).find? (header_matches var prefix_)) := by
  intro fuel
  induction fuel with
  | zero => intro part next i _ _ h; omega
  | succ fuel ih =>
    have body : ∀ (part : List ngx_table_elt_t) (next : List (List ngx_table_elt_t))
        (i : Nat), i < part.length → (∀ p ∈ next, p ≠ []) →
        (part.length - i) + next.flatten.length < fuel + 1 →
        (match part[i]? with
          | none => none
          | some h =>
            if h.hash = 0 then unknown_header_loop var prefix_ fuel part next (i + 1)
            else
              if header_key_loop var h.key prefix_ (h.key.length + 1) 0 + prefix_
                    = var.length ∧
                  header_key_loop var h.key prefix_ (h.key.length + 1) 0 = h.key.length
              then some (some h)
              else unknown_header_loop var prefix_ fuel part next (i + 1)) =
          some ((part.drop i ++ next.flatten).find? (header_matches var prefix_)) := by
      intro part next i hi hn hfu
      rw [List.getElem?_eq_getElem hi, List.drop_eq_getElem_cons hi, List.cons_append]
      dsimp only
      by_cases c : part[i].hash = 0
      · rw [if_pos c, ih part next (i + 1) (by omega) hn (by omega),
          List.find?_cons_of_neg]
        simp [header_matches, c]
      · rw [if_neg c]
        by_cases d : header_matches var prefix_ part[i] = true
        · rw [if_pos ((header_test_iff var prefix_ hp _ c).2 d), List.find?_cons_of_pos _ d]
        · rw [if_neg (fun q => d ((header_test_iff var prefix_ hp _ c).1 q)),
            ih part next (i + 1) (by omega) hn (by omega), List.find?_cons_of_neg _ d]
    intro part next i hi hn hfu
    unfold unknown_header_loop
    by_cases c : i ≥ part.length
    · have e : part.drop i = [] := List.drop_of_length_le c
      rw [e, List.nil_append]
      cases next with
      | nil => simp [c]
      | cons p rest =>
        have hp0 : p ≠ [] := hn p (List.mem_cons_self _ _)
        have hlen : 0 < p.length := List.length_pos.2 hp0
        simp only [if_pos c]
        have := body p rest 0 hlen (fun q hq => hn q (List.mem_cons_of_mem _ hq)) (by
          rw [List.flatten_cons, List.length_append] at hfu
          omega)
        rw [List.drop_zero] at this
        rw [List.flatten_cons]
        exact this
    · simp only [if_neg c]
      exact body part next i (by omega) hn hfu

/-- Claim C36: for a list whose parts behind the first one are not empty and a `prefix`
that is not longer than the name, `ngx_http_variable_unknown_header` returns `NGX_OK`,
with the value of the first header in list order whose hash is not zero and whose key,
with `A` to `Z` in lower case and `-` as `_`, is the name without its first `prefix`
bytes, and with not_found set when there is no such header; a header with the hash 0
is never the one found. -/
theorem unknown_header_spec (v : ngx_http_variable_value_t) (var : List Nat)
    (part : List ngx_table_elt_t) (next : List (List ngx_table_elt_t)) (prefix_ : Nat)
    (hp : prefix_ ≤ var.length) (hn : ∀ p ∈ next, p ≠ []) :
    ngx_http_variable_unknown_header v var part next prefix_ =
      some (NGX_OK,
        match (part ++ next.flatten).find? (header_matches var prefix_) with
        | some h => { data := h.value, valid := true, no_cacheable := false,
                      not_found := false }
        | none => { v with not_found := true }) ∧
    (∀ h, (part ++ next.flatten).find? (header_matches var prefix_) = some h →
      h.hash ≠ 0 ∧ h.key.map header_ch = var.drop prefix_ ∧ h ∈ part ++ next.flatten) ∧
    ((part ++ next.flatten).find? (header_matches var prefix_) = none →
      ∀ h ∈ part ++ next.flatten, h.hash = 0 ∨ h.key.map header_ch ≠ var.drop prefix_) := by
  refine ⟨?_, fun h hf => ?_, fun hf h hm => ?_⟩
  · unfold ngx_http_variable_unknown_header
    rw [unknown_header_loop_spec var prefix_ hp _ part next 0 (Nat.zero_le _) hn (by
      rw [List.length_append]; omega), List.drop_zero]
    cases (part ++ next.flatten).find? (header_matches var prefix_) with
    | none => rfl
    | some h => rfl
  · have h1 := List.find?_some hf
    have h2 := List.mem_of_find?_eq_some hf
    unfold header_matches at h1
    simp only [Bool.and_eq_true, bne_iff_ne, ne_eq, beq_iff_eq] at h1
    exact ⟨h1.1, h1.2, h2⟩
  · have h1 := List.find?_eq_none.1 hf h hm
    unfold header_matches at h1
    simp only [Bool.and_eq_true, bne_iff_ne, ne_eq, beq_iff_eq, not_and, Bool.not_eq_true] at h1
    by_cases c : h.hash = 0
    · exact Or.inl c
    · right
      intro q
      have := h1 c
      simp [q] at this

/-- The variable `http_user_agent` and headers in two parts, the first header with the
hash 0: the value is that of `User-Agent`. -/
theorem unknown_header_spec_witness :
    ngx_http_variable_unknown_header ⟨[], false, false, false⟩ (bytes "http_user_agent")
      [⟨0, bytes "User-Agent", bytes "x"⟩, ⟨1, bytes "Host", bytes "h"⟩]
      [[⟨7, bytes "User-Agent", bytes "curl"⟩]] 5 =
      some (NGX_OK, ⟨bytes "curl", true, false, false⟩) :=
  (unknown_header_spec ⟨[], false, false, false⟩ (bytes "http_user_agent")
      [⟨0, bytes "User-Agent", bytes "x"⟩, ⟨1, bytes "Host", bytes "h"⟩]
      [[⟨7, bytes "User-Agent", bytes "curl"⟩]] 5 (by decide) (by decide)).1.trans
    (by decide)

/-! ### C37: `ngx_http_variable_headers_internal` -/

theorem headers_len_fold (h : List ngx_table_elt_t) :
    ∀ acc : Nat,
      h.foldl (fun len e => if e.hash = 0 then len else len + (e.value.length + 2)) acc =
        acc + (((h.filter (fun e => e.hash != 0)).map
          (fun e => e.value.length + 2)).sum) := by
  induction h with
  | nil => intro acc; rfl
  | cons e rest ih =>
    intro acc
    rw [List.foldl_cons, ih]
    by_cases c : e.hash = 0
    · rw [if_pos c, List.filter_cons_of_neg (by simp [c])]
    · rw [if_neg c, List.filter_cons_of_pos (by simp [c]), List.map_cons, List.sum_cons]
      omega

theorem sum_len_zero (l : List ngx_table_elt_t) :
    (l.map (fun e => e.value.length + 2)).sum = 0 ↔ l = [] := by
  cases l with
  | nil => simp
  | cons e rest =>
    rw [List.map_cons, List.sum_cons]
    constructor
    · intro h; omega
    · intro h; cases h

theorem intercalate_cons_cons (s x y : List Nat) (ys : List (List Nat)) :
    List.intercalate s (x :: y :: ys) = x ++ s ++ List.intercalate s (y :: ys) := by
  simp [List.intercalate, List.intersperse]

theorem headers_copy_spec (h : List ngx_table_elt_t) (sep len : Nat) :
    ∀ (fuel i : Nat) (out : List Nat),
      (h.drop i).filter (fun e => e.hash != 0) ≠ [] →
      out.length + ((((h.drop i).filter (fun e => e.hash != 0)).map
        (fun e => e.value.length + 2)).sum) = len + 2 →
      h.length - i < fuel →
      ∃ k, headers_copy h sep len fuel i out =
          some (out ++ List.intercalate [sep, 32]
            (((h.drop i).filter (fun e => e.hash != 0)).map (fun e => e.value)), k) ∧
        i ≤ k ∧ k < h.length := by
  intro fuel
  induction fuel with
  | zero => intro i out _ _ hf; omega
  | succ fuel ih =>
    intro i out hnz hsum hf
    have hi : i < h.length := by
      by_contra c
      rw [List.drop_of_length_le (by omega)] at hnz
      exact hnz rfl
    unfold headers_copy
    rw [List.getElem?_eq_getElem hi]
    dsimp only
    rw [List.drop_eq_getElem_cons hi] at hnz hsum ⊢
    by_cases c : h[i].hash = 0
    · rw [if_pos c]
      rw [List.filter_cons_of_neg (by simp [c])] at hnz hsum ⊢
      obtain ⟨k, e1, e2, e3⟩ := ih (i + 1) out hnz hsum (by omega)
      exact ⟨k, e1, by omega, e3⟩
    · rw [if_neg c]
      rw [List.filter_cons_of_pos (by simp [c])] at hsum ⊢
      rw [List.map_cons, List.sum_cons] at hsum
      rw [if_neg (by omega), List.length_append]
      by_cases d : (h.drop (i + 1)).filter (fun e => e.hash != 0) = []
      · rw [d] at hsum ⊢
        simp only [List.map_nil, List.sum_nil] at hsum
        rw [if_pos (by omega)]
        refine ⟨i, ?_, le_refl _, hi⟩
        simp [List.intercalate]
      · have hpos : 2 ≤ (((h.drop (i + 1)).filter (fun e => e.hash != 0)).map
            (fun e => e.value.length + 2)).sum := by
          cases hq : (h.drop (i + 1)).filter (fun e => e.hash != 0) with
          | nil => exact absurd hq d
          | cons x xs =>
            rw [List.map_cons, List.sum_cons]
            omega
        rw [if_neg (by omega), if_neg (by omega)]
        obtain ⟨k, e1, e2, e3⟩ := ih (i + 1) (out ++ h[i].value ++ [sep, 32]) d (by
          simp only [List.length_append, List.length_cons, List.length_nil]
          omega) (by omega)
        refine ⟨k, ?_, by omega, e3⟩
        rw [e1]
        cases hq : (h.drop (i + 1)).filter (fun e => e.hash != 0) with
        | nil => exact absurd hq d
        | cons x xs =>
          simp only [List.map_cons, intercalate_cons_cons, List.append_assoc]

/-- Claim C37: `ngx_http_variable_headers_internal` returns `NGX_OK` for every array of
headers; when no header has a hash other than zero it sets not_found, and otherwise the
value is valid and holds the values of the headers with a hash other than zero, in the
order of the array, joined by the separator and a space. When the second loop runs, it
stops at an index below the number of elements, with every read inside the array and
every write inside the allocation. -/
theorem headers_internal_spec (v : ngx_http_variable_value_t) (h : List ngx_table_elt_t)
    (sep : Nat) :
    ngx_http_variable_headers_internal v h sep =
      some (NGX_OK,
        if h.filter (fun e => e.hash != 0) = [] then { v with not_found := true }
        else { data := joined_values h sep, valid := true, no_cacheable := false,
               not_found := false }) ∧
    (h.filter (fun e => e.hash != 0) ≠ [] →
      ∃ k, headers_copy h sep (headers_len h - 2) (h.length + 1) 0 [] =
          some (joined_values h sep, k) ∧ k < h.length ∧
        (joined_values h sep).length = headers_len h - 2) := by
  have hlen : headers_len h =
      ((h.filter (fun e => e.hash != 0)).map (fun e => e.value.length + 2)).sum := by
    unfold headers_len
    rw [headers_len_fold, Nat.zero_add]
  have hcopy : h.filter (fun e => e.hash != 0) ≠ [] →
      ∃ k, headers_copy h sep (headers_len h - 2) (h.length + 1) 0 [] =
        some (joined_values h sep, k) ∧ k < h.length := by
    intro hnz
    have h2 : 2 ≤ headers_len h := by
      rw [hlen]
      cases hq : h.filter (fun e => e.hash != 0) with
      | nil => exact absurd hq hnz
      | cons x xs =>
        rw [List.map_cons, List.sum_cons]
        omega
    obtain ⟨k, e1, _, e3⟩ := headers_copy_spec h sep (headers_len h - 2) (h.length + 1) 0 []
      (by rw [List.drop_zero]; exact hnz)
      (by rw [List.drop_zero, ← hlen, List.length_nil]; omega) (by omega)
    rw [List.drop_zero, List.nil_append] at e1
    exact ⟨k, e1, e3⟩
  have hout : ∀ (fuel i : Nat) (out res : List Nat) (k : Nat),
      headers_copy h sep (headers_len h - 2) fuel i out = some (res, k) →
      res.length = headers_len h - 2 := by
    intro fuel
    induction fuel with
    | zero => intro i out res k hc; cases hc
    | succ fuel ih =>
      intro i out res k hc
      unfold headers_copy at hc
      cases hg : h[i]? with
      | none => rw [hg] at hc; cases hc
      | some e =>
        rw [hg] at hc
        dsimp only at hc
        split_ifs at hc with c1 c2 c3 c4
        · exact ih _ _ _ _ hc
        · simp only [Option.some.injEq, Prod.mk.injEq] at hc
          rw [← hc.1]
          exact c3
        · exact ih _ _ _ _ hc
  refine ⟨?_, fun hnz => ?_⟩
  · unfold ngx_http_variable_headers_internal
    by_cases c : h.filter (fun e => e.hash != 0) = []
    · rw [if_pos (by rw [hlen, c]; rfl), if_pos c]
    · rw [if_neg (by rw [hlen, sum_len_zero]; exact c), if_neg c]
      dsimp only
      by_cases c1 : h.length = 1
      · rw [if_pos c1]
        obtain ⟨e, he⟩ := List.length_eq_one.1 c1
        subst he
        have hh : ¬ e.hash = 0 := by
          intro q
          apply c
          rw [List.filter_cons_of_neg (by simp [q])]
          rfl
        simp [joined_values, List.intercalate, hh]
      · rw [if_neg c1]
        obtain ⟨k, e1, _⟩ := hcopy c
        rw [e1]
  · obtain ⟨k, e1, e2⟩ := hcopy hnz
    exact ⟨k, e1, e2, hout _ _ _ _ _ e1⟩

/-- Three headers, the second with the hash 0 and the third with an empty value, give
the value `a, ` for the separator `,`. -/
theorem headers_internal_spec_witness :
    ngx_http_variable_headers_internal ⟨[], false, false, false⟩
      [⟨1, bytes "k", bytes "a"⟩, ⟨0, bytes "k", bytes "b"⟩, ⟨1, bytes "k", []⟩] 44 =
      some (NGX_OK, ⟨bytes "a, ", true, false, false⟩) ∧
    ∃ k, headers_copy
        [⟨1, bytes "k", bytes "a"⟩, ⟨0, bytes "k", bytes "b"⟩, ⟨1, bytes "k", []⟩] 44
        (headers_len
          [⟨1, bytes "k", bytes "a"⟩, ⟨0, bytes "k", bytes "b"⟩, ⟨1, bytes "k", []⟩] - 2)
        4 0 [] = some (bytes "a, ", k) ∧ k < 3 :=
  ⟨(headers_internal_spec ⟨[], false, false, false⟩
      [⟨1, bytes "k", bytes "a"⟩, ⟨0, bytes "k", bytes "b"⟩, ⟨1, bytes "k", []⟩] 44).1.trans
      (by decide),
   ((headers_internal_spec ⟨[], false, false, false⟩
      [⟨1, bytes "k", bytes "a"⟩, ⟨0, bytes "k", bytes "b"⟩, ⟨1, bytes "k", []⟩] 44).2
      (by decide)).imp (fun k hk => ⟨hk.1.trans
        (congrArg (fun o => some (o, k)) (by decide)), hk.2.1⟩)⟩

/-! ### C38: `ngx_http_get_variable_index` -/

theorem tolower_idem (c : Nat) : ngx_tolower (ngx_tolower c) = ngx_tolower c := by
  unfold ngx_tolower
  split_ifs <;> omega

theorem strlow_same (name : List Nat) : same_name name (ngx_strlow name name.length) := by
  unfold same_name ngx_strlow
  rw [List.take_length, List.map_map]
  apply List.map_congr_left
  intro c _
  exact (tolower_idem c).symm

theorem name_test_iff (name : List Nat) (e : ngx_http_variable_t) :
    (name.length ≠ e.name.length ∨ ¬ ngx_strncasecmp name e.name name.length = true) ↔
      ¬ same_name name e.name := by
  unfold same_name ngx_strncasecmp
  constructor
  · intro h hs
    have hl : name.length = e.name.length := by
      have := congrArg List.length hs
      simpa using this
    rcases h with h | h
    · exact h hl
    · apply h
      rw [beq_iff_eq, List.take_length, hl, List.take_length]
      exact hs
  · intro h
    by_cases hl : name.length = e.name.length
    · right
      intro hc
      rw [beq_iff_eq, List.take_length, hl, List.take_length] at hc
      exact h hc
    · left; exact hl

theorem variables_find_cons (name : List Nat) (e : ngx_http_variable_t)
    (rest : List ngx_http_variable_t) (i : Nat) :
    variables_find name (e :: rest) i =
      if name.length ≠ e.name.length ∨ ¬ ngx_strncasecmp name e.name name.length = true then
        variables_find name rest (i + 1)
      else some i := rfl

theorem variables_find_congr (n1 n2 : List Nat) (h : same_name n1 n2) :
    ∀ (v : List ngx_http_variable_t) (i : Nat),
      variables_find n1 v i = variables_find n2 v i := by
  intro v
  induction v with
  | nil => intro i; rfl
  | cons e rest ih =>
    intro i
    unfold variables_find
    have e1 : ¬ same_name n1 e.name ↔ ¬ same_name n2 e.name := by
      unfold same_name at h ⊢
      rw [h]
    by_cases c : same_name n1 e.name
    · rw [if_neg (fun q => (name_test_iff n1 e).1 q c),
        if_neg (fun q => (name_test_iff n2 e).1 q (by
          unfold same_name at h c ⊢
          rw [← h]; exact c))]
    · rw [if_pos ((name_test_iff n1 e).2 c), if_pos ((name_test_iff n2 e).2 (e1.1 c)), ih]

theorem variables_find_append (name : List Nat) (b : List ngx_http_variable_t) :
    ∀ (a : List ngx_http_variable_t) (i : Nat),
      variables_find name (a ++ b) i =
        match variables_find name a i with
        | some k => some k
        | none => variables_find name b (i + a.length) := by
  intro a
  induction a with
  | nil => intro i; rfl
  | cons e rest ih =>
    intro i
    rw [List.cons_append, variables_find_cons, variables_find_cons]
    by_cases c : name.length ≠ e.name.length ∨ ¬ ngx_strncasecmp name e.name name.length = true
    · rw [if_pos c, if_pos c, ih, List.length_cons]
      have : i + 1 + rest.length = i + (rest.length + 1) := by omega
      rw [this]
    · rw [if_neg c, if_neg c]

theorem variables_find_none (name : List Nat) :
    ∀ (v : List ngx_http_variable_t) (i : Nat),
      variables_find name v i = none ↔ ∀ e ∈ v, ¬ same_name name e.name := by
  intro v
  induction v with
  | nil => intro i; exact ⟨fun _ e he => absurd he (List.not_mem_nil e), fun _ => rfl⟩
  | cons e rest ih =>
    intro i
    unfold variables_find
    by_cases c : name.length ≠ e.name.length ∨ ¬ ngx_strncasecmp name e.name name.length = true
    · rw [if_pos c, ih]
      constructor
      · intro h x hx
        rcases List.mem_cons.1 hx with q | q
        · rw [q]; exact (name_test_iff name e).1 c
        · exact h x q
      · intro h x hx
        exact h x (List.mem_cons_of_mem _ hx)
    · rw [if_neg c]
      constructor
      · intro h; cases h
      · intro h
        exact absurd ((name_test_iff name e).2 (h e (List.mem_cons_self _ _))) c

theorem variables_find_one (name : List Nat) (e : ngx_http_variable_t) (i : Nat)
    (h : same_name name e.name) : variables_find name [e] i = some i := by
  unfold variables_find
  rw [if_neg (fun q => (name_test_iff name e).1 q h)]

theorem variables_push_index (v : List ngx_http_variable_t) (name : List Nat)
    (h : ∀ (i : Nat) (e : ngx_http_variable_t), v[i]? = some e → e.index = i) :
    ∀ (i : Nat) (e : ngx_http_variable_t), (variables_elts (variables_push v name).variables_)[i]? = some e →
      e.index = i := by
  intro i e he
  unfold variables_push variables_elts at he
  simp only [Option.getD_some] at he
  by_cases c : i < v.length
  · rw [List.getElem?_append_left c] at he
    exact h i e he
  · rw [List.getElem?_append_right (by omega)] at he
    by_cases c1 : i - v.length = 0
    · rw [c1] at he
      simp only [List.getElem?_cons_zero, Option.some.injEq] at he
      rw [← he]
      show v.length + 1 - 1 = i
      omega
    · obtain ⟨k, hk⟩ := Nat.exists_eq_succ_of_ne_zero c1
      rw [hk] at he
      simp at he

theorem get_variable_index_keeps (variables_ : Option (List ngx_http_variable_t))
    (name : List Nat)
    (h : ∀ (i : Nat) (e : ngx_http_variable_t), (variables_elts variables_)[i]? = some e → e.index = i) :
    ∀ (i : Nat) (e : ngx_http_variable_t), (variables_elts (ngx_http_get_variable_index variables_ name).variables_)[i]?
      = some e → e.index = i := by
  unfold ngx_http_get_variable_index
  by_cases c : name.length = 0
  · rw [if_pos c]; exact h
  · rw [if_neg c]
    cases variables_ with
    | none =>
      exact variables_push_index [] name (fun i e he => by simp at he)
    | some v =>
      dsimp only
      cases hf : variables_find name v 0 with
      | some k => exact h
      | none => exact variables_push_index v name h

theorem variables_after_index (names : List (List Nat)) :
    ∀ variables_ : Option (List ngx_http_variable_t),
      (∀ (i : Nat) (e : ngx_http_variable_t), (variables_elts variables_)[i]? = some e → e.index = i) →
      ∀ (i : Nat) (e : ngx_http_variable_t), (variables_elts (variables_after variables_ names))[i]? = some e →
        e.index = i := by
  induction names with
  | nil => intro vs h; exact h
  | cons name rest ih =>
    intro vs h
    unfold variables_after
    rw [List.foldl_cons]
    exact ih _ (get_variable_index_keeps vs name h)

theorem get_variable_index_again (variables_ : Option (List ngx_http_variable_t))
    (name name1 : List Nat) (ext : List ngx_http_variable_t) (hne : name ≠ [])
    (hs : same_name name name1) :
    ngx_http_get_variable_index
      (some (variables_elts (ngx_http_get_variable_index variables_ name).variables_ ++ ext))
      name1 =
      { rc := (ngx_http_get_variable_index variables_ name).rc,
        variables_ :=
          some (variables_elts (ngx_http_get_variable_index variables_ name).variables_
            ++ ext),
        logged := false } := by
  have hl : ¬ name.length = 0 := fun c => hne (List.length_eq_zero.1 c)
  have hl1 : ¬ name1.length = 0 := by
    have := congrArg List.length hs
    simp only [List.length_map] at this
    omega
  have hsym : same_name name1 name := hs.symm
  have push : ∀ v : List ngx_http_variable_t, variables_find name v 0 = none →
      ngx_http_get_variable_index
        (some (variables_elts (variables_push v name).variables_ ++ ext)) name1 =
        { rc := (variables_push v name).rc,
          variables_ := some (variables_elts (variables_push v name).variables_ ++ ext),
          logged := false } := by
    intro v hv
    unfold ngx_http_get_variable_index
    rw [if_neg hl1]
    dsimp only
    rw [variables_find_congr name1 name hsym]
    unfold variables_push variables_elts
    simp only [Option.getD_some]
    rw [variables_find_append, variables_find_append, hv]
    dsimp only
    rw [variables_find_one name _ _ (strlow_same name)]
    dsimp only
    simp
  unfold ngx_http_get_variable_index
  rw [if_neg hl]
  cases variables_ with
  | none =>
    have := push [] rfl
    unfold ngx_http_get_variable_index at this
    exact this
  | some v =>
    dsimp only
    cases hf : variables_find name v 0 with
    | none =>
      have := push v hf
      unfold ngx_http_get_variable_index at this
      exact this
    | some k =>
      dsimp only
      rw [if_neg hl1]
      rw [variables_find_congr name1 name hsym]
      unfold variables_elts
      simp only [Option.getD_some]
      rw [variables_find_append, hf]

/-- Claim C38: `ngx_http_get_variable_index` with an empty name returns `NGX_ERROR` and
leaves the array. With a name that is not empty and that no element has, up to case, it
appends an element with the name in lower case and returns the number of elements there
were. After a call with a name that is not empty, every call with a name equal to it up
to case, also after further elements were appended, returns the same index and leaves
the array as it is. The field `index` of the element `i` is `i`: calls keep this, and it
holds after any calls that start with the empty array. -/
theorem get_variable_index_spec (variables_ : Option (List ngx_http_variable_t))
    (name : List Nat) :
    (name = [] →
      (ngx_http_get_variable_index variables_ name).rc = NGX_ERROR ∧
      (ngx_http_get_variable_index variables_ name).variables_ = variables_) ∧
    (name ≠ [] → (∀ e ∈ variables_elts variables_, ¬ same_name name e.name) →
      (ngx_http_get_variable_index variables_ name).rc =
        ((variables_elts variables_).length : Int) ∧
      (ngx_http_get_variable_index variables_ name).variables_ =
        some (variables_elts variables_ ++
          [{ name := name.map ngx_tolower, set_handler := none, get_handler := none,
             data := 0, flags := 0, index := (variables_elts variables_).length }])) ∧
    (name ≠ [] → ∀ (name1 : List Nat) (ext : List ngx_http_variable_t),
      same_name name name1 →
      ngx_http_get_variable_index
        (some (variables_elts (ngx_http_get_variable_index variables_ name).variables_
          ++ ext)) name1 =
        { rc := (ngx_http_get_variable_index variables_ name).rc,
          variables_ :=
            some (variables_elts (ngx_http_get_variable_index variables_ name).variables_
              ++ ext),
          logged := false }) ∧
    (name ≠ [] →
      (ngx_http_get_variable_index variables_ name).variables_ =
        some (variables_elts (ngx_http_get_variable_index variables_ name).variables_)) ∧
    ((∀ (i : Nat) (e : ngx_http_variable_t),
        (variables_elts variables_)[i]? = some e → e.index = i) →
      ∀ (i : Nat) (e : ngx_http_variable_t),
        (variables_elts (ngx_http_get_variable_index variables_ name).variables_)[i]?
          = some e → e.index = i) ∧
    (∀ (names : List (List Nat)) (i : Nat) (e : ngx_http_variable_t),
      (variables_elts (variables_after none names))[i]? = some e → e.index = i) := by
  refine ⟨fun h => ?_, fun h hno => ?_, fun h name1 ext hs =>
    get_variable_index_again variables_ name name1 ext h hs, fun h => ?_,
    get_variable_index_keeps variables_ name,
    fun names => variables_after_index names none (fun i e he => by
      simp [variables_elts] at he)⟩
  · subst h
    exact ⟨rfl, rfl⟩
  · have hl : ¬ name.length = 0 := fun c => h (List.length_eq_zero.1 c)
    have hp : ∀ v : List ngx_http_variable_t,
        (variables_push v name).rc = (v.length : Int) ∧
        (variables_push v name).variables_ =
          some (v ++ [{ name := name.map ngx_tolower, set_handler := none,
                        get_handler := none, data := 0, flags := 0,
                        index := v.length }]) := by
      intro v
      unfold variables_push ngx_strlow
      simp only [List.take_length, Nat.add_sub_cancel]
      exact ⟨trivial, trivial⟩
    unfold ngx_http_get_variable_index
    rw [if_neg hl]
    cases variables_ with
    | none => exact hp []
    | some v =>
      dsimp only
      rw [(variables_find_none name v 0).2 hno]
      exact hp v
  · have hl : ¬ name.length = 0 := fun c => h (List.length_eq_zero.1 c)
    unfold ngx_http_get_variable_index
    rw [if_neg hl]
    cases variables_ with
    | none => rfl
    | some v =>
      dsimp only
      cases hf : variables_find name v 0 with
      | none => rfl
      | some k => rfl

/-- The names `Host`, `host` and `HOST` get the index 0, the name `uri` the index 1. -/
theorem get_variable_index_spec_witness :
    (ngx_http_get_variable_index none (bytes "Host")).rc = 0 ∧
    (ngx_http_get_variable_index none (bytes "Host")).variables_ =
      some [{ name := bytes "host", set_handler := none, get_handler := none,
              data := 0, flags := 0, index := 0 }] ∧
    (ngx_http_get_variable_index
      (some (variables_elts (ngx_http_get_variable_index none (bytes "Host")).variables_
        ++ [{ name := bytes "uri", set_handler := none, get_handler := none,
              data := 0, flags := 0, index := 1 }])) (bytes "HOST")).rc = 0 :=
  ⟨((get_variable_index_spec none (bytes "Host")).2.1 (by decide)
      (fun e he => by simp [variables_elts] at he)).1,
   ((get_variable_index_spec none (bytes "Host")).2.1 (by decide)
      (fun e he => by simp [variables_elts] at he)).2,
   (congrArg variable_index_result.rc
      ((get_variable_index_spec none (bytes "Host")).2.2.1 (by decide) (bytes "HOST")
        [{ name := bytes "uri", set_handler := none, get_handler := none,
           data := 0, flags := 0, index := 1 }] (by unfold same_name; decide))).trans
     (((get_variable_index_spec none (bytes "Host")).2.1 (by decide)
      (fun e he => by simp [variables_elts] at he)).1)⟩

/-! ### C39: the indexed variables of a request -/

theorem indexed_unset (c : variables_conf_t) (r : variables_request_t) (index : Nat)
    (slot : ngx_http_variable_value_t) (hn : index < c.nelts)
    (hs : r.variables_[index]? = some slot) (h1 : slot.valid = false)
    (h2 : slot.not_found = false)
    (hlen : (c.get_handler index r.variables_).2.length = r.variables_.length) :
    ∃ res, ngx_http_get_indexed_variable c r index = some res ∧
      res.r.calls = r.calls ++ [index] ∧
      res.r.variables_.length = r.variables_.length ∧
      ((c.get_handler index r.variables_).1 = NGX_OK → res.ret = some index ∧
        (c.flags index &&& c.NGX_HTTP_VAR_NOCACHEABLE = 0 →
          res.r.variables_ = (c.get_handler index r.variables_).2) ∧
        (c.flags index &&& c.NGX_HTTP_VAR_NOCACHEABLE ≠ 0 →
          ∃ s1, (c.get_handler index r.variables_).2[index]? = some s1 ∧
            res.r.variables_ = set_slot (c.get_handler index r.variables_).2 index
              { s1 with no_cacheable := true })) ∧
      ((c.get_handler index r.variables_).1 ≠ NGX_OK → res.ret = none ∧
        ∃ s1, (c.get_handler index r.variables_).2[index]? = some s1 ∧
          res.r.variables_ = set_slot (c.get_handler index r.variables_).2 index
            { s1 with valid := false, not_found := true } ∧
          res.r.variables_[index]? = some { s1 with valid := false, not_found := true }) := by
  have hi : index < r.variables_.length := by
    by_contra c1
    rw [List.getElem?_eq_none (by omega)] at hs
    cases hs
  have hi2 : index < (c.get_handler index r.variables_).2.length := by rw [hlen]; exact hi
  unfold ngx_http_get_indexed_variable
  rw [if_neg (by omega), hs]
  dsimp only
  rw [if_neg (by rw [h1, h2]; simp), List.getElem?_eq_getElem hi2]
  dsimp only
  generalize ((c.get_handler index r.variables_).2)[index] = s1
  by_cases hok : (c.get_handler index r.variables_).1 = NGX_OK
  · rw [if_pos hok]
    by_cases hf : c.flags index &&& c.NGX_HTTP_VAR_NOCACHEABLE ≠ 0
    · rw [if_pos hf]
      refine ⟨_, rfl, rfl, ?_, fun _ => ⟨rfl, fun c0 => absurd c0 hf, fun _ => ⟨s1, rfl, rfl⟩⟩,
        fun c0 => absurd hok c0⟩
      simp only [set_slot, List.length_set]
      exact hlen
    · rw [if_neg hf]
      exact ⟨_, rfl, rfl, hlen, fun _ => ⟨rfl, fun _ => rfl, fun c0 => absurd c0 hf⟩,
        fun c0 => absurd hok c0⟩
  · rw [if_neg hok]
    refine ⟨_, rfl, rfl, ?_, fun c0 => absurd c0 hok, fun _ => ⟨rfl, s1, rfl, rfl, ?_⟩⟩
    · simp only [set_slot, List.length_set]
      exact hlen
    · simp only [set_slot]
      rw [List.getElem?_set_self hi2]

/-- Claim C39: `ngx_http_get_indexed_variable` returns NULL for an index that is not
below the number of indexed variables, without a call of a handler; for a slot that is
valid or not_found it returns the slot and leaves the request as it is, without a call
of the handler; for an unset slot it calls the handler once, and when the handler fails
it sets valid = 0 and not_found = 1 in the slot and returns NULL.
`ngx_http_get_flushed_variable` calls the handler exactly when the slot is unset or
marked no_cacheable, and otherwise returns the slot and leaves the request as it
is. -/
theorem indexed_variable_cache (c : variables_conf_t) (r : variables_request_t)
    (index : Nat) (slot : ngx_http_variable_value_t)
    (hs : r.variables_[index]? = some slot)
    (hlen : ∀ vs, (c.get_handler index vs).2.length = vs.length) :
    (∀ i, c.nelts ≤ i → ∃ res, ngx_http_get_indexed_variable c r i = some res ∧
      res.ret = none ∧ res.r.calls = r.calls ∧ res.r.variables_ = r.variables_) ∧
    (index < c.nelts → (slot.valid = true ∨ slot.not_found = true) →
      ngx_http_get_indexed_variable c r index = some ⟨some index, r⟩) ∧
    (index < c.nelts → slot.valid = false → slot.not_found = false →
      ∃ res, ngx_http_get_indexed_variable c r index = some res ∧
        res.r.calls = r.calls ++ [index] ∧
        ((c.get_handler index r.variables_).1 = NGX_OK → res.ret = some index) ∧
        ((c.get_handler index r.variables_).1 ≠ NGX_OK → res.ret = none ∧
          ∃ s1, (c.get_handler index r.variables_).2[index]? = some s1 ∧
            res.r.variables_[index]? =
              some { s1 with valid := false, not_found := true })) ∧
    (index < c.nelts →
      ∃ res, ngx_http_get_flushed_variable c r index = some res ∧
        ((slot.valid = false ∧ slot.not_found = false) ∨ slot.no_cacheable = true →
          res.r.calls = r.calls ++ [index]) ∧
        (¬ ((slot.valid = false ∧ slot.not_found = false) ∨ slot.no_cacheable = true) →
          res = ⟨some index, r⟩)) := by
  refine ⟨fun i hi => ?_, fun hn hv => ?_, fun hn h1 h2 => ?_, fun hn => ?_⟩
  · unfold ngx_http_get_indexed_variable
    rw [if_pos hi]
    exact ⟨_, rfl, rfl, rfl, rfl⟩
  · unfold ngx_http_get_indexed_variable
    rw [if_neg (by omega), hs]
    dsimp only
    rw [if_pos (by rcases hv with hv | hv <;> simp [hv])]
  · obtain ⟨res, e1, e2, _, e4, e5⟩ := indexed_unset c r index slot hn hs h1 h2 (hlen _)
    refine ⟨res, e1, e2, fun hok => (e4 hok).1, fun hok => ?_⟩
    obtain ⟨g1, s1, g2, _, g4⟩ := e5 hok
    exact ⟨g1, s1, g2, g4⟩
  · have hi : index < r.variables_.length := by
      by_contra c1
      rw [List.getElem?_eq_none (by omega)] at hs
      cases hs
    unfold ngx_http_get_flushed_variable
    rw [hs]
    dsimp only
    by_cases hv : slot.valid = true ∨ slot.not_found = true
    · rw [if_pos hv]
      by_cases hc : slot.no_cacheable = true
      · rw [if_neg (by simp [hc])]
        have hs2 : (set_slot r.variables_ index
            { slot with valid := false, not_found := false })[index]? =
            some { slot with valid := false, not_found := false } := by
          simp only [set_slot]
          rw [List.getElem?_set_self hi]
        obtain ⟨res, e1, e2, _⟩ := indexed_unset c
          { r with variables_ := (set_slot r.variables_ index
              { slot with valid := false, not_found := false }) } index _ hn hs2 rfl rfl
          (hlen _)
        refine ⟨res, e1, fun _ => e2, fun c0 => absurd (Or.inr hc) c0⟩
      · rw [if_pos (by simpa using hc)]
        refine ⟨_, rfl, fun c0 => ?_, fun _ => rfl⟩
        rcases c0 with ⟨c1, c2⟩ | c1
        · rcases hv with hv | hv
          · rw [c1] at hv; cases hv
          · rw [c2] at hv; cases hv
        · exact absurd c1 hc
    · rw [if_neg hv]
      have h1 : slot.valid = false := by
        cases hq : slot.valid
        · rfl
        · exact absurd (Or.inl hq) hv
      have h2 : slot.not_found = false := by
        cases hq : slot.not_found
        · rfl
        · exact absurd (Or.inr hq) hv
      obtain ⟨res, e1, e2, _⟩ := indexed_unset c r index slot hn hs h1 h2 (hlen _)
      exact ⟨res, e1, fun _ => e2, fun c0 => absurd (Or.inl ⟨h1, h2⟩) c0⟩

/-- A request whose slot 0 is valid: the slot is returned, and the handler, which would
fail, is not called. -/
theorem indexed_variable_cache_witness :
    ngx_http_get_indexed_variable ⟨1, fun _ => 0, 2, fun _ vs => (NGX_ERROR, vs)⟩
      ⟨[⟨[97], true, false, false⟩], [], 0⟩ 0 =
      some ⟨some 0, ⟨[⟨[97], true, false, false⟩], [], 0⟩⟩ :=
  (indexed_variable_cache ⟨1, fun _ => 0, 2, fun _ vs => (NGX_ERROR, vs)⟩
    ⟨[⟨[97], true, false, false⟩], [], 0⟩ 0 ⟨[97], true, false, false⟩ rfl
    (fun _ => rfl)).2.1 (by decide) (Or.inl rfl)

/-! ### C40: the copy of a token is in bounds -/

theorem escapes_closed_append :
    ∀ (n : Nat) (tok : List Nat), tok.length = n →
      (escapes_closed tok = true → ∀ c, escapes_closed (tok ++ [c]) = (c != BSLASH)) ∧
      (escapes_closed tok = false → ∀ c, escapes_closed (tok ++ [c]) = true) := by
  intro n
  induction n using Nat.strong_induction_on with
  | _ n ih =>
    intro tok hn
    match tok with
    | [] => simp [escapes_closed]
    | [x] =>
      by_cases hx : x = BSLASH
      · simp [escapes_closed, hx]
      · simp [escapes_closed, hx]
    | x :: d :: r =>
      simp only [List.length_cons] at hn
      have i1 := ih r.length (by omega) r rfl
      have i2 := ih (r.length + 1) (by omega) (d :: r) rfl
      by_cases hx : x = BSLASH
      · simp only [List.cons_append, escapes_closed, hx, if_true]
        exact i1
      · simp only [List.cons_append, escapes_closed, hx, if_false]
        exact i2

theorem closed_snoc (tok : List Nat) (c : Nat) (h : escapes_closed tok = true)
    (hc : c ≠ BSLASH) : escapes_closed (tok ++ [c]) = true := by
  rw [(escapes_closed_append _ tok rfl).1 h c]
  simpa using hc

theorem closed_snoc_bslash (tok : List Nat) (h : escapes_closed tok = true) :
    escapes_closed (tok ++ [BSLASH]) = false := by
  rw [(escapes_closed_append _ tok rfl).1 h BSLASH]
  rfl

theorem open_snoc (tok : List Nat) (c : Nat) (h : escapes_closed tok = false) :
    escapes_closed (tok ++ [c]) = true :=
  (escapes_closed_append _ tok rfl).2 h c

theorem char_act_tail_esc (l : token_locals) (noargs : Bool) (line ch : Nat)
    (tok : List Nat) (h2 : l.sharp_comment = false) (h3 : l.quoted = false)
    (h4 : l.last_space = false → escapes_closed tok = true) :
    esc_act tok ch (char_act_tail l noargs line ch) := by
  obtain ⟨ns, ls, sc, v, q, sq, dq, st, sl⟩ := l
  simp only at h2 h3 h4
  subst h2 h3
  unfold char_act_tail
  cases ls
  · have hcl := h4 rfl
    have hb : ∀ c, c ≠ BSLASH → escapes_closed (tok ++ [c]) = true :=
      fun c hc => closed_snoc tok c hcl hc
    have hbs := closed_snoc_bslash tok hcl
    simp only [Bool.false_eq_true, if_false]
    split_ifs with c1 c2 c3 c4 c5 c6 c7 <;>
      simp only [esc_act, esc_inv, apply_mark, Bool.false_eq_true, false_implies,
        true_implies, Bool.not_false, Bool.not_true, implies_true, and_true, true_and,
        and_self, reduceCtorEq] <;>
      first
        | exact hcl
        | exact ⟨hcl, hb _ (by assumption)⟩
        | exact hbs
        | (apply hb; intro e; subst e; simp_all)
        | (subst_vars; exact hbs)
  · simp only [if_true]
    split_ifs <;>
      simp_all [esc_act, esc_inv, apply_mark, escapes_closed]

theorem char_act_esc (l : token_locals) (noargs : Bool) (line ch : Nat) (tok : List Nat)
    (h : esc_inv l tok) : esc_act tok ch (char_act l noargs line ch) := by
  obtain ⟨ns, ls, sc, v, q, sq, dq, st, sl⟩ := l
  simp only [esc_inv] at h
  obtain ⟨h1, h2⟩ := h
  have key : ∀ sc1 : Bool, (sc1 = true → ls = true) →
      esc_act tok ch
        (if sc1 = true then .go ⟨ns, ls, sc1, v, q, sq, dq, st, sl⟩ .keep
         else if q = true then .go ⟨ns, ls, sc1, v, false, sq, dq, st, sl⟩ .keep
         else if ns = true then
           if is_space ch then .go ⟨false, true, sc1, v, q, sq, dq, st, sl⟩ .keep
           else if ch = SEMI then .stop NGX_OK
           else if ch = LBRACE then .stop NGX_CONF_BLOCK_START
           else if ch = RPAREN then
             char_act_tail ⟨false, true, sc1, v, q, sq, dq, st, sl⟩ noargs line ch
           else .fail (.unexpected_char ch)
         else char_act_tail ⟨ns, ls, sc1, v, q, sq, dq, st, sl⟩ noargs line ch) := by
    intro sc1 hs
    cases sc1
    · simp only [Bool.false_eq_true, if_false]
      cases q
      · simp only [Bool.false_eq_true, if_false]
        cases ns
        · simp only [Bool.false_eq_true, if_false]
          exact char_act_tail_esc _ noargs line ch tok rfl rfl (fun e => by
            have := h2 e
            simpa using this)
        · simp only [if_true]
          split_ifs
          · simp [esc_act, esc_inv, apply_mark]
          · trivial
          · trivial
          · exact char_act_tail_esc _ noargs line ch tok rfl rfl (fun e => by cases e)
          · trivial
      · simp only [if_true, esc_act, esc_inv, apply_mark]
        refine ⟨fun e => (by cases e), fun e => ?_⟩
        have := h2 e
        simp only [Bool.not_true] at this
        rw [open_snoc tok ch this]
        rfl
    · have hls := hs rfl
      subst hls
      simp [esc_act, esc_inv, apply_mark]
  unfold char_act
  by_cases hlf : ch = LF
  · simp only [hlf, if_true]
    have := key false (fun e => by cases e)
    rw [hlf] at this
    exact this
  · simp only [hlf, if_false]
    exact key sc h1

theorem copy_run_dst (data : List Nat) (stop : Nat) :
    ∀ (fuel : Nat) (s : copy_state),
      (copy_run data stop fuel s).dst = s.dst ++ copy_loop data stop fuel s.src ∧
      (copy_run data stop fuel s).len = s.len + (copy_loop data stop fuel s.src).length := by
  intro fuel
  induction fuel with
  | zero => intro s; simp [copy_run, copy_loop]
  | succ fuel ih =>
    intro s
    unfold copy_run copy_loop
    dsimp only
    split_ifs <;>
      first
        | (simp only [List.append_nil, List.length_nil, Nat.add_zero, and_self])
        | (refine ⟨?_, ?_⟩
           · rw [(ih _).1]
             simp only [List.append_assoc, List.singleton_append]
           · rw [(ih _).2]
             simp only [List.length_cons]
             omega)

theorem copy_loop_length (data : List Nat) (stop : Nat) :
    ∀ (fuel src : Nat), (copy_loop data stop fuel src).length ≤ fuel := by
  intro fuel
  induction fuel with
  | zero => intro src; simp [copy_loop]
  | succ fuel ih =>
    intro src
    unfold copy_loop
    dsimp only
    split_ifs <;>
      first
        | (simp only [List.length_cons]; exact Nat.succ_le_succ (ih _))
        | simp

theorem window_cons (data : List Nat) (src stop : Nat) (h1 : src < stop)
    (h2 : stop ≤ data.length) :
    (data.drop src).take (stop - src) =
      data.getD src 0 :: (data.drop (src + 1)).take (stop - (src + 1)) := by
  have hs : src < data.length := by omega
  have e : stop - src = (stop - (src + 1)) + 1 := by omega
  rw [List.drop_eq_getElem_cons hs, e, List.take_succ_cons, List.getD_eq_getElem?_getD,
    List.getElem?_eq_getElem hs]
  rfl

theorem closed_cons_ne (d : Nat) (r : List Nat) (h : d ≠ BSLASH) :
    escapes_closed (d :: r) = escapes_closed r := by
  cases r with
  | nil => simp [escapes_closed, h]
  | cons e r => simp [escapes_closed, h]

theorem copy_run_src (data : List Nat) (stop : Nat) (h2 : stop ≤ data.length) :
    ∀ (fuel : Nat) (s : copy_state), s.src ≤ stop →
      escapes_closed ((data.drop s.src).take (stop - s.src)) = true →
      (copy_run data stop fuel s).src ≤ stop ∧
      (stop - s.src ≤ fuel → (copy_run data stop fuel s).src = stop) := by
  intro fuel
  induction fuel with
  | zero =>
    intro s h1 _
    unfold copy_run
    exact ⟨h1, fun h => by omega⟩
  | succ fuel ih =>
    intro s h1 hc
    unfold copy_run
    by_cases c : s.src < stop
    · rw [if_pos c]
      rw [window_cons data s.src stop c h2] at hc
      by_cases cb : data.getD s.src 0 = BSLASH
      · rw [if_pos cb]
        rw [cb] at hc
        have c2 : s.src + 1 < stop := by
          by_contra q
          have e : stop - (s.src + 1) = 0 := by omega
          rw [e, List.take_zero] at hc
          simp [escapes_closed] at hc
        rw [window_cons data (s.src + 1) stop c2 h2] at hc
        have hc2 : escapes_closed ((data.drop (s.src + 2)).take (stop - (s.src + 2))) = true := by
          simpa [escapes_closed] using hc
        have two : ∀ d : List Nat, ∀ n : Nat,
            (copy_run data stop fuel ⟨d, s.src + 2, n⟩).src ≤ stop ∧
            (stop - s.src ≤ fuel + 1 →
              (copy_run data stop fuel ⟨d, s.src + 2, n⟩).src = stop) := by
          intro d n
          obtain ⟨i1, i2⟩ := ih ⟨d, s.src + 2, n⟩ (by show s.src + 2 ≤ stop; omega) hc2
          exact ⟨i1, fun h => i2 (by show stop - (s.src + 2) ≤ fuel; omega)⟩
        dsimp only
        split_ifs with q1 q2 q3 q4
        · exact two _ _
        · exact two _ _
        · exact two _ _
        · exact two _ _
        · have hd : data.getD (s.src + 1) 0 ≠ BSLASH := fun e => q1 (Or.inr (Or.inr e))
          have hc1 : escapes_closed
              ((data.drop (s.src + 1)).take (stop - (s.src + 1))) = true := by
            rw [window_cons data (s.src + 1) stop c2 h2, closed_cons_ne _ _ hd]
            exact hc2
          obtain ⟨i1, i2⟩ := ih ⟨s.dst ++ [data.getD s.src 0], s.src + 1, s.len + 1⟩
            (by show s.src + 1 ≤ stop; omega) hc1
          exact ⟨i1, fun h => i2 (by show stop - (s.src + 1) ≤ fuel; omega)⟩
      · rw [if_neg cb]
        rw [closed_cons_ne _ _ cb] at hc
        obtain ⟨i1, i2⟩ := ih ⟨s.dst ++ [data.getD s.src 0], s.src + 1, s.len + 1⟩
          (by show s.src + 1 ≤ stop; omega) hc
        exact ⟨i1, fun h => i2 (by show stop - (s.src + 1) ≤ fuel; omega)⟩
    · rw [if_neg c]
      exact ⟨h1, fun _ => by omega⟩

theorem copy_in_bounds_of_closed (data : List Nat) (start pos : Nat) (h1 : start < pos)
    (h2 : pos ≤ data.length)
    (h3 : escapes_closed ((data.drop start).take (pos - 1 - start)) = true) :
    copy_in_bounds data start pos := by
  have hs := copy_run_src data (pos - 1) (by omega)
  have hd := copy_run_dst data (pos - 1) (pos - 1 - start) ⟨[], start, 0⟩
  have hl := copy_loop_length data (pos - 1) (pos - 1 - start) start
  have hfin := (hs (pos - 1 - start) ⟨[], start, 0⟩ (by show start ≤ pos - 1; omega) h3).2
    (le_refl _)
  unfold copy_in_bounds copy_word
  refine ⟨by rw [hfin]; omega, ?_, ?_, ?_, hfin, fun k => ?_⟩
  · rw [hd.1]; rfl
  · rw [hd.1]
    simp only [List.nil_append]
    omega
  · rw [hd.1, hd.2]
    simp
  · exact (hs k ⟨[], start, 0⟩ (by show start ≤ pos - 1; omega) h3).1

theorem esc_inv_start (l : token_locals) (s : Nat) (tok : List Nat) (h : esc_inv l tok) :
    esc_inv { l with start := s } tok := h

theorem window_token (data tok : List Nat) (ch s p : Nat) (hp : p ≤ data.length)
    (hw : (data.drop s).take (p - s) = tok ++ [ch]) :
    (data.drop s).take (p - 1 - s) = tok := by
  have hlen : tok.length + 1 = min (p - s) (data.length - s) := by
    have := congrArg List.length hw
    simpa [List.length_take, List.length_drop] using this.symm
  have e : (data.drop s).take (p - 1 - s) = ((data.drop s).take (p - s)).take (p - 1 - s) := by
    rw [List.take_take]
    congr 1
    omega
  rw [e, hw]
  have e2 : p - 1 - s = tok.length := by omega
  rw [e2, List.take_left]

theorem token_iter_esc (g : Bool) (l : token_locals) (cf : ngx_conf_t) (ch : Nat)
    (rest : List Nat) (hwf : wf g l cf) (hup : upcoming cf = ch :: rest)
    (hg : ¬(g = true ∧ (pending l cf).length = NGX_CONF_BUFFER))
    (hinv : esc_inv l (pending l cf)) :
    ∃ (s1 : Nat) (cf2 : ngx_conf_t),
      token_iter l cf = token_char { l with start := s1 } cf2 ch ∧
      s1 + 1 ≤ cf2.conf_file.buffer.pos ∧
      cf2.conf_file.buffer.pos ≤ cf2.conf_file.buffer.data.length ∧
      (cf2.conf_file.buffer.data.drop s1).take (cf2.conf_file.buffer.pos - s1)
        = pending l cf ++ [ch] ∧
      (∀ l1, char_act l (decide (cf.args.length = 0))
          (if ch = LF then cf.conf_file.line + 1 else cf.conf_file.line) ch = .word l1 →
        (step_conf (token_iter l cf)).args = cf.args ++
          [(copy_word cf2.conf_file.buffer.data s1 cf2.conf_file.buffer.pos).dst] ∧
        copy_in_bounds cf2.conf_file.buffer.data s1 cf2.conf_file.buffer.pos) ∧
      (∀ l1 cf1, token_iter l cf = .next l1 cf1 → esc_inv l1 (pending l1 cf1)) := by
  obtain ⟨s1, cf2, hit, hs1, hwf2, hwin, hup2, hargs2, hlog2, hline2, hsf2⟩ :=
    token_iter_step g l cf ch rest hwf hup hg
  have hesc := char_act_esc l (decide (cf.args.length = 0))
    (if ch = LF then cf.conf_file.line + 1 else cf.conf_file.line) ch (pending l cf) hinv
  refine ⟨s1, cf2, hit, hs1, hwf2.2.1, hwin, ?_, ?_⟩
  · intro l1 hact
    rw [hact] at hesc
    have hb := copy_in_bounds_of_closed cf2.conf_file.buffer.data s1 cf2.conf_file.buffer.pos
      (by omega) hwf2.2.1 (by
        rw [window_token _ _ ch s1 _ hwf2.2.1 hwin]
        exact hesc.1)
    refine ⟨?_, hb⟩
    rw [hit, hb.2.1]
    simp only [token_char_act, char_act_start, count_line_line, count_line_args, hargs2,
      hline2, hact, act_set_start, run_act, token_found, if_true, count_line_buffer]
    split_ifs <;> rfl
  · intro l1 cf1 hnext
    rw [hit] at hnext
    simp only [token_char_act, char_act_start, count_line_line, count_line_args, hargs2,
      hline2] at hnext
    cases hact : char_act l (decide (cf.args.length = 0))
        (if ch = LF then cf.conf_file.line + 1 else cf.conf_file.line) ch with
    | go l2 m =>
      rw [hact] at hnext hesc
      simp only [act_set_start, run_act, count_line_buffer, token_step.next.injEq] at hnext
      rw [← hnext.1, ← hnext.2]
      have hpend : pending { l2 with start := mark_start m s1 cf2.conf_file.buffer.pos }
          (count_line cf2 ch) = apply_mark m (pending l cf) ch := by
        simp only [pending, count_line_buffer]
        exact window_mark _ _ ch s1 _ m hs1 hwf2.2.1 hwin
      rw [hpend]
      exact hesc
    | word l2 =>
      rw [hact] at hnext hesc
      simp only [act_set_start, run_act, token_found, if_true, count_line_buffer] at hnext
      split_ifs at hnext
      simp only [token_step.next.injEq] at hnext
      rw [← hnext.1, ← hnext.2]
      have hpend : pending { l2 with start := s1 }
          { count_line cf2 ch with
            args := (count_line cf2 ch).args ++
              [copy_token cf2.conf_file.buffer.data s1 cf2.conf_file.buffer.pos] }
          = pending l cf ++ [ch] := by
        simp only [pending, count_line_buffer]
        exact hwin
      rw [hpend]
      exact hesc.2
    | stop rc =>
      rw [hact] at hnext
      simp only [act_set_start, run_act] at hnext
      cases hnext
    | fail m =>
      rw [hact] at hnext
      simp only [act_set_start, run_act] at hnext
      cases hnext

theorem reach_esc (g : Bool) (pre : List Nat) :
    ∀ (l : token_locals) (tok : List Nat) (line : Nat) (args : List (List Nat))
      (st : token_locals × List Nat × Nat × List (List Nat)),
      esc_inv l tok → reach g pre l tok line args = some st → esc_inv st.1 st.2.1 := by
  induction pre with
  | nil =>
    intro l tok line args st hl h
    simp only [reach, Option.some.injEq] at h
    rw [← h]
    exact hl
  | cons ch pre ih =>
    intro l tok line args st hl h
    simp only [reach] at h
    by_cases hg : g = true ∧ tok.length = NGX_CONF_BUFFER
    · simp [hg] at h
    · simp only [hg, if_false] at h
      have hf := char_act_esc l (decide (args.length = 0))
        (if ch = LF then line + 1 else line) ch tok hl
      cases hact : char_act l (decide (args.length = 0))
          (if ch = LF then line + 1 else line) ch with
      | go l1 m =>
        rw [hact] at h hf
        exact ih _ _ _ _ st hf h
      | word l1 =>
        rw [hact] at h hf
        by_cases hc : ch = SEMI ∨ ch = LBRACE
        · simp [hc] at h
        · simp only [hc, if_false] at h
          exact ih _ _ _ _ st hf.2 h
      | stop rc => rw [hact] at h; exact Option.noConfusion h
      | fail m => rw [hact] at h; exact Option.noConfusion h

/-- Claim C40: the copy of a token in `ngx_conf_read_token` is in bounds. At the start of
a call no escape is pending; every loop iteration that goes on keeps that inside a
token the flag `quoted` is set exactly when the last backslash still waits for its
byte; and in an iteration that finds a token, the copy loop over the buffer ends with
the source index at the end of the token without ever being behind it, writes the
argument that is stored, which with its NUL fits the `b->pos - 1 - start + 1` bytes
allocated, and leaves in `len` the number of bytes in front of the NUL. The same holds
for the token that ends with the byte `ch` after a call has read the bytes `pre`. For
any bytes between `start` and `b->pos - 1`, the loop writes at most one byte for each
and counts them in `len`. -/
theorem read_token_copy_bounds :
    (∀ cf : ngx_conf_t,
      esc_inv (token_init { cf with args := [] })
        (pending (token_init { cf with args := [] }) { cf with args := [] })) ∧
    (∀ (g : Bool) (l : token_locals) (cf : ngx_conf_t) (ch : Nat) (rest : List Nat),
      wf g l cf → esc_inv l (pending l cf) → upcoming cf = ch :: rest →
      ¬(g = true ∧ (pending l cf).length = NGX_CONF_BUFFER) →
      ∃ (s1 : Nat) (cf2 : ngx_conf_t),
        token_iter l cf = token_char { l with start := s1 } cf2 ch ∧
        s1 + 1 ≤ cf2.conf_file.buffer.pos ∧
        cf2.conf_file.buffer.pos ≤ cf2.conf_file.buffer.data.length ∧
        (cf2.conf_file.buffer.data.drop s1).take (cf2.conf_file.buffer.pos - s1)
          = pending l cf ++ [ch] ∧
        (∀ l1, char_act l (decide (cf.args.length = 0))
            (if ch = LF then cf.conf_file.line + 1 else cf.conf_file.line) ch = .word l1 →
          (step_conf (token_iter l cf)).args = cf.args ++
            [(copy_word cf2.conf_file.buffer.data s1 cf2.conf_file.buffer.pos).dst] ∧
          copy_in_bounds cf2.conf_file.buffer.data s1 cf2.conf_file.buffer.pos) ∧
        (∀ l1 cf1, token_iter l cf = .next l1 cf1 → esc_inv l1 (pending l1 cf1))) ∧
    (∀ (g : Bool) (cf : ngx_conf_t) (pre : List Nat) (ch : Nat) (l l1 : token_locals)
      (tok : List Nat) (line : Nat) (args : List (List Nat)),
      reach g pre (token_init cf) [] cf.conf_file.line [] = some (l, tok, line, args) →
      char_act l (decide (args.length = 0)) (if ch = LF then line + 1 else line) ch
        = .word l1 →
      escapes_closed tok = true ∧ copy_in_bounds (tok ++ [ch]) 0 (tok.length + 1)) ∧
    (∀ (data : List Nat) (start pos : Nat),
      (copy_word data start pos).dst = copy_token data start pos ∧
      (copy_word data start pos).len = (copy_word data start pos).dst.length ∧
      (copy_word data start pos).dst.length + 1 ≤ pos - 1 - start + 1) := by
  refine ⟨fun cf => ?_, fun g l cf ch rest hwf hinv hup hg =>
    token_iter_esc g l cf ch rest hwf hup hg hinv, ?_, fun data start pos => ?_⟩
  · simp [esc_inv, token_init]
  · intro g cf pre ch l l1 tok line args hre hact
    have h0 : esc_inv (token_init cf) [] := by simp [esc_inv, token_init]
    have hl := reach_esc g pre _ _ _ _ _ h0 hre
    have hesc := char_act_esc l (decide (args.length = 0))
      (if ch = LF then line + 1 else line) ch tok hl
    rw [hact] at hesc
    refine ⟨hesc.1, copy_in_bounds_of_closed _ 0 _ (by omega) (by simp) ?_⟩
    simp only [List.drop_zero, Nat.add_sub_cancel, Nat.sub_zero, List.take_left]
    exact hesc.1
  · have hd := copy_run_dst data (pos - 1) (pos - 1 - start) ⟨[], start, 0⟩
    have hl := copy_loop_length data (pos - 1) (pos - 1 - start) start
    unfold copy_word
    refine ⟨by rw [hd.1]; rfl, by rw [hd.1, hd.2]; simp, ?_⟩
    rw [hd.1]
    simp only [List.nil_append]
    omega

/-- The `-g` string `x a\"b c;`: behind the bytes `x a\"b` the space ends the token
`a\"b`, whose copy is in bounds. -/
theorem read_token_copy_bounds_witness :
    escapes_closed (bytes "a\\\"b") = true ∧
    copy_in_bounds (bytes "a\\\"b" ++ [32]) 0 ((bytes "a\\\"b").length + 1) :=
  read_token_copy_bounds.2.2.1 false (param_conf (bytes "x a\\\"b c;")) (bytes "x a\\\"b") 32
    (mk_l false false false false false 0 0) (mk_l false true false false false 0 0)
    (bytes "a\\\"b") 0 [[120]] (by decide) (by decide)

/-! ### C7: block nesting in `ngx_conf_parse` -/

theorem parse_loop_step {σ : Type} (dispatch : dispatch_fn σ) (custom : custom_fn σ)
    (parse : parse_fn σ) (type : parse_type) (st st2 : parse_t σ) (k : Nat)
    (h : parse_step dispatch custom parse type st = some st2) :
    parse_loop dispatch custom parse type (k + 1) st
      = parse_loop dispatch custom parse type k st2 := by
  obtain ⟨cf0, cfn, hdl, dump, ctx⟩ := st
  unfold parse_step at h
  conv_lhs => unfold parse_loop
  dsimp only at h ⊢
  cases hr : ngx_conf_read_token cf0 with
  | none => rw [hr] at h; cases h
  | some r =>
    obtain ⟨rc, cf1⟩ := r
    rw [hr] at h
    dsimp only at h ⊢
    by_cases c : rc = NGX_OK ∨ (rc = NGX_CONF_BLOCK_START ∧ type ≠ .parse_param)
    · rw [if_pos c] at h
      have n1 : ¬ rc = NGX_ERROR := by
        rcases c with c | c
        · rw [c]; decide
        · rw [c.1]; decide
      have n2 : ¬ rc = NGX_CONF_BLOCK_DONE := by
        rcases c with c | c
        · rw [c]; decide
        · rw [c.1]; decide
      have n3 : ¬ rc = NGX_CONF_FILE_DONE := by
        rcases c with c | c
        · rw [c]; decide
        · rw [c.1]; decide
      have n4 : ¬ (rc = NGX_CONF_BLOCK_START ∧ type = .parse_param) := by
        rcases c with c | c
        · rw [c]; intro q; exact absurd q.1 (by decide)
        · intro q; exact c.2 q.2
      rw [if_neg n1, if_neg n2, if_neg n3, if_neg n4]
      cases hdl with
      | some hd =>
        dsimp only at h ⊢
        by_cases c1 : rc = NGX_CONF_BLOCK_START
        · rw [if_pos c1] at h; cases h
        · rw [if_neg c1] at h ⊢
          cases hc : custom hd parse ⟨cf1, cfn, some hd, dump, ctx⟩ with
          | none => rw [hc] at h; cases h
          | some r2 =>
            obtain ⟨rv, s2⟩ := r2
            rw [hc] at h
            dsimp only at h ⊢
            by_cases c2 : rv = .NGX_CONF_OK
            · rw [if_pos c2] at h ⊢
              cases h
              rfl
            · rw [if_neg c2] at h; cases h
      | none =>
        dsimp only at h ⊢
        cases hc : dispatch parse ⟨cf1, cfn, none, dump, ctx⟩ rc with
        | none => rw [hc] at h; cases h
        | some r2 =>
          obtain ⟨rc2, s2⟩ := r2
          rw [hc] at h
          dsimp only at h ⊢
          by_cases c2 : rc2 = NGX_ERROR
          · rw [if_pos c2] at h; cases h
          · rw [if_neg c2] at h ⊢
            cases h
            rfl
    · rw [if_neg c] at h; cases h

theorem parse_loop_steps {σ : Type} (dispatch : dispatch_fn σ) (custom : custom_fn σ)
    (parse : parse_fn σ) (type : parse_type) (n : Nat) :
    ∀ (st s : parse_t σ) (k : Nat),
      parse_steps dispatch custom parse type n st = some s →
      parse_loop dispatch custom parse type (n + k) st
        = parse_loop dispatch custom parse type k s := by
  induction n with
  | zero =>
    intro st s k h
    simp only [parse_steps, Option.some.injEq] at h
    rw [h, Nat.zero_add]
  | succ n ih =>
    intro st s k h
    simp only [parse_steps] at h
    cases hs : parse_step dispatch custom parse type st with
    | none => rw [hs] at h; cases h
    | some st2 =>
      rw [hs] at h
      have e : n + 1 + k = (n + k) + 1 := by omega
      rw [e, parse_loop_step dispatch custom parse type st st2 (n + k) hs]
      exact ih st2 s k h

/-- The last iteration of the loop of `ngx_conf_parse`, by the code that the reader
returns and the kind of parse. -/
theorem parse_loop_last {σ : Type} (dispatch : dispatch_fn σ) (custom : custom_fn σ)
    (parse : parse_fn σ) (type : parse_type) (k : Nat) (s : parse_t σ) (rc : Int)
    (cf1 : ngx_conf_t) (h : ngx_conf_read_token s.cf = some (rc, cf1)) :
    (rc = NGX_CONF_BLOCK_DONE → type ≠ .parse_block →
      parse_loop dispatch custom parse type (k + 1) s
        = some (NGX_ERROR, conf_log { s with cf := cf1 } .unexpected_close)) ∧
    (rc = NGX_CONF_FILE_DONE → type = .parse_block →
      parse_loop dispatch custom parse type (k + 1) s
        = some (NGX_ERROR, conf_log { s with cf := cf1 } .unexpected_eof_in_block)) ∧
    (rc = NGX_CONF_BLOCK_START → type = .parse_param →
      parse_loop dispatch custom parse type (k + 1) s
        = some (NGX_ERROR, conf_log { s with cf := cf1 } .block_in_param)) ∧
    (rc = NGX_CONF_BLOCK_DONE → type = .parse_block →
      parse_loop dispatch custom parse type (k + 1) s
        = some (NGX_CONF_BLOCK_DONE, { s with cf := cf1 })) ∧
    (rc = NGX_CONF_FILE_DONE → type ≠ .parse_block →
      parse_loop dispatch custom parse type (k + 1) s
        = some (NGX_CONF_FILE_DONE, { s with cf := cf1 })) := by
  refine ⟨?_, ?_, ?_, ?_, ?_⟩
  · intro h1 h2
    subst h1
    simp [parse_loop, h, h2, NGX_OK, NGX_ERROR, NGX_CONF_BLOCK_START, NGX_CONF_BLOCK_DONE,
      NGX_CONF_FILE_DONE]
  · intro h1 h2
    subst h1 h2
    simp [parse_loop, h, NGX_OK, NGX_ERROR, NGX_CONF_BLOCK_START, NGX_CONF_BLOCK_DONE,
      NGX_CONF_FILE_DONE]
  · intro h1 h2
    subst h1 h2
    simp [parse_loop, h, NGX_OK, NGX_ERROR, NGX_CONF_BLOCK_START, NGX_CONF_BLOCK_DONE,
      NGX_CONF_FILE_DONE]
  · intro h1 h2
    subst h1 h2
    simp [parse_loop, h, NGX_OK, NGX_ERROR, NGX_CONF_BLOCK_START, NGX_CONF_BLOCK_DONE,
      NGX_CONF_FILE_DONE]
  · intro h1 h2
    subst h1
    simp [parse_loop, h, h2, NGX_OK, NGX_ERROR, NGX_CONF_BLOCK_START, NGX_CONF_BLOCK_DONE,
      NGX_CONF_FILE_DONE]

theorem char_act_tail_stop_byte (l : token_locals) (n : Bool) (line ch : Nat) (rc : Int)
    (h : char_act_tail l n line ch = .stop rc) :
    (rc = NGX_CONF_BLOCK_DONE → ch = RBRACE) ∧ (rc = NGX_CONF_BLOCK_START → ch = LBRACE) := by
  obtain ⟨ns, ls, sc, v, q, sq, dq, st, sl⟩ := l
  unfold char_act_tail at h
  cases ls
  · simp only [Bool.false_eq_true, if_false] at h
    split_ifs at h
  · simp only [if_true] at h
    split_ifs at h with c1 c2 c3 c4 c5 c6
    · cases h
      exact ⟨fun q => absurd q (by decide), fun _ => c4⟩
    · cases h
      refine ⟨fun q => absurd q (by decide), fun q => absurd q (by decide)⟩
    · cases h
      exact ⟨fun _ => c5, fun q => absurd q (by decide)⟩

theorem char_act_stop_byte (l : token_locals) (n : Bool) (line ch : Nat) (rc : Int)
    (h : char_act l n line ch = .stop rc) :
    (rc = NGX_CONF_BLOCK_DONE → ch = RBRACE) ∧ (rc = NGX_CONF_BLOCK_START → ch = LBRACE) := by
  unfold char_act at h
  simp only at h
  split_ifs at h
  all_goals first
    | exact char_act_tail_stop_byte _ _ _ _ _ h
    | (cases h; exact ⟨fun q => absurd q (by decide), fun q => absurd q (by decide)⟩)
    | (cases h; refine ⟨fun q => absurd q (by decide), fun _ => ?_⟩; assumption)

/-- The reader returns `NGX_CONF_BLOCK_DONE` only behind a closing brace and
`NGX_CONF_BLOCK_START` only behind an opening brace: the brace is the last byte it has
taken. -/
theorem scan_brace (g fdv : Bool) (s : List Nat) :
    ∀ (l : token_locals) (tok : List Nat) (line : Nat) (args : List (List Nat)),
      ((scan g fdv s l tok line args).rc = NGX_CONF_BLOCK_DONE →
        ∃ pre, s = pre ++ RBRACE :: (scan g fdv s l tok line args).rest) ∧
      ((scan g fdv s l tok line args).rc = NGX_CONF_BLOCK_START →
        ∃ pre, s = pre ++ LBRACE :: (scan g fdv s l tok line args).rest) := by
  have e1 : NGX_ERROR ≠ NGX_CONF_BLOCK_DONE := by decide
  have e2 : NGX_ERROR ≠ NGX_CONF_BLOCK_START := by decide
  have f1 : NGX_CONF_FILE_DONE ≠ NGX_CONF_BLOCK_DONE := by decide
  have f2 : NGX_CONF_FILE_DONE ≠ NGX_CONF_BLOCK_START := by decide
  have o1 : NGX_OK ≠ NGX_CONF_BLOCK_DONE := by decide
  have o2 : NGX_OK ≠ NGX_CONF_BLOCK_START := by decide
  have s1 : NGX_CONF_BLOCK_START ≠ NGX_CONF_BLOCK_DONE := by decide
  induction s with
  | nil =>
    intro l tok line args
    simp only [scan]
    split_ifs
    · exact ⟨fun q => absurd q e1, fun q => absurd q e2⟩
    · exact ⟨fun q => absurd q e1, fun q => absurd q e2⟩
    · exact ⟨fun q => absurd q f1, fun q => absurd q f2⟩
  | cons ch s ih =>
    intro l tok line args
    have lift : ∀ r : scan_result,
        ((r.rc = NGX_CONF_BLOCK_DONE → ∃ pre, s = pre ++ RBRACE :: r.rest) ∧
          (r.rc = NGX_CONF_BLOCK_START → ∃ pre, s = pre ++ LBRACE :: r.rest)) →
        ((r.rc = NGX_CONF_BLOCK_DONE → ∃ pre, ch :: s = pre ++ RBRACE :: r.rest) ∧
          (r.rc = NGX_CONF_BLOCK_START → ∃ pre, ch :: s = pre ++ LBRACE :: r.rest)) := by
      intro r hr
      refine ⟨fun q => ?_, fun q => ?_⟩
      · obtain ⟨pre, e⟩ := hr.1 q
        exact ⟨ch :: pre, by rw [e]; rfl⟩
      · obtain ⟨pre, e⟩ := hr.2 q
        exact ⟨ch :: pre, by rw [e]; rfl⟩
    by_cases hg : g = true ∧ tok.length = NGX_CONF_BUFFER
    · simp only [scan, hg, and_self, if_true]
      exact ⟨fun q => absurd q e1, fun q => absurd q e2⟩
    · simp only [scan, hg, if_false]
      cases hact : char_act l (decide (args.length = 0)) (if ch = LF then line + 1 else line) ch with
      | go l1 m => exact lift _ (ih _ _ _ _)
      | word l1 =>
        dsimp only
        by_cases h1 : ch = SEMI
        · rw [if_pos h1]
          exact ⟨fun q => absurd q o1, fun q => absurd q o2⟩
        · rw [if_neg h1]
          by_cases h2 : ch = LBRACE
          · rw [if_pos h2]
            exact ⟨fun q => absurd q s1, fun _ => ⟨[], by rw [h2]; rfl⟩⟩
          · rw [if_neg h2]
            exact lift _ (ih _ _ _ _)
      | stop rc =>
        dsimp only
        obtain ⟨b1, b2⟩ := char_act_stop_byte _ _ _ _ _ hact
        exact ⟨fun q => ⟨[], by rw [b1 q]; rfl⟩, fun q => ⟨[], by rw [b2 q]; rfl⟩⟩
      | fail m =>
        exact ⟨fun q => absurd q e1, fun q => absurd q e2⟩

/-- C7: `ngx_conf_parse` enforces block nesting. The call `ngx_conf_parse(cf, filename)`
is made in the state `st`; its loop has gone through `n` iterations that went on with
the loop (`parse_steps`) and is in the state `s`, where `ngx_conf_read_token` returns
`rc`. Called with the name of a file that can be opened, the function parses a file: for
`NGX_CONF_BLOCK_DONE` it logs "unexpected }" and returns `NGX_CONF_ERROR`, for
`NGX_CONF_FILE_DONE` it returns `NGX_CONF_OK`, in both cases after it has given
`cf->conf_file` its old value. Called with NULL while a file is open, it parses a block:
for `NGX_CONF_FILE_DONE` it logs "unexpected end of file, expecting }" and returns
`NGX_CONF_ERROR`, for `NGX_CONF_BLOCK_DONE` it returns `NGX_CONF_OK`. Called with NULL
while no file is open, it parses a `-g` string: for `NGX_CONF_BLOCK_DONE` and for
`NGX_CONF_BLOCK_START` it logs the message and returns `NGX_CONF_ERROR`, for
`NGX_CONF_FILE_DONE` it returns `NGX_CONF_OK`. The reader returns `NGX_CONF_BLOCK_DONE`
only right behind a closing brace, `NGX_CONF_BLOCK_START` only right behind an opening
brace, and `NGX_CONF_FILE_DONE` only when no byte is left. -/
theorem conf_parse_nesting {σ : Type} (env : conf_env) (dispatch : dispatch_fn σ)
    (custom : custom_fn σ) (fuel n : Nat) (st s : parse_t σ) (rc : Int) (cf1 : ngx_conf_t)
    (hn : n ≤ fuel)
    (hr : ngx_conf_read_token s.cf = some (rc, cf1)) :
    (∀ name content : List Nat, env.files name = some content →
      parse_steps dispatch custom (fun s f => ngx_conf_parse env dispatch custom fuel s f)
        .parse_file n (file_start env st name content) = some s →
      (rc = NGX_CONF_BLOCK_DONE →
        ngx_conf_parse env dispatch custom (fuel + 1) st (some name)
          = some (.NGX_CONF_ERROR,
              (file_finish st
                (NGX_ERROR, conf_log { s with cf := cf1 } .unexpected_close)).2)) ∧
      (rc = NGX_CONF_FILE_DONE →
        ngx_conf_parse env dispatch custom (fuel + 1) st (some name)
          = some (.NGX_CONF_OK,
              (file_finish st (NGX_CONF_FILE_DONE, { s with cf := cf1 })).2))) ∧
    (st.cf.conf_file.fd_valid = true →
      parse_steps dispatch custom (fun s f => ngx_conf_parse env dispatch custom fuel s f)
        .parse_block n st = some s →
      (rc = NGX_CONF_FILE_DONE →
        ngx_conf_parse env dispatch custom (fuel + 1) st none
          = some (.NGX_CONF_ERROR,
              conf_log { s with cf := cf1 } .unexpected_eof_in_block)) ∧
      (rc = NGX_CONF_BLOCK_DONE →
        ngx_conf_parse env dispatch custom (fuel + 1) st none
          = some (.NGX_CONF_OK, { s with cf := cf1 }))) ∧
    (st.cf.conf_file.fd_valid = false →
      parse_steps dispatch custom (fun s f => ngx_conf_parse env dispatch custom fuel s f)
        .parse_param n st = some s →
      (rc = NGX_CONF_BLOCK_DONE →
        ngx_conf_parse env dispatch custom (fuel + 1) st none
          = some (.NGX_CONF_ERROR, conf_log { s with cf := cf1 } .unexpected_close)) ∧
      (rc = NGX_CONF_BLOCK_START →
        ngx_conf_parse env dispatch custom (fuel + 1) st none
          = some (.NGX_CONF_ERROR, conf_log { s with cf := cf1 } .block_in_param)) ∧
      (rc = NGX_CONF_FILE_DONE →
        ngx_conf_parse env dispatch custom (fuel + 1) st none
          = some (.NGX_CONF_OK, { s with cf := cf1 }))) ∧
    (∀ g : Bool, conf_ok g s.cf →
      (rc = NGX_CONF_BLOCK_DONE → ∃ pre, upcoming s.cf = pre ++ RBRACE :: upcoming cf1) ∧
      (rc = NGX_CONF_BLOCK_START → ∃ pre, upcoming s.cf = pre ++ LBRACE :: upcoming cf1) ∧
      (rc = NGX_CONF_FILE_DONE → upcoming cf1 = [])) := by
  obtain ⟨k, hk⟩ : ∃ k, fuel + 1 = n + (k + 1) := ⟨fuel - n, by omega⟩
  refine ⟨?_, ?_, ?_, ?_⟩
  · intro name content hf hs
    have hl := parse_loop_steps dispatch custom
      (fun s f => ngx_conf_parse env dispatch custom fuel s f) .parse_file n _ s (k + 1) hs
    rw [← hk] at hl
    obtain ⟨l1, _, _, _, l5⟩ := parse_loop_last dispatch custom
      (fun s f => ngx_conf_parse env dispatch custom fuel s f) .parse_file k s rc cf1 hr
    refine ⟨fun h1 => ?_, fun h1 => ?_⟩
    · rw [conf_parse_unfold env dispatch custom fuel st name content hf, hl,
        l1 h1 (by decide)]
      rfl
    · rw [conf_parse_unfold env dispatch custom fuel st name content hf, hl,
        l5 h1 (by decide)]
      rfl
  · intro hfd hs
    have hl := parse_loop_steps dispatch custom
      (fun s f => ngx_conf_parse env dispatch custom fuel s f) .parse_block n _ s (k + 1) hs
    rw [← hk] at hl
    obtain ⟨_, l2, _, l4, _⟩ := parse_loop_last dispatch custom
      (fun s f => ngx_conf_parse env dispatch custom fuel s f) .parse_block k s rc cf1 hr
    refine ⟨fun h1 => ?_, fun h1 => ?_⟩
    · simp only [ngx_conf_parse, hfd, if_true]
      rw [hl, l2 h1 rfl]
      rfl
    · simp only [ngx_conf_parse, hfd, if_true]
      rw [hl, l4 h1 rfl]
      rfl
  · intro hfd hs
    have hl := parse_loop_steps dispatch custom
      (fun s f => ngx_conf_parse env dispatch custom fuel s f) .parse_param n _ s (k + 1) hs
    rw [← hk] at hl
    obtain ⟨l1, _, l3, _, l5⟩ := parse_loop_last dispatch custom
      (fun s f => ngx_conf_parse env dispatch custom fuel s f) .parse_param k s rc cf1 hr
    refine ⟨fun h1 => ?_, fun h1 => ?_, fun h1 => ?_⟩
    · simp only [ngx_conf_parse, hfd, Bool.false_eq_true, if_false]
      rw [hl, l1 h1 (by decide)]
      rfl
    · simp only [ngx_conf_parse, hfd, Bool.false_eq_true, if_false]
      rw [hl, l3 h1 rfl]
      rfl
    · simp only [ngx_conf_parse, hfd, Bool.false_eq_true, if_false]
      rw [hl, l5 h1 (by decide)]
      rfl
  · intro g hok
    obtain ⟨cf2, h1, h2⟩ := read_token_scan g s.cf hok
    rw [hr] at h1
    simp only [Option.some.injEq, Prod.mk.injEq] at h1
    obtain ⟨e1, e2⟩ := h1
    subst e2
    obtain ⟨_, _, _, hup, _, _⟩ := h2
    obtain ⟨b1, b2⟩ := scan_brace g s.cf.conf_file.fd_valid (upcoming s.cf) (token_init s.cf) []
      s.cf.conf_file.line []
    rw [← e1, ← hup] at b1 b2
    refine ⟨b1, b2, fun h3 => ?_⟩
    rw [hup]
    exact scan_file_done g _ _ _ _ _ _ (by rw [← e1]; exact h3)

theorem conf_parse_nesting_witness :
    (ngx_conf_parse (with_file empty_env (bytes "m") (bytes "a;\n\x7d"))
        (record_dispatch (with_file empty_env (bytes "m") (bytes "a;\n\x7d"))) no_custom 3
        init_state (some (bytes "m"))).map (fun r => (r.1, r.2.cf.log))
      = some (.NGX_CONF_ERROR, [⟨.unexpected_close, some 2⟩]) := by
  have h : ((parse_steps (record_dispatch (with_file empty_env (bytes "m") (bytes "a;\n\x7d")))
      no_custom
      (fun s f => ngx_conf_parse (with_file empty_env (bytes "m") (bytes "a;\n\x7d"))
        (record_dispatch (with_file empty_env (bytes "m") (bytes "a;\n\x7d"))) no_custom 2 s f)
      .parse_file 1
      (file_start (with_file empty_env (bytes "m") (bytes "a;\n\x7d")) init_state (bytes "m")
        (bytes "a;\n\x7d"))).bind
        (fun s => (ngx_conf_read_token s.cf).map
          (fun r => (r.1, (conf_log { s with cf := r.2 } .unexpected_close).cf.log))))
      = some (NGX_CONF_BLOCK_DONE, [⟨.unexpected_close, some 2⟩]) := by
    decide
  obtain ⟨s, hs, h2⟩ := Option.bind_eq_some.mp h
  obtain ⟨⟨rc, cf1⟩, hr, h3⟩ := Option.map_eq_some'.mp h2
  simp only [Prod.mk.injEq] at h3
  obtain ⟨e1, e2⟩ := h3
  subst e1
  rw [((conf_parse_nesting (with_file empty_env (bytes "m") (bytes "a;\n\x7d"))
    (record_dispatch (with_file empty_env (bytes "m") (bytes "a;\n\x7d"))) no_custom 2 1
    init_state s NGX_CONF_BLOCK_DONE cf1 (by decide) hr).1 (bytes "m") (bytes "a;\n\x7d")
    (by decide) hs).1 rfl]
  simp only [Option.map_some', file_finish, Option.some.injEq, Prod.mk.injEq, true_and]
  exact e2

end Nginx
